import Mathlib

/-!
# Services of snmp-mib-ui

Shallow embedding of `backend/services/component_version_service.go`
(namespace `ComponentVersion`), of
`backend/services/real_config_deployment_service.go` (namespace
`ConfigDeployment`), of `backend/controllers/alert_deployment_controller.go`
(namespace `AlertDeployment`), of `renderTemplate` of
`backend/services/alert_rules_service.go` (namespace `AlertRules`), of
`backend/utils/promql_validator.go` (namespace `PromQLValidator`) and of the
validators of `backend/controllers/config_validation_controller.go` (namespace
`ConfigValidation`).

Go strings are Lean `String`s; text primitives of the Go standard library
(`strings.Split`, `fmt.Sscanf`, `regexp`, ...) are modelled on `List Char`.
Go `int` is the 64-bit signed integer of the usual build targets.
-/

namespace ComponentVersion

/-! ## Text primitives of the Go standard library -/

/-- Go `strings.Split(s, sep)` for a one-character separator: the pieces of `s`
between occurrences of `sep`; never empty (`Split("", ".")` is `[""]`). -/
def splitOn (sep : Char) : List Char → List (List Char)
  | [] => [[]]
  | c :: cs =>
    if c = sep then [] :: splitOn sep cs
    else
      match splitOn sep cs with
      | [] => [[c]]
      | p :: ps => (c :: p) :: ps

/-- Go `strings.Join(parts, sep)` for a one-character separator. -/
def joinWith (sep : Char) : List (List Char) → List Char
  | [] => []
  | [p] => p
  | p :: q :: ps => p ++ sep :: joinWith sep (q :: ps)

/-- White space of the scanner in package `fmt` (its `space` table). -/
def isScanSpace (c : Char) : Bool :=
  let n := c.toNat
  (0x09 ≤ n && n ≤ 0x0d) || n == 0x20 || n == 0x85 || n == 0xa0 || n == 0x1680 ||
  (0x2000 ≤ n && n ≤ 0x200a) || n == 0x2028 || n == 0x2029 || n == 0x202f ||
  n == 0x205f || n == 0x3000

/-- The scanner's `SkipSpace` under `Sscanf`: leading blanks are dropped, a
newline among them is the error "unexpected newline" (`none`). -/
def scanSkipSpace : List Char → Option (List Char)
  | [] => some []
  | c :: cs =>
    if c = '\n' then none
    else if isScanSpace c then scanSkipSpace cs
    else some (c :: cs)

/-- Characters the scanner accepts inside a decimal number: digits and `_`. -/
def isScanDigit (c : Char) : Bool := c.isDigit || c == '_'

/-- Value of a run of decimal digits, most significant first. -/
def digitsValue (ds : List Char) : Nat :=
  ds.foldl (fun acc c => 10 * acc + (c.toNat - 48)) 0

/-- Go `strconv.ParseInt(tok, 10, 64)` on an unsigned token: every character
must be a digit and the value must fit the signed 64-bit range. -/
def parseInt64 (neg : Bool) (tok : List Char) : Option Int :=
  if tok = [] then none
  else if tok.all Char.isDigit then
    let n := digitsValue tok
    if neg then (if n ≤ 2 ^ 63 then some (-(n : Int)) else none)
    else (if n < 2 ^ 63 then some (n : Int) else none)
  else none

/-- Result of `fmt.Sscanf(s, "%d", &x)`: the integer stored in `x`, or `none`
when the scan fails and `x` is left untouched. Blanks are skipped, an optional
sign is read, then the longest run of digits and underscores, which is handed
to `strconv.ParseInt`; text after the number is ignored. -/
def sscanfInt (s : List Char) : Option Int :=
  match scanSkipSpace s with
  | none => none
  | some [] => none
  | some (c :: cs) =>
    let neg := c == '-'
    let rest := if c == '+' || c == '-' then cs else c :: cs
    parseInt64 neg (rest.takeWhile isScanDigit)

/-! ## compareVersions -/

/-- The value of `vPart` after `var vPart int; if i < len(parts) { fmt.Sscanf(parts[i], "%d", &vPart) }`:
the scan result is discarded, so a failed scan leaves the zero value. -/
def versionPart (parts : List (List Char)) (i : Nat) : Int :=
  match parts.get? i with
  | some p => (sscanfInt p).getD 0
  | none => 0

/-- The `for i := 0; i < maxLen; i++` loop of `compareVersions`, with `n`
iterations left starting at index `i`. -/
def compareVersionsLoop (v1Parts v2Parts : List (List Char)) : Nat → Nat → Int
  | 0, _ => 0
  | n + 1, i =>
    let v1Part := versionPart v1Parts i
    let v2Part := versionPart v2Parts i
    if v1Part < v2Part then -1
    else if v1Part > v2Part then 1
    else compareVersionsLoop v1Parts v2Parts n (i + 1)

/-- Source `compareVersions`. -/
def compareVersions (version1 version2 : String) : Int :=
  let v1Parts := splitOn '.' version1.toList
  let v2Parts := splitOn '.' version2.toList
  let maxLen := if v2Parts.length > v1Parts.length then v2Parts.length else v1Parts.length
  compareVersionsLoop v1Parts v2Parts maxLen 0

/-! ## Specification vocabulary for version strings -/

/-- A decimal numeral: a non-empty run of the digits `0`..`9`. -/
def IsDecimal (w : List Char) : Prop := w ≠ [] ∧ ∀ c ∈ w, c.isDigit = true

/-- The number a decimal numeral denotes (spec side: base-10 positional value). -/
def decimalValue (w : List Char) : Nat :=
  Nat.ofDigits 10 (w.reverse.map (fun c => c.toNat - 48))

/-- A component list padded with trailing zeros up to length `m`. -/
def padZeros (m : Nat) (l : List Nat) : List Nat := l ++ List.replicate (m - l.length) 0

instance : DecidablePred IsDecimal := fun w => by unfold IsDecimal; exact inferInstance

/-! ## More text primitives -/

/-- Go `unicode.IsSpace`. -/
def isSpaceRune (c : Char) : Bool := isScanSpace c

/-- Go `strings.TrimSpace`: leading and trailing white space removed. -/
def trimSpace (s : List Char) : List Char :=
  ((s.dropWhile isSpaceRune).reverse.dropWhile isSpaceRune).reverse

/-- Go `strings.Contains(s, sub)`. -/
def containsSub (sub : List Char) : List Char → Bool
  | [] => sub.isEmpty
  | c :: cs => sub.isPrefixOf (c :: cs) || containsSub sub cs

/-- Go `strings.Contains` on strings. -/
def strContains (s sub : String) : Bool := containsSub sub.toList s.toList

/-- Go `strings.TrimPrefix(s, p)`. -/
def trimLeading (p s : List Char) : List Char :=
  if p.isPrefixOf s then s.drop p.length else s

/-- Worker of `fields`: `cur` is the field being read, reversed. -/
def fieldsAux : List Char → List Char → List (List Char)
  | cur, [] => if cur.isEmpty then [] else [cur.reverse]
  | cur, c :: cs =>
    if isSpaceRune c then
      (if cur.isEmpty then fieldsAux [] cs else cur.reverse :: fieldsAux [] cs)
    else fieldsAux (c :: cur) cs

/-- Go `strings.Fields`: the maximal runs of non-space characters. -/
def fields (s : List Char) : List (List Char) := fieldsAux [] s

/-- Worker of `splitStr`: `k` characters of a separator just found are still to be skipped. -/
def splitStrAux (sep : List Char) : Nat → List Char → List (List Char)
  | _, [] => [[]]
  | k + 1, _ :: cs => splitStrAux sep k cs
  | 0, c :: cs =>
    if sep.isPrefixOf (c :: cs) then [] :: splitStrAux sep (sep.length - 1) cs
    else
      match splitStrAux sep 0 cs with
      | [] => [[c]]
      | p :: ps => (c :: p) :: ps

/-- Go `strings.Split(s, sep)` for a non-empty separator string. -/
def splitStr (sep s : List Char) : List (List Char) := splitStrAux sep 0 s

/-- Go `strconv.Atoi`: optional sign, then decimal digits only, within the `int` range. -/
def atoi (s : List Char) : Option Int :=
  match s with
  | [] => none
  | c :: cs =>
    let neg := c == '-'
    let rest := if c == '+' || c == '-' then cs else c :: cs
    parseInt64 neg rest

/-! ## The three version patterns of `extractVersionFromOutput`

Go `regexp` finds the leftmost match and, at one start position, prefers what a
backtracking matcher tries first. In `\d+\.\d+\.\d+` every greedy `\d+` must
take the whole run of digits in front of it (what follows is `\.` or the end of
the pattern), and the `\s+` of the first pattern must take the whole run of
blanks (what follows is a digit), so a match at a given start is unique. -/

/-- Regexp class `\s`: space, tab, newline, form feed, carriage return. -/
def isReSpace (c : Char) : Bool :=
  c == ' ' || c == '\t' || c == '\n' || c == '\x0c' || c == '\r'

/-- The text matched by `\d+\.\d+\.\d+` anchored at the start of `s`. -/
def matchSemverAt (s : List Char) : Option (List Char) :=
  let d1 := s.takeWhile Char.isDigit
  if d1.isEmpty then none
  else
    match s.dropWhile Char.isDigit with
    | '.' :: r1 =>
      let d2 := r1.takeWhile Char.isDigit
      if d2.isEmpty then none
      else
        match r1.dropWhile Char.isDigit with
        | '.' :: r2 =>
          let d3 := r2.takeWhile Char.isDigit
          if d3.isEmpty then none else some (d1 ++ '.' :: d2 ++ '.' :: d3)
        | _ => none
    | _ => none

/-- Group 1 of `v(\d+\.\d+\.\d+)` anchored at the start of `s`. -/
def matchVSemverAt (s : List Char) : Option (List Char) :=
  match s with
  | 'v' :: r => matchSemverAt r
  | _ => none

/-- Group 1 of `version\s+(\d+\.\d+\.\d+)` anchored at the start of `s`. -/
def matchVersionWordAt (s : List Char) : Option (List Char) :=
  if "version".toList.isPrefixOf s then
    let r := s.drop 7
    if (r.takeWhile isReSpace).isEmpty then none
    else matchSemverAt (r.dropWhile isReSpace)
  else none

/-- Leftmost search: the result of the anchored matcher at the first start
position where it succeeds. -/
def findLeftmost (m : List Char → Option (List Char)) : List Char → Option (List Char)
  | [] => m []
  | c :: cs =>
    match m (c :: cs) with
    | some v => some v
    | none => findLeftmost m cs

/-- The pattern list of `extractVersionFromOutput`, each as
`regexp.MustCompile(pattern).FindStringSubmatch(text)` reduced to its group 1
(`none` when there is no match). -/
def versionPatterns : List (List Char → Option (List Char)) :=
  [findLeftmost matchVersionWordAt, findLeftmost matchVSemverAt, findLeftmost matchSemverAt]

/-- The inner `for _, pattern := range patterns` loop on one prepared line. -/
def firstPatternMatch (text : List Char) : Option (List Char) :=
  versionPatterns.findSome? (fun re => re text)

/-- The outer `for _, line := range lines` loop. `lower` is Go's `unicode.ToLower`. -/
def extractVersionFromLines (lower : Char → Char) : List (List Char) → List Char
  | [] => []
  | line :: rest =>
    match firstPatternMatch ((trimSpace line).map lower) with
    | some v => v
    | none => extractVersionFromLines lower rest

/-- Source `extractVersionFromOutput`. `lower` is Go's `unicode.ToLower`, which
`strings.ToLower` applies to every character. -/
def extractVersionFromOutput (lower : Char → Char) (output : String) : String :=
  ⟨extractVersionFromLines lower (splitOn '\n' output.toList)⟩

/-- Spec: a text of the form digits `.` digits `.` digits. -/
def IsSemverText (t : List Char) : Prop :=
  ∃ d1 d2 d3, IsDecimal d1 ∧ IsDecimal d2 ∧ IsDecimal d3 ∧ t = d1 ++ '.' :: (d2 ++ '.' :: d3)

/-- Spec: the text contains a digits.digits.digits substring. -/
def HasSemverSubstring (s : List Char) : Prop := ∃ t, IsSemverText t ∧ t <:+: s

/-! ## Execution model

The remote host, the host database and the clock are outside the service. They
are an arbitrary state machine on a state type `σ`, given by an `Env`. -/

/-- Result of running Go code on a state `S`: normal return with a value, or a
run-time panic. The state reached is kept in both cases, as deferred calls and
other holders of a pointer still see it. -/
inductive Outcome (S α : Type) where
  | done (a : α) (s : S)
  | panicked (msg : String) (s : S)

/-- Go code acting on a state `S` and returning an `α`. -/
def Go (S α : Type) : Type := S → Outcome S α

instance Go.instMonad {S : Type} : Monad (Go S) where
  pure a := fun s => Outcome.done a s
  bind x f := fun s =>
    match x s with
    | Outcome.done a s' => f a s'
    | Outcome.panicked msg s' => Outcome.panicked msg s'

/-- The state an outcome ends in. -/
def Outcome.state {S α : Type} : Outcome S α → S
  | Outcome.done _ s => s
  | Outcome.panicked _ s => s

/-- Whether the outcome is a normal return. -/
def Outcome.returned {S α : Type} : Outcome S α → Bool
  | Outcome.done _ _ => true
  | Outcome.panicked _ _ => false

/-- What the service uses but does not define: the methods of `HostService`
(absent from the sources at hand), the clock, and `unicode.ToLower`. -/
structure Env (σ : Type) where
  /-- Method `hostService.executeSSHCommand(client, cmd)`: output, error (if any) and the host afterwards. -/
  executeSSHCommand : String → σ → (String × Option String) × σ
  /-- Method `hostService.GetHost(hostID)`: its error, if any. -/
  getHost : Nat → σ → Option String
  /-- Method `hostService.createSSHClient(...)` for the host record of `hostID`: its error, if any. -/
  createSSHClient : Nat → σ → Option String × σ
  /-- Go `time.Now()` in Unix seconds. -/
  now : σ → Nat
  /-- Go `t.Format(layout)`. -/
  formatTime : String → Nat → String
  /-- Go `unicode.ToLower`. -/
  toLower : Char → Char

/-- One remote command. -/
def ssh {σ : Type} (env : Env σ) (cmd : String) : Go σ (String × Option String) :=
  fun h => let r := env.executeSSHCommand cmd h; Outcome.done r.1 r.2

/-- Go `strings.TrimSpace` on strings. -/
def strTrimSpace (s : String) : String := ⟨trimSpace s.toList⟩

/-- Source `checkDockerVersion`. -/
def checkDockerVersion {σ : Type} (env : Env σ) (componentName : String) : Go σ (String × Bool) := do
  let r ← ssh env ("docker inspect " ++ componentName ++ " --format='\x7b\x7b.Config.Image\x7d\x7d' 2>/dev/null")
  match r.2 with
  | some _ => pure ("", false)
  | none =>
    let imageParts := splitOn ':' (trimSpace r.1.toList)
    let version : String := ⟨imageParts.getLastD []⟩
    if imageParts.length ≥ 2 && version != "latest" then pure (version, true)
    else do
      let r2 ← ssh env ("docker exec " ++ componentName ++ " " ++ componentName ++
        " --version 2>/dev/null || docker exec " ++ componentName ++ " " ++ componentName ++
        " -version 2>/dev/null")
      let version := if r2.2.isNone then extractVersionFromOutput env.toLower r2.1 else ""
      if version != "" then pure (version, true) else pure ("latest", true)

/-- The `for _, cmd := range versionCmds` loop of `checkBinaryVersion`. -/
def checkBinaryVersionLoop {σ : Type} (env : Env σ) : List String → Go σ (String × Bool)
  | [] => pure ("unknown", true)
  | cmd :: rest => do
    let r ← ssh env cmd
    let version := if r.2.isNone then extractVersionFromOutput env.toLower r.1 else ""
    if version != "" then pure (version, true) else checkBinaryVersionLoop env rest

/-- Source `checkBinaryVersion`. -/
def checkBinaryVersion {σ : Type} (env : Env σ) (componentName : String) : Go σ (String × Bool) := do
  let r ← ssh env ("which " ++ componentName)
  match r.2 with
  | some _ => pure ("", false)
  | none =>
    checkBinaryVersionLoop env
      [componentName ++ " --version", componentName ++ " -version", componentName ++ " version"]

/-- Source `checkSystemdVersion`. `strings.Fields(execPath)[0]` panics when
there is no field. -/
def checkSystemdVersion {σ : Type} (env : Env σ) (componentName : String) : Go σ (String × Bool) := do
  let r ← ssh env ("systemctl list-unit-files " ++ componentName ++ ".service")
  if r.2.isSome || !strContains r.1 componentName then pure ("", false)
  else do
    let r2 ← ssh env ("systemctl show " ++ componentName ++ " --property=ExecStart")
    if r2.2.isNone && strContains r2.1 "ExecStart=" then
      match fields (trimLeading "ExecStart=".toList r2.1.toList) with
      | [] => fun h => Outcome.panicked "index out of range [0] with length 0" h
      | f :: _ => do
        let execPath : String := ⟨f⟩
        let r3 ← ssh env (execPath ++ " --version 2>/dev/null || " ++ execPath ++ " -version 2>/dev/null")
        let version := if r3.2.isNone then extractVersionFromOutput env.toLower r3.1 else ""
        if version != "" then pure (version, true) else pure ("unknown", true)
    else pure ("unknown", true)

/-- Source `detectInstalledVersion`: version, installed flag, error (always nil). -/
def detectInstalledVersion {σ : Type} (env : Env σ) (componentName : String) :
    Go σ (String × Bool × Option String) := do
  let d ← checkDockerVersion env componentName
  if d.2 then pure (d.1, true, none)
  else do
    let b ← checkBinaryVersion env componentName
    if b.2 then pure (b.1, true, none)
    else do
      let y ← checkSystemdVersion env componentName
      if y.2 then pure (y.1, true, none)
      else pure ("", false, none)

/-- Source `checkServiceRunning`. -/
def checkServiceRunning {σ : Type} (env : Env σ) (componentName : String) : Go σ Bool := do
  let r ← ssh env ("docker ps --filter name=" ++ componentName ++ " --format '\x7b\x7b.Status\x7d\x7d'")
  if r.2.isNone && strContains r.1 "Up" then pure true
  else do
    let r2 ← ssh env ("systemctl is-active " ++ componentName)
    if r2.2.isNone && strTrimSpace r2.1 == "active" then pure true
    else pure false

/-- Source `checkConfigBackup`. -/
def checkConfigBackup {σ : Type} (env : Env σ) (componentName : String) : Go σ Bool := do
  let backupDir := "/opt/monitoring/backups/" ++ componentName
  let r ← ssh env ("test -d " ++ backupDir ++ " && ls " ++ backupDir ++ " | wc -l")
  if r.2.isNone then pure (strTrimSpace r.1 != "0") else pure false

/-- Source type `ComponentVersionInfo` (`LastCheck` in Unix seconds). -/
structure ComponentVersionInfo where
  Name : String := ""
  CurrentVersion : String := ""
  TargetVersion : String := ""
  Status : String := ""
  Installed : Bool := false
  ServiceRunning : Bool := false
  ConfigBackup : Bool := false
  LastCheck : Nat := 0
  UpgradeAction : String := ""
  deriving DecidableEq

/-- Source `CheckComponentVersion`: the info record, or the error returned. -/
def CheckComponentVersion {σ : Type} (env : Env σ) (hostID : Nat) (componentName targetVersion : String) :
    Go σ (Except String ComponentVersionInfo) := fun h =>
  match env.getHost hostID h with
  | some e => Outcome.done (Except.error e) h
  | none =>
    match env.createSSHClient hostID h with
    | (some e, h1) => Outcome.done (Except.error e) h1
    | (none, h1) =>
      let info : ComponentVersionInfo :=
        { Name := componentName, TargetVersion := targetVersion, LastCheck := env.now h1 }
      (do
        let d ← detectInstalledVersion env componentName
        if d.2.2.isSome then
          pure (Except.ok { info with Status := "CORRUPTED", Installed := false })
        else
          let info := { info with CurrentVersion := d.1, Installed := d.2.1 }
          if !d.2.1 then
            pure (Except.ok { info with Status := "NOT_INSTALLED", UpgradeAction := "install" })
          else do
            let running ← checkServiceRunning env componentName
            let info := { info with ServiceRunning := running }
            let backup ← checkConfigBackup env componentName
            let info := { info with ConfigBackup := backup }
            let versionComparison := compareVersions d.1 targetVersion
            if versionComparison = 0 then
              pure (Except.ok { info with Status := "SAME_VERSION", UpgradeAction := "skip" })
            else if versionComparison = -1 then
              pure (Except.ok { info with Status := "NEED_UPDATE", UpgradeAction := "update" })
            else if versionComparison = 1 then
              pure (Except.ok { info with Status := "NEWER_VERSION", UpgradeAction := "downgrade" })
            else pure (Except.ok info)) h1

/-! ## Upgrade tasks: data model -/

/-- Source type `UpgradeStrategy`. -/
structure UpgradeStrategy where
  BackupConfig : Bool := false
  BackupData : Bool := false
  StopService : Bool := false
  MigrateConfig : Bool := false
  RollbackEnabled : Bool := false
  UpgradeTimeout : Int := 0
  HealthCheckDelay : Int := 0
  deriving DecidableEq

/-- Source type `UpgradeStep` (times in Unix seconds, 0 for the zero time). -/
structure UpgradeStep where
  Name : String := ""
  Description : String := ""
  Status : String := ""
  StartTime : Nat := 0
  EndTime : Nat := 0
  Output : String := ""
  Error : String := ""
  deriving DecidableEq

/-- Source type `ComponentUpgradeTask`. `BackupPaths` is the (non-nil) map as
its list of entries; `StartedAt` and `CompletedAt` are nil or a time. -/
structure ComponentUpgradeTask where
  ID : String := ""
  HostID : Nat := 0
  ComponentName : String := ""
  FromVersion : String := ""
  ToVersion : String := ""
  Strategy : UpgradeStrategy := {}
  Status : String := ""
  Progress : Int := 0
  Steps : List UpgradeStep := []
  BackupPaths : List (String × String) := []
  StartedAt : Option Nat := none
  CompletedAt : Option Nat := none
  Logs : List String := []
  Error : String := ""
  deriving DecidableEq

/-- Go map assignment `m[k] = v`. -/
def mapSet (k v : String) (m : List (String × String)) : List (String × String) :=
  (k, v) :: m.filter (fun e => e.1 != k)

/-- Go map lookup `v, exists := m[k]`. -/
def mapGet (k : String) (m : List (String × String)) : Option String := m.lookup k

/-- Source `generateUpgradeSteps`. -/
def generateUpgradeSteps (_componentName fromVersion toVersion : String)
    (strategy : UpgradeStrategy) : List UpgradeStep :=
  let steps : List UpgradeStep := []
  let steps := steps ++ [{ Name := "pre_check", Description := "执行升级前检查", Status := "pending" }]
  let steps := if strategy.BackupConfig then
      steps ++ [{ Name := "backup_config", Description := "备份配置文件", Status := "pending" }]
    else steps
  let steps := if strategy.BackupData then
      steps ++ [{ Name := "backup_data", Description := "备份数据文件", Status := "pending" }]
    else steps
  let steps := if strategy.StopService then
      steps ++ [{ Name := "stop_service", Description := "停止当前服务", Status := "pending" }]
    else steps
  let steps := steps ++ [{ Name := "upgrade_component", Status := "pending",
                           Description := "升级组件从 " ++ fromVersion ++ " 到 " ++ toVersion }]
  let steps := if strategy.MigrateConfig then
      steps ++ [{ Name := "migrate_config", Description := "迁移配置文件", Status := "pending" }]
    else steps
  let steps := steps ++ [{ Name := "start_service", Description := "启动升级后的服务", Status := "pending" }]
  let steps := steps ++ [{ Name := "health_check", Description := "执行健康检查", Status := "pending" }]
  let steps := steps ++ [{ Name := "post_check", Description := "执行升级后检查", Status := "pending" }]
  steps

/-- The nine step names in the order `generateUpgradeSteps` emits them. -/
def allStepNames : List String :=
  ["pre_check", "backup_config", "backup_data", "stop_service", "upgrade_component",
   "migrate_config", "start_service", "health_check", "post_check"]

/-! ## Component tables -/

/-- Source `getComponentConfigPaths`. -/
def getComponentConfigPaths (componentName : String) : List String :=
  if componentName = "prometheus" then ["/etc/prometheus/prometheus.yml", "/etc/prometheus/rules/*.yml"]
  else if componentName = "grafana" then ["/etc/grafana/grafana.ini", "/var/lib/grafana/grafana.db"]
  else if componentName = "victoriametrics" then ["/etc/victoriametrics/config.yml"]
  else if componentName = "alertmanager" then ["/etc/alertmanager/alertmanager.yml"]
  else if componentName = "node-exporter" then ["/etc/node-exporter/config.yml"]
  else if componentName = "categraf" then ["/etc/categraf/conf/*.toml"]
  else if componentName = "snmp-exporter" then ["/etc/snmp-exporter/snmp.yml"]
  else if componentName = "vmagent" then ["/etc/vmagent/config.yml"]
  else if componentName = "vmalert" then ["/etc/vmalert/config.yml"]
  else ["/etc/" ++ componentName ++ "/config.yml"]

/-- Source `getComponentDataPaths`. -/
def getComponentDataPaths (componentName : String) : List String :=
  if componentName = "prometheus" then ["/var/lib/prometheus"]
  else if componentName = "grafana" then ["/var/lib/grafana"]
  else if componentName = "victoriametrics" then ["/var/lib/victoriametrics"]
  else if componentName = "alertmanager" then ["/var/lib/alertmanager"]
  else ["/var/lib/" ++ componentName]

/-- Source `isDockerComponent`. -/
def isDockerComponent (componentName : String) : Bool :=
  ["prometheus", "grafana", "victoriametrics", "alertmanager", "vmagent", "vmalert",
   "snmp-exporter"].any (fun comp => comp == componentName)

/-- Source `isBinaryComponent`. -/
def isBinaryComponent (componentName : String) : Bool :=
  ["node-exporter", "categraf"].any (fun comp => comp == componentName)

/-- Source `isSystemdComponent`. -/
def isSystemdComponent (componentName : String) : Bool :=
  ["node-exporter", "categraf"].any (fun comp => comp == componentName)

/-- Source `getComponentImageName`. -/
def getComponentImageName (componentName version : String) : String :=
  if componentName = "prometheus" then "prom/prometheus:" ++ version
  else if componentName = "grafana" then "grafana/grafana:" ++ version
  else if componentName = "victoriametrics" then "victoriametrics/victoria-metrics:" ++ version
  else if componentName = "alertmanager" then "prom/alertmanager:" ++ version
  else if componentName = "vmagent" then "victoriametrics/vmagent:" ++ version
  else if componentName = "vmalert" then "victoriametrics/vmalert:" ++ version
  else if componentName = "snmp-exporter" then "prom/snmp-exporter:" ++ version
  else componentName ++ ":" ++ version

/-- Source `generateDockerCreateCommand`. -/
def generateDockerCreateCommand (componentName imageName : String) : String :=
  if componentName = "prometheus" then
    "docker run -d --name prometheus --restart=unless-stopped \\\n\t\t\t-p 9090:9090 \\\n\t\t\t-v /etc/prometheus:/etc/prometheus \\\n\t\t\t-v /var/lib/prometheus:/prometheus \\\n\t\t\t"
      ++ imageName ++
      " \\\n\t\t\t--config.file=/etc/prometheus/prometheus.yml \\\n\t\t\t--storage.tsdb.path=/prometheus \\\n\t\t\t--web.console.libraries=/etc/prometheus/console_libraries \\\n\t\t\t--web.console.templates=/etc/prometheus/consoles"
  else if componentName = "grafana" then
    "docker run -d --name grafana --restart=unless-stopped \\\n\t\t\t-p 3000:3000 \\\n\t\t\t-v /var/lib/grafana:/var/lib/grafana \\\n\t\t\t-v /etc/grafana:/etc/grafana \\\n\t\t\t"
      ++ imageName
  else if componentName = "victoriametrics" then
    "docker run -d --name victoriametrics --restart=unless-stopped \\\n\t\t\t-p 8428:8428 \\\n\t\t\t-v /var/lib/victoriametrics:/victoria-metrics-data \\\n\t\t\t"
      ++ imageName ++
      " \\\n\t\t\t-storageDataPath=/victoria-metrics-data \\\n\t\t\t-retentionPeriod=12"
  else if componentName = "alertmanager" then
    "docker run -d --name alertmanager --restart=unless-stopped \\\n\t\t\t-p 9093:9093 \\\n\t\t\t-v /etc/alertmanager:/etc/alertmanager \\\n\t\t\t-v /var/lib/alertmanager:/alertmanager \\\n\t\t\t"
      ++ imageName ++
      " \\\n\t\t\t--config.file=/etc/alertmanager/alertmanager.yml \\\n\t\t\t--storage.path=/alertmanager"
  else "docker run -d --name " ++ componentName ++ " --restart=unless-stopped " ++ imageName

/-- Source `getComponentDownloadURL`. -/
def getComponentDownloadURL (componentName version : String) : String :=
  if componentName = "node-exporter" then
    "https://github.com/prometheus/node_exporter/releases/download/v" ++ version ++
      "/node_exporter-" ++ version ++ ".linux-amd64.tar.gz"
  else if componentName = "categraf" then
    "https://github.com/flashcatcloud/categraf/releases/download/v" ++ version ++
      "/categraf-" ++ version ++ ".linux-amd64.tar.gz"
  else ""

/-- Source `getComponentBinaryPath`. -/
def getComponentBinaryPath (componentName : String) : String :=
  if componentName = "node-exporter" then "/usr/local/bin/node_exporter"
  else if componentName = "categraf" then "/usr/local/bin/categraf"
  else "/usr/local/bin/" ++ componentName

/-- Source `versionMatches`. -/
def versionMatches (fromVersion toVersion pattern : String) : Bool :=
  match splitStr "->".toList pattern.toList with
  | [fromPattern, toPattern] =>
    let fromMajor := (splitOn '.' fromVersion.toList).headD []
    let toMajor := (splitOn '.' toVersion.toList).headD []
    containsSub fromMajor fromPattern && containsSub toMajor toPattern
  | _ => false

/-- The `migrationMap` of `getConfigMigrationScript`: per component, its
(pattern, script) entries. -/
def migrationMap (componentName : String) : Option (List (String × String)) :=
  if componentName = "prometheus" then
    some [("2.*->3.*",
      "\n\t\t\t\t# Prometheus 2.x to 3.x migration\n\t\t\t\tsed -i 's/scrape_interval: 15s/global_scrape_interval: 15s/g' /etc/prometheus/prometheus.yml\n\t\t\t\techo \"Prometheus config migrated from 2.x to 3.x\"\n\t\t\t")]
  else if componentName = "grafana" then
    some [("8.*->9.*",
      "\n\t\t\t\t# Grafana 8.x to 9.x migration\n\t\t\t\techo \"Grafana config migration from 8.x to 9.x\"\n\t\t\t\t# 这里添加具体的迁移逻辑\n\t\t\t")]
  else none

/-- Source `getConfigMigrationScript` (each component has one entry, so the
iteration order of the Go map does not matter). -/
def getConfigMigrationScript (componentName fromVersion toVersion : String) : String :=
  match migrationMap componentName with
  | some componentMigrations =>
    match componentMigrations.find? (fun e => versionMatches fromVersion toVersion e.1) with
    | some e => e.2
    | none => ""
  | none => ""

/-- Source `getComponentHealthCheckCommand`. -/
def getComponentHealthCheckCommand (componentName : String) : String :=
  if componentName = "prometheus" then "curl -f http://localhost:9090/-/healthy"
  else if componentName = "grafana" then "curl -f http://localhost:3000/api/health"
  else if componentName = "victoriametrics" then "curl -f http://localhost:8428/health"
  else if componentName = "alertmanager" then "curl -f http://localhost:9093/-/healthy"
  else if componentName = "node-exporter" then "curl -f http://localhost:9100/metrics"
  else if componentName = "categraf" then "systemctl is-active categraf"
  else if componentName = "snmp-exporter" then "curl -f http://localhost:9116/metrics"
  else if componentName = "vmagent" then "curl -f http://localhost:8429/-/healthy"
  else if componentName = "vmalert" then "curl -f http://localhost:8880/-/healthy"
  else ""

/-- Source `getComponentLogCommand`. -/
def getComponentLogCommand (componentName : String) : String :=
  if componentName = "prometheus" then "docker logs prometheus --tail 50"
  else if componentName = "grafana" then "docker logs grafana --tail 50"
  else if componentName = "victoriametrics" then "docker logs victoriametrics --tail 50"
  else if componentName = "alertmanager" then "docker logs alertmanager --tail 50"
  else if componentName = "node-exporter" then "journalctl -u node-exporter --lines 50"
  else if componentName = "categraf" then "journalctl -u categraf --lines 50"
  else if componentName = "snmp-exporter" then "docker logs snmp-exporter --tail 50"
  else if componentName = "vmagent" then "docker logs vmagent --tail 50"
  else if componentName = "vmalert" then "docker logs vmalert --tail 50"
  else "journalctl -u " ++ componentName ++ " --lines 50"

/-! ## Upgrade steps

A step function receives the task and a pointer to a step. It reads the task's
component name, versions and strategy, and writes only `step.Output` and
`task.BackupPaths`; these two and the remote host form the state it acts on. -/

/-- What a step function can change. -/
structure StepCtx (σ : Type) where
  host : σ
  /-- Field `step.Output`. -/
  output : String
  /-- Field `task.BackupPaths`. -/
  backupPaths : List (String × String)

/-- Code that only talks to the host, run inside a step. -/
def onHost {σ α : Type} (x : Go σ α) : Go (StepCtx σ) α := fun c =>
  match x c.host with
  | Outcome.done a h => Outcome.done a { c with host := h }
  | Outcome.panicked msg h => Outcome.panicked msg { c with host := h }

/-- Go `step.Output += text`. -/
def appendOutput {σ : Type} (text : String) : Go (StepCtx σ) Unit :=
  fun c => Outcome.done () { c with output := c.output ++ text }

/-- Go `step.Output = text`. -/
def setOutput {σ : Type} (text : String) : Go (StepCtx σ) Unit :=
  fun c => Outcome.done () { c with output := text }

/-- Go `task.BackupPaths[k] = v`. -/
def setBackupPath {σ : Type} (k v : String) : Go (StepCtx σ) Unit :=
  fun c => Outcome.done () { c with backupPaths := mapSet k v c.backupPaths }

/-- Go `time.Now().Format(layout)`. -/
def nowFormatted {σ : Type} (env : Env σ) (layout : String) : Go (StepCtx σ) String :=
  fun c => Outcome.done (env.formatTime layout (env.now c.host)) c

/-- Source `executePreCheck`. -/
def executePreCheck {σ : Type} (env : Env σ) (_task : ComponentUpgradeTask) :
    Go (StepCtx σ) (Option String) := do
  let r ← onHost (ssh env "df -h / | tail -1 | awk '\x7bprint $5\x7d' | sed 's/%//'")
  match r.2 with
  | some e => pure (some ("failed to check disk space: " ++ e))
  | none =>
    let diskUsage := strTrimSpace r.1
    match (atoi diskUsage.toList).filter (fun usage => usage > 90) with
    | some usage => pure (some ("insufficient disk space: " ++ toString usage ++ "% used"))
    | none => do
      let r2 ← onHost (ssh env "free | grep Mem | awk '\x7bprint ($3/$2) * 100.0\x7d'")
      match r2.2 with
      | some e => pure (some ("failed to check memory: " ++ e))
      | none => do
        setOutput ("Disk usage: " ++ diskUsage ++ "%, Memory check passed")
        pure none

/-- The `for _, configPath := range configPaths` loop of `executeBackupConfig`. -/
def backupConfigLoop {σ : Type} (env : Env σ) (backupDir : String) :
    List String → Go (StepCtx σ) (Option String)
  | [] => pure none
  | configPath :: rest => do
    let r ← onHost (ssh env ("test -f " ++ configPath ++ " && cp " ++ configPath ++ " " ++
      backupDir ++ "/ || echo 'Config file " ++ configPath ++ " not found'"))
    match r.2 with
    | some e => pure (some ("failed to backup config " ++ configPath ++ ": " ++ e))
    | none => do
      appendOutput ("Backup: " ++ r.1 ++ "\n")
      backupConfigLoop env backupDir rest

/-- Source `executeBackupConfig`. -/
def executeBackupConfig {σ : Type} (env : Env σ) (task : ComponentUpgradeTask) :
    Go (StepCtx σ) (Option String) := do
  let timestamp ← nowFormatted env "20060102_150405"
  let backupDir := "/opt/monitoring/backups/" ++ task.ComponentName ++ "/" ++ timestamp
  let r ← onHost (ssh env ("mkdir -p " ++ backupDir))
  match r.2 with
  | some e => pure (some ("failed to create backup directory: " ++ e))
  | none => do
    let err ← backupConfigLoop env backupDir (getComponentConfigPaths task.ComponentName)
    match err with
    | some e => pure (some e)
    | none => do
      setBackupPath "config" backupDir
      pure none

/-- The `for _, dataPath := range dataPaths` loop of `executeBackupData`. -/
def backupDataLoop {σ : Type} (env : Env σ) (componentName backupDir : String) :
    List String → Go (StepCtx σ) (Option String)
  | [] => pure none
  | dataPath :: rest => do
    let r ← onHost (ssh env ("test -d " ++ dataPath ++ " && tar -czf " ++ backupDir ++ "/" ++
      componentName ++ "_data.tar.gz -C " ++ dataPath ++ " . || echo 'Data path " ++ dataPath ++
      " not found'"))
    match r.2 with
    | some e => pure (some ("failed to backup data " ++ dataPath ++ ": " ++ e))
    | none => do
      appendOutput ("Data backup: " ++ r.1 ++ "\n")
      backupDataLoop env componentName backupDir rest

/-- Source `executeBackupData`. -/
def executeBackupData {σ : Type} (env : Env σ) (task : ComponentUpgradeTask) :
    Go (StepCtx σ) (Option String) := do
  let timestamp ← nowFormatted env "20060102_150405"
  let backupDir := "/opt/monitoring/backups/" ++ task.ComponentName ++ "/" ++ timestamp
  let err ← backupDataLoop env task.ComponentName backupDir (getComponentDataPaths task.ComponentName)
  match err with
  | some e => pure (some e)
  | none => do
    setBackupPath "data" backupDir
    pure none

/-- Source `executeStopService` (the five-second sleep is not modelled). -/
def executeStopService {σ : Type} (env : Env σ) (task : ComponentUpgradeTask) :
    Go (StepCtx σ) (Option String) := do
  let r ← onHost (ssh env ("docker stop " ++ task.ComponentName ++ " 2>/dev/null || true"))
  if r.2.isNone then appendOutput ("Docker container stopped: " ++ r.1 ++ "\n") else pure ()
  let r2 ← onHost (ssh env ("systemctl stop " ++ task.ComponentName ++ " 2>/dev/null || true"))
  if r2.2.isNone then appendOutput ("Systemd service stopped: " ++ r2.1 ++ "\n") else pure ()
  let running ← onHost (checkServiceRunning env task.ComponentName)
  if running then
    pure (some ("service " ++ task.ComponentName ++ " is still running after stop command"))
  else pure none

/-- Source `upgradeDockerComponent`. -/
def upgradeDockerComponent {σ : Type} (env : Env σ) (task : ComponentUpgradeTask) :
    Go (StepCtx σ) (Option String) := do
  let imageName := getComponentImageName task.ComponentName task.ToVersion
  let r ← onHost (ssh env ("docker pull " ++ imageName))
  match r.2 with
  | some e => pure (some ("failed to pull image " ++ imageName ++ ": " ++ e))
  | none => do
    appendOutput ("Image pulled: " ++ r.1 ++ "\n")
    let r2 ← onHost (ssh env ("docker rm " ++ task.ComponentName ++ " 2>/dev/null || true"))
    appendOutput ("Old container removed: " ++ r2.1 ++ "\n")
    let r3 ← onHost (ssh env (generateDockerCreateCommand task.ComponentName imageName))
    match r3.2 with
    | some e => pure (some ("failed to create new container: " ++ e))
    | none => do
      appendOutput ("New container created: " ++ r3.1 ++ "\n")
      pure none

/-- Source `upgradeBinaryComponent`. -/
def upgradeBinaryComponent {σ : Type} (env : Env σ) (task : ComponentUpgradeTask) :
    Go (StepCtx σ) (Option String) := do
  let downloadURL := getComponentDownloadURL task.ComponentName task.ToVersion
  let tempPath := "/tmp/" ++ task.ComponentName ++ "_" ++ task.ToVersion
  let r ← onHost (ssh env ("wget -O " ++ tempPath ++ " " ++ downloadURL))
  match r.2 with
  | some e => pure (some ("failed to download binary: " ++ e))
  | none => do
    appendOutput ("Binary downloaded: " ++ r.1 ++ "\n")
    let currentPath := getComponentBinaryPath task.ComponentName
    let stamp ← nowFormatted env "20060102_150405"
    let backupPath := currentPath ++ ".backup_" ++ stamp
    let _ ← onHost (ssh env ("cp " ++ currentPath ++ " " ++ backupPath))
    let r3 ← onHost (ssh env ("chmod +x " ++ tempPath ++ " && mv " ++ tempPath ++ " " ++ currentPath))
    match r3.2 with
    | some e => pure (some ("failed to replace binary: " ++ e))
    | none => do
      appendOutput ("Binary replaced: " ++ r3.1 ++ "\n")
      pure none

/-- Source `upgradeSystemdComponent`. -/
def upgradeSystemdComponent {σ : Type} (env : Env σ) (task : ComponentUpgradeTask) :
    Go (StepCtx σ) (Option String) := do
  let err ← upgradeBinaryComponent env task
  match err with
  | some e => pure (some e)
  | none => do
    let r ← onHost (ssh env "systemctl daemon-reload")
    match r.2 with
    | some e => pure (some ("failed to reload systemd: " ++ e))
    | none => do
      appendOutput ("Systemd reloaded: " ++ r.1 ++ "\n")
      pure none

/-- Source `executeUpgradeComponent`. -/
def executeUpgradeComponent {σ : Type} (env : Env σ) (task : ComponentUpgradeTask) :
    Go (StepCtx σ) (Option String) :=
  if isDockerComponent task.ComponentName then upgradeDockerComponent env task
  else if isBinaryComponent task.ComponentName then upgradeBinaryComponent env task
  else if isSystemdComponent task.ComponentName then upgradeSystemdComponent env task
  else pure (some ("unknown component type for " ++ task.ComponentName))

/-- Source `executeMigrateConfig`. -/
def executeMigrateConfig {σ : Type} (env : Env σ) (task : ComponentUpgradeTask) :
    Go (StepCtx σ) (Option String) := do
  let migrationScript := getConfigMigrationScript task.ComponentName task.FromVersion task.ToVersion
  if migrationScript = "" then do
    setOutput "No config migration needed"
    pure none
  else do
    let r ← onHost (ssh env migrationScript)
    match r.2 with
    | some e => pure (some ("config migration failed: " ++ e))
    | none => do
      setOutput ("Config migrated: " ++ r.1)
      pure none

/-- Source `executeStartService`. -/
def executeStartService {σ : Type} (env : Env σ) (task : ComponentUpgradeTask) :
    Go (StepCtx σ) (Option String) := do
  let r ← onHost (ssh env ("docker start " ++ task.ComponentName ++ " 2>/dev/null || true"))
  if r.2.isNone && strContains r.1 task.ComponentName then do
    appendOutput ("Docker container started: " ++ r.1 ++ "\n")
    pure none
  else do
    let r2 ← onHost (ssh env ("systemctl start " ++ task.ComponentName))
    match r2.2 with
    | some e => pure (some ("failed to start service: " ++ e))
    | none => do
      appendOutput ("Systemd service started: " ++ r2.1 ++ "\n")
      pure none

/-- Source `executeHealthCheck` (the `HealthCheckDelay` sleep is not modelled). -/
def executeHealthCheck {σ : Type} (env : Env σ) (task : ComponentUpgradeTask) :
    Go (StepCtx σ) (Option String) := do
  let running ← onHost (checkServiceRunning env task.ComponentName)
  if !running then
    pure (some ("service " ++ task.ComponentName ++ " is not running after start"))
  else do
    let healthCmd := getComponentHealthCheckCommand task.ComponentName
    let r ← (if healthCmd != "" then onHost (ssh env healthCmd) else pure ("", none))
    match r.2 with
    | some e => pure (some ("health check failed: " ++ e))
    | none => do
      if healthCmd != "" then appendOutput ("Health check passed: " ++ r.1 ++ "\n") else pure ()
      let d ← onHost (detectInstalledVersion env task.ComponentName)
      match d.2.2 with
      | some e => pure (some ("failed to verify new version: " ++ e))
      | none =>
        if d.1 != task.ToVersion then
          pure (some ("version mismatch: expected " ++ task.ToVersion ++ ", got " ++ d.1))
        else do
          appendOutput ("Version verified: " ++ d.1)
          pure none

/-- Source `executePostCheck`. -/
def executePostCheck {σ : Type} (env : Env σ) (task : ComponentUpgradeTask) :
    Go (StepCtx σ) (Option String) := do
  let running ← onHost (checkServiceRunning env task.ComponentName)
  if !running then pure (some "service is not running after upgrade")
  else do
    let logCmd := getComponentLogCommand task.ComponentName
    if logCmd != "" then do
      let r ← onHost (ssh env logCmd)
      if r.2.isNone then
        let lowered : String := ⟨r.1.toList.map env.toLower⟩
        if strContains lowered "error" || strContains lowered "fatal" then
          appendOutput ("Warning: Found errors in logs: " ++ r.1 ++ "\n")
        else appendOutput "No errors found in logs\n"
      else pure ()
    else pure ()
    let _ ← onHost (ssh env ("rm -f /tmp/" ++ task.ComponentName ++ "_* 2>/dev/null || true"))
    appendOutput "Post-upgrade check completed successfully"
    pure none

/-- Source `executeUpgradeStep`, by the name of the step. -/
def executeUpgradeStep {σ : Type} (env : Env σ) (task : ComponentUpgradeTask) (stepName : String) :
    Go (StepCtx σ) (Option String) :=
  if stepName = "pre_check" then executePreCheck env task
  else if stepName = "backup_config" then executeBackupConfig env task
  else if stepName = "backup_data" then executeBackupData env task
  else if stepName = "stop_service" then executeStopService env task
  else if stepName = "upgrade_component" then executeUpgradeComponent env task
  else if stepName = "migrate_config" then executeMigrateConfig env task
  else if stepName = "start_service" then executeStartService env task
  else if stepName = "health_check" then executeHealthCheck env task
  else if stepName = "post_check" then executePostCheck env task
  else pure (some ("unknown step: " ++ stepName))

/-! ## Running an upgrade task -/

/-- The state `executeUpgradeAsync` acts on: the remote host, the Redis store
as the list of `SET` commands issued (oldest first, each with key and record),
and the task record behind the `task` pointer. -/
structure Mem (σ : Type) where
  host : σ
  redis : List (String × ComponentUpgradeTask)
  task : ComponentUpgradeTask

/-- Replace element `i` of a list by its image under `f` (nothing if out of range). -/
def updateAt {α : Type} (l : List α) (i : Nat) (f : α → α) : List α :=
  match l.get? i with
  | some a => l.set i (f a)
  | none => l

/-- Go `task.X = ...`: an update of the task record. -/
def modifyTask {σ : Type} (f : ComponentUpgradeTask → ComponentUpgradeTask) : Go (Mem σ) Unit :=
  fun m => Outcome.done () { m with task := f m.task }

/-- Go `step.X = ...` for `step := &task.Steps[i]`. -/
def modifyStep {σ : Type} (i : Nat) (f : UpgradeStep → UpgradeStep) : Go (Mem σ) Unit :=
  modifyTask (fun t => { t with Steps := updateAt t.Steps i f })

/-- Read the task record. -/
def getTask {σ : Type} : Go (Mem σ) ComponentUpgradeTask := fun m => Outcome.done m.task m

/-- Go `time.Now()`. -/
def nowMem {σ : Type} (env : Env σ) : Go (Mem σ) Nat := fun m => Outcome.done (env.now m.host) m

/-- One remote command, issued outside a step function. -/
def sshMem {σ : Type} (env : Env σ) (cmd : String) : Go (Mem σ) (String × Option String) :=
  fun m => let r := env.executeSSHCommand cmd m.host; Outcome.done r.1 { m with host := r.2 }

/-- Source `saveUpgradeTask`: one `SET upgrade_task:<ID>` with the current record. -/
def saveUpgradeTask {σ : Type} : Go (Mem σ) Unit :=
  fun m => Outcome.done () { m with redis := m.redis ++ [("upgrade_task:" ++ m.task.ID, m.task)] }

/-- Source `addUpgradeLog`. -/
def addUpgradeLog {σ : Type} (env : Env σ) (message : String) : Go (Mem σ) Unit := do
  let now ← nowMem env
  let timestamp := env.formatTime "2006-01-02 15:04:05" now
  modifyTask (fun t => { t with Logs := t.Logs ++ ["[" ++ timestamp ++ "] " ++ message] })
  saveUpgradeTask

/-- Run a step function on `step`: `some i` is `&task.Steps[i]`, `none` is a
fresh `&UpgradeStep{}` that is dropped afterwards. -/
def runStep {σ α : Type} (step : Option Nat) (x : Go (StepCtx σ) α) : Go (Mem σ) α := fun m =>
  let out : String :=
    match step with
    | some i => ((m.task.Steps.get? i).map (fun s => s.Output)).getD ""
    | none => ""
  let back (c : StepCtx σ) : Mem σ :=
    { m with
      host := c.host
      task := { m.task with
        BackupPaths := c.backupPaths
        Steps := match step with
          | some i => updateAt m.task.Steps i (fun s => { s with Output := c.output })
          | none => m.task.Steps } }
  match x { host := m.host, output := out, backupPaths := m.task.BackupPaths } with
  | Outcome.done a c => Outcome.done a (back c)
  | Outcome.panicked msg c => Outcome.panicked msg (back c)

/-- Source `rollbackUpgrade`. -/
def rollbackUpgrade {σ : Type} (env : Env σ) : Go (Mem σ) Unit := do
  addUpgradeLog env "Starting rollback process..."
  let task ← getTask
  let _ ← runStep none (executeStopService env task)
  let task ← getTask
  match mapGet "config" task.BackupPaths with
  | some configBackupPath => do
    let _ ← sshMem env ("cp -r " ++ configBackupPath ++ "/* /etc/" ++ task.ComponentName ++
      "/ 2>/dev/null || true")
    addUpgradeLog env "Config files restored from backup"
  | none => pure ()
  let binaryPath := getComponentBinaryPath task.ComponentName
  let backupPattern := binaryPath ++ ".backup_*"
  let r ← sshMem env ("ls -t " ++ backupPattern ++ " 2>/dev/null | head -1")
  if r.2.isNone && strTrimSpace r.1 != "" then do
    let latestBackup := strTrimSpace r.1
    let _ ← sshMem env ("cp " ++ latestBackup ++ " " ++ binaryPath)
    addUpgradeLog env "Binary file restored from backup"
  else pure ()
  let task ← getTask
  let _ ← runStep none (executeStartService env task)
  modifyTask (fun t => { t with Status := "rolled_back" })
  addUpgradeLog env "Rollback completed"

/-- The value of `int(float64(done) / float64(totalSteps) * 100)`. Modelled in
exact arithmetic; the float64 evaluation gives the same integer for every
`done ≤ totalSteps ≤ 9`, which covers the step lists of `generateUpgradeSteps`. -/
def progressPercent (done totalSteps : Nat) : Int := ((100 * done / totalSteps : Nat) : Int)

/-- Start of one loop iteration of `executeUpgradeAsync`: `step := &task.Steps[i]`,
the log line, `step.Status = "running"`, `step.StartTime = time.Now()` and the
save. Returns the step as read at the start. -/
def beginStep {σ : Type} (env : Env σ) (i : Nat) : Go (Mem σ) UpgradeStep := do
  let task ← getTask
  let step := (task.Steps.get? i).getD {}
  addUpgradeLog env ("Executing step: " ++ step.Description)
  let t0 ← nowMem env
  modifyStep i (fun s => { s with Status := "running", StartTime := t0 })
  saveUpgradeTask
  pure step

/-- The call `err := s.executeUpgradeStep(client, task, step)` and `step.EndTime = time.Now()`. -/
def runUpgradeStep {σ : Type} (env : Env σ) (i : Nat) (step : UpgradeStep) :
    Go (Mem σ) (Option String) := do
  let task ← getTask
  let err ← runStep (some i) (executeUpgradeStep env task step.Name)
  let t1 ← nowMem env
  modifyStep i (fun s => { s with EndTime := t1 })
  pure err

/-- The `if err != nil` branch of the loop, up to its `return`. -/
def failStep {σ : Type} (env : Env σ) (i : Nat) (step : UpgradeStep) (e : String) :
    Go (Mem σ) Unit := do
  modifyStep i (fun s => { s with Status := "failed", Error := e })
  modifyTask (fun t => { t with Status := "failed",
                                Error := "Step " ++ step.Name ++ " failed: " ++ e })
  let task ← getTask
  addUpgradeLog env ("ERROR: " ++ task.Error)
  if task.Strategy.RollbackEnabled then do
    addUpgradeLog env "Starting rollback..."
    rollbackUpgrade env
  else pure ()

/-- The end of a loop iteration whose step returned no error. -/
def completeStep {σ : Type} (env : Env σ) (totalSteps i : Nat) (step : UpgradeStep) :
    Go (Mem σ) Unit := do
  modifyStep i (fun s => { s with Status := "completed" })
  modifyTask (fun t => { t with Progress := progressPercent (i + 1) totalSteps })
  saveUpgradeTask
  addUpgradeLog env ("Step " ++ step.Name ++ " completed successfully")

/-- The `for i := range task.Steps` loop of `executeUpgradeAsync`, with `n`
iterations left starting at index `i`. Returns `true` when the loop ran to its
end (every step returned a nil error) and `false` when a step returned an error
and the function returned from inside the loop. -/
def upgradeLoop {σ : Type} (env : Env σ) (totalSteps : Nat) : Nat → Nat → Go (Mem σ) Bool
  | 0, _ => pure true
  | n + 1, i => do
    let step ← beginStep env i
    let err ← runUpgradeStep env i step
    match err with
    | some e => do
      failStep env i step e
      pure false
    | none => do
      completeStep env totalSteps i step
      upgradeLoop env totalSteps n (i + 1)

/-- The call `hostService.GetHost(task.HostID)` inside `executeUpgradeAsync`: its error, if any. -/
def getHostMem {σ : Type} (env : Env σ) : Go (Mem σ) (Option String) :=
  fun m => Outcome.done (env.getHost m.task.HostID m.host) m

/-- The call `hostService.createSSHClient(...)` inside `executeUpgradeAsync`: its error, if any. -/
def createSSHClientMem {σ : Type} (env : Env σ) : Go (Mem σ) (Option String) :=
  fun m => let r := env.createSSHClient m.task.HostID m.host
           Outcome.done r.1 { m with host := r.2 }

/-- The body of `executeUpgradeAsync` once the SSH connection is made: the
"Starting upgrade" log line, the step loop and the final log line. Returns
`true` when it ran to its last statement and `false` when a step failed. -/
def runAllSteps {σ : Type} (env : Env σ) : Go (Mem σ) Bool := do
  let task ← getTask
  addUpgradeLog env ("Starting upgrade of " ++ task.ComponentName ++ " from " ++
    task.FromVersion ++ " to " ++ task.ToVersion)
  let totalSteps := task.Steps.length
  let finished ← upgradeLoop env totalSteps totalSteps 0
  if finished then do
    addUpgradeLog env "Upgrade completed successfully"
    pure true
  else pure false

/-- The body of `executeUpgradeAsync`, up to the point where the deferred
function takes over. Returns `true` when the body ran to its last statement
(host lookup, SSH connection and every step succeeded) and `false` when it
returned early after a failure. -/
def executeUpgradeBody {σ : Type} (env : Env σ) : Go (Mem σ) Bool := do
  let hostErr ← getHostMem env
  match hostErr with
  | some e => do
    modifyTask (fun t => { t with Status := "failed", Error := "Failed to get host info: " ++ e })
    let task ← getTask
    addUpgradeLog env ("ERROR: " ++ task.Error)
    pure false
  | none => do
    let connErr ← createSSHClientMem env
    match connErr with
    | some e => do
      modifyTask (fun t => { t with Status := "failed", Error := "Failed to connect to host: " ++ e })
      let task ← getTask
      addUpgradeLog env ("ERROR: " ++ task.Error)
      pure false
    | none => runAllSteps env

/-- The deferred function of `executeUpgradeAsync`. -/
def upgradeDeferred {σ : Type} (env : Env σ) : Go (Mem σ) Unit := do
  modifyTask (fun t => if t.Status = "running" then { t with Status := "completed" } else t)
  modifyTask (fun t => { t with Progress := 100 })
  let now ← nowMem env
  modifyTask (fun t => { t with CompletedAt := some now })
  saveUpgradeTask

/-- Source `executeUpgradeAsync`: the body, then the deferred function, which
also runs when the body panics (the panic then goes on). -/
def executeUpgradeAsync {σ : Type} (env : Env σ) : Go (Mem σ) Unit := fun m =>
  match executeUpgradeBody env m with
  | Outcome.done _ m1 => upgradeDeferred env m1
  | Outcome.panicked msg m1 => Outcome.panicked msg (upgradeDeferred env m1).state

/-- The record of the latest `SET key` in a list of `SET` commands. -/
def redisGet (redis : List (String × ComponentUpgradeTask)) (key : String) :
    Option ComponentUpgradeTask :=
  (redis.reverse.find? (fun e => e.1 == key)).map (fun e => e.2)

/-- What `getUpgradeTask` obtains for a key from outside the service: the error
of `redis.Get(...).Result()`, or the error of `json.Unmarshal` on the text that
was read, or the task that was decoded. -/
inductive Loaded where
  | getError (err : String)
  | unmarshalError (err : String)
  | record (task : ComponentUpgradeTask)
  deriving DecidableEq

/-- The Redis client and server and package `encoding/json`, which are outside
the service. Both functions are given the `SET` commands the service has issued
so far; nothing is assumed about them (a `SET` may be refused, a key may be
absent or hold any text). -/
structure Store where
  /-- The call `redis.Set(ctx, key, task, 24*time.Hour).Err()`: its error, if any. -/
  set : List (String × ComponentUpgradeTask) → String → ComponentUpgradeTask → Option String
  /-- The call `redis.Get(ctx, key).Result()` followed by `json.Unmarshal`. -/
  load : List (String × ComponentUpgradeTask) → String → Loaded

/-- The task value `CreateUpgradeTask` builds before it saves it: the struct
literal and the steps of `generateUpgradeSteps`. -/
def newUpgradeTask {σ : Type} (env : Env σ) (hostID : Nat)
    (componentName fromVersion toVersion : String) (strategy : UpgradeStrategy)
    (host : σ) : ComponentUpgradeTask :=
  let task : ComponentUpgradeTask :=
    { ID := "upgrade_" ++ componentName ++ "_" ++ toString hostID ++ "_" ++ toString (env.now host)
      HostID := hostID
      ComponentName := componentName
      FromVersion := fromVersion
      ToVersion := toVersion
      Strategy := strategy
      Status := "pending"
      Progress := 0
      BackupPaths := []
      Logs := [] }
  { task with Steps := generateUpgradeSteps componentName fromVersion toVersion strategy }

/-- Source `CreateUpgradeTask`: the task or the error it returns, and the list
of `SET` commands issued, which has the command of this call at its end whether
the client accepted it or not. -/
def CreateUpgradeTask {σ : Type} (env : Env σ) (store : Store) (hostID : Nat)
    (componentName fromVersion toVersion : String) (strategy : UpgradeStrategy)
    (host : σ) (redis : List (String × ComponentUpgradeTask)) :
    Except String ComponentUpgradeTask × List (String × ComponentUpgradeTask) :=
  let task := newUpgradeTask env hostID componentName fromVersion toVersion strategy host
  let taskKey := "upgrade_task:" ++ task.ID
  match store.set redis taskKey task with
  | some err => (Except.error ("failed to save upgrade task: " ++ err), redis ++ [(taskKey, task)])
  | none => (Except.ok task, redis ++ [(taskKey, task)])

/-- Source `getUpgradeTask`. -/
def getUpgradeTask (store : Store) (taskID : String)
    (redis : List (String × ComponentUpgradeTask)) : Except String ComponentUpgradeTask :=
  let taskKey := "upgrade_task:" ++ taskID
  match store.load redis taskKey with
  | Loaded.getError err => Except.error ("task not found: " ++ err)
  | Loaded.unmarshalError err => Except.error ("failed to deserialize task: " ++ err)
  | Loaded.record task => Except.ok task

/-- Source `ExecuteUpgrade`, with the goroutine it starts run to its end: the
error of `getUpgradeTask`, else the outcome of `saveUpgradeTask` (whose result
is ignored) followed by `executeUpgradeAsync`. -/
def ExecuteUpgrade {σ : Type} (env : Env σ) (store : Store) (taskID : String)
    (host : σ) (redis : List (String × ComponentUpgradeTask)) :
    Except String (Outcome (Mem σ) Unit) :=
  match getUpgradeTask store taskID redis with
  | Except.error err => Except.error err
  | Except.ok task =>
    let task := { task with Status := "running", StartedAt := some (env.now host) }
    let m : Mem σ := { host := host, redis := redis, task := task }
    Except.ok ((do saveUpgradeTask; executeUpgradeAsync env) m)

/-- A Redis that accepts every `SET` and returns for a key the record of its
latest `SET`. -/
def latestStore : Store where
  set := fun _ _ _ => none
  load := fun redis key =>
    match redisGet redis key with
    | some task => Loaded.record task
    | none => Loaded.getError "redis: nil"

/-! ## Sample environments -/

/-- A host that has the component as a bare binary: every `docker` command
fails, every other command succeeds and prints `banner`. -/
def binaryHost (banner : String) : Env Unit where
  executeSSHCommand := fun cmd s =>
    if "docker".toList.isPrefixOf cmd.toList then (("", some "exit status 1"), s)
    else ((banner, none), s)
  getHost := fun _ _ => none
  createSSHClient := fun _ s => (none, s)
  now := fun _ => 0
  formatTime := fun _ _ => "t"
  toLower := Char.toLower

/-- The value of a normal return. -/
def Outcome.value? {S α : Type} : Outcome S α → Option α
  | Outcome.done a _ => some a
  | Outcome.panicked _ _ => none

/-- A host on which the host lookup and the connection succeed and every
command fails. -/
def deadHost : Env Unit where
  executeSSHCommand := fun _ s => (("", some "exit status 1"), s)
  getHost := fun _ _ => none
  createSSHClient := fun _ s => (none, s)
  now := fun _ => 0
  formatTime := fun _ _ => "t"
  toLower := Char.toLower

/-! ## Specification vocabulary for upgrade runs -/

/-- The task `executeUpgradeAsync` receives: built by `CreateUpgradeTask` (at host
state `host0`), then set to `running` with `StartedAt` by `ExecuteUpgrade` (at
host state `host1`). -/
def startedTask {σ : Type} (env : Env σ) (hostID : Nat)
    (componentName fromVersion toVersion : String) (strategy : UpgradeStrategy)
    (host0 host1 : σ) : ComponentUpgradeTask :=
  { newUpgradeTask env hostID componentName fromVersion toVersion strategy host0 with
    Status := "running", StartedAt := some (env.now host1) }

/-- The statuses of the steps, in list order. -/
def stepStatuses (t : ComponentUpgradeTask) : List String := t.Steps.map (fun s => s.Status)

/-- The names of the steps, in list order. -/
def stepNames (t : ComponentUpgradeTask) : List String := t.Steps.map (fun s => s.Name)

/-- Number of steps whose status is `completed`. -/
def completedSteps (t : ComponentUpgradeTask) : Nat := (stepStatuses t).count "completed"

/-- Whether `task.BackupPaths` has the key. -/
def hasBackupPath (k : String) (t : ComponentUpgradeTask) : Bool :=
  (mapGet k t.BackupPaths).isSome

/-- The records written to Redis from state `m` to state `m'`, oldest first. -/
def savedSince {σ : Type} (m m' : Mem σ) : List ComponentUpgradeTask :=
  (m'.redis.drop m.redis.length).map (fun e => e.2)

/-- The step code never removes a key of `task.BackupPaths`. -/
def KeepsKeys {σ α : Type} (x : Go (StepCtx σ) α) : Prop :=
  ∀ c k, (mapGet k c.backupPaths).isSome = true → (mapGet k (x c).state.backupPaths).isSome = true

/-- The step code, when it returns a nil error, leaves the key "config" in
`task.BackupPaths`. -/
def SetsConfigKey {σ : Type} (x : Go (StepCtx σ) (Option String)) : Prop :=
  ∀ c c', x c = Outcome.done none c' → (mapGet "config" c'.backupPaths).isSome = true

/-- The code always returns (it never panics). -/
def Total {S α : Type} (x : Go S α) : Prop := ∀ s, ∃ a s', x s = Outcome.done a s'

/-- Name, status and error of a step. -/
def stepKey (s : UpgradeStep) : String × String × String := (s.Name, s.Status, s.Error)

/-- What logging, rollback and the step functions leave alone in a task
record: name, status and error of every step, progress, error message, strategy
and ID; the keys of `BackupPaths` may only grow. -/
def Frame (t t' : ComponentUpgradeTask) : Prop :=
  t'.Steps.map stepKey = t.Steps.map stepKey ∧ t'.Progress = t.Progress ∧
  t'.Error = t.Error ∧ t'.Strategy = t.Strategy ∧ t'.ID = t.ID ∧
  (∀ k, hasBackupPath k t = true → hasBackupPath k t' = true)

/-- Loop position of a task record: the first `i` steps are completed, then
come the statuses `cur` (empty, or the one step in progress), then pending
steps only; the progress is that of `i` completed steps; and the key "config"
is in `BackupPaths` once a `backup_config` step is among the completed ones. -/
def Shape (names : List String) (i : Nat) (cur : List String) (t : ComponentUpgradeTask) : Prop :=
  stepNames t = names ∧ i + cur.length ≤ names.length ∧
  stepStatuses t = List.replicate i "completed" ++ cur ++
    List.replicate (names.length - i - cur.length) "pending" ∧
  t.Progress = progressPercent i names.length ∧
  ("backup_config" ∈ names.take i → hasBackupPath "config" t = true)

/-- What holds of every record saved while the step loop runs. -/
def RecOK (names : List String) (r : ComponentUpgradeTask) : Prop :=
  ∃ i cur, Shape names i cur r ∧ (cur = [] ∨ cur = ["running"] ∨ cur = ["failed"])

/-- The code returns, and the task it leaves as well as every record it saves
is within the frame of the task it started from. -/
def Framed {σ α : Type} (x : Go (Mem σ) α) : Prop :=
  ∀ m, ∃ a m', x m = Outcome.done a m' ∧ Frame m.task m'.task ∧
    ∃ recs, m'.redis = m.redis ++ recs ∧ ∀ r ∈ recs, Frame m.task r.2

/-- The code, when it returns, leaves the task with status `st`. -/
def EndsWithStatus {σ α : Type} (st : String) (x : Go (Mem σ) α) : Prop :=
  ∀ m a m', x m = Outcome.done a m' → m'.task.Status = st

/-- What the step loop guarantees about its outcome, for a loop started on a
task with status and strategy as in `t0`: all steps completed when it ran to
its end; a failed step named by the error message and the status `rolled_back`
or `failed` when a step returned an error; a running step when a step panicked. -/
def LoopResult {σ : Type} (names : List String) (t0 : ComponentUpgradeTask) :
    Outcome (Mem σ) Bool → Prop
  | Outcome.done true m' =>
    Shape names names.length [] m'.task ∧ m'.task.Status = t0.Status
  | Outcome.done false m' =>
    (∃ k step, Shape names k ["failed"] m'.task ∧ m'.task.Steps.get? k = some step ∧
      step.Status = "failed" ∧
      m'.task.Error = "Step " ++ step.Name ++ " failed: " ++ step.Error) ∧
    m'.task.Status = (if t0.Strategy.RollbackEnabled then "rolled_back" else "failed")
  | Outcome.panicked _ m' =>
    (∃ k, Shape names k ["running"] m'.task) ∧ m'.task.Status = t0.Status

/-- The task record after `addUpgradeLog` appended `message` at host state `h`. -/
def withLog {σ : Type} (env : Env σ) (h : σ) (t : ComponentUpgradeTask) (message : String) :
    ComponentUpgradeTask :=
  { t with Logs := t.Logs ++
      ["[" ++ env.formatTime "2006-01-02 15:04:05" (env.now h) ++ "] " ++ message] }

/-- The task record after the error branch of the loop marked step `i` and the
task as failed and logged the error, at host state `h`. -/
def failedTask {σ : Type} (env : Env σ) (h : σ) (t : ComponentUpgradeTask) (i : Nat)
    (stepName e : String) : ComponentUpgradeTask :=
  withLog env h
    { t with
      Steps := updateAt t.Steps i (fun s => { s with Status := "failed", Error := e }),
      Status := "failed",
      Error := "Step " ++ stepName ++ " failed: " ++ e }
    ("ERROR: " ++ ("Step " ++ stepName ++ " failed: " ++ e))

/-- What the body of `executeUpgradeAsync` guarantees about its outcome, for a
task that was handed over with status `running`. -/
def BodyResult {σ : Type} (env : Env σ) (names : List String) (m : Mem σ) :
    Outcome (Mem σ) Bool → Prop
  | Outcome.done true mb =>
    Shape names names.length [] mb.task ∧ mb.task.Status = "running"
  | Outcome.done false mb =>
    RecOK names mb.task ∧ (mb.task.Status = "failed" ∨ mb.task.Status = "rolled_back") ∧
    (env.getHost m.task.HostID m.host = none →
      (env.createSSHClient m.task.HostID m.host).1 = none →
      (∃ k step, Shape names k ["failed"] mb.task ∧ mb.task.Steps.get? k = some step ∧
        step.Status = "failed" ∧
        mb.task.Error = "Step " ++ step.Name ++ " failed: " ++ step.Error) ∧
      mb.task.Status = (if m.task.Strategy.RollbackEnabled then "rolled_back" else "failed"))
  | Outcome.panicked _ mb =>
    (∃ k, Shape names k ["running"] mb.task) ∧ mb.task.Status = "running"

/-- From state `m` to state `m'` Redis only received new records, each of
which satisfies `RecOK`. -/
def Saves {σ : Type} (names : List String) (m m' : Mem σ) : Prop :=
  ∃ recs, m'.redis = m.redis ++ recs ∧ ∀ r ∈ recs, RecOK names r.2

/-- The task record the deferred function of `executeUpgradeAsync` leaves and
saves, run at host state `h` on the record `t`. -/
def deferredTask {σ : Type} (env : Env σ) (h : σ) (t : ComponentUpgradeTask) :
    ComponentUpgradeTask :=
  { (if t.Status = "running" then { t with Status := "completed" } else t) with
    Progress := 100, CompletedAt := some (env.now h) }

/-- The memory `executeUpgradeAsync` starts from for a task built by
`CreateUpgradeTask` and started by `ExecuteUpgrade`. -/
def startedMem {σ : Type} (env : Env σ) (hostID : Nat)
    (componentName fromVersion toVersion : String) (strategy : UpgradeStrategy)
    (host0 host1 host : σ) (redis : List (String × ComponentUpgradeTask)) : Mem σ :=
  { host := host, redis := redis,
    task := startedTask env hostID componentName fromVersion toVersion strategy host0 host1 }

/-- A host on which every command succeeds and prints nothing. -/
def quietHost : Env Unit where
  executeSSHCommand := fun _ s => (("", none), s)
  getHost := fun _ _ => none
  createSSHClient := fun _ s => (none, s)
  now := fun _ => 0
  formatTime := fun _ _ => "t"
  toLower := Char.toLower

/-- A host on which the disk and memory probes of the pre-check succeed (42% of
the disk in use) and every other command fails. -/
def probeOnlyHost : Env Unit where
  executeSSHCommand := fun cmd s =>
    if "df ".toList.isPrefixOf cmd.toList || "free ".toList.isPrefixOf cmd.toList then
      (("42", none), s)
    else (("", some "exit status 1"), s)
  getHost := fun _ _ => none
  createSSHClient := fun _ s => (none, s)
  now := fun _ => 0
  formatTime := fun _ _ => "t"
  toLower := Char.toLower

/-- The statuses are: completed steps, then at most one running or failed
step, then pending steps only. -/
def StatusesInOrder (l : List String) : Prop :=
  ∃ i cur k, l = List.replicate i "completed" ++ cur ++ List.replicate k "pending" ∧
    (cur = [] ∨ cur = ["running"] ∨ cur = ["failed"])

/-- The memory after `CreateUpgradeTask` on an empty store followed by `runs`
calls of `ExecuteUpgrade` for the new task, each run to its end, with a Redis
that keeps the record of the latest `SET` of each key. -/
def executeTimes {σ : Type} (env : Env σ) (hostID : Nat) (c f t : String)
    (strategy : UpgradeStrategy) (host : σ) : Nat → Option (Mem σ)
  | 0 =>
    let created := CreateUpgradeTask env latestStore hostID c f t strategy host []
    match created.1 with
    | Except.ok task => some { host := host, redis := created.2, task := task }
    | Except.error _ => none
  | runs + 1 =>
    match executeTimes env hostID c f t strategy host runs with
    | none => none
    | some m =>
      match ExecuteUpgrade env latestStore m.task.ID m.host m.redis with
      | Except.ok o => some o.state
      | Except.error _ => none

/-- The health command of `executeHealthCheck` run at host state `h`: its
output, its error and the host afterwards; no command is run for a component
without a health command. -/
def healthProbe {σ : Type} (env : Env σ) (componentName : String) (h : σ) :
    (String × Option String) × σ :=
  if getComponentHealthCheckCommand componentName != "" then
    env.executeSSHCommand (getComponentHealthCheckCommand componentName) h
  else (("", none), h)

/-- A host after an upgrade of the bare binary `node-exporter` to 1.7.0: every
`docker` command fails, `systemctl is-active` prints `active`, every other
command succeeds and prints the version banner. -/
def upgradedHost : Env Unit where
  executeSSHCommand := fun cmd s =>
    if "docker".toList.isPrefixOf cmd.toList then (("", some "exit status 1"), s)
    else if "systemctl is-active".toList.isPrefixOf cmd.toList then (("active\n", none), s)
    else (("node_exporter, version 1.7.0 (branch: HEAD)\n", none), s)
  getHost := fun _ _ => none
  createSSHClient := fun _ s => (none, s)
  now := fun _ => 0
  formatTime := fun _ _ => "t"
  toLower := Char.toLower

/-- A host without containers that has `node-exporter` twice: the binary found
on `PATH` reports version 1.2.3, and the unit `node-exporter.service` starts
`/opt/node-exporter/bin/node-exporter`, which reports version 4.5.6. -/
def twoInstallsHost : Env Unit where
  executeSSHCommand := fun cmd s =>
    if "docker".toList.isPrefixOf cmd.toList then (("", some "exit status 1"), s)
    else if "which ".toList.isPrefixOf cmd.toList then (("/usr/local/bin/node-exporter\n", none), s)
    else if "systemctl list-unit-files".toList.isPrefixOf cmd.toList then
      (("node-exporter.service enabled\n", none), s)
    else if "systemctl show".toList.isPrefixOf cmd.toList then
      (("ExecStart=/opt/node-exporter/bin/node-exporter --web.listen-address=:9100\n", none), s)
    else if "/opt/".toList.isPrefixOf cmd.toList then
      (("node_exporter, version 4.5.6\n", none), s)
    else (("node_exporter, version 1.2.3\n", none), s)
  getHost := fun _ _ => none
  createSSHClient := fun _ s => (none, s)
  now := fun _ => 0
  formatTime := fun _ _ => "t"
  toLower := Char.toLower

/-- The text of a version string before its first dot: `strings.Split(v, ".")[0]`. -/
def majorOf (v : String) : String := ⟨(splitOn '.' v.toList).headD []⟩

/-- A host that records the commands it receives: every command succeeds and
prints nothing; the state is the clock (Unix seconds) and the commands so far. -/
def recordingHost : Env (Nat × List String) where
  executeSSHCommand := fun cmd s => (("", none), (s.1, s.2 ++ [cmd]))
  getHost := fun _ _ => none
  createSSHClient := fun _ s => (none, s)
  now := fun s => s.1
  formatTime := fun _ _ => "t"
  toLower := Char.toLower

/-- The code only appends to the Redis log, also when it panics. -/
def Grows {σ α : Type} (x : Go (Mem σ) α) : Prop :=
  ∀ m, ∃ recs, (x m).state.redis = m.redis ++ recs

/-- The records of two upgrade tasks for prometheus on host 1: the first,
created at second 100 and started at second 101, is running; the second,
created at second 102, is pending. -/
def twoTaskRecords : List (String × ComponentUpgradeTask) :=
  [("upgrade_task:upgrade_prometheus_1_100",
      startedTask recordingHost 1 "prometheus" "2.45.0" "2.46.0" {} (100, []) (101, [])),
   ("upgrade_task:upgrade_prometheus_1_102",
      newUpgradeTask recordingHost 1 "prometheus" "2.45.0" "2.46.0" {} (102, []))]

/-- A Redis server that holds the two records of `twoTaskRecords`, behind a
client that refuses every `SET` of a task (go-redis refuses a value that has no
`MarshalBinary` method). -/
def heldStore : Store where
  set := fun _ _ _ =>
    some "redis: can't marshal *services.ComponentUpgradeTask (implement encoding.BinaryMarshaler)"
  load := fun _ key =>
    match twoTaskRecords.lookup key with
    | some task => Loaded.record task
    | none => Loaded.getError "redis: nil"

/-- The result of an `Except` value, if it is not an error. -/
def okValue {ε α : Type} : Except ε α → Option α
  | Except.ok a => some a
  | Except.error _ => none

/-- The remote commands of a configuration backup followed by a rollback for
the component `componentName`, on a host where every command succeeds: the
step function `executeBackupConfig`, then `rollbackUpgrade`, on a task that
has no backup yet. -/
def backupThenRollback (componentName : String) : List String :=
  ((do
      let task ← getTask
      let _ ← runStep none (executeBackupConfig recordingHost task)
      rollbackUpgrade recordingHost : Go (Mem (Nat × List String)) Unit)
    { host := (0, []), redis := [], task := { ComponentName := componentName } }).state.host.2

/-- A host without containers and without the binary on `PATH` that lists the
unit `node-exporter.service`, a unit with no start command: `systemctl show
node-exporter --property=ExecStart` prints the line `ExecStart=`. -/
def emptyExecStartHost : Env Unit where
  executeSSHCommand := fun cmd s =>
    if "systemctl list-unit-files".toList.isPrefixOf cmd.toList then
      (("node-exporter.service enabled\n", none), s)
    else if "systemctl show".toList.isPrefixOf cmd.toList then (("ExecStart=\n", none), s)
    else (("", some "exit status 1"), s)
  getHost := fun _ _ => none
  createSSHClient := fun _ s => (none, s)
  now := fun _ => 0
  formatTime := fun _ _ => "t"
  toLower := Char.toLower

end ComponentVersion

namespace ConfigDeployment

open ComponentVersion

/-!
## Config deployment service

Shallow embedding of `backend/services/real_config_deployment_service.go`.
The SSH library, the local file system, the clock and package `path/filepath`
are outside the service; they are given by a `World`. Errors are their
messages. A `*ssh.Session` lives for one command, so a session is modelled by
the two calls made on it, `client.NewSession()` and `session.Run(cmd)`;
`session.Close()` and the five-second sleep after a restart are not modelled.
-/

/-- Source type `DeploymentTarget`. -/
structure DeploymentTarget where
  ID : String := ""
  Host : String := ""
  Port : Int := 0
  Username : String := ""
  Password : String := ""
  KeyFile : String := ""
  /-- Source field `Type`: snmp-exporter, categraf, prometheus, or another text. -/
  Type_ : String := ""
  ServiceName : String := ""
  ConfigPath : String := ""
  RestartCmd : String := ""
  deriving DecidableEq

/-- Source type `DeploymentConfig`. -/
structure DeploymentConfig where
  ID : String := ""
  Name : String := ""
  /-- Source field `Type`. -/
  Type_ : String := ""
  Content : String := ""
  Targets : List DeploymentTarget := []
  Validation : Bool := false
  Backup : Bool := false
  AutoRestart : Bool := false
  deriving DecidableEq

/-- Field `ServiceInfo` of the source type `DeploymentResult`. -/
structure ServiceInfo where
  Status : String := ""
  PID : String := ""
  Version : String := ""
  deriving DecidableEq

/-- Source type `DeploymentResult` (times in Unix seconds). -/
structure DeploymentResult where
  TargetID : String := ""
  Success : Bool := false
  Message : String := ""
  BackupPath : String := ""
  ConfigPath : String := ""
  StartTime : Nat := 0
  EndTime : Nat := 0
  Duration : String := ""
  ServiceInfo : ServiceInfo := {}
  deriving DecidableEq

/-- Source type `RealConfigDeploymentService`. -/
structure RealConfigDeploymentService where
  configBasePath : String
  backupPath : String
  deriving DecidableEq

/-- Source `NewRealConfigDeploymentService`. -/
def NewRealConfigDeploymentService : RealConfigDeploymentService :=
  { configBasePath := "/opt/monitoring/configs", backupPath := "/opt/monitoring/backups" }

/-- An `ssh.AuthMethod`: `ssh.Password(p)` or `ssh.PublicKeys(signer)`. -/
inductive AuthMethod where
  | password (p : String)
  | publicKeys (signer : String)
  deriving DecidableEq

/-- What `session.Run` leaves: the captured standard output and standard error
and the error returned, if any. -/
structure RunResult where
  stdout : String := ""
  stderr : String := ""
  err : Option String := none
  deriving DecidableEq

/-- What the service uses but does not define, on a world state `ω` with SSH
clients of type `κ`. -/
structure World (ω κ : Type) where
  /-- Go `os.MkdirAll(dir, 0755)`: its error, if any. -/
  mkdirAll : String → ω → Option String × ω
  /-- Go `ioutil.ReadFile(name)`. -/
  readFile : String → ω → Except String String × ω
  /-- Go `ssh.ParsePrivateKey(key)`. -/
  parsePrivateKey : String → Except String String
  /-- Go `ssh.Dial("tcp", address, config)` with the user and the
  authentication methods of `config`. -/
  dial : String → String → List AuthMethod → ω → Except String κ × ω
  /-- Go `client.Close()`. -/
  close : κ → ω → ω
  /-- Go `client.NewSession()`: its error, if any. -/
  newSession : κ → ω → Option String × ω
  /-- Go `session.Run(cmd)` on a session of the client, with `session.Stdin`
  reading the given text. -/
  run : κ → String → String → ω → RunResult × ω
  /-- Go `time.Now()` in Unix seconds. -/
  now : ω → Nat
  /-- Go `t.Format(layout)`. -/
  formatTime : String → Nat → String
  /-- Go `end.Sub(start).String()`. -/
  durationString : Nat → Nat → String
  /-- Go `filepath.Join(a, b)`. -/
  pathJoin : String → String → String
  /-- Go `filepath.Dir(path)`. -/
  pathDir : String → String

/-- One command sent to a remote host: the client, the command line and what
the session's standard input reads. -/
structure Issued (κ : Type) where
  client : κ
  cmd : String
  stdin : String := ""
  deriving DecidableEq

/-- The state the service acts on: the world, and the commands it has sent so
far, oldest first. -/
structure Dep (ω κ : Type) where
  world : ω
  issued : List (Issued κ)

/-- A call into the world that is not a remote command. -/
def onWorld {ω κ α : Type} (f : ω → α × ω) : Go (Dep ω κ) α :=
  fun d => let r := f d.world; Outcome.done r.1 { d with world := r.2 }

/-- Go `client.NewSession()`. -/
def newSession {ω κ : Type} (w : World ω κ) (client : κ) : Go (Dep ω κ) (Option String) :=
  onWorld (w.newSession client)

/-- Go `session.Run(cmd)` with the given standard input. -/
def run {ω κ : Type} (w : World ω κ) (client : κ) (cmd : String) (stdin : String) :
    Go (Dep ω κ) RunResult :=
  fun d =>
    let r := w.run client cmd stdin d.world
    Outcome.done r.1 { world := r.2, issued := d.issued ++ [{ client := client, cmd := cmd, stdin := stdin }] }

/-- Go `time.Now()`. -/
def timeNow {ω κ : Type} (w : World ω κ) : Go (Dep ω κ) Nat :=
  fun d => Outcome.done (w.now d.world) d

/-- The `for _, dir := range dirs` loop of `ensureDirectories`. -/
def ensureDirectoriesLoop {ω κ : Type} (w : World ω κ) : List String → Go (Dep ω κ) (Option String)
  | [] => pure none
  | dir :: rest => do
    let err ← onWorld (w.mkdirAll dir)
    match err with
    | some e => pure (some e)
    | none => ensureDirectoriesLoop w rest

/-- Source `ensureDirectories`. -/
def ensureDirectories {ω κ : Type} (w : World ω κ) (s : RealConfigDeploymentService) :
    Go (Dep ω κ) (Option String) :=
  ensureDirectoriesLoop w [s.configBasePath, s.backupPath]

/-- Source `createSSHClient`: the client, or the error. -/
def createSSHClient {ω κ : Type} (w : World ω κ) (target : DeploymentTarget) :
    Go (Dep ω κ) (Except String κ) := do
  let auth : List AuthMethod := []
  let auth := if target.Password != "" then auth ++ [AuthMethod.password target.Password] else auth
  let keyAuth : Except String (List AuthMethod) ←
    (if target.KeyFile != "" then do
      let key ← onWorld (w.readFile target.KeyFile)
      match key with
      | Except.error e => pure (Except.error ("读取密钥文件失败: " ++ e))
      | Except.ok k =>
        match w.parsePrivateKey k with
        | Except.error e => pure (Except.error ("解析密钥失败: " ++ e))
        | Except.ok signer => pure (Except.ok (auth ++ [AuthMethod.publicKeys signer]))
    else pure (Except.ok auth))
  match keyAuth with
  | Except.error e => pure (Except.error e)
  | Except.ok auth => do
    let address := target.Host ++ ":" ++ toString target.Port
    let client ← onWorld (w.dial address target.Username auth)
    match client with
    | Except.error e => pure (Except.error ("SSH连接失败: " ++ e))
    | Except.ok c => pure (Except.ok c)

/-- Source `backupExistingConfig`: the backup path (empty when there is no
file to back up) and the error, if any. -/
def backupExistingConfig {ω κ : Type} (w : World ω κ) (client : κ) (target : DeploymentTarget) :
    Go (Dep ω κ) (String × Option String) := do
  let now ← timeNow w
  let timestamp := w.formatTime "20060102_150405" now
  let backupFileName := target.Type_ ++ "_" ++ target.ID ++ "_" ++ timestamp ++ ".bak"
  let backupPath := w.pathJoin "/tmp" backupFileName
  let checkCmd := "test -f " ++ target.ConfigPath
  let serr ← newSession w client
  match serr with
  | some e => pure ("", some e)
  | none => do
    let r ← run w client checkCmd ""
    match r.err with
    | some _ => pure ("", none)
    | none => do
      let backupCmd := "cp " ++ target.ConfigPath ++ " " ++ backupPath
      let serr ← newSession w client
      match serr with
      | some e => pure ("", some e)
      | none => do
        let r ← run w client backupCmd ""
        match r.err with
        | some e => pure ("", some ("备份命令执行失败: " ++ e))
        | none => pure (backupPath, none)

/-- Source `uploadConfig`: the path written and the error, if any. -/
def uploadConfig {ω κ : Type} (w : World ω κ) (client : κ) (target : DeploymentTarget)
    (content : String) : Go (Dep ω κ) (String × Option String) := do
  let dirPath := w.pathDir target.ConfigPath
  let mkdirCmd := "mkdir -p " ++ dirPath
  let serr ← newSession w client
  match serr with
  | some e => pure ("", some e)
  | none => do
    let r ← run w client mkdirCmd ""
    match r.err with
    | some e => pure ("", some ("创建目录失败: " ++ e))
    | none => do
      let serr ← newSession w client
      match serr with
      | some e => pure ("", some e)
      | none => do
        let writeCmd := "cat > " ++ target.ConfigPath
        let r ← run w client writeCmd content
        match r.err with
        | some e => pure ("", some ("写入配置文件失败: " ++ e))
        | none => do
          let chmodCmd := "chmod 644 " ++ target.ConfigPath
          let serr ← newSession w client
          match serr with
          | some e => pure ("", some e)
          | none => do
            let r ← run w client chmodCmd ""
            match r.err with
            | some e => pure ("", some ("设置文件权限失败: " ++ e))
            | none => pure (target.ConfigPath, none)

/-- Source `validateConfig`: the error, if any. -/
def validateConfig {ω κ : Type} (w : World ω κ) (client : κ) (target : DeploymentTarget)
    (configPath : String) : Go (Dep ω κ) (Option String) := do
  let validateCmd :=
    if target.Type_ = "snmp-exporter" then "snmp_exporter --config.file=" ++ configPath ++ " --dry-run"
    else if target.Type_ = "categraf" then "categraf --config=" ++ configPath ++ " --test"
    else if target.Type_ = "prometheus" then "promtool check config " ++ configPath
    else "python3 -c \"import yaml; yaml.safe_load(open('" ++ configPath ++ "'))\""
  let serr ← newSession w client
  match serr with
  | some e => pure (some e)
  | none => do
    let r ← run w client validateCmd ""
    match r.err with
    | some e => pure (some ("配置验证失败: " ++ e ++ ", stderr: " ++ r.stderr))
    | none => pure none

/-- Source `restartService`: the error, if any (the code does not use its
`result` argument). -/
def restartService {ω κ : Type} (w : World ω κ) (client : κ) (target : DeploymentTarget)
    (_result : DeploymentResult) : Go (Dep ω κ) (Option String) := do
  let restartCmd :=
    if target.RestartCmd != "" then target.RestartCmd
    else if target.Type_ = "snmp-exporter" then "systemctl restart snmp-exporter"
    else if target.Type_ = "categraf" then "systemctl restart categraf"
    else if target.Type_ = "prometheus" then "systemctl restart prometheus"
    else "systemctl restart " ++ target.ServiceName
  let serr ← newSession w client
  match serr with
  | some e => pure (some e)
  | none => do
    let r ← run w client restartCmd ""
    match r.err with
    | some e => pure (some ("重启服务失败: " ++ e ++ ", stderr: " ++ r.stderr))
    | none => pure none

/-- Source `checkServiceStatus`: the error, if any, and the result with the
service information filled in so far. -/
def checkServiceStatus {ω κ : Type} (w : World ω κ) (client : κ) (target : DeploymentTarget)
    (result : DeploymentResult) : Go (Dep ω κ) (Option String × DeploymentResult) := do
  let serviceName := if target.ServiceName = "" then target.Type_ else target.ServiceName
  let statusCmd := "systemctl is-active " ++ serviceName
  let serr ← newSession w client
  match serr with
  | some e => pure (some e, result)
  | none => do
    let r ← run w client statusCmd ""
    let result : DeploymentResult :=
      if r.err.isNone then
        { result with ServiceInfo := { result.ServiceInfo with Status := strTrimSpace r.stdout } }
      else { result with ServiceInfo := { result.ServiceInfo with Status := "unknown" } }
    let pidCmd := "systemctl show -p MainPID " ++ serviceName
    let serr ← newSession w client
    match serr with
    | some e => pure (some e, result)
    | none => do
      let r ← run w client pidCmd ""
      let pid := strTrimSpace ⟨trimLeading "MainPID=".toList r.stdout.toList⟩
      let result : DeploymentResult :=
        if r.err.isNone && strContains r.stdout "MainPID=" && pid != "0" then
          { result with ServiceInfo := { result.ServiceInfo with PID := pid } }
        else result
      let versionCmd :=
        if target.Type_ = "snmp-exporter" then "snmp_exporter --version 2>&1 | head -1"
        else if target.Type_ = "categraf" then "categraf --version 2>&1 | head -1"
        else if target.Type_ = "prometheus" then "prometheus --version 2>&1 | head -1"
        else ""
      if versionCmd != "" then do
        let serr ← newSession w client
        match serr with
        | some e => pure (some e, result)
        | none => do
          let r ← run w client versionCmd ""
          if r.err.isNone then
            pure (none,
              { result with ServiceInfo := { result.ServiceInfo with Version := strTrimSpace r.stdout } })
          else pure (none, result)
      else pure (none, result)

/-- Step 2 of `deployToTarget`, the backup of the existing configuration: the
error `deployToTarget` returns, or the result record with the backup path. -/
def backupStep {ω κ : Type} (w : World ω κ) (config : DeploymentConfig)
    (target : DeploymentTarget) (client : κ) (result : DeploymentResult) :
    Go (Dep ω κ) (Except String DeploymentResult) :=
  if config.Backup then do
    let b ← backupExistingConfig w client target
    match b.2 with
    | some e => pure (Except.error ("备份配置失败: " ++ e))
    | none => pure (Except.ok { result with BackupPath := b.1 })
  else pure (Except.ok result)

/-- Steps 3 to 6 of `deployToTarget` (upload, validation, restart, status
check): the error returned, if any, and the result record as the steps left
it. -/
def deployAfterBackup {ω κ : Type} (w : World ω κ) (config : DeploymentConfig)
    (target : DeploymentTarget) (client : κ) (result : DeploymentResult) :
    Go (Dep ω κ) (Option String × DeploymentResult) := do
  let u ← uploadConfig w client target config.Content
  match u.2 with
  | some e => pure (some ("上传配置失败: " ++ e), result)
  | none => do
    let result := { result with ConfigPath := u.1 }
    let verr ← (if config.Validation then validateConfig w client target u.1 else pure none)
    match verr with
    | some e => pure (some ("配置验证失败: " ++ e), result)
    | none => do
      let rerr ← (if config.AutoRestart then restartService w client target result else pure none)
      match rerr with
      | some e => pure (some ("重启服务失败: " ++ e), result)
      | none => do
        let cs ← checkServiceStatus w client target result
        match cs.1 with
        | some e => pure (some ("检查服务状态失败: " ++ e), cs.2)
        | none => pure (none, cs.2)

/-- The body of `deployToTarget` once the SSH connection is made (steps 2 to
6): the error returned, if any, and the result record as the steps left it. -/
def deployWithClient {ω κ : Type} (w : World ω κ) (config : DeploymentConfig)
    (target : DeploymentTarget) (client : κ) (result : DeploymentResult) :
    Go (Dep ω κ) (Option String × DeploymentResult) := do
  let backedUp ← backupStep w config target client result
  match backedUp with
  | Except.error e => pure (some e, result)
  | Except.ok result => deployAfterBackup w config target client result

/-- Source `deployToTarget`: the error returned, if any, and the result record
behind the `result` pointer afterwards. The deferred `client.Close()` runs on
every return after the connection. -/
def deployToTarget {ω κ : Type} (w : World ω κ) (config : DeploymentConfig)
    (target : DeploymentTarget) (result : DeploymentResult) :
    Go (Dep ω κ) (Option String × DeploymentResult) := do
  let c ← createSSHClient w target
  match c with
  | Except.error e => pure (some ("SSH连接失败: " ++ e), result)
  | Except.ok client => do
    let r ← deployWithClient w config target client result
    onWorld (fun x => ((), w.close client x))
    pure r

/-- The body of the `for i, target := range config.Targets` loop of
`DeployConfig`: the value stored in `results[i]`. -/
def deployConfigBody {ω κ : Type} (w : World ω κ) (config : DeploymentConfig)
    (target : DeploymentTarget) : Go (Dep ω κ) DeploymentResult := do
  let start ← timeNow w
  let result : DeploymentResult := { TargetID := target.ID, StartTime := start }
  let r ← deployToTarget w config target result
  let result : DeploymentResult :=
    match r.1 with
    | some e => { r.2 with Success := false, Message := e }
    | none => { r.2 with Success := true, Message := "配置部署成功" }
  let finish ← timeNow w
  pure { result with EndTime := finish, Duration := w.durationString result.StartTime finish }

/-- The loop of `DeployConfig` over the targets still to do: the results it
stores, in target order. -/
def deployConfigLoop {ω κ : Type} (w : World ω κ) (config : DeploymentConfig) :
    List DeploymentTarget → Go (Dep ω κ) (List DeploymentResult)
  | [] => pure []
  | target :: rest => do
    let result ← deployConfigBody w config target
    let results ← deployConfigLoop w config rest
    pure (result :: results)

/-- Source `DeployConfig`: the results, or the error. -/
def DeployConfig {ω κ : Type} (w : World ω κ) (s : RealConfigDeploymentService)
    (config : DeploymentConfig) : Go (Dep ω κ) (Except String (List DeploymentResult)) := do
  let err ← ensureDirectories w s
  match err with
  | some e => pure (Except.error ("failed to create directories: " ++ e))
  | none => do
    let results ← deployConfigLoop w config config.Targets
    pure (Except.ok results)

/-- The body of `RollbackConfig` once the SSH connection is made. -/
def rollbackWithClient {ω κ : Type} (w : World ω κ) (target : DeploymentTarget) (client : κ)
    (backupPath : String) : Go (Dep ω κ) (Option String) := do
  let checkCmd := "test -f " ++ backupPath
  let serr ← newSession w client
  match serr with
  | some e => pure (some e)
  | none => do
    let r ← run w client checkCmd ""
    match r.err with
    | some _ => pure (some ("备份文件不存在: " ++ backupPath))
    | none => do
      let restoreCmd := "cp " ++ backupPath ++ " " ++ target.ConfigPath
      let serr ← newSession w client
      match serr with
      | some e => pure (some e)
      | none => do
        let r ← run w client restoreCmd ""
        match r.err with
        | some e => pure (some ("恢复配置失败: " ++ e))
        | none => do
          let rerr ← restartService w client target {}
          match rerr with
          | some e => pure (some ("重启服务失败: " ++ e))
          | none => pure none

/-- Source `RollbackConfig`: the error, if any. -/
def RollbackConfig {ω κ : Type} (w : World ω κ) (target : DeploymentTarget)
    (backupPath : String) : Go (Dep ω κ) (Option String) := do
  let c ← createSSHClient w target
  match c with
  | Except.error e => pure (some e)
  | Except.ok client => do
    let r ← rollbackWithClient w target client backupPath
    onWorld (fun x => ((), w.close client x))
    pure r

/-- A sample world: the remote hosts share one file system, given by the
content of each file. `test -f`, `cp` and `cat >` act on it, `promtool check
config` accepts a file exactly when it has a `scrape_configs` section,
`systemctl is-active` prints `active`, every other command succeeds and prints
nothing. Connections by password succeed; there are no local key files. -/
def sampleWorld : World (List (String × String)) String where
  mkdirAll := fun _ files => (none, files)
  readFile := fun name files => (Except.error ("open " ++ name ++ ": no such file or directory"), files)
  parsePrivateKey := fun _ => Except.error "ssh: no key found"
  dial := fun address _ _ files => (Except.ok address, files)
  close := fun _ files => files
  newSession := fun _ files => (none, files)
  run := fun _ cmd stdin files =>
    let l := cmd.toList
    let failed : RunResult := { err := some "Process exited with status 1" }
    if "test -f ".toList.isPrefixOf l then
      if (mapGet ⟨l.drop 8⟩ files).isSome then ({}, files) else (failed, files)
    else if "cp ".toList.isPrefixOf l then
      match splitOn ' ' (l.drop 3) with
      | [a, b] =>
        match mapGet ⟨a⟩ files with
        | some content => ({}, mapSet ⟨b⟩ content files)
        | none => (failed, files)
      | _ => (failed, files)
    else if "cat > ".toList.isPrefixOf l then ({}, mapSet ⟨l.drop 6⟩ stdin files)
    else if "promtool check config ".toList.isPrefixOf l then
      match mapGet ⟨l.drop 22⟩ files with
      | some content =>
        if strContains content "scrape_configs" then ({}, files)
        else ({ failed with stderr := "FAILED: no scrape_configs" }, files)
      | none => (failed, files)
    else if "systemctl is-active".toList.isPrefixOf l then ({ stdout := "active\n" }, files)
    else ({}, files)
  now := fun _ => 0
  formatTime := fun _ _ => "20240101_000000"
  durationString := fun _ _ => "0s"
  pathJoin := fun a b => a ++ "/" ++ b
  pathDir := fun path => ⟨joinWith '/' (splitOn '/' path.toList).dropLast⟩

/-- A Prometheus target of the sample world. -/
def sampleTarget : DeploymentTarget :=
  { ID := "t1", Host := "10.0.0.1", Port := 22, Username := "root", Password := "secret",
    Type_ := "prometheus", ServiceName := "prometheus",
    ConfigPath := "/etc/prometheus/prometheus.yml" }

/-- The sample world with the working configuration of the sample target in place. -/
def sampleStart : Dep (List (String × String)) String :=
  { world := [("/etc/prometheus/prometheus.yml", "scrape_configs: []")], issued := [] }

/-- The content of a file of a sample-world state. -/
def fileContent (d : Dep (List (String × String)) String) (path : String) : Option String :=
  mapGet path d.world

/-- The command lines issued from state `d` to state `d'`. -/
def commandsSince {ω κ : Type} (d d' : Dep ω κ) : List String :=
  (d'.issued.drop d.issued.length).map (fun i => i.cmd)

/-- The step code, whenever it returns without error, returns the text `p` and
has issued exactly the commands `cmds`, in this order. -/
def SucceedsWith {ω κ : Type} (p : String) (cmds : List (Issued κ))
    (x : Go (Dep ω κ) (String × Option String)) : Prop :=
  ∀ d a d', x d = Outcome.done a d' → a.2 = none → a.1 = p ∧ d'.issued = d.issued ++ cmds

/-- The command `validateConfig` runs, by the type of the target. -/
def validateCommand (target : DeploymentTarget) (configPath : String) : String :=
  if target.Type_ = "snmp-exporter" then "snmp_exporter --config.file=" ++ configPath ++ " --dry-run"
  else if target.Type_ = "categraf" then "categraf --config=" ++ configPath ++ " --test"
  else if target.Type_ = "prometheus" then "promtool check config " ++ configPath
  else "python3 -c \"import yaml; yaml.safe_load(open('" ++ configPath ++ "'))\""

/-- The command `restartService` runs for a target. -/
def restartCommand (target : DeploymentTarget) : String :=
  if target.RestartCmd != "" then target.RestartCmd
  else if target.Type_ = "snmp-exporter" then "systemctl restart snmp-exporter"
  else if target.Type_ = "categraf" then "systemctl restart categraf"
  else if target.Type_ = "prometheus" then "systemctl restart prometheus"
  else "systemctl restart " ++ target.ServiceName

/-- The state after the deferred `client.Close()`. -/
def closed {ω κ : Type} (w : World ω κ) (client : κ) (d : Dep ω κ) : Dep ω κ :=
  { d with world := w.close client d.world }

/-- The step code returns a result record whose field `field` has the value `v`. -/
def KeepsField {ω κ : Type} (field : DeploymentResult → String) (v : String)
    (x : Go (Dep ω κ) (Option String × DeploymentResult)) : Prop :=
  ∀ d a d', x d = Outcome.done a d' → field a.2 = v

/-- The client of the sample target. -/
def sampleClient : String := "10.0.0.1:22"

/-- A deployment of `content` to the sample target with backup and validation. -/
def sampleConfig (content : String) : DeploymentConfig :=
  { ID := "c1", Name := "prometheus.yml", Type_ := "prometheus", Content := content,
    Targets := [sampleTarget], Validation := true, Backup := true }

deriving instance DecidableEq for Except

/-- The sample world after the connection to the sample target is made. -/
def sampleConnected : Dep (List (String × String)) String :=
  (createSSHClient sampleWorld sampleTarget sampleStart).state

/-- The sample world after the backup step of a deployment of `content`. -/
def sampleBackedUp (content : String) : Dep (List (String × String)) String :=
  (backupStep sampleWorld (sampleConfig content) sampleTarget sampleClient {} sampleConnected).state

/-- The sample world after the upload of `content`. -/
def sampleUploaded (content : String) : Dep (List (String × String)) String :=
  (uploadConfig sampleWorld sampleClient sampleTarget content (sampleBackedUp content)).state

/-- The sample world after the validation of the uploaded `content`. -/
def sampleValidated (content : String) : Dep (List (String × String)) String :=
  (validateConfig sampleWorld sampleClient sampleTarget sampleTarget.ConfigPath
    (sampleUploaded content)).state

/-- What `DeployConfig` guarantees about its loop, run from state `start` to
state `final` with the results `results`: there is one result per target, and
the states between the targets form a chain in which target `i` is deployed by
one call of `deployToTarget` on a fresh result record, from the state the
target before it left (whether that one failed or not), and `results[i]`
carries the ID of target `i` and reports success exactly when that call
returned no error. -/
def TargetsProcessed {ω κ : Type} (w : World ω κ) (config : DeploymentConfig)
    (targets : List DeploymentTarget) (start : Dep ω κ) (results : List DeploymentResult)
    (final : Dep ω κ) : Prop :=
  results.length = targets.length ∧
  ∃ states : List (Dep ω κ), states.length = targets.length + 1 ∧
    states.head? = some start ∧ states.getLast? = some final ∧
    ∀ i target, targets.get? i = some target →
      ∃ r di di' err res,
        results.get? i = some r ∧ states.get? i = some di ∧ states.get? (i + 1) = some di' ∧
        deployToTarget w config target { TargetID := target.ID, StartTime := w.now di.world } di
          = Outcome.done (err, res) di' ∧
        r.TargetID = target.ID ∧ (r.Success = true ↔ err = none)

/-- A second target of the sample world, of a type without a dedicated validator. -/
def otherTarget : DeploymentTarget :=
  { ID := "t2", Host := "10.0.0.2", Port := 22, Username := "root", Password := "secret",
    Type_ := "node-exporter", ServiceName := "node-exporter",
    ConfigPath := "/etc/node-exporter/config.yml" }

end ConfigDeployment

namespace AlertDeployment

open ComponentVersion

/-!
## Alert deployment controller

Shallow embedding of `backend/controllers/alert_deployment_controller.go` (the
2.0.0 source backup). The methods of `HostService`, the SSH sessions and the
clock are outside the controller; they are given by a `Remote`. A Go map is the
list of its entries; the order in which a `range` statement visits a map is
left open by Go and is asked from the `Remote` at every loop. A value of type
`interface{}` is a string or something else. The JSON binding of the request
is done by the web framework: the handler is modelled on the bound request.
-/

/-- Source type `AlertRule`. -/
structure AlertRule where
  ID : String := ""
  Name : String := ""
  Description : String := ""
  Expr : String := ""
  For : String := ""
  Severity : String := ""
  Labels : List (String × String) := []
  Annotations : List (String × String) := []
  Category : String := ""
  TargetSystem : String := ""
  deriving DecidableEq

/-- Source type `AlertTarget`. -/
structure AlertTarget where
  ID : String := ""
  IP : String := ""
  Name : String := ""
  System : String := ""
  Port : Int := 0
  ConfigPath : String := ""
  ReloadEndpoint : String := ""
  Username : String := ""
  Password : String := ""
  PrivateKey : String := ""
  deriving DecidableEq

/-- A Go value of type `interface{}`, as far as the controller looks at it: a
string, or anything else (`nil` included). -/
inductive Value where
  | str (s : String)
  | other
  deriving DecidableEq

/-- An entry of `NotificationConfig.Receivers`. -/
structure Receiver where
  Name : String := ""
  /-- Source field `Type`. -/
  Type_ : String := ""
  Config : List (String × Value) := []
  deriving DecidableEq

/-- An entry of `NotificationConfig.Routes`. -/
structure Route where
  Match : List (String × String) := []
  Receiver : String := ""
  GroupWait : String := ""
  GroupInterval : String := ""
  RepeatInterval : String := ""
  deriving DecidableEq

/-- Source type `NotificationConfig`; `GlobalConfig` is `none` for a nil map. -/
structure NotificationConfig where
  Receivers : List Receiver := []
  Routes : List Route := []
  GlobalConfig : Option (List (String × Value)) := none
  deriving DecidableEq

/-- An entry of `AlertDeploymentResult.DeployedRules`. -/
structure DeployedRule where
  RuleName : String := ""
  Status : String := ""
  Error : String := ""
  deriving DecidableEq

/-- An entry of `AlertDeploymentResult.ConfigFiles`. -/
structure ConfigFile where
  Path : String := ""
  Status : String := ""
  Error : String := ""
  deriving DecidableEq

/-- Field `ReloadStatus` of `AlertDeploymentResult`. -/
structure ReloadStatus where
  Attempted : Bool := false
  Success : Bool := false
  Error : String := ""
  deriving DecidableEq

/-- An entry of `AlertDeploymentResult.ValidationResults`. -/
structure ValidationResult where
  Rule : String := ""
  Valid : Bool := false
  Error : String := ""
  deriving DecidableEq

/-- Source type `AlertDeploymentResult` (`Timestamp` in Unix seconds). -/
structure AlertDeploymentResult where
  TargetID : String := ""
  TargetIP : String := ""
  TargetSystem : String := ""
  Success : Bool := false
  DeployedRules : List DeployedRule := []
  ConfigFiles : List ConfigFile := []
  ReloadStatus : ReloadStatus := {}
  ValidationResults : List ValidationResult := []
  Message : String := ""
  Timestamp : Nat := 0
  deriving DecidableEq

/-- What the controller uses but does not define, on a world state `ω` with
SSH clients of type `κ`. -/
structure Remote (ω κ : Type) where
  /-- Method `hostService.CreateSSHClient(ip, port, username, password, privateKey)`. -/
  createSSHClient : String → Int → String → String → String → ω → Except String κ × ω
  /-- Go `client.Close()`. -/
  close : κ → ω → ω
  /-- Method `hostService.ExecuteSSHCommand(client, cmd)`: output and error, if any. -/
  executeSSHCommand : κ → String → ω → (String × Option String) × ω
  /-- Go `client.NewSession()`: its error, if any. -/
  newSession : κ → ω → Option String × ω
  /-- Go `session.Run(cmd)` with `session.Stdin` reading the given text: its error, if any. -/
  run : κ → String → String → ω → Option String × ω
  /-- Go `time.Now()` in Unix seconds. -/
  now : ω → Nat
  /-- The order in which one `range` statement visits a map with the given keys. -/
  rangeKeys : List String → ω → List String × ω

/-- A call into the world. -/
def call {ω α : Type} (f : ω → α × ω) : Go ω α :=
  fun s => let r := f s; Outcome.done r.1 r.2

/-- Go `for k, v := range m` over a map: the entries in the order of the visit. -/
def rangeMap {ω κ α : Type} (w : Remote ω κ) (m : List (String × α)) : Go ω (List (String × α)) := do
  let keys ← call (w.rangeKeys (m.map (fun e => e.1)))
  pure (keys.filterMap (fun k => (m.lookup k).map (fun v => (k, v))))

/-- Go map assignment `m[k] = v`. -/
def mapPut {α : Type} (k : String) (v : α) (m : List (String × α)) : List (String × α) :=
  if (m.lookup k).isSome then m.map (fun e => if e.1 = k then (k, v) else e) else m ++ [(k, v)]

/-- The grouping loop of `generatePrometheusRules`: the map `groups` after the
given rules. -/
def groupRules : List AlertRule → List (String × List AlertRule) → List (String × List AlertRule)
  | [], groups => groups
  | rule :: rest, groups =>
    let category := if rule.Category = "" then "general" else rule.Category
    groupRules rest (mapPut category (((groups.lookup category).getD []) ++ [rule]) groups)

/-- The text `generatePrometheusRules` appends for one rule. -/
def ruleText {ω κ : Type} (w : Remote ω κ) (config : String) (rule : AlertRule) : Go ω String := do
  let config := config ++ "      - alert: " ++ rule.Name ++ "\n"
  let config := config ++ "        expr: " ++ rule.Expr ++ "\n"
  let config := config ++ "        for: " ++ rule.For ++ "\n"
  let config := config ++ "        labels:\n"
  let config := config ++ "          severity: " ++ rule.Severity ++ "\n"
  let labels ← rangeMap w rule.Labels
  let config := labels.foldl (fun c e => c ++ "          " ++ e.1 ++ ": " ++ e.2 ++ "\n") config
  let config := config ++ "        annotations:\n"
  let config := config ++ "          summary: \"" ++ rule.Name ++ "\"\n"
  let config := config ++ "          description: \"" ++ rule.Description ++ "\"\n"
  let annotations ← rangeMap w rule.Annotations
  let config :=
    annotations.foldl (fun c e => c ++ "          " ++ e.1 ++ ": \"" ++ e.2 ++ "\"\n") config
  pure (config ++ "\n")

/-- The text `generatePrometheusRules` appends for one group. -/
def groupText {ω κ : Type} (w : Remote ω κ) (config : String)
    (group : String × List AlertRule) : Go ω String := do
  let config := config ++ "  - name: " ++ group.1 ++ "-alerts\n"
  let config := config ++ "    interval: 30s\n"
  let config := config ++ "    rules:\n"
  group.2.foldlM (ruleText w) config

/-- Source `generatePrometheusRules`. -/
def generatePrometheusRules {ω κ : Type} (w : Remote ω κ) (rules : List AlertRule) :
    Go ω String := do
  let groups := groupRules rules []
  let config := "groups:\n"
  let visited ← rangeMap w groups
  visited.foldlM (groupText w) config

/-- Source `generateVMAlertRules`. -/
def generateVMAlertRules {ω κ : Type} (w : Remote ω κ) (rules : List AlertRule) : Go ω String :=
  generatePrometheusRules w rules

/-- The `for key, value := range notificationConfig.GlobalConfig` loop of
`generateAlertmanagerConfig`; the type assertion `value.(string)` panics on a
value that is not a string. -/
def globalConfigText {ω : Type} (config : String) : List (String × Value) → Go ω String
  | [] => pure config
  | (key, Value.str value) :: rest =>
    globalConfigText (config ++ "  " ++ key ++ ": '" ++ value ++ "'\n") rest
  | (_, Value.other) :: _ =>
    fun s => Outcome.panicked "interface conversion: interface {} is not string" s

/-- Go `v, ok := m[key].(string)`. -/
def stringAt (m : List (String × Value)) (key : String) : Option String :=
  match m.lookup key with
  | some (Value.str s) => some s
  | _ => none

/-- The text `generateAlertmanagerConfig` appends for one route. -/
def routeText {ω κ : Type} (w : Remote ω κ) (config : String) (route : Route) : Go ω String := do
  let config := config ++ "    - match:\n"
  let entries ← rangeMap w route.Match
  let config := entries.foldl (fun c e => c ++ "        " ++ e.1 ++ ": " ++ e.2 ++ "\n") config
  pure (config ++ "      receiver: " ++ route.Receiver ++ "\n")

/-- The text `generateAlertmanagerConfig` appends for one receiver. -/
def receiverText (config : String) (receiver : Receiver) : String :=
  let config := config ++ "  - name: '" ++ receiver.Name ++ "'\n"
  if receiver.Type_ = "email" then
    let config := config ++ "    email_configs:\n"
    let config := match stringAt receiver.Config "to" with
      | some toAddr => config ++ "      - to: '" ++ toAddr ++ "'\n"
      | none => config
    match stringAt receiver.Config "subject" with
    | some subject => config ++ "        subject: '" ++ subject ++ "'\n"
    | none => config
  else if receiver.Type_ = "webhook" then
    let config := config ++ "    webhook_configs:\n"
    match stringAt receiver.Config "url" with
    | some url => config ++ "      - url: '" ++ url ++ "'\n"
    | none => config
  else if receiver.Type_ = "slack" then
    let config := config ++ "    slack_configs:\n"
    let config := match stringAt receiver.Config "api_url" with
      | some apiURL => config ++ "      - api_url: '" ++ apiURL ++ "'\n"
      | none => config
    match stringAt receiver.Config "channel" with
    | some channel => config ++ "        channel: '" ++ channel ++ "'\n"
    | none => config
  else config

/-- Source `generateAlertmanagerConfig`. -/
def generateAlertmanagerConfig {ω κ : Type} (w : Remote ω κ)
    (notificationConfig : NotificationConfig) : Go ω String := do
  let config := ""
  let config ←
    (match notificationConfig.GlobalConfig with
    | some globalConfig => do
      let config := config ++ "global:\n"
      let entries ← rangeMap w globalConfig
      let config ← globalConfigText config entries
      pure (config ++ "\n")
    | none => pure config)
  let config := config ++ "route:\n"
  let config := config ++ "  group_by: ['alertname', 'cluster', 'service']\n"
  let config := config ++ "  group_wait: 10s\n"
  let config := config ++ "  group_interval: 10s\n"
  let config := config ++ "  repeat_interval: 1h\n"
  let config := config ++ "  receiver: 'default'\n"
  let config ←
    (if notificationConfig.Routes.length > 0 then do
      let config := config ++ "  routes:\n"
      notificationConfig.Routes.foldlM (routeText w) config
    else pure config)
  let config := config ++ "\n"
  let config := config ++ "receivers:\n"
  pure (notificationConfig.Receivers.foldl receiverText config)

/-- Source `generateConfigsForTarget`: the map from file name to content. -/
def generateConfigsForTarget {ω κ : Type} (w : Remote ω κ) (rules : List AlertRule)
    (target : AlertTarget) (notificationConfig : Option NotificationConfig) :
    Go ω (List (String × String)) := do
  let configs : List (String × String) := []
  if target.System = "prometheus" then do
    let rulesText ← generatePrometheusRules w rules
    let configs := mapPut "alert_rules.yml" rulesText configs
    match notificationConfig with
    | some nc => do
      let text ← generateAlertmanagerConfig w nc
      pure (mapPut "alertmanager.yml" text configs)
    | none => pure configs
  else if target.System = "vmalert" then do
    let rulesText ← generateVMAlertRules w rules
    pure (mapPut "vmalert_rules.yml" rulesText configs)
  else if target.System = "alertmanager" then
    match notificationConfig with
    | some nc => do
      let text ← generateAlertmanagerConfig w nc
      pure (mapPut "alertmanager.yml" text configs)
    | none => pure configs
  else pure configs

/-- Source `validateConfig`. -/
def validateConfig (content _system : String) : Bool :=
  content.utf8ByteSize > 0 && !strContains content "invalid"

/-- Go `strings.LastIndex(s, "/")`, as the number of characters before the
last slash; `none` for the result -1. -/
def lastSlash (s : List Char) : Option Nat :=
  match s.reverse.dropWhile (fun c => c != '/') with
  | [] => none
  | _ :: before => some before.length

/-- The body of `uploadConfigFile` once the SSH connection is made. The slice
expression `remotePath[:strings.LastIndex(remotePath, "/")]` panics for a path
without a slash. -/
def uploadWithClient {ω κ : Type} (w : Remote ω κ) (client : κ) (remotePath content : String) :
    Go ω (Option String) :=
  match lastSlash remotePath.toList with
  | none => fun s => Outcome.panicked "slice bounds out of range [:-1]" s
  | some n => do
    let dirPath : String := ⟨remotePath.toList.take n⟩
    let _ ← call (w.executeSSHCommand client ("sudo mkdir -p " ++ dirPath))
    let serr ← call (w.newSession client)
    match serr with
    | some e => pure (some e)
    | none => call (w.run client ("sudo tee " ++ remotePath ++ " > /dev/null") content)

/-- Source `uploadConfigFile`: the error, if any. The deferred `client.Close()`
also runs when the body panics. -/
def uploadConfigFile {ω κ : Type} (w : Remote ω κ) (target : AlertTarget)
    (remotePath content : String) : Go ω (Option String) := do
  let c ← call (w.createSSHClient target.IP 22 target.Username target.Password target.PrivateKey)
  match c with
  | Except.error e => pure (some e)
  | Except.ok client => fun s =>
    match uploadWithClient w client remotePath content s with
    | Outcome.done a s' => Outcome.done a (w.close client s')
    | Outcome.panicked msg s' => Outcome.panicked msg (w.close client s')

/-- Source `reloadTargetConfig`. -/
def reloadTargetConfig (_target : AlertTarget) : Option String := none

/-- The validation loop of `deployToSingleTarget` over the visited entries of
`configs`: the result record and the flag `allValid` afterwards. -/
def validationLoop (target : AlertTarget) :
    List (String × String) → AlertDeploymentResult → Bool → AlertDeploymentResult × Bool
  | [], result, allValid => (result, allValid)
  | (filename, content) :: rest, result, allValid =>
    let valid := validateConfig content target.System
    let result := { result with
      ValidationResults := result.ValidationResults ++ [{ Rule := filename, Valid := valid }] }
    validationLoop target rest result (if !valid then false else allValid)

/-- The upload loop of `deployToSingleTarget` over the visited entries of
`configs`: the result record and the flag `allUploaded` afterwards. -/
def uploadLoop {ω κ : Type} (w : Remote ω κ) (target : AlertTarget) :
    List (String × String) → AlertDeploymentResult → Bool → Go ω (AlertDeploymentResult × Bool)
  | [], result, allUploaded => pure (result, allUploaded)
  | (filename, content) :: rest, result, allUploaded => do
    let configPath := target.ConfigPath ++ "/" ++ filename
    let err ← uploadConfigFile w target configPath content
    match err with
    | some e =>
      uploadLoop w target rest
        { result with ConfigFiles := result.ConfigFiles ++
            [{ Path := configPath, Status := "failed", Error := e }] }
        false
    | none =>
      uploadLoop w target rest
        { result with ConfigFiles := result.ConfigFiles ++
            [{ Path := configPath, Status := "uploaded" }] }
        allUploaded

/-- The loop of `deployToSingleTarget` that marks the deployed rules. -/
def markRules (target : AlertTarget) : List AlertRule → AlertDeploymentResult → AlertDeploymentResult
  | [], result => result
  | rule :: rest, result =>
    if rule.TargetSystem = target.System || rule.TargetSystem = "both" then
      markRules target rest { result with
        DeployedRules := result.DeployedRules ++ [{ RuleName := rule.Name, Status := "deployed" }] }
    else markRules target rest result

/-- The end of `deployToSingleTarget`, after the uploads: the reload, the
marking of the deployed rules, and the verdict. -/
def finishDeployment (rules : List AlertRule) (target : AlertTarget)
    (result : AlertDeploymentResult) (allUploaded : Bool) : AlertDeploymentResult :=
  let result : AlertDeploymentResult :=
    if target.ReloadEndpoint != "" then
      let result := { result with ReloadStatus := { result.ReloadStatus with Attempted := true } }
      match reloadTargetConfig target with
      | some e => { result with ReloadStatus := { result.ReloadStatus with Error := e } }
      | none => { result with ReloadStatus := { result.ReloadStatus with Success := true } }
    else result
  let result := markRules target rules result
  let result := { result with
    Success := allUploaded && (target.ReloadEndpoint == "" || result.ReloadStatus.Success) }
  if result.Success then { result with Message := "告警规则部署成功" }
  else { result with Message := "部分配置部署失败" }

/-- Source `deployToSingleTarget`. -/
def deployToSingleTarget {ω κ : Type} (w : Remote ω κ) (rules : List AlertRule)
    (target : AlertTarget) (notificationConfig : Option NotificationConfig) :
    Go ω AlertDeploymentResult := do
  let now ← call (fun s => (w.now s, s))
  let result : AlertDeploymentResult :=
    { TargetID := target.ID, TargetIP := target.IP, TargetSystem := target.System,
      Success := false, DeployedRules := [], ConfigFiles := [], ValidationResults := [],
      Timestamp := now }
  let configs ← generateConfigsForTarget w rules target notificationConfig
  let visited ← rangeMap w configs
  let validated := validationLoop target visited result true
  if !validated.2 then pure { validated.1 with Message := "配置验证失败" }
  else do
    let visited ← rangeMap w configs
    let uploaded ← uploadLoop w target visited validated.1 true
    pure (finishDeployment rules target uploaded.1 uploaded.2)

/-- The bound request of `DeployToMixedSystems`; `NotificationConfig` is `none`
for a nil pointer. -/
structure MixedRequest where
  Rules : List AlertRule := []
  PrometheusTargets : List AlertTarget := []
  VmalertTargets : List AlertTarget := []
  AlertmanagerTargets : List AlertTarget := []
  NotificationConfig : Option NotificationConfig := none
  deriving DecidableEq

/-- The entry `summary` of the response of `DeployToMixedSystems`. The
counters are Go `int`s that count list elements; they are natural numbers here. -/
structure Summary where
  totalTargets : Nat := 0
  successfulDeployments : Nat := 0
  failedDeployments : Nat := 0
  partialDeployments : Nat := 0
  deriving DecidableEq

/-- The response body of `DeployToMixedSystems` with status 200. -/
structure MixedResponse where
  prometheus : List AlertDeploymentResult := []
  vmalert : List AlertDeploymentResult := []
  alertmanager : List AlertDeploymentResult := []
  summary : Summary := {}
  deriving DecidableEq

/-- What a handler writes: status 400 with the binding error, or status 200
with the response body. -/
inductive Response where
  | badRequest (error : String)
  | ok (body : MixedResponse)
  deriving DecidableEq

/-- The `for _, target := range request.PrometheusTargets` loop of
`DeployToMixedSystems`: its results, in target order. -/
def deployPrometheusTargets {ω κ : Type} (w : Remote ω κ) (request : MixedRequest) :
    List AlertTarget → Go ω (List AlertDeploymentResult)
  | [] => pure []
  | target :: rest => do
    let prometheusRules := request.Rules.filter
      (fun rule => rule.TargetSystem = "prometheus" || rule.TargetSystem = "both")
    let result ← deployToSingleTarget w prometheusRules target request.NotificationConfig
    let results ← deployPrometheusTargets w request rest
    pure (result :: results)

/-- The `for _, target := range request.VmalertTargets` loop of
`DeployToMixedSystems`: its results, in target order. -/
def deployVmalertTargets {ω κ : Type} (w : Remote ω κ) (request : MixedRequest) :
    List AlertTarget → Go ω (List AlertDeploymentResult)
  | [] => pure []
  | target :: rest => do
    let vmalertRules := request.Rules.filter
      (fun rule => rule.TargetSystem = "vmalert" || rule.TargetSystem = "both")
    let result ← deployToSingleTarget w vmalertRules target none
    let results ← deployVmalertTargets w request rest
    pure (result :: results)

/-- The `for _, target := range request.AlertmanagerTargets` loop of
`DeployToMixedSystems`: its results, in target order. -/
def deployAlertmanagerTargets {ω κ : Type} (w : Remote ω κ) (notificationConfig : NotificationConfig) :
    List AlertTarget → Go ω (List AlertDeploymentResult)
  | [] => pure []
  | target :: rest => do
    let result ← deployToSingleTarget w [] target (some notificationConfig)
    let results ← deployAlertmanagerTargets w notificationConfig rest
    pure (result :: results)

/-- The `for _, configFile := range result.ConfigFiles` loop of the statistics
of `DeployToMixedSystems`: the flags `hasSuccess` and `hasFailed` afterwards. -/
def fileFlags : List ConfigFile → Bool → Bool → Bool × Bool
  | [], hasSuccess, hasFailed => (hasSuccess, hasFailed)
  | configFile :: rest, hasSuccess, hasFailed =>
    if configFile.Status = "uploaded" then fileFlags rest true hasFailed
    else fileFlags rest hasSuccess true

/-- The `for _, result := range allResults` loop of the statistics of
`DeployToMixedSystems`: the three counters afterwards. -/
def countDeployments : List AlertDeploymentResult → Nat → Nat → Nat → Nat × Nat × Nat
  | [], successfulDeployments, failedDeployments, partialDeployments =>
    (successfulDeployments, failedDeployments, partialDeployments)
  | result :: rest, successfulDeployments, failedDeployments, partialDeployments =>
    if result.Success then
      countDeployments rest (successfulDeployments + 1) failedDeployments partialDeployments
    else
      let flags := fileFlags result.ConfigFiles false false
      if flags.1 && flags.2 then
        countDeployments rest successfulDeployments failedDeployments (partialDeployments + 1)
      else
        countDeployments rest successfulDeployments (failedDeployments + 1) partialDeployments

/-- Source `DeployToMixedSystems`, on the outcome of `ctx.ShouldBindJSON`. -/
def DeployToMixedSystems {ω κ : Type} (w : Remote ω κ) (bound : Except String MixedRequest) :
    Go ω Response :=
  match bound with
  | Except.error e => pure (Response.badRequest e)
  | Except.ok request => do
    let prometheusResults ←
      (if request.PrometheusTargets.length > 0 then
        deployPrometheusTargets w request request.PrometheusTargets
      else pure [])
    let vmalertResults ←
      (if request.VmalertTargets.length > 0 then
        deployVmalertTargets w request request.VmalertTargets
      else pure [])
    let alertmanagerResults ←
      (match request.NotificationConfig with
      | some nc =>
        if request.AlertmanagerTargets.length > 0 then
          deployAlertmanagerTargets w nc request.AlertmanagerTargets
        else pure []
      | none => pure [])
    let allResults := prometheusResults ++ vmalertResults ++ alertmanagerResults
    let totalTargets := allResults.length
    let counters := countDeployments allResults 0 0 0
    pure (Response.ok
      { prometheus := prometheusResults, vmalert := vmalertResults,
        alertmanager := alertmanagerResults,
        summary := { totalTargets := totalTargets, successfulDeployments := counters.1,
                     failedDeployments := counters.2.1, partialDeployments := counters.2.2 } })

/-- Whether some config file of the result was uploaded and some was not. -/
def partlyUploaded (result : AlertDeploymentResult) : Bool :=
  result.ConfigFiles.any (fun f => f.Status == "uploaded") &&
  result.ConfigFiles.any (fun f => f.Status != "uploaded")

/-- The results of a response, in the order of `allResults`. -/
def MixedResponse.allResults (body : MixedResponse) : List AlertDeploymentResult :=
  body.prometheus ++ body.vmalert ++ body.alertmanager

/-- A result record as `deployToSingleTarget` builds it: when it reports
success, every config file it lists was uploaded. -/
def Consistent (result : AlertDeploymentResult) : Prop :=
  result.Success = true → ∀ f ∈ result.ConfigFiles, f.Status = "uploaded"

/-- The code, whenever it returns, returns a result with property `P`. -/
def Yields {ω α : Type} (P : α → Prop) (x : Go ω α) : Prop :=
  ∀ s a s', x s = Outcome.done a s' → P a

/-- Every value of the `GlobalConfig` map of the notification configuration,
if there is one, is a string. -/
def StringValued (notificationConfig : Option NotificationConfig) : Prop :=
  ∀ nc g, notificationConfig = some nc → nc.GlobalConfig = some g →
    ∀ e ∈ g, ∃ s, e.2 = Value.str s

/-- A sample world: every connection and every command succeeds, except that
writing a file named `alertmanager.yml` fails; maps are visited in the order of
their entries. -/
def sampleRemote : Remote Unit String where
  createSSHClient := fun ip _ _ _ _ s => (Except.ok ip, s)
  close := fun _ s => s
  executeSSHCommand := fun _ _ s => (("", none), s)
  newSession := fun _ s => (none, s)
  run := fun _ cmd _ s =>
    if strContains cmd "alertmanager.yml" then (some "Process exited with status 1", s)
    else (none, s)
  now := fun _ => 0
  rangeKeys := fun keys s => (keys, s)

/-- A request with one rule for both systems, a Prometheus target, a VMAlert
target and a notification configuration. -/
def sampleRequest : MixedRequest :=
  { Rules := [{ ID := "host-down", Name := "Host Down", Expr := "up == 0", For := "1m",
                Severity := "critical", Category := "system", TargetSystem := "both" }],
    PrometheusTargets := [{ ID := "p1", IP := "10.0.0.1", System := "prometheus",
                            ConfigPath := "/etc/prometheus/rules" }],
    VmalertTargets := [{ ID := "v1", IP := "10.0.0.2", System := "vmalert",
                         ConfigPath := "/etc/vmalert/rules" }],
    NotificationConfig := some { Receivers := [{ Name := "default", Type_ := "webhook",
                                                 Config := [("url", Value.str "http://hook")] }] } }

end AlertDeployment

namespace AlertRules

open ComponentVersion

/-!
## Alert rules service: template rendering

Shallow embedding of `renderTemplate` of `backend/services/alert_rules_service.go`.
The map `variables` is `none` for the nil map and otherwise the list of its
entries in the order in which the `range` statement visits them (Go leaves the
order open; nothing is assumed about it). The values have the type
`interface{}`; their formatting by `%v` is the parameter `sprint`.
-/

/-- Worker of `replaceAll`: `skip` characters of an occurrence just replaced
are still to be passed. -/
def replaceAllAux (old new : List Char) : Nat → List Char → List Char
  | _, [] => if old.isEmpty then new else []
  | skip + 1, _ :: cs => replaceAllAux old new skip cs
  | 0, c :: cs =>
    if old.isEmpty then new ++ c :: replaceAllAux old new 0 cs
    else if old.isPrefixOf (c :: cs) then new ++ replaceAllAux old new (old.length - 1) cs
    else c :: replaceAllAux old new 0 cs

/-- Go `strings.ReplaceAll(s, old, new)`: the non-overlapping occurrences of
`old`, found from the left, are replaced by `new` (an empty `old` matches
before every character and at the end). -/
def replaceAll (s old new : String) : String :=
  String.mk (replaceAllAux old.toList new.toList 0 s.toList)

/-- The text `fmt.Sprintf("{{.%s}}", key)`. -/
def placeholder (key : String) : String := "\x7b\x7b." ++ key ++ "\x7d\x7d"

/-- Source `renderTemplate`: the rendered text and the error; `vars` is the
parameter `variables`. -/
def renderTemplate {α : Type} (sprint : α → String) (template : String)
    (vars : Option (List (String × α))) : String × Option String :=
  match vars with
  | none => (template, none)
  | some entries =>
    if entries.length = 0 then (template, none)
    else
      let result := entries.foldl
        (fun result kv => replaceAll result (placeholder kv.1) (sprint kv.2)) template
      if strContains result "\x7b\x7b." then ("", some "模板中存在未定义的变量")
      else (result, none)

/-- A text without brace characters. -/
def BraceFree (s : String) : Prop := '\x7b' ∉ s.toList ∧ '\x7d' ∉ s.toList

instance (s : String) : Decidable (BraceFree s) := by unfold BraceFree; exact inferInstance

end AlertRules

namespace PromQLValidator

open ComponentVersion

/-!
## PromQL validator

Shallow embedding of `backend/utils/promql_validator.go`. An `error` is its
message (`none` is `nil`). The regular expressions of the file are character
classes and fixed words, so each is modelled by the scan over `List Char` that
finds the same leftmost, non-overlapping matches.
-/

/-- Table `pairs` of `checkParentheses`: the opening bracket of a closing one
(the zero rune for a rune that is not in the map). -/
def pairs (char : Char) : Char :=
  if char = ')' then '('
  else if char = ']' then '['
  else if char = '\x7d' then '\x7b'
  else '\x00'

/-- The `for _, char := range query` loop of `checkParentheses` followed by
the final test. The slice `stack` is held with its last element first. -/
def checkParenthesesLoop : List Char → List Char → Option String
  | stack, [] => if stack.length > 0 then some "括号不匹配: 缺少闭合括号" else none
  | stack, char :: rest =>
    if char = '(' ∨ char = '[' ∨ char = '\x7b' then checkParenthesesLoop (char :: stack) rest
    else if char = ')' ∨ char = ']' ∨ char = '\x7d' then
      match stack with
      | [] => some ("括号不匹配: 多余的 " ++ String.singleton char)
      | top :: below =>
        if top ≠ pairs char then
          some ("括号不匹配: " ++ String.singleton (pairs char) ++ " 与 " ++
            String.singleton char ++ " 不匹配")
        else checkParenthesesLoop below rest
    else checkParenthesesLoop stack rest

/-- Source `checkParentheses`. -/
def checkParentheses (query : String) : Option String :=
  checkParenthesesLoop [] query.toList

/-- Regexp class `\w`: ASCII letters, digits and the underscore. -/
def isWordChar (c : Char) : Bool :=
  ('0' ≤ c && c ≤ '9') || ('A' ≤ c && c ≤ 'Z') || ('a' ≤ c && c ≤ 'z') || c == '_'

/-- The characters of the class of `invalidChars` in `checkBasicSyntax`, which
is negated: `\w`, `\s` and the listed punctuation, up to the escaped back quote
that stands last in the class. -/
def isAllowedChar (c : Char) : Bool :=
  isWordChar c || isReSpace c ||
  "()[]\x7b\x7d+-*/%=!<>&|.,:;\x22\x27_@#$^~\x60".toList.contains c

/-- Source `checkBasicSyntax`. -/
def checkBasicSyntax (query : String) : Option String :=
  if query.toList.any (fun c => !isAllowedChar c) then some "包含非法字符"
  else
    let trimmed := trimSpace query.toList
    if "+".toList.isPrefixOf trimmed || "*".toList.isPrefixOf trimmed ||
        "/".toList.isPrefixOf trimmed || "%".toList.isPrefixOf trimmed then
      some "查询不能以二元操作符开始"
    else if "+".toList.isSuffixOf trimmed || "-".toList.isSuffixOf trimmed ||
        "*".toList.isSuffixOf trimmed || "/".toList.isSuffixOf trimmed ||
        "%".toList.isSuffixOf trimmed || "=".toList.isSuffixOf trimmed ||
        "!=".toList.isSuffixOf trimmed || "<".toList.isSuffixOf trimmed ||
        ">".toList.isSuffixOf trimmed || "<=".toList.isSuffixOf trimmed ||
        ">=".toList.isSuffixOf trimmed then
      some "查询不能以操作符结束"
    else none

/-- The list `functions` of `checkFunctions`. -/
def functions : List String :=
  ["abs", "absent", "ceil", "changes", "clamp_max", "clamp_min",
   "day_of_month", "day_of_week", "days_in_month", "delta", "deriv",
   "exp", "floor", "histogram_quantile", "holt_winters", "hour",
   "idelta", "increase", "irate", "label_join", "label_replace",
   "ln", "log2", "log10", "minute", "month", "predict_linear",
   "rate", "resets", "round", "scalar", "sort", "sort_desc",
   "sqrt", "time", "timestamp", "vector", "year", "avg_over_time",
   "min_over_time", "max_over_time", "sum_over_time", "count_over_time",
   "quantile_over_time", "stddev_over_time", "stdvar_over_time",
   "avg", "min", "max", "sum", "count", "quantile", "stddev", "stdvar",
   "topk", "bottomk", "count_values", "group_left", "group_right"]

/-- Group 1 of every match of `(\w+)\s*\(`, as `FindAllStringSubmatch` lists
them. A match starts at the first character of a maximal run of word
characters, takes the whole run and the white space after it, and needs `(`
next; a run that is not followed so gives no match at any of its positions.
`word` is the run being read (reversed), `blank` tells that white space has
been seen after it. -/
def funcNamesAux : List Char → Bool → List Char → List (List Char)
  | _, _, [] => []
  | word, blank, c :: rest =>
    if isWordChar c then
      if blank then funcNamesAux [c] false rest else funcNamesAux (c :: word) false rest
    else if isReSpace c then
      if word.isEmpty then funcNamesAux [] false rest else funcNamesAux word true rest
    else if c = '(' then
      if word.isEmpty then funcNamesAux [] false rest
      else word.reverse :: funcNamesAux [] false rest
    else funcNamesAux [] false rest

/-- The pattern `^[a-zA-Z_:][a-zA-Z0-9_:]*$` of `checkFunctions`. -/
def isMetricName (name : List Char) : Bool :=
  match name with
  | [] => false
  | c :: cs =>
    (c.isAlpha || c == '_' || c == ':') && cs.all (fun d => d.isAlphanum || d == '_' || d == ':')

/-- The `for _, match := range matches` loop of `checkFunctions`. -/
def checkFunctionsLoop : List (List Char) → Option String
  | [] => none
  | funcName :: rest =>
    let isValidFunc := functions.contains (String.mk funcName)
    if !isValidFunc && !isMetricName funcName then
      some ("未知函数或无效指标名称: " ++ String.mk funcName)
    else checkFunctionsLoop rest

/-- Source `checkFunctions`. -/
def checkFunctions (query : String) : Option String :=
  checkFunctionsLoop (funcNamesAux [] false query.toList)

/-- The class `[\+\-\*\/\%\=\!\<\>]` of `consecutiveOps`. -/
def isOpClass (c : Char) : Bool := "+-*/%=!<>".toList.contains c

/-- The pattern `[\+\-\*\/\%\=\!\<\>]{3,}` matches somewhere: three
characters of the class in a row. -/
def hasConsecutiveOps : List Char → Bool
  | a :: b :: c :: rest =>
    (isOpClass a && isOpClass b && isOpClass c) || hasConsecutiveOps (b :: c :: rest)
  | _ => false

/-- The matches of `(==|!=|<=|>=|<|>)` that `FindAllString` lists: at each
position the first alternative that fits, then on after the match. The
argument `skip` counts characters of the last match still to pass. -/
def comparisonMatches : Nat → List Char → List (List Char)
  | _, [] => []
  | skip + 1, _ :: rest => comparisonMatches skip rest
  | 0, c :: rest =>
    if "==".toList.isPrefixOf (c :: rest) then "==".toList :: comparisonMatches 1 rest
    else if "!=".toList.isPrefixOf (c :: rest) then "!=".toList :: comparisonMatches 1 rest
    else if "<=".toList.isPrefixOf (c :: rest) then "<=".toList :: comparisonMatches 1 rest
    else if ">=".toList.isPrefixOf (c :: rest) then ">=".toList :: comparisonMatches 1 rest
    else if c = '<' then "<".toList :: comparisonMatches 0 rest
    else if c = '>' then ">".toList :: comparisonMatches 0 rest
    else comparisonMatches 0 rest

/-- The bytes of a Go string. -/
def utf8Bytes (s : List Char) : List Nat :=
  s.flatMap (fun c => (String.utf8EncodeChar c).map (fun b => b.toNat))

/-- Go `strings.Index` on bytes: the index of the first occurrence (`none` for -1). -/
def indexBytes (sub : List Nat) : List Nat → Option Nat
  | [] => if sub.isEmpty then some 0 else none
  | b :: bs =>
    if sub.isPrefixOf (b :: bs) then some 0 else (indexBytes sub bs).map (fun i => i + 1)

/-- Source `isValidOperatorContext`, on a byte. -/
def isValidOperatorContext (char : Nat) : Bool :=
  ('a'.toNat ≤ char && char ≤ 'z'.toNat) ||
  ('A'.toNat ≤ char && char ≤ 'Z'.toNat) ||
  ('0'.toNat ≤ char && char ≤ '9'.toNat) ||
  char == '_'.toNat || char == ')'.toNat || char == ']'.toNat || char == '\x7d'.toNat ||
  char == '('.toNat || char == '['.toNat || char == '\x7b'.toNat || char == ' '.toNat

/-- The `for _, op := range matches` loop of `checkOperators`; `query` is the
query as bytes. -/
def checkOperatorsLoop (query : List Nat) : List (List Char) → Option String
  | [] => none
  | op :: rest =>
    match indexBytes (utf8Bytes op) query with
    | none => checkOperatorsLoop query rest
    | some opIndex =>
      if opIndex > 0 && opIndex + (utf8Bytes op).length < query.length then
        let before := query.getD (opIndex - 1) 0
        let after := query.getD (opIndex + (utf8Bytes op).length) 0
        if !isValidOperatorContext before || !isValidOperatorContext after then
          some ("操作符 " ++ String.mk op ++ " 使用不当")
        else checkOperatorsLoop query rest
      else checkOperatorsLoop query rest

/-- Source `checkOperators`. -/
def checkOperators (query : String) : Option String :=
  if hasConsecutiveOps query.toList then some "存在连续的操作符"
  else checkOperatorsLoop (utf8Bytes query.toList) (comparisonMatches 0 query.toList)

/-- Source `ValidatePromQLSyntax`. -/
def ValidatePromQLSyntax (query : String) : Option String :=
  if trimSpace query.toList = [] then some "查询表达式不能为空"
  else
    match checkBasicSyntax query with
    | some err => some err
    | none =>
      match checkParentheses query with
      | some err => some err
      | none =>
        match checkFunctions query with
        | some err => some err
        | none =>
          match checkOperators query with
          | some err => some err
          | none => none

/-! ### Specification vocabulary -/

/-- The six bracket characters. -/
def isBracket (c : Char) : Bool := "()[]\x7b\x7d".toList.contains c

/-- The sequence of bracket characters occurring in a query. -/
def brackets (query : String) : List Char := query.toList.filter isBracket

/-- The three pairs of an opening bracket and its closing bracket. -/
def bracketPairs : List (Char × Char) := [('(', ')'), ('[', ']'), ('\x7b', '\x7d')]

/-- Spec: a well-nested sequence of brackets is empty, or a well-nested
sequence put between an opening bracket and the closing bracket of its kind,
or two well-nested sequences one after the other. -/
inductive WellNested : List Char → Prop
  | empty : WellNested []
  | wrap (o c : Char) (w : List Char) : (o, c) ∈ bracketPairs → WellNested w →
      WellNested (o :: w ++ [c])
  | append (u v : List Char) : WellNested u → WellNested v → WellNested (u ++ v)

/-- The operator characters named by the specification: `+ - * / % = < >`. -/
def operatorChars : List Char := "+-*/%=<>".toList

end PromQLValidator

namespace ConfigValidation

open ComponentVersion

/-!
## Config validation controller

Shallow embedding of the private validators of
`backend/controllers/config_validation_controller.go` (release 2.0.0). The
handlers around them bind the JSON request and send the result; they are not
modelled. Lines are `List Char`; a length difference or an index comparison of
the source that is made in bytes is made here in characters where the bytes
concerned are one-byte characters (spaces, a colon).
-/

/-- Source type `ValidationResult` (its field `Details` is never assigned). -/
structure ValidationResult where
  Valid : Bool
  Errors : List String
  Warnings : List String
  Suggestions : List String
  deriving DecidableEq

/-- The initial value `ValidationResult\x7bValid: true, ...\x7d` of every validator. -/
def emptyResult : ValidationResult :=
  { Valid := true, Errors := [], Warnings := [], Suggestions := [] }

/-- Go `string(rune(n))`: the text made of the one character with code point
`n`, the replacement character for a number that is not a code point. -/
def runeString (n : Nat) : String :=
  if n.isValidChar then String.singleton (Char.ofNat n) else "\uFFFD"

/-- Go `strings.TrimLeft(s, " ")`. -/
def trimLeftSpaces (s : List Char) : List Char := s.dropWhile (fun c => c == ' ')

/-- Go `strings.Trim(s, cutset)`. -/
def trimCutset (cutset s : List Char) : List Char :=
  ((s.dropWhile cutset.contains).reverse.dropWhile cutset.contains).reverse

/-- The text after the first occurrence of the character `sep` (empty when
there is none): `s[strings.Index(s, sep)+1:]`. -/
def afterFirst (sep : Char) (s : List Char) : List Char :=
  (s.dropWhile (fun c => c != sep)).drop 1

/-- The text before the first occurrence of the character `sep`. -/
def beforeFirst (sep : Char) (s : List Char) : List Char :=
  s.takeWhile (fun c => c != sep)

/-- Go `strings.SplitN(s, sep, 2)` for a one-character separator. -/
def splitN2 (sep : Char) (s : List Char) : List (List Char) :=
  if s.contains sep then [beforeFirst sep s, afterFirst sep s] else [s]

/-- The body of the loop of `validateYAMLSyntax` for line `i` (from 0). -/
def yamlLine (i : Nat) (line : List Char) (result : ValidationResult) : ValidationResult :=
  if trimSpace line = [] || "#".toList.isPrefixOf (trimSpace line) then result
  else
    let indent := line.length - (trimLeftSpaces line).length
    let result :=
      if indent % 2 != 0 then
        { result with
          Valid := false
          Errors := result.Errors ++ ["第 " ++ runeString (i + 1) ++ " 行: 缩进应为偶数空格"] }
      else result
    if containsSub ":".toList line && !containsSub "://".toList line then
      let afterColon := afterFirst ':' line
      if afterColon.length > 0 then
        if (trimLeftSpaces afterColon).length > 0 && !" ".toList.isPrefixOf afterColon then
          { result with
            Warnings := result.Warnings ++ ["第 " ++ runeString (i + 1) ++ " 行: 冒号后建议添加空格"] }
        else result
      else result
    else result

/-- The loop `for i, line := range lines` of `validateYAMLSyntax`, from index `i`. -/
def validateYAMLLoop : Nat → List (List Char) → ValidationResult → ValidationResult
  | _, [], result => result
  | i, line :: rest, result => validateYAMLLoop (i + 1) rest (yamlLine i line result)

/-- Source `validateYAMLSyntax`. -/
def validateYAMLSyntax (yaml : String) : ValidationResult :=
  validateYAMLLoop 0 (splitOn '\n' yaml.toList) emptyResult

/-- The body of the loop of `validateTOMLSyntax` for line `i` (from 0). -/
def tomlLine (i : Nat) (line : List Char) (result : ValidationResult) : ValidationResult :=
  let line := trimSpace line
  if line = [] || "#".toList.isPrefixOf line then result
  else if "[".toList.isPrefixOf line && "]".toList.isSuffixOf line then result
  else if containsSub "=".toList line then
    let parts := splitN2 '=' line
    if parts.length != 2 then
      { result with
        Valid := false
        Errors := result.Errors ++ ["第 " ++ runeString (i + 1) ++ " 行: 键值对格式错误"] }
    else
      let key := trimSpace (parts.getD 0 [])
      let value := trimSpace (parts.getD 1 [])
      let result :=
        if key = [] then
          { result with
            Valid := false
            Errors := result.Errors ++ ["第 " ++ runeString (i + 1) ++ " 行: 缺少键名"] }
        else result
      if value = [] then
        { result with
          Valid := false
          Errors := result.Errors ++ ["第 " ++ runeString (i + 1) ++ " 行: 缺少值"] }
      else result
  else result

/-- The loop `for i, line := range lines` of `validateTOMLSyntax`, from index `i`. -/
def validateTOMLLoop : Nat → List (List Char) → ValidationResult → ValidationResult
  | _, [], result => result
  | i, line :: rest, result => validateTOMLLoop (i + 1) rest (tomlLine i line result)

/-- Source `validateTOMLSyntax`. -/
def validateTOMLSyntax (toml : String) : ValidationResult :=
  validateTOMLLoop 0 (splitOn '\n' toml.toList) emptyResult

/-- Source `validatePromQL`. -/
def validatePromQL (expr : String) : ValidationResult :=
  let result := emptyResult
  if trimSpace expr.toList = [] then
    { result with Valid := false, Errors := result.Errors ++ ["PromQL 表达式不能为空"] }
  else
    let openBrackets := expr.toList.count '('
    let closeBrackets := expr.toList.count ')'
    let result :=
      if openBrackets != closeBrackets then
        { result with Valid := false, Errors := result.Errors ++ ["括号不匹配"] }
      else result
    let openSquareBrackets := expr.toList.count '['
    let closeSquareBrackets := expr.toList.count ']'
    let result :=
      if openSquareBrackets != closeSquareBrackets then
        { result with Valid := false, Errors := result.Errors ++ ["方括号不匹配"] }
      else result
    let openCurlyBrackets := expr.toList.count '\x7b'
    let closeCurlyBrackets := expr.toList.count '\x7d'
    let result :=
      if openCurlyBrackets != closeCurlyBrackets then
        { result with Valid := false, Errors := result.Errors ++ ["花括号不匹配"] }
      else result
    let result :=
      if strContains expr "rate(" && strContains expr "[1m]" then
        { result with Suggestions := result.Suggestions ++
            ["使用 1m 的时间窗口可能会有噪音，建议使用 5m 或更长"] }
      else result
    if strContains expr "increase(" && !strContains expr "rate(" then
      { result with Suggestions := result.Suggestions ++
          ["通常建议使用 rate() 而不是 increase() 来计算速率"] }
    else result

/-- The loop over the lines of `validatePrometheusConfig` that looks for a
`scrape_interval` of `1s`. -/
def scrapeIntervalLoop : List (List Char) → ValidationResult → ValidationResult
  | [], result => result
  | line :: rest, result =>
    scrapeIntervalLoop rest
      (if containsSub "scrape_interval:".toList line && containsSub "1s".toList line then
        { result with Suggestions := result.Suggestions ++
            ["建议 scrape_interval 不要小于 15s，以避免性能问题"] }
      else result)

/-- Source `validatePrometheusConfig`. -/
def validatePrometheusConfig (config : String) (_strictMode : Bool) : ValidationResult :=
  let result := emptyResult
  let yamlResult := validateYAMLSyntax config
  if !yamlResult.Valid then
    { result with Valid := false, Errors := result.Errors ++ yamlResult.Errors }
  else
    let result :=
      if !strContains config "scrape_configs:" then
        { result with Valid := false, Errors := result.Errors ++ ["缺少 scrape_configs 配置"] }
      else result
    let result :=
      if !strContains config "global:" then
        { result with Warnings := result.Warnings ++ ["建议配置 global 部分"] }
      else result
    let result :=
      if strContains config "scrape_interval:" then
        scrapeIntervalLoop (splitOn '\n' config.toList) result
      else result
    if !strContains config "external_labels:" then
      { result with Suggestions := result.Suggestions ++
          ["建议配置 external_labels 用于多集群识别"] }
    else result

/-- Source `validateAlertmanagerConfig`. -/
def validateAlertmanagerConfig (config : String) : ValidationResult :=
  let result := emptyResult
  let yamlResult := validateYAMLSyntax config
  if !yamlResult.Valid then
    { result with Valid := false, Errors := result.Errors ++ yamlResult.Errors }
  else
    let result :=
      if !strContains config "route:" then
        { result with Valid := false, Errors := result.Errors ++ ["缺少 route 配置"] }
      else result
    let result :=
      if !strContains config "receivers:" then
        { result with Valid := false, Errors := result.Errors ++ ["缺少 receivers 配置"] }
      else result
    if strContains config "receivers:" && !strContains config "email_configs:" &&
        !strContains config "webhook_configs:" && !strContains config "slack_configs:" then
      { result with Warnings := result.Warnings ++ ["没有配置任何通知方式"] }
    else result

/-- Source `validateSNMPExporterConfig`. -/
def validateSNMPExporterConfig (config : String) : ValidationResult :=
  let result := emptyResult
  let yamlResult := validateYAMLSyntax config
  if !yamlResult.Valid then
    { result with Valid := false, Errors := result.Errors ++ yamlResult.Errors }
  else
    let result :=
      if !strContains config "modules:" then
        { result with Valid := false, Errors := result.Errors ++ ["缺少 modules 配置"] }
      else result
    if strContains config "modules:" && !strContains config "walk:" then
      { result with Warnings := result.Warnings ++ ["建议至少配置一个 walk OID"] }
    else result

/-- Source `validateCategrafConfig`. -/
def validateCategrafConfig (config : String) : ValidationResult :=
  let result := emptyResult
  let tomlResult := validateTOMLSyntax config
  if !tomlResult.Valid then
    { result with Valid := false, Errors := result.Errors ++ tomlResult.Errors }
  else
    let result :=
      if !strContains config "[global]" then
        { result with Warnings := result.Warnings ++ ["建议配置 [global] 部分"] }
      else result
    let result :=
      if !strContains config "[[writers]]" then
        { result with Valid := false, Errors := result.Errors ++ ["至少需要配置一个 writer"] }
      else result
    let hasInputs := strContains config "[[inputs."
    if !hasInputs then
      { result with Warnings := result.Warnings ++ ["建议至少配置一个输入插件"] }
    else result

/-- The body of the rule loop of `validateVMAlertConfig` for line `i` (from
0); `checkPromQL` is the parameter `validatePromQL`. -/
def vmalertLine (checkPromQL : Bool) (i : Nat) (line : List Char) (result : ValidationResult) :
    ValidationResult :=
  if containsSub "expr:".toList line && checkPromQL then
    let expr := trimSpace (trimLeading "expr:".toList line)
    let expr := trimCutset "\x22\x27".toList expr
    let promqlResult := validatePromQL (String.mk expr)
    if !promqlResult.Valid then
      { result with Errors := result.Errors ++
          ["第 " ++ runeString (i + 1) ++ " 行 PromQL 表达式错误: " ++
            ", ".intercalate promqlResult.Errors] }
    else result
  else result

/-- The loop `for i, line := range lines` of `validateVMAlertConfig`, from index `i`. -/
def vmalertLoop (checkPromQL : Bool) : Nat → List (List Char) → ValidationResult → ValidationResult
  | _, [], result => result
  | i, line :: rest, result =>
    vmalertLoop checkPromQL (i + 1) rest (vmalertLine checkPromQL i line result)

/-- Source `validateVMAlertConfig`; `checkPromQL` is the parameter `validatePromQL`. -/
def validateVMAlertConfig (config : String) (checkPromQL : Bool) : ValidationResult :=
  let result := emptyResult
  let yamlResult := validateYAMLSyntax config
  if !yamlResult.Valid then
    { result with Valid := false, Errors := result.Errors ++ yamlResult.Errors }
  else
    let result :=
      if !strContains config "groups:" then
        { result with Valid := false, Errors := result.Errors ++ ["缺少 groups 配置"] }
      else result
    if strContains config "rules:" then
      vmalertLoop checkPromQL 0 (splitOn '\n' config.toList) result
    else result

/-! ### Specification vocabulary -/

/-- The result says valid exactly when it lists no error. -/
def ValidIffNoErrors (r : ValidationResult) : Prop := r.Valid = true ↔ r.Errors = []

instance (r : ValidationResult) : Decidable (ValidIffNoErrors r) := by
  unfold ValidIffNoErrors; exact inferInstance

end ConfigValidation

/-! # Theorems -/

namespace ComponentVersion


/-! ## Lemmas on the text primitives -/

theorem digitsValue_foldl (ds : List Char) (acc : Nat) :
    ds.foldl (fun acc c => 10 * acc + (c.toNat - 48)) acc
      = acc * 10 ^ ds.length + digitsValue ds := by
  induction ds generalizing acc with
  | nil => simp [digitsValue]
  | cons c cs ih =>
    simp only [List.foldl_cons, List.length_cons, digitsValue]
    rw [ih, ih (10 * 0 + (c.toNat - 48))]
    ring

theorem digitsValue_eq_decimalValue (w : List Char) : digitsValue w = decimalValue w := by
  induction w using List.reverseRecOn with
  | nil => simp [digitsValue, decimalValue]
  | append_singleton l c ih =>
    have h1 : digitsValue (l ++ [c]) = 10 * digitsValue l + (c.toNat - 48) := by
      simp [digitsValue, List.foldl_append]
    rw [h1, ih]
    simp [decimalValue, Nat.ofDigits_cons]
    ring

theorem splitOn_ne_nil (sep : Char) (s : List Char) : splitOn sep s ≠ [] := by
  induction s with
  | nil => simp [splitOn]
  | cons c cs ih =>
    unfold splitOn
    split
    · simp
    · split <;> simp

theorem splitOn_no_sep (sep : Char) (w : List Char) (h : sep ∉ w) : splitOn sep w = [w] := by
  induction w with
  | nil => simp [splitOn]
  | cons c cs ih =>
    have hc : c ≠ sep := fun e => h (by simp [e])
    have hcs : sep ∉ cs := fun e => h (by simp [e])
    simp [splitOn, hc, ih hcs]

theorem splitOn_append_sep (sep : Char) (w rest : List Char) (h : sep ∉ w) :
    splitOn sep (w ++ sep :: rest) = w :: splitOn sep rest := by
  induction w with
  | nil => simp [splitOn]
  | cons c cs ih =>
    have hc : c ≠ sep := fun e => h (by simp [e])
    have hcs : sep ∉ cs := fun e => h (by simp [e])
    simp [splitOn, hc, ih hcs]

/-- Splitting a joined list of separator-free pieces gives the pieces back. -/
theorem splitOn_joinWith (sep : Char) (parts : List (List Char)) (hne : parts ≠ [])
    (h : ∀ w ∈ parts, sep ∉ w) : splitOn sep (joinWith sep parts) = parts := by
  induction parts with
  | nil => exact absurd rfl hne
  | cons p ps ih =>
    cases ps with
    | nil => simpa [joinWith] using splitOn_no_sep sep p (h p (by simp))
    | cons q qs =>
      have hp : sep ∉ p := h p (by simp)
      have hrest := ih (by simp) (fun w hw => h w (List.mem_cons_of_mem _ hw))
      simp only [joinWith]
      rw [splitOn_append_sep sep p _ hp, hrest]

theorem isDigit_not_space (c : Char) (h : c.isDigit = true) :
    c ≠ '\n' ∧ isScanSpace c = false ∧ (c == '+') = false ∧ (c == '-') = false ∧ c ≠ '.' := by
  have h' : 48 ≤ c.toNat ∧ c.toNat ≤ 57 := by
    simpa [Char.isDigit, Char.toNat, UInt32.le_def, Nat.le_antisymm_iff] using h
  have hne : ∀ d : Char, d.toNat < 48 → c ≠ d := fun d hd e => by subst e; omega
  refine ⟨hne _ (by decide), ?_, ?_, ?_, hne _ (by decide)⟩
  · simp only [isScanSpace, Bool.or_eq_false_iff, Bool.and_eq_false_iff, beq_eq_false_iff_ne,
      decide_eq_false_iff_not]
    omega
  · simpa using hne '+' (by decide)
  · simpa using hne '-' (by decide)

theorem takeWhile_isScanDigit_decimal (w : List Char) (h : ∀ c ∈ w, c.isDigit = true) :
    w.takeWhile isScanDigit = w := by
  rw [List.takeWhile_eq_self_iff]
  intro c hc
  simp [isScanDigit, h c hc]

/-- On a decimal numeral that fits 63 bits the scan succeeds with its value. -/
theorem sscanfInt_decimal (w : List Char) (hw : IsDecimal w) (hb : decimalValue w < 2 ^ 63) :
    sscanfInt w = some (decimalValue w : Int) := by
  obtain ⟨hne, hd⟩ := hw
  cases w with
  | nil => exact absurd rfl hne
  | cons c cs =>
    obtain ⟨h1, h2, h3, h4, _⟩ := isDigit_not_space c (hd c (by simp))
    have htw := takeWhile_isScanDigit_decimal (c :: cs) hd
    have hall : (c :: cs).all Char.isDigit = true := by
      rw [List.all_eq_true]; exact hd
    simp only [sscanfInt, scanSkipSpace, h1, h2, h3, h4, if_false, Bool.false_eq_true,
      Bool.or_self, htw, parseInt64, hall, if_true, digitsValue_eq_decimalValue, hb]
    simp

theorem lex_cons_iff (a b : Nat) (l₁ l₂ : List Nat) :
    List.Lex (· < ·) (a :: l₁) (b :: l₂) ↔ a < b ∨ (a = b ∧ List.Lex (· < ·) l₁ l₂) := by
  constructor
  · intro h
    cases h with
    | cons h => exact Or.inr ⟨rfl, h⟩
    | rel h => exact Or.inl h
  · rintro (h | ⟨rfl, h⟩)
    · exact List.Lex.rel h
    · exact List.Lex.cons h

/-- The loop decides the lexicographic order of the component values it visits. -/
theorem compareVersionsLoop_lex (p₁ p₂ : List (List Char)) (F G : Nat → Nat)
    (hF : ∀ j, versionPart p₁ j = (F j : Int)) (hG : ∀ j, versionPart p₂ j = (G j : Int))
    (n i : Nat) :
    (compareVersionsLoop p₁ p₂ n i = -1 ↔
        List.Lex (· < ·) ((List.range' i n).map F) ((List.range' i n).map G)) ∧
    (compareVersionsLoop p₁ p₂ n i = 0 ↔
        (List.range' i n).map F = (List.range' i n).map G) ∧
    (compareVersionsLoop p₁ p₂ n i = 1 ↔
        List.Lex (· < ·) ((List.range' i n).map G) ((List.range' i n).map F)) := by
  induction n generalizing i with
  | zero =>
    simp only [compareVersionsLoop, List.range'_zero, List.map_nil]
    refine ⟨⟨fun h => absurd h (by decide), fun h => nomatch h⟩, by simp,
      ⟨fun h => absurd h (by decide), fun h => nomatch h⟩⟩
  | succ n ih =>
    obtain ⟨ih1, ih2, ih3⟩ := ih (i + 1)
    simp only [compareVersionsLoop, List.range'_succ, List.map_cons, lex_cons_iff,
      List.cons.injEq, hF, hG, Nat.cast_lt, gt_iff_lt]
    rcases Nat.lt_trichotomy (F i) (G i) with h | h | h
    · have h' : ¬ G i < F i := by omega
      have h'' : F i ≠ G i := by omega
      have h3 : G i ≠ F i := by omega
      simp [h, h', h'', h3]
    · simp [h, ih1, ih2, ih3]
    · have h' : ¬ F i < G i := by omega
      have h'' : F i ≠ G i := by omega
      have h3 : G i ≠ F i := by omega
      simp [h, h', h'', h3]

theorem range_map_getD (l : List Nat) (m : Nat) (h : l.length ≤ m) :
    (List.range' 0 m).map (fun j => l.getD j 0) = padZeros m l := by
  apply List.ext_getElem
  · simp [padZeros]; omega
  · intro k h1 h2
    simp only [List.getElem_map, List.getElem_range', padZeros, List.getElem_append]
    split
    · rename_i hk
      simp [List.getD_eq_getElem?_getD, List.getElem?_eq_getElem hk]
    · rename_i hk
      simp [List.getD_eq_getElem?_getD, List.getElem?_eq_none (Nat.le_of_not_lt hk)]

theorem versionPart_decimal (p : List (List Char))
    (hp : ∀ w ∈ p, IsDecimal w ∧ decimalValue w < 2 ^ 63) (j : Nat) :
    versionPart p j = (((p.map decimalValue).getD j 0 : Nat) : Int) := by
  unfold versionPart
  by_cases hj : j < p.length
  · have hmem : p[j] ∈ p := List.getElem_mem hj
    obtain ⟨hd, hb⟩ := hp _ hmem
    simp [List.get?_eq_getElem?, List.getElem?_eq_getElem hj, sscanfInt_decimal _ hd hb,
      List.getD_eq_getElem?_getD]
  · have hj' : p.length ≤ j := Nat.le_of_not_lt hj
    simp [List.get?_eq_getElem?, List.getElem?_eq_none hj', List.getD_eq_getElem?_getD]

theorem isDecimal_no_dot (w : List Char) (h : IsDecimal w) : '.' ∉ w := by
  intro hmem
  exact (isDigit_not_space _ (h.2 _ hmem)).2.2.2.2 rfl

theorem compareVersionsLoop_range (p₁ p₂ : List (List Char)) (n i : Nat) :
    compareVersionsLoop p₁ p₂ n i = -1 ∨ compareVersionsLoop p₁ p₂ n i = 0 ∨
      compareVersionsLoop p₁ p₂ n i = 1 := by
  induction n generalizing i with
  | zero => simp [compareVersionsLoop]
  | succ n ih =>
    simp only [compareVersionsLoop]
    split
    · simp
    · split
      · simp
      · exact ih (i + 1)

/-- C1 (amended): for version strings made of dot-separated decimal numerals
whose values fit the signed 64-bit `int`, `compareVersions` returns -1, 0 or 1
according to whether the component list of the first, padded with trailing
zeros to the longer length, is lexicographically less than, equal to or
greater than that of the second; and `compareVersions "1.10.0" "1.9.9" = 1`. -/
theorem compareVersions_lexicographic (p₁ p₂ : List (List Char))
    (h₁ : p₁ ≠ []) (h₂ : p₂ ≠ [])
    (d₁ : ∀ w ∈ p₁, IsDecimal w ∧ decimalValue w < 2 ^ 63)
    (d₂ : ∀ w ∈ p₂, IsDecimal w ∧ decimalValue w < 2 ^ 63) :
    (compareVersions ⟨joinWith '.' p₁⟩ ⟨joinWith '.' p₂⟩ = -1 ∨
      compareVersions ⟨joinWith '.' p₁⟩ ⟨joinWith '.' p₂⟩ = 0 ∨
      compareVersions ⟨joinWith '.' p₁⟩ ⟨joinWith '.' p₂⟩ = 1) ∧
    (compareVersions ⟨joinWith '.' p₁⟩ ⟨joinWith '.' p₂⟩ = -1 ↔
      List.Lex (· < ·) (padZeros (max p₁.length p₂.length) (p₁.map decimalValue))
        (padZeros (max p₁.length p₂.length) (p₂.map decimalValue))) ∧
    (compareVersions ⟨joinWith '.' p₁⟩ ⟨joinWith '.' p₂⟩ = 0 ↔
      padZeros (max p₁.length p₂.length) (p₁.map decimalValue)
        = padZeros (max p₁.length p₂.length) (p₂.map decimalValue)) ∧
    (compareVersions ⟨joinWith '.' p₁⟩ ⟨joinWith '.' p₂⟩ = 1 ↔
      List.Lex (· < ·) (padZeros (max p₁.length p₂.length) (p₂.map decimalValue))
        (padZeros (max p₁.length p₂.length) (p₁.map decimalValue))) ∧
    compareVersions "1.10.0" "1.9.9" = 1 := by
  have s₁ := splitOn_joinWith '.' p₁ h₁ (fun w hw => isDecimal_no_dot w (d₁ w hw).1)
  have s₂ := splitOn_joinWith '.' p₂ h₂ (fun w hw => isDecimal_no_dot w (d₂ w hw).1)
  have hm : (if p₂.length > p₁.length then p₂.length else p₁.length)
      = max p₁.length p₂.length := by
    split <;> omega
  have hc : compareVersions ⟨joinWith '.' p₁⟩ ⟨joinWith '.' p₂⟩
      = compareVersionsLoop p₁ p₂ (max p₁.length p₂.length) 0 := by
    simp only [compareVersions, String.toList, s₁, s₂, hm]
  have key := compareVersionsLoop_lex p₁ p₂ _ _ (versionPart_decimal p₁ d₁)
    (versionPart_decimal p₂ d₂) (max p₁.length p₂.length) 0
  rw [range_map_getD _ _ (by simp), range_map_getD _ _ (by simp)] at key
  rw [hc]
  exact ⟨compareVersionsLoop_range _ _ _ _, key.1, key.2.1, key.2.2, by decide⟩

/-- Witness for C1: the theorem applied to "1.10.0" against "1.9.9". -/
theorem compareVersions_lexicographic_witness :
    (compareVersions ⟨joinWith '.' ["1".toList, "10".toList, "0".toList]⟩
        ⟨joinWith '.' ["1".toList, "9".toList, "9".toList]⟩ = 1 ↔
      List.Lex (· < ·)
        (padZeros (max 3 3) (["1".toList, "9".toList, "9".toList].map decimalValue))
        (padZeros (max 3 3) (["1".toList, "10".toList, "0".toList].map decimalValue))) :=
  (compareVersions_lexicographic ["1".toList, "10".toList, "0".toList]
    ["1".toList, "9".toList, "9".toList] (by decide) (by decide)
    (by decide) (by decide)).2.2.2.1

/-- C1 as stated fails on a component beyond the `int` range: the scan of
"9223372036854775808" fails, the part stays 0, and the larger version compares lower. -/
theorem compareVersions_overflow_counterexample :
    IsDecimal "9223372036854775808".toList ∧ IsDecimal "1".toList ∧
    List.Lex (· < ·) (padZeros 1 (["1".toList].map decimalValue))
      (padZeros 1 (["9223372036854775808".toList].map decimalValue)) ∧
    compareVersions "9223372036854775808" "1" = -1 := by
  refine ⟨by decide, by decide, ?_, by decide⟩
  apply List.Lex.rel
  decide

/-! ## generateUpgradeSteps -/

/-- C5: the step names of `generateUpgradeSteps` form a sublist, in order, of
the nine step names; the five fixed steps are always present, the four optional
ones exactly when their strategy flag is set; every step is pending. -/
theorem generateUpgradeSteps_spec (componentName fromVersion toVersion : String)
    (strategy : UpgradeStrategy) :
    List.Sublist
      ((generateUpgradeSteps componentName fromVersion toVersion strategy).map (fun s => s.Name))
      ["pre_check", "backup_config", "backup_data", "stop_service", "upgrade_component",
       "migrate_config", "start_service", "health_check", "post_check"] ∧
    (∀ name ∈ ["pre_check", "upgrade_component", "start_service", "health_check", "post_check"],
      name ∈ (generateUpgradeSteps componentName fromVersion toVersion strategy).map
        (fun s => s.Name)) ∧
    ("backup_config" ∈ (generateUpgradeSteps componentName fromVersion toVersion strategy).map
        (fun s => s.Name) ↔ strategy.BackupConfig = true) ∧
    ("backup_data" ∈ (generateUpgradeSteps componentName fromVersion toVersion strategy).map
        (fun s => s.Name) ↔ strategy.BackupData = true) ∧
    ("stop_service" ∈ (generateUpgradeSteps componentName fromVersion toVersion strategy).map
        (fun s => s.Name) ↔ strategy.StopService = true) ∧
    ("migrate_config" ∈ (generateUpgradeSteps componentName fromVersion toVersion strategy).map
        (fun s => s.Name) ↔ strategy.MigrateConfig = true) ∧
    (∀ s ∈ generateUpgradeSteps componentName fromVersion toVersion strategy,
      s.Status = "pending") := by
  obtain ⟨bc, bd, ss, mc, re, ut, hd⟩ := strategy
  cases bc <;> cases bd <;> cases ss <;> cases mc <;>
    simp [generateUpgradeSteps] <;> decide

/-! ## Lemmas on the execution model -/

theorem Go.pure_apply {S α : Type} (a : α) (s : S) : (pure a : Go S α) s = Outcome.done a s := rfl

theorem Go.bind_apply {S α β : Type} (x : Go S α) (f : α → Go S β) (s : S) :
    (x >>= f) s =
      match x s with
      | Outcome.done a s' => f a s'
      | Outcome.panicked msg s' => Outcome.panicked msg s' := rfl

theorem Go.bind_done {S α β : Type} (x : Go S α) (f : α → Go S β) (s s' : S) (a : α)
    (h : x s = Outcome.done a s') : (x >>= f) s = f a s' := by
  rw [Go.bind_apply, h]

theorem Go.bind_panicked {S α β : Type} (x : Go S α) (f : α → Go S β) (s s' : S) (msg : String)
    (h : x s = Outcome.panicked msg s') : (x >>= f) s = Outcome.panicked msg s' := by
  rw [Go.bind_apply, h]

theorem ssh_apply {σ : Type} (env : Env σ) (cmd : String) (h : σ) :
    ssh env cmd h = Outcome.done (env.executeSSHCommand cmd h).1 (env.executeSSHCommand cmd h).2 :=
  rfl

/-- The probe `checkServiceRunning` always returns. -/
theorem checkServiceRunning_returns {σ : Type} (env : Env σ) (name : String) (h : σ) :
    ∃ b h', checkServiceRunning env name h = Outcome.done b h' := by
  simp only [checkServiceRunning, Go.bind_apply, ssh_apply]
  split
  · exact ⟨_, _, rfl⟩
  · simp only [Go.bind_apply, ssh_apply]
    split <;> exact ⟨_, _, rfl⟩

/-- The probe `checkConfigBackup` always returns. -/
theorem checkConfigBackup_returns {σ : Type} (env : Env σ) (name : String) (h : σ) :
    ∃ b h', checkConfigBackup env name h = Outcome.done b h' := by
  simp only [checkConfigBackup, Go.bind_apply, ssh_apply]
  split <;> exact ⟨_, _, rfl⟩

/-! ## CheckComponentVersion -/

/-- The record `CheckComponentVersion` returns for a component found installed. -/
theorem CheckComponentVersion_installed {σ : Type} (env : Env σ) (hostID : Nat)
    (name target c : String) (h h1 h2 : σ)
    (hg : env.getHost hostID h = none) (hc : env.createSSHClient hostID h = (none, h1))
    (hd : detectInstalledVersion env name h1 = Outcome.done (c, true, none) h2) :
    ∃ info h3, CheckComponentVersion env hostID name target h
        = Outcome.done (Except.ok info) h3 ∧
      info.Installed = true ∧ info.CurrentVersion = c ∧
      (compareVersions c target = 0 → info.UpgradeAction = "skip") ∧
      (compareVersions c target = -1 → info.UpgradeAction = "update") ∧
      (compareVersions c target = 1 → info.UpgradeAction = "downgrade") := by
  obtain ⟨b1, h3, e1⟩ := checkServiceRunning_returns env name h2
  obtain ⟨b2, h4, e2⟩ := checkConfigBackup_returns env name h3
  simp only [CheckComponentVersion, hg, hc, Go.bind_done _ _ _ _ _ hd, Option.isSome_none,
    Bool.false_eq_true, if_false, Bool.not_true, Go.bind_done _ _ _ _ _ e1,
    Go.bind_done _ _ _ _ _ e2]
  by_cases c0 : compareVersions c target = 0
  · simp only [c0, if_true, Go.pure_apply]
    exact ⟨_, _, rfl, rfl, rfl, fun _ => rfl, fun x => absurd x (by decide),
      fun x => absurd x (by decide)⟩
  · by_cases c1 : compareVersions c target = -1
    · simp only [c0, c1, if_true, if_false, Go.pure_apply]
      exact ⟨_, _, rfl, rfl, rfl, fun x => absurd x (by decide), fun _ => rfl,
        fun x => absurd x (by decide)⟩
    · by_cases c2 : compareVersions c target = 1
      · simp only [c2, if_true, Go.pure_apply]
        exact ⟨_, _, rfl, rfl, rfl, fun x => absurd x (by decide),
          fun x => absurd x (by decide), fun _ => rfl⟩
      · simp only [c0, c1, c2, if_false, Go.pure_apply]
        exact ⟨_, _, rfl, rfl, rfl, fun x => False.elim x, fun x => False.elim x,
          fun x => False.elim x⟩

/-- C2: when no detector classifies the component the result has
`Installed = false` and `UpgradeAction = "install"`; when it is installed the
action is skip, update or downgrade as the detected version compares equal to,
lower than or higher than the target. -/
theorem CheckComponentVersion_action {σ : Type} (env : Env σ) (hostID : Nat)
    (name target c : String) (installed : Bool) (h h1 h2 : σ)
    (hg : env.getHost hostID h = none) (hc : env.createSSHClient hostID h = (none, h1))
    (hd : detectInstalledVersion env name h1 = Outcome.done (c, installed, none) h2) :
    ∃ info h3, CheckComponentVersion env hostID name target h
        = Outcome.done (Except.ok info) h3 ∧
      info.Installed = installed ∧
      (installed = false → info.UpgradeAction = "install") ∧
      (installed = true →
        (compareVersions c target = 0 → info.UpgradeAction = "skip") ∧
        (compareVersions c target = -1 → info.UpgradeAction = "update") ∧
        (compareVersions c target = 1 → info.UpgradeAction = "downgrade")) := by
  cases installed with
  | false =>
    simp only [CheckComponentVersion, hg, hc, Go.bind_done _ _ _ _ _ hd, Option.isSome_none,
      Bool.false_eq_true, if_false, Bool.not_false, if_true, Go.pure_apply]
    exact ⟨_, _, rfl, rfl, fun _ => rfl, fun x => absurd x (by decide)⟩
  | true =>
    obtain ⟨info, h3, e, hi, _, a0, a1, a2⟩ :=
      CheckComponentVersion_installed env hostID name target c h h1 h2 hg hc hd
    exact ⟨info, h3, e, hi, fun x => absurd x (by decide), fun _ => ⟨a0, a1, a2⟩⟩

/-- Witness for C2: a host with the binary at 1.6.1, target 1.7.0. -/
theorem CheckComponentVersion_action_witness :
    ∃ info h3, CheckComponentVersion (binaryHost "node_exporter, version 1.6.1") 1
        "node-exporter" "1.7.0" () = Outcome.done (Except.ok info) h3 ∧
      info.Installed = true ∧
      (true = false → info.UpgradeAction = "install") ∧
      (true = true →
        (compareVersions "1.6.1" "1.7.0" = 0 → info.UpgradeAction = "skip") ∧
        (compareVersions "1.6.1" "1.7.0" = -1 → info.UpgradeAction = "update") ∧
        (compareVersions "1.6.1" "1.7.0" = 1 → info.UpgradeAction = "downgrade")) :=
  CheckComponentVersion_action (binaryHost "node_exporter, version 1.6.1") 1
    "node-exporter" "1.7.0" "1.6.1" true () () () rfl rfl rfl

theorem compareVersionsLoop_zero_left (p₁ p₂ : List (List Char)) (G : Nat → Nat)
    (h1 : ∀ j, versionPart p₁ j = 0) (h2 : ∀ j, versionPart p₂ j = (G j : Int)) (n i : Nat) :
    ((∀ j, i ≤ j → j < i + n → G j = 0) → compareVersionsLoop p₁ p₂ n i = 0) ∧
    ((∃ j, i ≤ j ∧ j < i + n ∧ G j ≠ 0) → compareVersionsLoop p₁ p₂ n i = -1) := by
  induction n generalizing i with
  | zero =>
    refine ⟨fun _ => rfl, ?_⟩
    rintro ⟨j, a, b, _⟩
    omega
  | succ n ih =>
    obtain ⟨ih0, ih1⟩ := ih (i + 1)
    simp only [compareVersionsLoop, h1, h2]
    by_cases g : G i = 0
    · simp only [g, Nat.cast_zero, lt_self_iff_false, gt_iff_lt, if_false]
      constructor
      · intro hz
        exact ih0 (fun j a b => hz j (by omega) (by omega))
      · rintro ⟨j, a, b, c⟩
        have : j ≠ i := fun e => c (e ▸ g)
        exact ih1 ⟨j, by omega, by omega, c⟩
    · have pos : (0 : Int) < (G i : Int) := by
        have : 0 < G i := Nat.pos_of_ne_zero g
        exact_mod_cast this
      simp only [pos, if_true]
      exact ⟨fun hz => absurd (hz i (Nat.le_refl _) (by omega)) g, fun _ => trivial⟩

theorem versionPart_unreadable (c : String) (hc : c = "unknown" ∨ c = "latest") (j : Nat) :
    versionPart (splitOn '.' c.toList) j = 0 := by
  rcases hc with rfl | rfl
  · cases j with
    | zero => decide
    | succ j => cases j <;> rfl
  · cases j with
    | zero => decide
    | succ j => cases j <;> rfl

/-- A version that cannot be read as a number counts as 0 in every component. -/
theorem compareVersions_unreadable (c : String) (hc : c = "unknown" ∨ c = "latest")
    (p : List (List Char)) (hp : p ≠ [])
    (dp : ∀ w ∈ p, IsDecimal w ∧ decimalValue w < 2 ^ 63) :
    compareVersions c ⟨joinWith '.' p⟩ = if ∀ w ∈ p, decimalValue w = 0 then 0 else -1 := by
  have s₂ := splitOn_joinWith '.' p hp (fun w hw => isDecimal_no_dot w (dp w hw).1)
  have key := compareVersionsLoop_zero_left (splitOn '.' c.toList) p _
    (versionPart_unreadable c hc) (versionPart_decimal p dp)
    (if p.length > (splitOn '.' c.toList).length then p.length
      else (splitOn '.' c.toList).length) 0
  have hcmp : compareVersions c ⟨joinWith '.' p⟩
      = compareVersionsLoop (splitOn '.' c.toList) p
          (if p.length > (splitOn '.' c.toList).length then p.length
            else (splitOn '.' c.toList).length) 0 := by
    simp only [compareVersions, String.toList, s₂]
  have hlen : p.length ≤ (if p.length > (splitOn '.' c.toList).length then p.length
      else (splitOn '.' c.toList).length) := by
    split <;> omega
  rw [hcmp]
  by_cases hz : ∀ w ∈ p, decimalValue w = 0
  · rw [if_pos hz]
    apply key.1
    intro j _ _
    by_cases hj : j < p.length
    · simp [List.getD_eq_getElem?_getD, List.getElem?_eq_getElem, hj,
        hz _ (List.getElem_mem hj)]
    · simp [List.getD_eq_getElem?_getD, List.getElem?_eq_none (Nat.le_of_not_lt hj)]
  · rw [if_neg hz]
    apply key.2
    simp only [not_forall] at hz
    obtain ⟨w, hw, hne⟩ := hz
    obtain ⟨k, hk, rfl⟩ := List.getElem_of_mem hw
    refine ⟨k, Nat.zero_le _, by omega, ?_⟩
    simpa [List.getD_eq_getElem?_getD, List.getElem?_eq_getElem, hk] using hne

/-- C3 (amended): for an installed component whose detected version is
"unknown" or "latest" and a target made of decimal components,
`CheckComponentVersion` treats the current version as 0: it reports `update`
when some component of the target is not zero and `skip` otherwise. -/
theorem CheckComponentVersion_unreadable {σ : Type} (env : Env σ) (hostID : Nat)
    (name c : String) (p : List (List Char)) (h h1 h2 : σ)
    (hg : env.getHost hostID h = none) (hc : env.createSSHClient hostID h = (none, h1))
    (hd : detectInstalledVersion env name h1 = Outcome.done (c, true, none) h2)
    (hcur : c = "unknown" ∨ c = "latest") (hp : p ≠ [])
    (dp : ∀ w ∈ p, IsDecimal w ∧ decimalValue w < 2 ^ 63) :
    ∃ info h3, CheckComponentVersion env hostID name ⟨joinWith '.' p⟩ h
        = Outcome.done (Except.ok info) h3 ∧
      info.Installed = true ∧ info.CurrentVersion = c ∧
      info.UpgradeAction = if ∀ w ∈ p, decimalValue w = 0 then "skip" else "update" := by
  obtain ⟨info, h3, e, hi, hv, a0, a1, _⟩ :=
    CheckComponentVersion_installed env hostID name ⟨joinWith '.' p⟩ c h h1 h2 hg hc hd
  have hcmp := compareVersions_unreadable c hcur p hp dp
  refine ⟨info, h3, e, hi, hv, ?_⟩
  split
  · rename_i hz
    exact a0 (by rw [hcmp, if_pos hz])
  · rename_i hz
    exact a1 (by rw [hcmp, if_neg hz])

/-- Witness for C3 (amended): the binary is found, no version can be read, target 1.7.0. -/
theorem CheckComponentVersion_unreadable_witness :
    ∃ info h3, CheckComponentVersion (binaryHost "") 1 "node-exporter"
        ⟨joinWith '.' ["1".toList, "7".toList, "0".toList]⟩ ()
        = Outcome.done (Except.ok info) h3 ∧
      info.Installed = true ∧ info.CurrentVersion = "unknown" ∧
      info.UpgradeAction =
        if ∀ w ∈ ["1".toList, "7".toList, "0".toList], decimalValue w = 0 then "skip"
        else "update" :=
  CheckComponentVersion_unreadable (binaryHost "") 1 "node-exporter" "unknown"
    ["1".toList, "7".toList, "0".toList] () () () rfl rfl rfl (Or.inl rfl)
    (by decide) (by decide)

/-- C3 as stated fails: the binary is installed, its version reads "unknown",
the target is 1.7.0, and the recommended action is `update`, not `reinstall`. -/
theorem CheckComponentVersion_reinstall_counterexample :
    ((CheckComponentVersion (binaryHost "") 1 "node-exporter" "1.7.0" ()).value?.bind
        Except.toOption).map (fun i => (i.Installed, i.CurrentVersion, i.UpgradeAction))
      = some (true, "unknown", "update") := by
  decide

/-! ## extractVersionFromOutput -/

theorem isSemverText_chars (t : List Char) (h : IsSemverText t) :
    t ≠ [] ∧ ∀ c ∈ t, c.isDigit = true ∨ c = '.' := by
  obtain ⟨d1, d2, d3, h1, h2, h3, rfl⟩ := h
  refine ⟨?_, ?_⟩
  · intro e
    simp only [List.append_eq_nil, List.cons_ne_nil, and_false] at e
  · intro c hc
    simp only [List.mem_append, List.mem_cons] at hc
    rcases hc with hc | rfl | hc | rfl | hc
    · exact Or.inl (h1.2 c hc)
    · exact Or.inr rfl
    · exact Or.inl (h2.2 c hc)
    · exact Or.inr rfl
    · exact Or.inl (h3.2 c hc)

theorem isSemverText_no_space (t : List Char) (h : IsSemverText t) :
    ∀ c ∈ t, isSpaceRune c = false ∧ c ≠ '\n' := by
  intro c hc
  rcases (isSemverText_chars t h).2 c hc with hd | rfl
  · exact ⟨(isDigit_not_space c hd).2.1, (isDigit_not_space c hd).1⟩
  · exact ⟨by decide, by decide⟩

theorem infix_dropWhile (p : Char → Bool) (t : List Char) (hne : t ≠ [])
    (hp : ∀ c ∈ t, p c = false) (l : List Char) : t <:+: l.dropWhile p ↔ t <:+: l := by
  constructor
  · intro h
    exact h.trans (List.dropWhile_suffix p).isInfix
  · intro h
    induction l with
    | nil => simpa using h
    | cons a l ih =>
      by_cases pa : p a = true
      · rw [List.dropWhile_cons_of_pos pa]
        rcases List.infix_cons_iff.1 h with hpre | hin
        · exfalso
          obtain ⟨r, hr⟩ := hpre
          cases t with
          | nil => exact hne rfl
          | cons c cs =>
            simp only [List.cons_append, List.cons.injEq] at hr
            have := hp c (by simp)
            rw [hr.1, pa] at this
            exact absurd this (by decide)
        · exact ih hin
      · rw [List.dropWhile_cons_of_neg pa]
        exact h

theorem infix_trimSpace (t : List Char) (h : IsSemverText t) (l : List Char) :
    t <:+: trimSpace l ↔ t <:+: l := by
  have hne := (isSemverText_chars t h).1
  have hsp : ∀ c ∈ t, isSpaceRune c = false := fun c hc => (isSemverText_no_space t h c hc).1
  unfold trimSpace
  rw [← List.reverse_infix, List.reverse_reverse,
    infix_dropWhile isSpaceRune t.reverse (by simpa using hne)
      (fun c hc => hsp c (by simpa using hc)),
    List.reverse_infix, infix_dropWhile isSpaceRune t hne hsp]

theorem infix_append_sep (sep : Char) (t : List Char) (hne : t ≠ []) (hs : sep ∉ t)
    (p rest : List Char) : t <:+: p ++ sep :: rest ↔ t <:+: p ∨ t <:+: rest := by
  constructor
  · rintro ⟨a, b, hab⟩
    rw [List.append_assoc] at hab
    rcases List.append_eq_append_iff.1 hab with ⟨a', rfl, h2⟩ | ⟨c', rfl, h2⟩
    · -- `p = a ++ a'`, `sep :: rest = ...`
      rcases List.append_eq_append_iff.1 h2.symm with ⟨x, hx, hb⟩ | ⟨y, hy, hb⟩
      · cases x with
        | nil =>
          simp only [List.append_nil] at hx
          subst hx
          exact Or.inl ⟨a, [], by simp⟩
        | cons x0 xs =>
          simp only [List.cons_append, List.cons.injEq] at hb
          exfalso
          apply hs
          rw [hx, ← hb.1]
          simp
      · left
        exact ⟨a, y, by rw [hy]; simp⟩
    · cases c' with
      | nil =>
        exfalso
        simp only [List.nil_append] at h2
        cases t with
        | nil => exact hne rfl
        | cons c cs =>
          simp only [List.cons_append, List.cons.injEq] at h2
          exact hs (by rw [h2.1]; simp)
      | cons c0 cs =>
        simp only [List.cons_append, List.cons.injEq] at h2
        right
        exact ⟨cs, b, by rw [List.append_assoc]; exact h2.2.symm⟩
  · rintro (h | h)
    · exact h.trans (List.prefix_append p _).isInfix
    · exact h.trans ((List.suffix_cons sep rest).isInfix.trans
        (List.suffix_append p (sep :: rest)).isInfix)

theorem joinWith_splitOn (sep : Char) (s : List Char) : joinWith sep (splitOn sep s) = s := by
  induction s with
  | nil => rfl
  | cons c cs ih =>
    unfold splitOn
    split
    · rename_i hc
      have hne := splitOn_ne_nil sep cs
      cases hsp : splitOn sep cs with
      | nil => exact absurd hsp hne
      | cons q qs =>
        rw [hsp] at ih
        simp only [joinWith, List.nil_append, ih, hc]
    · cases hsp : splitOn sep cs with
      | nil => exact absurd hsp (splitOn_ne_nil sep cs)
      | cons q qs =>
        rw [hsp] at ih
        cases qs with
        | nil =>
          simp only [joinWith] at ih ⊢
          rw [ih]
        | cons r rs =>
          simp only [joinWith, List.cons_append] at ih ⊢
          rw [ih]

theorem infix_joinWith (sep : Char) (t : List Char) (hne : t ≠ []) (hs : sep ∉ t)
    (lines : List (List Char)) :
    t <:+: joinWith sep lines ↔ ∃ line ∈ lines, t <:+: line := by
  induction lines with
  | nil =>
    simp only [joinWith, List.not_mem_nil, false_and, exists_false, iff_false]
    intro h
    exact hne (List.eq_nil_of_infix_nil h)
  | cons p ps ih =>
    cases ps with
    | nil => simp [joinWith]
    | cons q qs =>
      simp only [joinWith] at ih ⊢
      rw [infix_append_sep sep t hne hs, ih]
      simp

/-- A digits.digits.digits text lies in the output exactly when it lies in one of its lines. -/
theorem infix_lines (t : List Char) (h : IsSemverText t) (s : List Char) :
    t <:+: s ↔ ∃ line ∈ splitOn '\n' s, t <:+: line := by
  have hne := (isSemverText_chars t h).1
  have hnl : '\n' ∉ t := fun hc => (isSemverText_no_space t h _ hc).2 rfl
  rw [← infix_joinWith '\n' t hne hnl, joinWith_splitOn]

theorem isDecimal_map (lower : Char → Char)
    (hlow : ∀ c, (lower c).isDigit = c.isDigit ∧ (lower c = '.' ↔ c = '.'))
    (d : List Char) : IsDecimal (d.map lower) ↔ IsDecimal d := by
  unfold IsDecimal
  constructor
  · rintro ⟨h1, h2⟩
    refine ⟨fun e => h1 (by simp [e]), fun c hc => ?_⟩
    rw [← (hlow c).1]
    exact h2 _ (List.mem_map_of_mem lower hc)
  · rintro ⟨h1, h2⟩
    refine ⟨fun e => h1 (by simpa using e), fun c hc => ?_⟩
    obtain ⟨c', hc', rfl⟩ := List.mem_map.1 hc
    rw [(hlow c').1]
    exact h2 _ hc'

theorem isSemverText_map (lower : Char → Char)
    (hlow : ∀ c, (lower c).isDigit = c.isDigit ∧ (lower c = '.' ↔ c = '.'))
    (t : List Char) : IsSemverText (t.map lower) ↔ IsSemverText t := by
  have hdot : lower '.' = '.' := (hlow '.').2.2 rfl
  constructor
  · rintro ⟨d1, d2, d3, h1, h2, h3, e⟩
    obtain ⟨x1, y1, rfl, hx1, hy1⟩ := List.map_eq_append_iff.1 e
    obtain ⟨c1, z1, rfl, hc1, hz1⟩ := List.map_eq_cons_iff.1 hy1
    obtain ⟨x2, y2, rfl, hx2, hy2⟩ := List.map_eq_append_iff.1 hz1
    obtain ⟨c2, x3, rfl, hc2, hx3⟩ := List.map_eq_cons_iff.1 hy2
    have e1 : c1 = '.' := (hlow c1).2.1 hc1
    have e2 : c2 = '.' := (hlow c2).2.1 hc2
    subst e1 e2
    refine ⟨x1, x2, x3, ?_, ?_, ?_, rfl⟩
    · exact (isDecimal_map lower hlow x1).1 (hx1 ▸ h1)
    · exact (isDecimal_map lower hlow x2).1 (hx2 ▸ h2)
    · exact (isDecimal_map lower hlow x3).1 (hx3 ▸ h3)
  · rintro ⟨d1, d2, d3, h1, h2, h3, rfl⟩
    refine ⟨d1.map lower, d2.map lower, d3.map lower, (isDecimal_map lower hlow d1).2 h1,
      (isDecimal_map lower hlow d2).2 h2, (isDecimal_map lower hlow d3).2 h3, ?_⟩
    simp [hdot]

theorem hasSemverSubstring_map (lower : Char → Char)
    (hlow : ∀ c, (lower c).isDigit = c.isDigit ∧ (lower c = '.' ↔ c = '.'))
    (s : List Char) : HasSemverSubstring (s.map lower) ↔ HasSemverSubstring s := by
  constructor
  · rintro ⟨t, ht, a, b, hab⟩
    obtain ⟨ab0, b0, rfl, hab0, _⟩ := List.map_eq_append_iff.1 hab.symm
    obtain ⟨a0, t0, rfl, _, ht0⟩ := List.map_eq_append_iff.1 hab0
    refine ⟨t0, (isSemverText_map lower hlow t0).1 (ht0 ▸ ht), a0, b0, rfl⟩
  · rintro ⟨t, ht, a, b, hab⟩
    refine ⟨t.map lower, (isSemverText_map lower hlow t).2 ht, a.map lower, b.map lower, ?_⟩
    rw [← hab]
    simp

theorem takeWhile_isDigit_decimal_dot (d rest : List Char) (hd : ∀ c ∈ d, c.isDigit = true) :
    (d ++ '.' :: rest).takeWhile Char.isDigit = d ∧
    (d ++ '.' :: rest).dropWhile Char.isDigit = '.' :: rest := by
  have h1 : ∀ a ∈ d, Char.isDigit a = true := hd
  rw [List.takeWhile_append_of_pos h1, List.dropWhile_append_of_pos h1]
  have : ¬ Char.isDigit '.' = true := by decide
  simp [List.takeWhile_cons_of_neg this, List.dropWhile_cons_of_neg this]

/-- A match of `\d+\.\d+\.\d+` at the start of `s` is a digits.digits.digits prefix of `s`. -/
theorem matchSemverAt_sound (s v : List Char) (h : matchSemverAt s = some v) :
    IsSemverText v ∧ v <+: s := by
  unfold matchSemverAt at h
  simp only at h
  split at h
  · cases h
  · rename_i hd1
    split at h
    · rename_i r1 hr1
      split at h
      · cases h
      · rename_i hd2
        split at h
        · rename_i r2 hr2
          split at h
          · cases h
          · rename_i hd3
            simp only [Option.some.injEq] at h
            subst h
            have e1 := List.takeWhile_append_dropWhile Char.isDigit s
            have e2 := List.takeWhile_append_dropWhile Char.isDigit r1
            have e3 := List.takeWhile_append_dropWhile Char.isDigit r2
            rw [hr1] at e1
            rw [hr2] at e2
            refine ⟨⟨s.takeWhile Char.isDigit, r1.takeWhile Char.isDigit,
              r2.takeWhile Char.isDigit, ⟨?_, fun c hc => List.mem_takeWhile_imp hc⟩,
              ⟨?_, fun c hc => List.mem_takeWhile_imp hc⟩,
              ⟨?_, fun c hc => List.mem_takeWhile_imp hc⟩, by simp⟩, ?_⟩
            · intro e; exact hd1 (by simp [e])
            · intro e; exact hd2 (by simp [e])
            · intro e; exact hd3 (by simp [e])
            · refine ⟨r2.dropWhile Char.isDigit, ?_⟩
              conv_rhs => rw [← e1, ← e2, ← e3]
              simp
        · cases h
    · cases h

/-- At the start of a digits.digits.digits text the pattern matches. -/
theorem matchSemverAt_complete (t post : List Char) (h : IsSemverText t) :
    (matchSemverAt (t ++ post)).isSome = true := by
  obtain ⟨d1, d2, d3, h1, h2, h3, rfl⟩ := h
  have a1 := takeWhile_isDigit_decimal_dot d1 (d2 ++ '.' :: (d3 ++ post)) h1.2
  have a2 := takeWhile_isDigit_decimal_dot d2 (d3 ++ post) h2.2
  have a3 : ((d3 ++ post).takeWhile Char.isDigit).isEmpty = false := by
    rw [List.takeWhile_append_of_pos h3.2]
    cases d3 with
    | nil => exact absurd rfl h3.1
    | cons c cs => rfl
  have n1 : d1.isEmpty = false := by
    cases d1 with
    | nil => exact absurd rfl h1.1
    | cons c cs => rfl
  have n2 : d2.isEmpty = false := by
    cases d2 with
    | nil => exact absurd rfl h2.1
    | cons c cs => rfl
  have e : d1 ++ '.' :: (d2 ++ '.' :: d3) ++ post
      = d1 ++ '.' :: (d2 ++ '.' :: (d3 ++ post)) := by simp
  rw [e]
  unfold matchSemverAt
  simp only [a1.1, a1.2, n1, a2.1, a2.2, n2, a3, Bool.false_eq_true, if_false,
    Option.isSome_some]

theorem findLeftmost_sound (m : List Char → Option (List Char)) (s v : List Char)
    (h : findLeftmost m s = some v) : ∃ a b, s = a ++ b ∧ m b = some v := by
  induction s with
  | nil => exact ⟨[], [], rfl, h⟩
  | cons c cs ih =>
    unfold findLeftmost at h
    split at h
    · rename_i w hw
      cases h
      exact ⟨[], c :: cs, rfl, hw⟩
    · obtain ⟨a, b, e, hb⟩ := ih h
      exact ⟨c :: a, b, by rw [e]; rfl, hb⟩

theorem findLeftmost_complete (m : List Char → Option (List Char)) (a b : List Char)
    (h : (m b).isSome = true) : (findLeftmost m (a ++ b)).isSome = true := by
  induction a with
  | nil =>
    cases b with
    | nil => exact h
    | cons c cs =>
      simp only [List.nil_append, findLeftmost]
      split
      · rfl
      · rename_i hn
        rw [hn] at h
        cases h
  | cons c cs ih =>
    simp only [List.cons_append, findLeftmost]
    split
    · rfl
    · exact ih

/-- The third pattern finds a match exactly in texts with a digits.digits.digits substring. -/
theorem findLeftmost_semver_iff (s : List Char) :
    (findLeftmost matchSemverAt s).isSome = true ↔ HasSemverSubstring s := by
  constructor
  · intro h
    obtain ⟨v, hv⟩ := Option.isSome_iff_exists.1 h
    obtain ⟨a, b, e, hb⟩ := findLeftmost_sound _ _ _ hv
    obtain ⟨ht, r, hr⟩ := matchSemverAt_sound b v hb
    exact ⟨v, ht, a, r, by rw [e, ← hr]; simp⟩
  · rintro ⟨t, ht, a, b, e⟩
    rw [← e, List.append_assoc]
    exact findLeftmost_complete _ a (t ++ b) (matchSemverAt_complete t b ht)

theorem matchVSemverAt_sound (b v : List Char) (h : matchVSemverAt b = some v) :
    ∃ x y, b = x ++ y ∧ matchSemverAt y = some v := by
  unfold matchVSemverAt at h
  split at h
  · rename_i r
    exact ⟨['v'], r, rfl, h⟩
  · cases h

theorem matchVersionWordAt_sound (b v : List Char) (h : matchVersionWordAt b = some v) :
    ∃ x y, b = x ++ y ∧ matchSemverAt y = some v := by
  unfold matchVersionWordAt at h
  simp only at h
  split at h
  · split at h
    · cases h
    · refine ⟨b.take 7 ++ (b.drop 7).takeWhile isReSpace, (b.drop 7).dropWhile isReSpace, ?_, h⟩
      rw [List.append_assoc, List.takeWhile_append_dropWhile, List.take_append_drop]
  · cases h

/-- What the first or the second pattern captures is found by the third pattern as well. -/
theorem findLeftmost_anchored (m : List Char → Option (List Char))
    (hm : ∀ b v, m b = some v → ∃ x y, b = x ++ y ∧ matchSemverAt y = some v)
    (s v : List Char) (h : findLeftmost m s = some v) :
    IsSemverText v ∧ (findLeftmost matchSemverAt s).isSome = true := by
  obtain ⟨a, b, e, hb⟩ := findLeftmost_sound m s v h
  obtain ⟨x, y, e', hy⟩ := hm b v hb
  refine ⟨(matchSemverAt_sound y v hy).1, ?_⟩
  rw [e, e', ← List.append_assoc]
  exact findLeftmost_complete _ (a ++ x) y (by rw [hy]; rfl)

theorem firstPatternMatch_eq (text : List Char) :
    firstPatternMatch text =
      match findLeftmost matchVersionWordAt text with
      | some v => some v
      | none =>
        match findLeftmost matchVSemverAt text with
        | some v => some v
        | none => findLeftmost matchSemverAt text := by
  simp only [firstPatternMatch, versionPatterns, List.findSome?]
  cases findLeftmost matchVersionWordAt text with
  | some v => rfl
  | none =>
    cases findLeftmost matchVSemverAt text with
    | some v => rfl
    | none =>
      cases findLeftmost matchSemverAt text with
      | some v => rfl
      | none => rfl

theorem firstPatternMatch_isSome (text : List Char) :
    (firstPatternMatch text).isSome = true ↔ HasSemverSubstring text := by
  rw [← findLeftmost_semver_iff, firstPatternMatch_eq]
  cases h1 : findLeftmost matchVersionWordAt text with
  | some v =>
    simp only [Option.isSome_some, true_iff]
    exact (findLeftmost_anchored _ matchVersionWordAt_sound text v h1).2
  | none =>
    cases h2 : findLeftmost matchVSemverAt text with
    | some v =>
      simp only [Option.isSome_some, true_iff]
      exact (findLeftmost_anchored _ matchVSemverAt_sound text v h2).2
    | none => simp

theorem firstPatternMatch_ne_nil (text v : List Char) (h : firstPatternMatch text = some v) :
    v ≠ [] := by
  rw [firstPatternMatch_eq] at h
  have key : IsSemverText v := by
    cases h1 : findLeftmost matchVersionWordAt text with
    | some w =>
      rw [h1] at h
      cases h
      exact (findLeftmost_anchored _ matchVersionWordAt_sound text _ h1).1
    | none =>
      rw [h1] at h
      cases h2 : findLeftmost matchVSemverAt text with
      | some w =>
        rw [h2] at h
        cases h
        exact (findLeftmost_anchored _ matchVSemverAt_sound text _ h2).1
      | none =>
        rw [h2] at h
        obtain ⟨a, b, _, hb⟩ := findLeftmost_sound _ _ _ h
        exact (matchSemverAt_sound b v hb).1
  exact (isSemverText_chars v key).1

theorem extractVersionFromLines_eq_nil (lower : Char → Char) (lines : List (List Char)) :
    extractVersionFromLines lower lines = [] ↔
      ∀ line ∈ lines, firstPatternMatch ((trimSpace line).map lower) = none := by
  induction lines with
  | nil => simp [extractVersionFromLines]
  | cons l ls ih =>
    unfold extractVersionFromLines
    cases h : firstPatternMatch ((trimSpace l).map lower) with
    | some v =>
      have := firstPatternMatch_ne_nil _ v h
      simp [this, h]
    | none => simp [ih, h]

theorem extractVersionFromLines_skip (lower : Char → Char) (pre rest : List (List Char))
    (h : ∀ l ∈ pre, firstPatternMatch ((trimSpace l).map lower) = none) :
    extractVersionFromLines lower (pre ++ rest) = extractVersionFromLines lower rest := by
  induction pre with
  | nil => rfl
  | cons l ls ih =>
    simp only [List.cons_append, extractVersionFromLines, h l (by simp)]
    exact ih (fun x hx => h x (by simp [hx]))

theorem toLower_keeps_digits (c : Char) :
    (Char.toLower c).isDigit = c.isDigit ∧ (Char.toLower c = '.' ↔ c = '.') := by
  by_cases h : 65 ≤ c.toNat ∧ c.toNat ≤ 90
  · have hc : c = Char.ofNat c.toNat := (Char.ofNat_toNat c).symm
    obtain ⟨h1, h2⟩ := h
    generalize c.toNat = n at hc h1 h2
    subst hc
    interval_cases n <;> decide
  · have : Char.toLower c = c := by
      unfold Char.toLower
      simp only [ge_iff_le]
      rw [if_neg h]
    rw [this]
    exact ⟨rfl, Iff.rfl⟩

/-- C4 (amended): `extractVersionFromOutput` works line by line. On the first
line of the output (split at newlines, trimmed, lower-cased) on which one of
the three patterns matches, it returns group 1 of the first pattern, in the
order `version\s+(\d+\.\d+\.\d+)`, `v(\d+\.\d+\.\d+)`, `(\d+\.\d+\.\d+)`, that
matches that line; and it returns the empty string exactly when the output
contains no digits.digits.digits substring. -/
theorem extractVersionFromOutput_spec (lower : Char → Char)
    (hlow : ∀ c, (lower c).isDigit = c.isDigit ∧ (lower c = '.' ↔ c = '.'))
    (output : String) :
    (∀ pre line post v, splitOn '\n' output.toList = pre ++ line :: post →
      (∀ l ∈ pre, ∀ re ∈ versionPatterns, re ((trimSpace l).map lower) = none) →
      (findLeftmost matchVersionWordAt ((trimSpace line).map lower) = some v →
        extractVersionFromOutput lower output = ⟨v⟩) ∧
      (findLeftmost matchVersionWordAt ((trimSpace line).map lower) = none →
        findLeftmost matchVSemverAt ((trimSpace line).map lower) = some v →
        extractVersionFromOutput lower output = ⟨v⟩) ∧
      (findLeftmost matchVersionWordAt ((trimSpace line).map lower) = none →
        findLeftmost matchVSemverAt ((trimSpace line).map lower) = none →
        findLeftmost matchSemverAt ((trimSpace line).map lower) = some v →
        extractVersionFromOutput lower output = ⟨v⟩)) ∧
    (extractVersionFromOutput lower output = "" ↔ ¬ HasSemverSubstring output.toList) := by
  constructor
  · intro pre line post v hsplit hpre
    have hskip : extractVersionFromOutput lower output
        = ⟨extractVersionFromLines lower (line :: post)⟩ := by
      unfold extractVersionFromOutput
      rw [hsplit, extractVersionFromLines_skip lower pre _
        (fun l hl => List.findSome?_eq_none_iff.2 (fun re hre => hpre l hl re hre))]
    rw [hskip]
    simp only [extractVersionFromLines, firstPatternMatch_eq]
    refine ⟨fun h1 => ?_, fun h1 h2 => ?_, fun h1 h2 h3 => ?_⟩
    · rw [h1]
    · rw [h1, h2]
    · rw [h1, h2, h3]
  · have hempty : extractVersionFromOutput lower output = "" ↔
        extractVersionFromLines lower (splitOn '\n' output.toList) = [] := by
      unfold extractVersionFromOutput
      constructor
      · intro h
        exact congrArg String.toList h
      · intro h
        rw [h]
    rw [hempty, extractVersionFromLines_eq_nil]
    constructor
    · rintro h ⟨t, ht, hin⟩
      obtain ⟨line, hl, hline⟩ := (infix_lines t ht _).1 hin
      have h1 : HasSemverSubstring ((trimSpace line).map lower) :=
        (hasSemverSubstring_map lower hlow _).2 ⟨t, ht, (infix_trimSpace t ht line).2 hline⟩
      have h2 := (firstPatternMatch_isSome _).2 h1
      rw [h line hl] at h2
      cases h2
    · intro h line hl
      cases hm : firstPatternMatch ((trimSpace line).map lower) with
      | none => rfl
      | some v =>
        exfalso
        apply h
        have h1 := (firstPatternMatch_isSome ((trimSpace line).map lower)).1 (by rw [hm]; rfl)
        obtain ⟨t, ht, hin⟩ := (hasSemverSubstring_map lower hlow _).1 h1
        exact ⟨t, ht, (infix_lines t ht _).2 ⟨line, hl, (infix_trimSpace t ht line).1 hin⟩⟩

/-- Witness for C4 (amended): ASCII lower-casing on a two-line output. -/
theorem extractVersionFromOutput_spec_witness :
    splitOn '\n' "go1.21\nFoo Version 2.45.0".toList
      = ["go1.21".toList] ++ "Foo Version 2.45.0".toList :: [] ∧
    findLeftmost matchVersionWordAt ((trimSpace "Foo Version 2.45.0".toList).map Char.toLower)
      = some "2.45.0".toList ∧
    extractVersionFromOutput Char.toLower "go1.21\nFoo Version 2.45.0" = ⟨"2.45.0".toList⟩ :=
  ⟨by decide, by decide,
    ((extractVersionFromOutput_spec Char.toLower toLower_keeps_digits
      "go1.21\nFoo Version 2.45.0").1 ["go1.21".toList] "Foo Version 2.45.0".toList []
      "2.45.0".toList (by decide) (by decide)).1 (by decide)⟩

/-- C4 as stated fails on a multi-line output: the first pattern matches the
lower-cased output and captures "4.5.6", but the line-by-line search returns
"1.2.3" from the first line. -/
theorem extractVersionFromOutput_counterexample :
    findLeftmost matchVersionWordAt ("1.2.3\nversion 4.5.6".toList.map Char.toLower)
      = some "4.5.6".toList ∧
    extractVersionFromOutput Char.toLower "1.2.3\nversion 4.5.6" = "1.2.3" := by
  decide

/-! ## Step functions only add keys to `task.BackupPaths` -/

theorem lookup_filter_ne (k k' : String) (hk : k ≠ k') (m : List (String × String)) :
    (m.filter (fun e => e.1 != k')).lookup k = m.lookup k := by
  induction m with
  | nil => rfl
  | cons e m ih =>
    obtain ⟨a, b⟩ := e
    by_cases ha : a = k'
    · subst ha
      have h1 : (k == a) = false := by simpa using hk
      simp [List.filter, List.lookup, h1, ih]
    · have h2 : (a != k') = true := by simpa using ha
      simp only [List.filter, h2, List.lookup, ih]

theorem mapGet_mapSet (k k' v : String) (m : List (String × String)) :
    mapGet k (mapSet k' v m) = if k = k' then some v else mapGet k m := by
  unfold mapGet mapSet
  by_cases h : k = k'
  · subst h
    simp [List.lookup]
  · have h1 : (k == k') = false := by simpa using h
    simp only [List.lookup, h1, lookup_filter_ne k k' h, if_neg h]

theorem keepsKeys_pure {σ α : Type} (a : α) : KeepsKeys (pure a : Go (StepCtx σ) α) :=
  fun _ _ h => h

theorem keepsKeys_bind {σ α β : Type} (x : Go (StepCtx σ) α) (f : α → Go (StepCtx σ) β)
    (hx : KeepsKeys x) (hf : ∀ a, KeepsKeys (f a)) : KeepsKeys (x >>= f) := by
  intro c k h
  have h1 := hx c k h
  rw [Go.bind_apply]
  cases hxc : x c with
  | done a c' =>
    rw [hxc] at h1
    exact hf a c' k h1
  | panicked msg c' =>
    rw [hxc] at h1
    exact h1

theorem keepsKeys_onHost {σ α : Type} (x : Go σ α) : KeepsKeys (onHost x) := by
  intro c k h
  unfold onHost
  cases x c.host <;> exact h

theorem keepsKeys_appendOutput {σ : Type} (text : String) :
    KeepsKeys (appendOutput text : Go (StepCtx σ) Unit) := fun _ _ h => h

theorem keepsKeys_setOutput {σ : Type} (text : String) :
    KeepsKeys (setOutput text : Go (StepCtx σ) Unit) := fun _ _ h => h

theorem keepsKeys_nowFormatted {σ : Type} (env : Env σ) (layout : String) :
    KeepsKeys (nowFormatted env layout) := fun _ _ h => h

theorem keepsKeys_setBackupPath {σ : Type} (k v : String) :
    KeepsKeys (setBackupPath k v : Go (StepCtx σ) Unit) := by
  intro c k' h
  show (mapGet k' (mapSet k v c.backupPaths)).isSome = true
  rw [mapGet_mapSet]
  split
  · rfl
  · exact h

theorem keepsKeys_executePreCheck {σ : Type} (env : Env σ) (task : ComponentUpgradeTask) :
    KeepsKeys (executePreCheck env task) := by
  unfold executePreCheck
  repeat' first
    | with_reducible apply keepsKeys_bind
    | with_reducible apply keepsKeys_pure
    | with_reducible apply keepsKeys_onHost
    | with_reducible apply keepsKeys_appendOutput
    | with_reducible apply keepsKeys_setOutput
    | with_reducible apply keepsKeys_nowFormatted
    | with_reducible apply keepsKeys_setBackupPath
    | (intro a; show KeepsKeys _)
    | split
    | dsimp only

theorem keepsKeys_backupConfigLoop {σ : Type} (env : Env σ) (backupDir : String)
    (paths : List String) : KeepsKeys (backupConfigLoop env backupDir paths) := by
  induction paths with
  | nil => exact keepsKeys_pure _
  | cons p ps ih =>
    unfold backupConfigLoop
    repeat' first
      | with_reducible apply keepsKeys_bind
      | with_reducible apply keepsKeys_pure
      | with_reducible apply keepsKeys_onHost
      | with_reducible apply keepsKeys_appendOutput
      | with_reducible apply keepsKeys_setOutput
      | with_reducible apply keepsKeys_nowFormatted
      | with_reducible apply keepsKeys_setBackupPath
      | exact ih
      | (intro a; show KeepsKeys _)
      | split

theorem keepsKeys_backupDataLoop {σ : Type} (env : Env σ) (componentName backupDir : String)
    (paths : List String) : KeepsKeys (backupDataLoop env componentName backupDir paths) := by
  induction paths with
  | nil => exact keepsKeys_pure _
  | cons p ps ih =>
    unfold backupDataLoop
    repeat' first
      | with_reducible apply keepsKeys_bind
      | with_reducible apply keepsKeys_pure
      | with_reducible apply keepsKeys_onHost
      | with_reducible apply keepsKeys_appendOutput
      | with_reducible apply keepsKeys_setOutput
      | with_reducible apply keepsKeys_nowFormatted
      | with_reducible apply keepsKeys_setBackupPath
      | exact ih
      | (intro a; show KeepsKeys _)
      | split

theorem keepsKeys_executeBackupConfig {σ : Type} (env : Env σ) (task : ComponentUpgradeTask) :
    KeepsKeys (executeBackupConfig env task) := by
  unfold executeBackupConfig
  repeat' first
    | with_reducible apply keepsKeys_bind
    | with_reducible apply keepsKeys_pure
    | with_reducible apply keepsKeys_onHost
    | with_reducible apply keepsKeys_appendOutput
    | with_reducible apply keepsKeys_setOutput
    | with_reducible apply keepsKeys_nowFormatted
    | with_reducible apply keepsKeys_setBackupPath
    | with_reducible apply keepsKeys_backupConfigLoop
    | (intro a; show KeepsKeys _)
    | split

theorem keepsKeys_executeBackupData {σ : Type} (env : Env σ) (task : ComponentUpgradeTask) :
    KeepsKeys (executeBackupData env task) := by
  unfold executeBackupData
  repeat' first
    | with_reducible apply keepsKeys_bind
    | with_reducible apply keepsKeys_pure
    | with_reducible apply keepsKeys_onHost
    | with_reducible apply keepsKeys_appendOutput
    | with_reducible apply keepsKeys_setOutput
    | with_reducible apply keepsKeys_nowFormatted
    | with_reducible apply keepsKeys_setBackupPath
    | with_reducible apply keepsKeys_backupDataLoop
    | (intro a; show KeepsKeys _)
    | split

theorem keepsKeys_executeStopService {σ : Type} (env : Env σ) (task : ComponentUpgradeTask) :
    KeepsKeys (executeStopService env task) := by
  unfold executeStopService
  repeat' first
    | with_reducible apply keepsKeys_bind
    | with_reducible apply keepsKeys_pure
    | with_reducible apply keepsKeys_onHost
    | with_reducible apply keepsKeys_appendOutput
    | with_reducible apply keepsKeys_setOutput
    | with_reducible apply keepsKeys_nowFormatted
    | with_reducible apply keepsKeys_setBackupPath
    | (intro a; show KeepsKeys _)
    | split

theorem keepsKeys_upgradeDockerComponent {σ : Type} (env : Env σ) (task : ComponentUpgradeTask) :
    KeepsKeys (upgradeDockerComponent env task) := by
  unfold upgradeDockerComponent
  repeat' first
    | with_reducible apply keepsKeys_bind
    | with_reducible apply keepsKeys_pure
    | with_reducible apply keepsKeys_onHost
    | with_reducible apply keepsKeys_appendOutput
    | with_reducible apply keepsKeys_setOutput
    | with_reducible apply keepsKeys_nowFormatted
    | with_reducible apply keepsKeys_setBackupPath
    | (intro a; show KeepsKeys _)
    | split

theorem keepsKeys_upgradeBinaryComponent {σ : Type} (env : Env σ) (task : ComponentUpgradeTask) :
    KeepsKeys (upgradeBinaryComponent env task) := by
  unfold upgradeBinaryComponent
  repeat' first
    | with_reducible apply keepsKeys_bind
    | with_reducible apply keepsKeys_pure
    | with_reducible apply keepsKeys_onHost
    | with_reducible apply keepsKeys_appendOutput
    | with_reducible apply keepsKeys_setOutput
    | with_reducible apply keepsKeys_nowFormatted
    | with_reducible apply keepsKeys_setBackupPath
    | (intro a; show KeepsKeys _)
    | split

theorem keepsKeys_upgradeSystemdComponent {σ : Type} (env : Env σ) (task : ComponentUpgradeTask) :
    KeepsKeys (upgradeSystemdComponent env task) := by
  unfold upgradeSystemdComponent
  repeat' first
    | with_reducible apply keepsKeys_bind
    | with_reducible apply keepsKeys_pure
    | with_reducible apply keepsKeys_onHost
    | with_reducible apply keepsKeys_appendOutput
    | with_reducible apply keepsKeys_setOutput
    | with_reducible apply keepsKeys_nowFormatted
    | with_reducible apply keepsKeys_setBackupPath
    | with_reducible apply keepsKeys_upgradeBinaryComponent
    | (intro a; show KeepsKeys _)
    | split

theorem keepsKeys_executeUpgradeComponent {σ : Type} (env : Env σ) (task : ComponentUpgradeTask) :
    KeepsKeys (executeUpgradeComponent env task) := by
  unfold executeUpgradeComponent
  repeat' first
    | with_reducible apply keepsKeys_bind
    | with_reducible apply keepsKeys_pure
    | with_reducible apply keepsKeys_onHost
    | with_reducible apply keepsKeys_appendOutput
    | with_reducible apply keepsKeys_setOutput
    | with_reducible apply keepsKeys_nowFormatted
    | with_reducible apply keepsKeys_setBackupPath
    | with_reducible apply keepsKeys_upgradeDockerComponent
    | with_reducible apply keepsKeys_upgradeBinaryComponent
    | with_reducible apply keepsKeys_upgradeSystemdComponent
    | split

theorem keepsKeys_executeMigrateConfig {σ : Type} (env : Env σ) (task : ComponentUpgradeTask) :
    KeepsKeys (executeMigrateConfig env task) := by
  unfold executeMigrateConfig
  repeat' first
    | with_reducible apply keepsKeys_bind
    | with_reducible apply keepsKeys_pure
    | with_reducible apply keepsKeys_onHost
    | with_reducible apply keepsKeys_appendOutput
    | with_reducible apply keepsKeys_setOutput
    | with_reducible apply keepsKeys_nowFormatted
    | with_reducible apply keepsKeys_setBackupPath
    | (intro a; show KeepsKeys _)
    | split
    | dsimp only

theorem keepsKeys_executeStartService {σ : Type} (env : Env σ) (task : ComponentUpgradeTask) :
    KeepsKeys (executeStartService env task) := by
  unfold executeStartService
  repeat' first
    | with_reducible apply keepsKeys_bind
    | with_reducible apply keepsKeys_pure
    | with_reducible apply keepsKeys_onHost
    | with_reducible apply keepsKeys_appendOutput
    | with_reducible apply keepsKeys_setOutput
    | with_reducible apply keepsKeys_nowFormatted
    | with_reducible apply keepsKeys_setBackupPath
    | (intro a; show KeepsKeys _)
    | split

theorem keepsKeys_executeHealthCheck {σ : Type} (env : Env σ) (task : ComponentUpgradeTask) :
    KeepsKeys (executeHealthCheck env task) := by
  unfold executeHealthCheck
  repeat' first
    | with_reducible apply keepsKeys_bind
    | with_reducible apply keepsKeys_pure
    | with_reducible apply keepsKeys_onHost
    | with_reducible apply keepsKeys_appendOutput
    | with_reducible apply keepsKeys_setOutput
    | with_reducible apply keepsKeys_nowFormatted
    | with_reducible apply keepsKeys_setBackupPath
    | (intro a; show KeepsKeys _)
    | split

theorem keepsKeys_executePostCheck {σ : Type} (env : Env σ) (task : ComponentUpgradeTask) :
    KeepsKeys (executePostCheck env task) := by
  unfold executePostCheck
  repeat' first
    | with_reducible apply keepsKeys_bind
    | with_reducible apply keepsKeys_pure
    | with_reducible apply keepsKeys_onHost
    | with_reducible apply keepsKeys_appendOutput
    | with_reducible apply keepsKeys_setOutput
    | with_reducible apply keepsKeys_nowFormatted
    | with_reducible apply keepsKeys_setBackupPath
    | (intro a; show KeepsKeys _)
    | split
    | dsimp only

theorem keepsKeys_executeUpgradeStep {σ : Type} (env : Env σ) (task : ComponentUpgradeTask) (stepName : String) :
    KeepsKeys (executeUpgradeStep env task stepName) := by
  unfold executeUpgradeStep
  repeat' first
    | with_reducible apply keepsKeys_bind
    | with_reducible apply keepsKeys_pure
    | with_reducible apply keepsKeys_onHost
    | with_reducible apply keepsKeys_appendOutput
    | with_reducible apply keepsKeys_setOutput
    | with_reducible apply keepsKeys_nowFormatted
    | with_reducible apply keepsKeys_setBackupPath
    | with_reducible apply keepsKeys_executePreCheck
    | with_reducible apply keepsKeys_executeBackupConfig
    | with_reducible apply keepsKeys_executeBackupData
    | with_reducible apply keepsKeys_executeStopService
    | with_reducible apply keepsKeys_executeUpgradeComponent
    | with_reducible apply keepsKeys_executeMigrateConfig
    | with_reducible apply keepsKeys_executeStartService
    | with_reducible apply keepsKeys_executeHealthCheck
    | with_reducible apply keepsKeys_executePostCheck
    | split


theorem setsConfigKey_bind {σ α : Type} (x : Go (StepCtx σ) α)
    (f : α → Go (StepCtx σ) (Option String)) (hf : ∀ a, SetsConfigKey (f a)) :
    SetsConfigKey (x >>= f) := by
  intro c c' h
  rw [Go.bind_apply] at h
  cases hx : x c with
  | done a c1 =>
    rw [hx] at h
    exact hf a c1 c' h
  | panicked msg c1 =>
    rw [hx] at h
    cases h

theorem setsConfigKey_pure_some {σ : Type} (e : String) :
    SetsConfigKey (pure (some e) : Go (StepCtx σ) (Option String)) := by
  intro c c' h
  cases h

theorem setsConfigKey_set {σ : Type} (v : String) :
    SetsConfigKey (do setBackupPath "config" v; pure none : Go (StepCtx σ) (Option String)) := by
  intro c c' h
  simp only [Go.bind_apply, setBackupPath, Go.pure_apply, Outcome.done.injEq, true_and] at h
  subst h
  show (mapGet "config" (mapSet "config" v c.backupPaths)).isSome = true
  rw [mapGet_mapSet]
  rfl

/-- A successful `backup_config` step leaves the key "config" in `task.BackupPaths`. -/
theorem executeBackupConfig_sets_key {σ : Type} (env : Env σ) (task : ComponentUpgradeTask) :
    SetsConfigKey (executeBackupConfig env task) := by
  unfold executeBackupConfig
  repeat' first
    | with_reducible apply setsConfigKey_set
    | with_reducible apply setsConfigKey_pure_some
    | with_reducible apply setsConfigKey_bind
    | (intro a; show SetsConfigKey _)
    | split

/-! ## Code that always returns -/

theorem total_pure {S α : Type} (a : α) : Total (pure a : Go S α) := fun s => ⟨a, s, rfl⟩

theorem total_bind {S α β : Type} (x : Go S α) (f : α → Go S β)
    (hx : Total x) (hf : ∀ a, Total (f a)) : Total (x >>= f) := by
  intro s
  obtain ⟨a, s1, h1⟩ := hx s
  obtain ⟨b, s2, h2⟩ := hf a s1
  exact ⟨b, s2, by rw [Go.bind_done _ _ _ _ _ h1, h2]⟩

theorem total_ssh {σ : Type} (env : Env σ) (cmd : String) : Total (ssh env cmd) :=
  fun _ => ⟨_, _, rfl⟩

theorem total_checkServiceRunning {σ : Type} (env : Env σ) (name : String) :
    Total (checkServiceRunning env name) := checkServiceRunning_returns env name

theorem total_onHost {σ α : Type} (x : Go σ α) (hx : Total x) :
    Total (onHost x : Go (StepCtx σ) α) := by
  intro c
  obtain ⟨a, h', e⟩ := hx c.host
  exact ⟨a, { c with host := h' }, by simp only [onHost, e]⟩

theorem total_appendOutput {σ : Type} (text : String) :
    Total (appendOutput text : Go (StepCtx σ) Unit) := fun _ => ⟨_, _, rfl⟩

theorem total_executeStopService {σ : Type} (env : Env σ) (task : ComponentUpgradeTask) :
    Total (executeStopService env task) := by
  unfold executeStopService
  repeat' first
    | with_reducible apply total_bind
    | with_reducible apply total_pure
    | with_reducible apply total_appendOutput
    | with_reducible exact total_onHost _ (total_ssh _ _)
    | with_reducible exact total_onHost _ (total_checkServiceRunning _ _)
    | (intro a; show Total _)
    | split

theorem total_executeStartService {σ : Type} (env : Env σ) (task : ComponentUpgradeTask) :
    Total (executeStartService env task) := by
  unfold executeStartService
  repeat' first
    | with_reducible apply total_bind
    | with_reducible apply total_pure
    | with_reducible apply total_appendOutput
    | with_reducible exact total_onHost _ (total_ssh _ _)
    | (intro a; show Total _)
    | split

/-! ## Code that stays within the frame of the task -/

theorem Frame.frame_refl (t : ComponentUpgradeTask) : Frame t t :=
  ⟨rfl, rfl, rfl, rfl, rfl, fun _ h => h⟩

theorem Frame.frame_trans {a b c : ComponentUpgradeTask} (h1 : Frame a b) (h2 : Frame b c) :
    Frame a c := by
  obtain ⟨a1, a2, a3, a4, a5, a6⟩ := h1
  obtain ⟨b1, b2, b3, b4, b5, b6⟩ := h2
  exact ⟨b1.trans a1, b2.trans a2, b3.trans a3, b4.trans a4, b5.trans a5,
    fun k h => b6 k (a6 k h)⟩

theorem framed_pure {σ α : Type} (a : α) : Framed (pure a : Go (Mem σ) α) :=
  fun m => ⟨a, m, rfl, Frame.frame_refl _, [], by simp, by simp⟩

theorem framed_bind {σ α β : Type} (x : Go (Mem σ) α) (f : α → Go (Mem σ) β)
    (hx : Framed x) (hf : ∀ a, Framed (f a)) : Framed (x >>= f) := by
  intro m
  obtain ⟨a, m1, e1, f1, r1, hr1, q1⟩ := hx m
  obtain ⟨b, m2, e2, f2, r2, hr2, q2⟩ := hf a m1
  refine ⟨b, m2, by rw [Go.bind_done _ _ _ _ _ e1, e2], f1.frame_trans f2, r1 ++ r2, ?_, ?_⟩
  · rw [hr2, hr1, List.append_assoc]
  · intro r hr
    rcases List.mem_append.1 hr with h | h
    · exact q1 r h
    · exact f1.frame_trans (q2 r h)

theorem framed_getTask {σ : Type} : Framed (getTask : Go (Mem σ) ComponentUpgradeTask) :=
  fun m => ⟨m.task, m, rfl, Frame.frame_refl _, [], by simp, by simp⟩

theorem framed_nowMem {σ : Type} (env : Env σ) : Framed (nowMem env) :=
  fun m => ⟨_, m, rfl, Frame.frame_refl _, [], by simp, by simp⟩

theorem framed_sshMem {σ : Type} (env : Env σ) (cmd : String) : Framed (sshMem env cmd) :=
  fun m => ⟨_, _, rfl, Frame.frame_refl _, [], by simp, by simp⟩

theorem framed_saveUpgradeTask {σ : Type} : Framed (saveUpgradeTask : Go (Mem σ) Unit) :=
  fun m => ⟨(), _, rfl, Frame.frame_refl _, [("upgrade_task:" ++ m.task.ID, m.task)], rfl,
    by simp [Frame.frame_refl]⟩

theorem framed_modifyTask {σ : Type} (f : ComponentUpgradeTask → ComponentUpgradeTask)
    (hf : ∀ t, Frame t (f t)) : Framed (modifyTask f : Go (Mem σ) Unit) :=
  fun m => ⟨(), _, rfl, hf m.task, [], by simp, by simp⟩

theorem framed_addUpgradeLog {σ : Type} (env : Env σ) (message : String) :
    Framed (addUpgradeLog env message) := by
  unfold addUpgradeLog
  refine framed_bind _ _ (framed_nowMem env) (fun now => ?_)
  refine framed_bind _ _ (framed_modifyTask _ (fun t => ?_)) (fun _ => framed_saveUpgradeTask)
  exact ⟨rfl, rfl, rfl, rfl, rfl, fun _ h => h⟩

theorem framed_setStatus {σ : Type} (st : String) :
    Framed (modifyTask (fun t => { t with Status := st }) : Go (Mem σ) Unit) :=
  framed_modifyTask _ (fun _ => ⟨rfl, rfl, rfl, rfl, rfl, fun _ h => h⟩)

theorem map_updateAt_same {α β : Type} (l : List α) (i : Nat) (f : α → α) (g : α → β)
    (h : ∀ a, g (f a) = g a) : (updateAt l i f).map g = l.map g := by
  unfold updateAt
  cases hi : l.get? i with
  | none => rfl
  | some a =>
    simp only
    rw [List.map_set, h]
    apply List.ext_getElem
    · simp
    · intro k h1 h2
      rw [List.getElem_set]
      split
      · rename_i hik
        subst hik
        rw [List.get?_eq_some] at hi
        obtain ⟨hlt, ha⟩ := hi
        simp only [List.getElem_map]
        rw [← ha]
        rfl
      · rfl

/-- A step function run on the scratch step stays within the frame. -/
theorem framed_runStep_none {σ α : Type} (x : Go (StepCtx σ) α) (ht : Total x)
    (hk : KeepsKeys x) : Framed (runStep none x) := by
  intro m
  obtain ⟨a, c', e⟩ := ht { host := m.host, output := "", backupPaths := m.task.BackupPaths }
  have hk' := hk { host := m.host, output := "", backupPaths := m.task.BackupPaths }
  rw [e] at hk'
  have hrun : runStep none x m = Outcome.done a
      { m with host := c'.host, task := { m.task with BackupPaths := c'.backupPaths } } := by
    simp only [runStep, e]
  refine ⟨a, _, hrun, ?_, [], by simp, by simp⟩
  exact ⟨rfl, rfl, rfl, rfl, rfl, fun k h => hk' k h⟩

/-! ## rollbackUpgrade -/

theorem endsWithStatus_bind {σ α β : Type} (st : String) (x : Go (Mem σ) α)
    (f : α → Go (Mem σ) β) (hf : ∀ a, EndsWithStatus st (f a)) :
    EndsWithStatus st (x >>= f) := by
  intro m b m' h
  rw [Go.bind_apply] at h
  cases hx : x m with
  | done a m1 =>
    rw [hx] at h
    exact hf a m1 b m' h
  | panicked msg m1 =>
    rw [hx] at h
    cases h

theorem endsWithStatus_set {σ : Type} (env : Env σ) (st message : String) :
    EndsWithStatus st (do
      modifyTask (fun t => { t with Status := st })
      addUpgradeLog env message : Go (Mem σ) Unit) := by
  intro m a m' h
  simp only [Go.bind_apply, modifyTask, addUpgradeLog, nowMem, saveUpgradeTask,
    Outcome.done.injEq, true_and] at h
  subst h
  rfl

theorem rollbackUpgrade_framed {σ : Type} (env : Env σ) : Framed (rollbackUpgrade env) := by
  unfold rollbackUpgrade
  repeat' first
    | with_reducible apply framed_bind
    | with_reducible apply framed_pure
    | with_reducible apply framed_addUpgradeLog
    | with_reducible apply framed_getTask
    | with_reducible apply framed_sshMem
    | with_reducible apply framed_setStatus
    | exact framed_runStep_none _ (total_executeStopService _ _) (keepsKeys_executeStopService _ _)
    | exact framed_runStep_none _ (total_executeStartService _ _) (keepsKeys_executeStartService _ _)
    | (intro a; show Framed _)
    | split

theorem rollbackUpgrade_status {σ : Type} (env : Env σ) :
    EndsWithStatus "rolled_back" (rollbackUpgrade env) := by
  unfold rollbackUpgrade
  repeat' first
    | with_reducible apply endsWithStatus_set
    | with_reducible apply endsWithStatus_bind
    | (intro a; show EndsWithStatus _ _)
    | split

/-- C10 (amended): the rollback sub-routine discards the results of its
stop-service, restore and start-service commands. For every host behaviour it
returns with the task status `rolled_back`, it leaves the task's error message
(that of the failed step) as it was, and every record it saves keeps the step
statuses and the progress. -/
theorem rollbackUpgrade_always_rolled_back {σ : Type} (env : Env σ) (m : Mem σ) :
    ∃ m', rollbackUpgrade env m = Outcome.done () m' ∧
      m'.task.Status = "rolled_back" ∧ m'.task.Error = m.task.Error ∧
      stepStatuses m'.task = stepStatuses m.task ∧ m'.task.Progress = m.task.Progress := by
  obtain ⟨a, m', e, fr, _⟩ := rollbackUpgrade_framed env m
  refine ⟨m', e, rollbackUpgrade_status env m a m' e, fr.2.2.1, ?_, fr.2.1⟩
  have h := congrArg (List.map (fun k : String × String × String => k.2.1)) fr.1
  simpa [stepStatuses, stepKey, List.map_map, Function.comp_def] using h

/-! ## The step loop -/

theorem Frame.names {t t' : ComponentUpgradeTask} (h : Frame t t') :
    stepNames t' = stepNames t := by
  have h1 := congrArg (List.map (fun k : String × String × String => k.1)) h.1
  simpa [stepNames, stepKey, List.map_map, Function.comp_def] using h1

theorem Frame.statuses {t t' : ComponentUpgradeTask} (h : Frame t t') :
    stepStatuses t' = stepStatuses t := by
  have h1 := congrArg (List.map (fun k : String × String × String => k.2.1)) h.1
  simpa [stepStatuses, stepKey, List.map_map, Function.comp_def] using h1

theorem Shape.shape_frame {names : List String} {i : Nat} {cur : List String}
    {t t' : ComponentUpgradeTask} (h : Shape names i cur t) (f : Frame t t') :
    Shape names i cur t' := by
  obtain ⟨h1, h2, h3, h4, h5⟩ := h
  exact ⟨f.names.trans h1, h2, f.statuses.trans h3, f.2.1.trans h4,
    fun hb => f.2.2.2.2.2 _ (h5 hb)⟩

theorem RecOK.recOK_frame {names : List String} {t t' : ComponentUpgradeTask} (h : RecOK names t)
    (f : Frame t t') : RecOK names t' := by
  obtain ⟨i, cur, hs, hc⟩ := h
  exact ⟨i, cur, hs.shape_frame f, hc⟩

theorem map_updateAt_set {α β : Type} (l : List α) (i : Nat) (f : α → α) (g : α → β) (b : β)
    (h : ∀ a, g (f a) = b) : (updateAt l i f).map g = (l.map g).set i b := by
  unfold updateAt
  cases hi : l.get? i with
  | none =>
    have hlen : l.length ≤ i := by
      rw [List.get?_eq_getElem?] at hi
      exact List.getElem?_eq_none_iff.1 hi
    simp only
    rw [List.set_eq_of_length_le (by simpa using hlen)]
  | some a =>
    simp only
    rw [List.map_set, h]

theorem set_replicate_append {α : Type} (i : Nat) (c x y : α) (rest : List α) :
    (List.replicate i c ++ x :: rest).set i y = List.replicate i c ++ y :: rest := by
  induction i with
  | zero => rfl
  | succ i ih => simp [List.replicate_succ, ih]

theorem get?_replicate_append {α : Type} (i : Nat) (c x : α) (rest : List α) :
    (List.replicate i c ++ x :: rest).get? i = some x := by
  induction i with
  | zero => rfl
  | succ i ih => simpa [List.replicate_succ] using ih

theorem runStep_frame {σ α : Type} (step : Option Nat) (x : Go (StepCtx σ) α)
    (hk : KeepsKeys x) (m : Mem σ) :
    Frame m.task (runStep step x m).state.task ∧ (runStep step x m).state.redis = m.redis := by
  cases step with
  | none =>
    have hk' := hk { host := m.host, output := "", backupPaths := m.task.BackupPaths }
    simp only [runStep]
    cases hx : x { host := m.host, output := "", backupPaths := m.task.BackupPaths } with
    | done a c =>
      rw [hx] at hk'
      exact ⟨⟨rfl, rfl, rfl, rfl, rfl, fun k h => hk' k h⟩, rfl⟩
    | panicked msg c =>
      rw [hx] at hk'
      exact ⟨⟨rfl, rfl, rfl, rfl, rfl, fun k h => hk' k h⟩, rfl⟩
  | some i =>
    have hk' := hk { host := m.host,
                     output := ((m.task.Steps.get? i).map (fun s => s.Output)).getD "",
                     backupPaths := m.task.BackupPaths }
    simp only [runStep]
    cases hx : x { host := m.host,
                   output := ((m.task.Steps.get? i).map (fun s => s.Output)).getD "",
                   backupPaths := m.task.BackupPaths } with
    | done a c =>
      rw [hx] at hk'
      exact ⟨⟨map_updateAt_same _ _ _ _ (fun _ => rfl), rfl, rfl, rfl, rfl,
        fun k h => hk' k h⟩, rfl⟩
    | panicked msg c =>
      rw [hx] at hk'
      exact ⟨⟨map_updateAt_same _ _ _ _ (fun _ => rfl), rfl, rfl, rfl, rfl,
        fun k h => hk' k h⟩, rfl⟩

theorem runStep_setsConfigKey {σ : Type} (step : Option Nat)
    (x : Go (StepCtx σ) (Option String)) (hx : SetsConfigKey x) (m m' : Mem σ)
    (h : runStep step x m = Outcome.done none m') : hasBackupPath "config" m'.task = true := by
  unfold runStep at h
  simp only at h
  split at h
  · rename_i a c hc
    simp only [Outcome.done.injEq] at h
    obtain ⟨ha, hm⟩ := h
    subst ha
    subst hm
    exact hx _ _ hc
  · cases h

theorem addUpgradeLog_apply {σ : Type} (env : Env σ) (message : String) (m : Mem σ) :
    addUpgradeLog env message m = Outcome.done ()
      { m with task := withLog env m.host m.task message,
               redis := m.redis ++
                 [("upgrade_task:" ++ m.task.ID, withLog env m.host m.task message)] } := rfl

theorem withLog_frame {σ : Type} (env : Env σ) (h : σ) (t : ComponentUpgradeTask)
    (message : String) : Frame t (withLog env h t message) :=
  ⟨rfl, rfl, rfl, rfl, rfl, fun _ hk => hk⟩

theorem beginStep_apply {σ : Type} (env : Env σ) (i : Nat) (m : Mem σ) :
    beginStep env i m = Outcome.done ((m.task.Steps.get? i).getD {})
      { host := m.host,
        redis := m.redis ++
          [("upgrade_task:" ++ m.task.ID,
            withLog env m.host m.task
              ("Executing step: " ++ ((m.task.Steps.get? i).getD {}).Description)),
           ("upgrade_task:" ++ m.task.ID,
            { withLog env m.host m.task
                ("Executing step: " ++ ((m.task.Steps.get? i).getD {}).Description) with
              Steps := updateAt m.task.Steps i
                (fun s => { s with Status := "running", StartTime := env.now m.host }) })],
        task :=
          { withLog env m.host m.task
              ("Executing step: " ++ ((m.task.Steps.get? i).getD {}).Description) with
            Steps := updateAt m.task.Steps i
              (fun s => { s with Status := "running", StartTime := env.now m.host }) } } := by
  simp only [beginStep, Go.bind_apply, getTask, addUpgradeLog_apply, nowMem, modifyStep,
    modifyTask, saveUpgradeTask, Go.pure_apply, List.append_assoc, List.singleton_append]
  rfl

theorem completeStep_apply {σ : Type} (env : Env σ) (totalSteps i : Nat) (step : UpgradeStep)
    (m : Mem σ) :
    completeStep env totalSteps i step m = Outcome.done ()
      { host := m.host,
        redis := m.redis ++
          [("upgrade_task:" ++ m.task.ID,
            { m.task with
              Steps := updateAt m.task.Steps i (fun s => { s with Status := "completed" }),
              Progress := progressPercent (i + 1) totalSteps }),
           ("upgrade_task:" ++ m.task.ID,
            withLog env m.host
              { m.task with
                Steps := updateAt m.task.Steps i (fun s => { s with Status := "completed" }),
                Progress := progressPercent (i + 1) totalSteps }
              ("Step " ++ step.Name ++ " completed successfully"))],
        task :=
          withLog env m.host
            { m.task with
              Steps := updateAt m.task.Steps i (fun s => { s with Status := "completed" }),
              Progress := progressPercent (i + 1) totalSteps }
            ("Step " ++ step.Name ++ " completed successfully") } := by
  simp only [completeStep, Go.bind_apply, addUpgradeLog_apply, modifyStep,
    modifyTask, saveUpgradeTask, List.append_assoc, List.singleton_append]

theorem get?_updateAt {α : Type} (l : List α) (i : Nat) (f : α → α) (a : α)
    (h : l.get? i = some a) : (updateAt l i f).get? i = some (f a) := by
  unfold updateAt
  rw [h]
  simp only
  rw [List.get?_eq_some] at h
  obtain ⟨hlt, _⟩ := h
  rw [List.get?_eq_getElem?, List.getElem?_set_self]
  simp [hlt]

theorem Shape.length {names : List String} {i : Nat} {cur : List String}
    {t : ComponentUpgradeTask} (h : Shape names i cur t) : t.Steps.length = names.length := by
  have := congrArg List.length h.1
  simpa [stepNames] using this

theorem Shape.get? {names : List String} {i : Nat} {cur : List String}
    {t : ComponentUpgradeTask} (h : Shape names i cur t) (k : Nat) (hk : k < names.length) :
    ∃ s, t.Steps.get? k = some s ∧ names.get? k = some s.Name := by
  have hlen := h.length
  have hk' : k < t.Steps.length := by omega
  refine ⟨t.Steps[k], by simp [List.get?_eq_getElem?, hk'], ?_⟩
  rw [← h.1]
  simp [stepNames, List.get?_eq_getElem?, hk']

theorem Shape.recOK_nil {names : List String} {i : Nat} {t : ComponentUpgradeTask}
    (h : Shape names i [] t) : RecOK names t := ⟨i, [], h, Or.inl rfl⟩

theorem Shape.recOK_running {names : List String} {i : Nat} {t : ComponentUpgradeTask}
    (h : Shape names i ["running"] t) : RecOK names t := ⟨i, _, h, Or.inr (Or.inl rfl)⟩

theorem Shape.recOK_failed {names : List String} {i : Nat} {t : ComponentUpgradeTask}
    (h : Shape names i ["failed"] t) : RecOK names t := ⟨i, _, h, Or.inr (Or.inr rfl)⟩

/-- Marking step `i` as running, from the head of the loop. -/
theorem Shape.start {names : List String} {i : Nat} {t t' : ComponentUpgradeTask}
    (h : Shape names i [] t) (hi : i < names.length)
    (hn : stepNames t' = stepNames t)
    (hs : stepStatuses t' = (stepStatuses t).set i "running")
    (hp : t'.Progress = t.Progress) (hb : t'.BackupPaths = t.BackupPaths) :
    Shape names i ["running"] t' := by
  obtain ⟨h1, h2, h3, h4, h5⟩ := h
  refine ⟨hn.trans h1, by simpa using hi, ?_, hp.trans h4, fun hm => ?_⟩
  · rw [hs, h3]
    have e : names.length - i - ([] : List String).length = (names.length - i - 1) + 1 := by
      simp only [List.length_nil]
      omega
    rw [e, List.replicate_succ]
    simp only [List.append_nil, List.length_singleton, List.append_assoc, List.singleton_append]
    exact set_replicate_append i _ _ _ _
  · have := h5 hm
    simpa [hasBackupPath, hb] using this

/-- Replacing the status of the step in progress. -/
theorem Shape.restatus {names : List String} {i : Nat} {x y : String}
    {t t' : ComponentUpgradeTask} (h : Shape names i [x] t)
    (hn : stepNames t' = stepNames t)
    (hs : stepStatuses t' = (stepStatuses t).set i y)
    (hp : t'.Progress = t.Progress) (hb : t'.BackupPaths = t.BackupPaths) :
    Shape names i [y] t' := by
  obtain ⟨h1, h2, h3, h4, h5⟩ := h
  refine ⟨hn.trans h1, h2, ?_, hp.trans h4, fun hm => ?_⟩
  · rw [hs, h3]
    simp only [List.length_singleton, List.append_assoc, List.singleton_append]
    exact set_replicate_append i _ _ _ _
  · have := h5 hm
    simpa [hasBackupPath, hb] using this

/-- Completing the step in progress moves the loop position on. -/
theorem Shape.complete {names : List String} {i : Nat} {t t' : ComponentUpgradeTask}
    (h : Shape names i ["running"] t)
    (hk : "backup_config" ∈ names.take (i + 1) → hasBackupPath "config" t = true)
    (hn : stepNames t' = stepNames t)
    (hs : stepStatuses t' = (stepStatuses t).set i "completed")
    (hp : t'.Progress = progressPercent (i + 1) names.length)
    (hb : t'.BackupPaths = t.BackupPaths) :
    Shape names (i + 1) [] t' := by
  obtain ⟨h1, h2, h3, h4, h5⟩ := h
  refine ⟨hn.trans h1, by simpa using h2, ?_, hp, fun hm => ?_⟩
  · rw [hs, h3]
    simp only [List.length_singleton, List.append_assoc, List.singleton_append, List.length_nil,
      List.append_nil, Nat.sub_zero, List.nil_append]
    rw [set_replicate_append, List.replicate_succ']
    simp [Nat.sub_sub]
  · have := hk hm
    simpa [hasBackupPath, hb] using this

theorem beginStep_spec {σ : Type} (env : Env σ) (names : List String) (i : Nat) (m : Mem σ)
    (hs : Shape names i [] m.task) (hi : i < names.length) :
    ∃ step m1, beginStep env i m = Outcome.done step m1 ∧ names.get? i = some step.Name ∧
      Shape names i ["running"] m1.task ∧ m1.task.Status = m.task.Status ∧
      m1.task.Strategy = m.task.Strategy ∧
      ∃ recs, m1.redis = m.redis ++ recs ∧ ∀ r ∈ recs, RecOK names r.2 := by
  obtain ⟨s, hget, hname⟩ := hs.get? i hi
  have hr : Shape names i ["running"]
      { withLog env m.host m.task
          ("Executing step: " ++ ((m.task.Steps.get? i).getD {}).Description) with
        Steps := updateAt m.task.Steps i
          (fun s => { s with Status := "running", StartTime := env.now m.host }) } :=
    hs.start hi (map_updateAt_same _ _ _ _ (fun _ => rfl))
      (map_updateAt_set _ _ _ _ _ (fun _ => rfl)) rfl rfl
  refine ⟨_, _, beginStep_apply env i m, ?_, hr, rfl, rfl, _, rfl, ?_⟩
  · rw [hget]
    exact hname
  · intro r hr'
    simp only [List.mem_cons, List.mem_singleton, List.not_mem_nil, or_false] at hr'
    rcases hr' with rfl | rfl
    · exact (hs.shape_frame (withLog_frame env m.host m.task _)).recOK_nil
    · exact hr.recOK_running

theorem completeStep_spec {σ : Type} (env : Env σ) (names : List String) (i : Nat)
    (step : UpgradeStep) (m : Mem σ) (hs : Shape names i ["running"] m.task)
    (hk : "backup_config" ∈ names.take (i + 1) → hasBackupPath "config" m.task = true) :
    ∃ m3, completeStep env names.length i step m = Outcome.done () m3 ∧
      Shape names (i + 1) [] m3.task ∧ m3.task.Status = m.task.Status ∧
      m3.task.Strategy = m.task.Strategy ∧
      ∃ recs, m3.redis = m.redis ++ recs ∧ ∀ r ∈ recs, RecOK names r.2 := by
  have h1 : Shape names (i + 1) []
      { m.task with
        Steps := updateAt m.task.Steps i (fun s => { s with Status := "completed" }),
        Progress := progressPercent (i + 1) names.length } :=
    hs.complete hk (map_updateAt_same _ _ _ _ (fun _ => rfl))
      (map_updateAt_set _ _ _ _ _ (fun _ => rfl)) rfl rfl
  have h2 := h1.shape_frame (withLog_frame env m.host _
    ("Step " ++ step.Name ++ " completed successfully"))
  refine ⟨_, completeStep_apply env names.length i step m, h2, rfl, rfl, _, rfl, ?_⟩
  intro r hr'
  simp only [List.mem_cons, List.mem_singleton, List.not_mem_nil, or_false] at hr'
  rcases hr' with rfl | rfl
  · exact h1.recOK_nil
  · exact h2.recOK_nil

theorem executeUpgradeStep_backup_config {σ : Type} (env : Env σ) (task : ComponentUpgradeTask) :
    executeUpgradeStep env task "backup_config" = executeBackupConfig env task := by
  unfold executeUpgradeStep
  rw [if_neg (by decide), if_pos rfl]

theorem runUpgradeStep_spec {σ : Type} (env : Env σ) (i : Nat) (step : UpgradeStep) (m : Mem σ) :
    Frame m.task (runUpgradeStep env i step m).state.task ∧
    (runUpgradeStep env i step m).state.redis = m.redis ∧
    (runUpgradeStep env i step m).state.task.Status = m.task.Status ∧
    (∀ m', runUpgradeStep env i step m = Outcome.done none m' →
      step.Name = "backup_config" → hasBackupPath "config" m'.task = true) := by
  have hf := runStep_frame (some i) (executeUpgradeStep env m.task step.Name)
    (keepsKeys_executeUpgradeStep env m.task step.Name) m
  have hst : (runStep (some i) (executeUpgradeStep env m.task step.Name) m).state.task.Status
      = m.task.Status := by
    simp only [runStep]
    split <;> rfl
  simp only [runUpgradeStep, Go.bind_apply, getTask, nowMem, modifyStep, modifyTask,
    Go.pure_apply]
  cases hr : runStep (some i) (executeUpgradeStep env m.task step.Name) m with
  | done err m2 =>
    rw [hr] at hf hst
    simp only [Outcome.state] at hf hst ⊢
    refine ⟨hf.1.frame_trans ⟨map_updateAt_same _ _ _ _ (fun _ => rfl), rfl, rfl, rfl, rfl,
      fun _ h => h⟩, hf.2, hst, ?_⟩
    intro m' hm' hname
    simp only [Outcome.done.injEq] at hm'
    obtain ⟨he, hm2⟩ := hm'
    subst he
    rw [hname, executeUpgradeStep_backup_config] at hr
    have := runStep_setsConfigKey (some i) _ (executeBackupConfig_sets_key env m.task) m m2 hr
    rw [← hm2]
    exact this
  | panicked msg m2 =>
    rw [hr] at hf hst
    simp only [Outcome.state] at hf hst ⊢
    exact ⟨hf.1, hf.2, hst, fun m' hm' => by cases hm'⟩

theorem get?_of_map_eq {α β : Type} (g : α → β) (l l' : List α) (i : Nat) (a : α)
    (h : l'.map g = l.map g) (ha : l.get? i = some a) :
    ∃ a', l'.get? i = some a' ∧ g a' = g a := by
  have h1 : (l'.map g).get? i = (l.map g).get? i := by rw [h]
  rw [List.get?_eq_getElem?, List.get?_eq_getElem?, List.getElem?_map, List.getElem?_map,
    ← List.get?_eq_getElem?, ← List.get?_eq_getElem?, ha] at h1
  cases h2 : l'.get? i with
  | none =>
    rw [h2] at h1
    cases h1
  | some a' =>
    rw [h2] at h1
    simp only [Option.map_some', Option.some.injEq] at h1
    exact ⟨a', rfl, h1⟩

theorem failStep_apply {σ : Type} (env : Env σ) (i : Nat) (step : UpgradeStep) (e : String)
    (m : Mem σ) :
    failStep env i step e m =
      (if m.task.Strategy.RollbackEnabled = true then
        (do addUpgradeLog env "Starting rollback..."; rollbackUpgrade env)
       else pure ())
      { m with
        task := failedTask env m.host m.task i step.Name e,
        redis := m.redis ++
          [("upgrade_task:" ++ m.task.ID, failedTask env m.host m.task i step.Name e)] } := by
  simp only [failStep, Go.bind_apply, modifyStep, modifyTask, getTask, addUpgradeLog_apply,
    failedTask]

theorem rollbackIf_spec {σ : Type} (env : Env σ) (names : List String) (i : Nat) (rb : Bool)
    (mA : Mem σ) (s : UpgradeStep) (hF : Shape names i ["failed"] mA.task)
    (hget : mA.task.Steps.get? i = some s) (hst : s.Status = "failed")
    (herr : mA.task.Error = "Step " ++ s.Name ++ " failed: " ++ s.Error)
    (hstat : mA.task.Status = "failed") :
    ∃ m3, (if rb = true then
            (do addUpgradeLog env "Starting rollback..."; rollbackUpgrade env)
           else pure ()) mA = Outcome.done () m3 ∧
      (∃ s, Shape names i ["failed"] m3.task ∧ m3.task.Steps.get? i = some s ∧
        s.Status = "failed" ∧ m3.task.Error = "Step " ++ s.Name ++ " failed: " ++ s.Error) ∧
      m3.task.Status = (if rb then "rolled_back" else "failed") ∧
      ∃ recs, m3.redis = mA.redis ++ recs ∧ ∀ r ∈ recs, RecOK names r.2 := by
  cases rb with
  | true =>
    have hfr : Framed (do addUpgradeLog env "Starting rollback..."; rollbackUpgrade env :
        Go (Mem σ) Unit) :=
      framed_bind _ _ (framed_addUpgradeLog env _) (fun _ => rollbackUpgrade_framed env)
    have hend : EndsWithStatus "rolled_back"
        (do addUpgradeLog env "Starting rollback..."; rollbackUpgrade env : Go (Mem σ) Unit) :=
      endsWithStatus_bind _ _ _ (fun _ => rollbackUpgrade_status env)
    obtain ⟨a, m3, e3, f3, recs, hrecs, hq⟩ := hfr mA
    obtain ⟨s', hs', hk'⟩ := get?_of_map_eq stepKey _ _ i _ f3.1 hget
    simp only [stepKey, Prod.mk.injEq] at hk'
    refine ⟨m3, e3, ⟨s', hF.shape_frame f3, hs', hk'.2.1.trans hst, ?_⟩, hend _ _ _ e3, recs, hrecs,
      fun r hr => (hF.shape_frame (hq r hr)).recOK_failed⟩
    rw [f3.2.2.1, hk'.1, hk'.2.2]
    exact herr
  | false =>
    exact ⟨mA, rfl, ⟨s, hF, hget, hst, herr⟩, hstat, [], by simp, by simp⟩

theorem failStep_spec {σ : Type} (env : Env σ) (names : List String) (i : Nat)
    (step : UpgradeStep) (e : String) (m : Mem σ) (hs : Shape names i ["running"] m.task)
    (hname : names.get? i = some step.Name) :
    ∃ m3, failStep env i step e m = Outcome.done () m3 ∧
      (∃ s, Shape names i ["failed"] m3.task ∧ m3.task.Steps.get? i = some s ∧
        s.Status = "failed" ∧ m3.task.Error = "Step " ++ s.Name ++ " failed: " ++ s.Error) ∧
      m3.task.Status = (if m.task.Strategy.RollbackEnabled then "rolled_back" else "failed") ∧
      ∃ recs, m3.redis = m.redis ++ recs ∧ ∀ r ∈ recs, RecOK names r.2 := by
  have hi : i < names.length := by
    have := hs.2.1
    simp only [List.length_singleton] at this
    omega
  obtain ⟨s0, hget, hn0⟩ := hs.get? i hi
  have hsn : s0.Name = step.Name := by
    rw [hname] at hn0
    exact (Option.some.inj hn0).symm
  have hF0 : Shape names i ["failed"]
      { m.task with
        Steps := updateAt m.task.Steps i (fun s => { s with Status := "failed", Error := e }),
        Status := "failed",
        Error := "Step " ++ step.Name ++ " failed: " ++ e } :=
    hs.restatus (map_updateAt_same _ _ _ _ (fun _ => rfl))
      (map_updateAt_set _ _ _ _ _ (fun _ => rfl)) rfl rfl
  have hF : Shape names i ["failed"] (failedTask env m.host m.task i step.Name e) :=
    hF0.shape_frame (withLog_frame env m.host _ _)
  have hgetF : (failedTask env m.host m.task i step.Name e).Steps.get? i
      = some { s0 with Status := "failed", Error := e } := get?_updateAt _ _ _ _ hget
  obtain ⟨m3, e3, h3, hst3, recs, hrecs, hq⟩ := rollbackIf_spec env names i
    m.task.Strategy.RollbackEnabled
    { m with
      task := failedTask env m.host m.task i step.Name e,
      redis := m.redis ++
        [("upgrade_task:" ++ m.task.ID, failedTask env m.host m.task i step.Name e)] }
    { s0 with Status := "failed", Error := e } hF hgetF rfl
    (by show "Step " ++ step.Name ++ " failed: " ++ e = "Step " ++ s0.Name ++ " failed: " ++ e
        rw [hsn])
    rfl
  have hred : m3.redis = m.redis ++
      (("upgrade_task:" ++ m.task.ID, failedTask env m.host m.task i step.Name e) :: recs) := by
    rw [hrecs]
    simp
  refine ⟨m3, by rw [failStep_apply]; exact e3, h3, hst3, _, hred, ?_⟩
  intro r hr
  simp only [List.mem_cons] at hr
  rcases hr with rfl | hr
  · exact hF.recOK_failed
  · exact hq r hr

theorem LoopResult.congr {σ : Type} {names : List String} {t0 t0' : ComponentUpgradeTask}
    {o : Outcome (Mem σ) Bool} (h : LoopResult names t0 o) (h1 : t0.Status = t0'.Status)
    (h2 : t0.Strategy = t0'.Strategy) : LoopResult names t0' o := by
  cases o with
  | done b m' =>
    cases b with
    | true => exact ⟨h.1, h.2.trans h1⟩
    | false =>
      refine ⟨h.1, ?_⟩
      rw [← h2]
      exact h.2
  | panicked msg m' => exact ⟨h.1, h.2.trans h1⟩

theorem mem_take_succ (names : List String) (i : Nat) (x : String)
    (h : x ∈ names.take (i + 1)) : x ∈ names.take i ∨ names.get? i = some x := by
  rw [List.take_succ, List.mem_append] at h
  rcases h with h | h
  · exact Or.inl h
  · right
    rw [List.get?_eq_getElem?]
    cases hg : names[i]? with
    | none =>
      rw [hg] at h
      simp at h
    | some y =>
      rw [hg] at h
      simp only [Option.toList_some, List.mem_singleton] at h
      rw [h]

/-- The step loop: what it guarantees about its outcome and about every record it saves. -/
theorem upgradeLoop_spec {σ : Type} (env : Env σ) (names : List String) (n' i : Nat)
    (m : Mem σ) (hn : i + n' = names.length) (hs : Shape names i [] m.task) :
    LoopResult names m.task (upgradeLoop env names.length n' i m) ∧
    ∃ recs, (upgradeLoop env names.length n' i m).state.redis = m.redis ++ recs ∧
      ∀ r ∈ recs, RecOK names r.2 := by
  induction n' generalizing i m with
  | zero =>
    have hi : i = names.length := by omega
    subst hi
    exact ⟨⟨hs, rfl⟩, [], by simp [upgradeLoop, Go.pure_apply, Outcome.state], by simp⟩
  | succ n' ih =>
    have hi : i < names.length := by omega
    obtain ⟨step, m1, eb, hname, hs1, hst1, hsg1, recs1, hr1, hq1⟩ :=
      beginStep_spec env names i m hs hi
    obtain ⟨hf2, hr2, hst2, hkey2⟩ := runUpgradeStep_spec env i step m1
    simp only [upgradeLoop]
    rw [Go.bind_done _ _ _ _ _ eb]
    cases hrun : runUpgradeStep env i step m1 with
    | panicked msg m2 =>
      rw [hrun] at hf2 hr2 hst2
      simp only [Outcome.state] at hf2 hr2 hst2
      rw [Go.bind_panicked _ _ _ _ _ hrun]
      exact ⟨⟨⟨i, hs1.shape_frame hf2⟩, hst2.trans hst1⟩, recs1, by
        simp only [Outcome.state]
        rw [hr2, hr1], hq1⟩
    | done err m2 =>
      rw [hrun] at hf2 hr2 hst2
      simp only [Outcome.state] at hf2 hr2 hst2
      rw [Go.bind_done _ _ _ _ _ hrun]
      have hs2 : Shape names i ["running"] m2.task := hs1.shape_frame hf2
      cases err with
      | some e =>
        obtain ⟨m3, e3, h3, hst3, recs3, hr3, hq3⟩ := failStep_spec env names i step e m2 hs2 hname
        simp only []
        rw [Go.bind_done _ _ _ _ _ e3]
        refine ⟨⟨?_, ?_⟩, recs1 ++ recs3, ?_, ?_⟩
        · obtain ⟨s, a1, a2, a3, a4⟩ := h3
          exact ⟨i, s, a1, a2, a3, a4⟩
        · show m3.task.Status = _
          rw [hst3, hf2.2.2.2.1, hsg1]
        · simp only [Go.pure_apply, Outcome.state]
          rw [hr3, hr2, hr1, List.append_assoc]
        · intro r hr
          rcases List.mem_append.1 hr with h | h
          · exact hq1 r h
          · exact hq3 r h
      | none =>
        have hk : "backup_config" ∈ names.take (i + 1) → hasBackupPath "config" m2.task = true := by
          intro hm
          rcases mem_take_succ names i _ hm with h | h
          · exact hs2.2.2.2.2 h
          · rw [hname] at h
            exact hkey2 m2 hrun (Option.some.inj h)
        obtain ⟨m3, e3, hs3, hst3, hsg3, recs3, hr3, hq3⟩ :=
          completeStep_spec env names i step m2 hs2 hk
        simp only []
        rw [Go.bind_done _ _ _ _ _ e3]
        obtain ⟨hl, recs4, hr4, hq4⟩ := ih (i + 1) m3 (by omega) hs3
        refine ⟨hl.congr ?_ ?_, recs1 ++ (recs3 ++ recs4), ?_, ?_⟩
        · rw [hst3, hst2, hst1]
        · rw [hsg3, hf2.2.2.2.1, hsg1]
        · rw [hr4, hr3, hr2, hr1]
          simp only [List.append_assoc]
        · intro r hr
          rcases List.mem_append.1 hr with h | h
          · exact hq1 r h
          · rcases List.mem_append.1 h with h | h
            · exact hq3 r h
            · exact hq4 r h

/-! ## executeUpgradeAsync -/

theorem Shape.of_same {names : List String} {i : Nat} {cur : List String}
    {t t' : ComponentUpgradeTask} (h : Shape names i cur t) (hs : t'.Steps = t.Steps)
    (hp : t'.Progress = t.Progress) (hb : t'.BackupPaths = t.BackupPaths) :
    Shape names i cur t' := by
  obtain ⟨h1, h2, h3, h4, h5⟩ := h
  refine ⟨by rw [← h1]; simp only [stepNames, hs], h2, by rw [← h3]; simp only [stepStatuses, hs],
    hp.trans h4, fun hm => ?_⟩
  have := h5 hm
  simpa [hasBackupPath, hb] using this

theorem Saves.saves_refl {σ : Type} (names : List String) (m : Mem σ) : Saves names m m :=
  ⟨[], by simp, by simp⟩

theorem Saves.saves_trans {σ : Type} {names : List String} {a b c : Mem σ}
    (h1 : Saves names a b) (h2 : Saves names b c) : Saves names a c := by
  obtain ⟨r1, e1, q1⟩ := h1
  obtain ⟨r2, e2, q2⟩ := h2
  refine ⟨r1 ++ r2, by rw [e2, e1, List.append_assoc], fun r hr => ?_⟩
  rcases List.mem_append.1 hr with h | h
  · exact q1 r h
  · exact q2 r h

theorem Saves.one {σ : Type} {names : List String} {a b : Mem σ} (key : String)
    (t : ComponentUpgradeTask) (h : b.redis = a.redis ++ [(key, t)]) (ht : RecOK names t) :
    Saves names a b :=
  ⟨[(key, t)], h, fun r hr => by
    simp only [List.mem_singleton] at hr
    subst hr
    exact ht⟩

theorem addUpgradeLog_saves {σ : Type} (env : Env σ) (names : List String) (message : String)
    (m : Mem σ) (h : RecOK names m.task) :
    Saves names m (addUpgradeLog env message m).state :=
  Saves.one _ _ rfl (h.recOK_frame (withLog_frame env m.host m.task message))

theorem runAllSteps_spec {σ : Type} (env : Env σ) (names : List String) (m : Mem σ)
    (hs : Shape names 0 [] m.task) :
    LoopResult names m.task (runAllSteps env m) ∧ Saves names m (runAllSteps env m).state := by
  have hlen : m.task.Steps.length = names.length := hs.length
  have h1 : Shape names 0 [] (addUpgradeLog env ("Starting upgrade of " ++
      m.task.ComponentName ++ " from " ++ m.task.FromVersion ++ " to " ++
      m.task.ToVersion) m).state.task :=
    hs.shape_frame (withLog_frame env m.host m.task _)
  have hsv1 := addUpgradeLog_saves env names ("Starting upgrade of " ++
      m.task.ComponentName ++ " from " ++ m.task.FromVersion ++ " to " ++
      m.task.ToVersion) m hs.recOK_nil
  obtain ⟨hl, hsv⟩ := upgradeLoop_spec env names names.length 0 _ (by simp) h1
  have hl' : LoopResult names m.task (upgradeLoop env names.length names.length 0
      (addUpgradeLog env ("Starting upgrade of " ++
      m.task.ComponentName ++ " from " ++ m.task.FromVersion ++ " to " ++
      m.task.ToVersion) m).state) := hl.congr rfl rfl
  have hrw : runAllSteps env m =
      (upgradeLoop env names.length names.length 0 >>= fun finished =>
        if finished = true then
          (do addUpgradeLog env "Upgrade completed successfully"; pure true)
        else pure false)
        (addUpgradeLog env ("Starting upgrade of " ++
          m.task.ComponentName ++ " from " ++ m.task.FromVersion ++ " to " ++
          m.task.ToVersion) m).state := by
    simp only [runAllSteps, Go.bind_apply, getTask, addUpgradeLog_apply, hlen, Outcome.state]
  rw [hrw]
  cases hloop : upgradeLoop env names.length names.length 0
      (addUpgradeLog env ("Starting upgrade of " ++
        m.task.ComponentName ++ " from " ++ m.task.FromVersion ++ " to " ++
        m.task.ToVersion) m).state with
  | panicked msg mb =>
    rw [hloop] at hl' hsv
    rw [Go.bind_panicked _ _ _ _ _ hloop]
    exact ⟨hl', hsv1.saves_trans hsv⟩
  | done b mb =>
    rw [hloop] at hl' hsv
    rw [Go.bind_done _ _ _ _ _ hloop]
    cases b with
    | false => exact ⟨hl', hsv1.saves_trans hsv⟩
    | true =>
      simp only [if_true, Go.bind_apply, addUpgradeLog_apply, Go.pure_apply]
      exact ⟨⟨hl'.1.shape_frame (withLog_frame env mb.host mb.task _), hl'.2⟩,
        (hsv1.saves_trans hsv).saves_trans (addUpgradeLog_saves env names _ mb hl'.1.recOK_nil)⟩

theorem executeUpgradeBody_spec {σ : Type} (env : Env σ) (names : List String) (m : Mem σ)
    (hs : Shape names 0 [] m.task) (hrun : m.task.Status = "running") :
    BodyResult env names m (executeUpgradeBody env m) ∧
    Saves names m (executeUpgradeBody env m).state := by
  simp only [executeUpgradeBody, Go.bind_apply, getHostMem]
  cases hg : env.getHost m.task.HostID m.host with
  | some e =>
    simp only [modifyTask, getTask, addUpgradeLog_apply, Go.pure_apply, Go.bind_apply]
    have h1 : Shape names 0 []
        (withLog env m.host
          { m.task with Status := "failed", Error := "Failed to get host info: " ++ e }
          ("ERROR: " ++ ("Failed to get host info: " ++ e))) :=
      hs.of_same rfl rfl rfl
    exact ⟨⟨h1.recOK_nil, Or.inl rfl, fun h => by rw [hg] at h; cases h⟩,
      Saves.one _ _ rfl h1.recOK_nil⟩
  | none =>
    simp only [createSSHClientMem, Go.bind_apply]
    cases hc : (env.createSSHClient m.task.HostID m.host).1 with
    | some e =>
      simp only [modifyTask, getTask, addUpgradeLog_apply, Go.pure_apply, Go.bind_apply]
      have h1 : Shape names 0 []
          (withLog env (env.createSSHClient m.task.HostID m.host).2
            { m.task with Status := "failed", Error := "Failed to connect to host: " ++ e }
            ("ERROR: " ++ ("Failed to connect to host: " ++ e))) :=
        hs.of_same rfl rfl rfl
      exact ⟨⟨h1.recOK_nil, Or.inl rfl, fun _ h => by rw [hc] at h; cases h⟩,
        Saves.one _ _ rfl h1.recOK_nil⟩
    | none =>
      simp only []
      obtain ⟨hl, hsv⟩ := runAllSteps_spec env names
        { m with host := (env.createSSHClient m.task.HostID m.host).2 } hs
      refine ⟨?_, hsv⟩
      cases hres : runAllSteps env
          { m with host := (env.createSSHClient m.task.HostID m.host).2 } with
      | panicked msg mb =>
        rw [hres] at hl
        exact ⟨hl.1, hl.2.trans hrun⟩
      | done b mb =>
        rw [hres] at hl
        cases b with
        | true => exact ⟨hl.1, hl.2.trans hrun⟩
        | false =>
          obtain ⟨⟨k, step, a1, a2, a3, a4⟩, hst⟩ := hl
          refine ⟨a1.recOK_failed, ?_, fun _ _ => ⟨⟨k, step, a1, a2, a3, a4⟩, hst⟩⟩
          rw [hst]
          show (if m.task.Strategy.RollbackEnabled = true then "rolled_back" else "failed")
            = "failed" ∨ _
          split
          · exact Or.inr rfl
          · exact Or.inl rfl

theorem generateUpgradeSteps_pending (c f t : String) (strategy : UpgradeStrategy) :
    (generateUpgradeSteps c f t strategy).map (fun s => s.Status)
      = List.replicate (generateUpgradeSteps c f t strategy).length "pending" := by
  obtain ⟨bc, bd, ss, mc, re, ut, hd⟩ := strategy
  cases bc <;> cases bd <;> cases ss <;> cases mc <;> rfl

theorem generateUpgradeSteps_names_backup (c f t : String) (strategy : UpgradeStrategy)
    (hb : strategy.BackupConfig = true) :
    ∃ rest, (generateUpgradeSteps c f t strategy).map (fun s => s.Name)
      = ["pre_check"] ++ "backup_config" :: rest := by
  obtain ⟨bc, bd, ss, mc, re, ut, hd⟩ := strategy
  simp only at hb
  subst hb
  cases bd <;> cases ss <;> cases mc <;> exact ⟨_, rfl⟩

/-- The task handed to `executeUpgradeAsync` is at the head of the loop with all steps pending. -/
theorem startedTask_shape {σ : Type} (env : Env σ) (hostID : Nat) (c f t : String)
    (strategy : UpgradeStrategy) (host0 host1 : σ) :
    Shape ((generateUpgradeSteps c f t strategy).map (fun s => s.Name)) 0 []
      (startedTask env hostID c f t strategy host0 host1) := by
  refine ⟨rfl, by simp, ?_, ?_, fun h => by simp at h⟩
  · show (generateUpgradeSteps c f t strategy).map (fun s => s.Status) = _
    rw [generateUpgradeSteps_pending]
    simp
  · show (0 : Int) = progressPercent 0 _
    simp [progressPercent]

theorem recOK_progress {names : List String} {r : ComponentUpgradeTask} (h : RecOK names r) :
    r.Progress = ((100 * completedSteps r / r.Steps.length : Nat) : Int) := by
  obtain ⟨i, cur, hs, hc⟩ := h
  have hlen := hs.length
  obtain ⟨_, _, h3, h4, _⟩ := hs
  have hcount : completedSteps r = i := by
    unfold completedSteps
    rw [h3]
    rcases hc with rfl | rfl | rfl
    · simp [List.count_replicate]
    · simp [List.count_replicate, List.count_cons]
    · simp [List.count_replicate, List.count_cons]
  rw [hcount, hlen, h4]
  rfl

theorem mem_take_of_split (names pre rest : List String) (b u : String) (j : Nat)
    (hn : names = pre ++ b :: rest) (hu : u ∉ pre) (hub : u ≠ b)
    (hj : names.get? j = some u) : b ∈ names.take j := by
  have hlt : pre.length < j := by
    by_contra hcon
    have hle : j ≤ pre.length := Nat.le_of_not_lt hcon
    rw [hn, List.get?_eq_getElem?] at hj
    rcases Nat.lt_or_eq_of_le hle with h | h
    · rw [List.getElem?_append_left h] at hj
      exact hu (List.getElem?_mem hj)
    · rw [List.getElem?_append_right (by omega), h] at hj
      simp only [Nat.sub_self, List.getElem?_cons_zero, Option.some.injEq] at hj
      exact hub hj.symm
  apply List.take_subset_take_left names (show pre.length + 1 ≤ j by omega)
  rw [hn, List.take_append_eq_append_take]
  simp

theorem recOK_config {names : List String} {r : ComponentUpgradeTask} (h : RecOK names r)
    (hnames : ∀ j, names.get? j = some "upgrade_component" → "backup_config" ∈ names.take j)
    (s : UpgradeStep) (hs : s ∈ r.Steps) (hname : s.Name = "upgrade_component")
    (hst : s.Status ≠ "pending") : hasBackupPath "config" r = true := by
  obtain ⟨i, cur, hsh, hc⟩ := h
  obtain ⟨j, hj, hget⟩ := List.getElem_of_mem hs
  have hnj : names.get? j = some "upgrade_component" := by
    rw [← hsh.1, ← hname]
    simp [stepNames, List.get?_eq_getElem?, hj, hget]
  have hsj : (stepStatuses r)[j]? = some s.Status := by
    simp [stepStatuses, hj, hget]
  have hji : j ≤ i := by
    by_contra hcon
    have hcl : cur.length ≤ 1 := by
      rcases hc with rfl | rfl | rfl <;> simp
    rw [hsh.2.2.1, List.getElem?_append_right (by simp; omega),
      List.getElem?_replicate] at hsj
    split at hsj
    · exact hst (Option.some.inj hsj).symm
    · cases hsj
  exact hsh.2.2.2.2 (List.take_subset_take_left names hji (hnames j hnj))

theorem upgradeDeferred_apply {σ : Type} (env : Env σ) (m : Mem σ) :
    upgradeDeferred env m = Outcome.done ()
      { m with task := deferredTask env m.host m.task,
               redis := m.redis ++ [("upgrade_task:" ++ m.task.ID, deferredTask env m.host m.task)] } := by
  simp only [upgradeDeferred, Go.bind_apply, modifyTask, nowMem, saveUpgradeTask, deferredTask]
  split <;> rfl

theorem executeUpgradeAsync_state {σ : Type} (env : Env σ) (m : Mem σ) :
    (executeUpgradeAsync env m).state =
      { (executeUpgradeBody env m).state with
        task := deferredTask env (executeUpgradeBody env m).state.host
          (executeUpgradeBody env m).state.task,
        redis := (executeUpgradeBody env m).state.redis ++
          [("upgrade_task:" ++ (executeUpgradeBody env m).state.task.ID,
            deferredTask env (executeUpgradeBody env m).state.host
              (executeUpgradeBody env m).state.task)] } := by
  unfold executeUpgradeAsync
  cases executeUpgradeBody env m with
  | done b mb => simp only [upgradeDeferred_apply, Outcome.state]
  | panicked msg mb => simp only [upgradeDeferred_apply, Outcome.state]

theorem deferredTask_steps {σ : Type} (env : Env σ) (h : σ) (t : ComponentUpgradeTask) :
    (deferredTask env h t).Steps = t.Steps ∧ (deferredTask env h t).BackupPaths = t.BackupPaths ∧
    (deferredTask env h t).Error = t.Error ∧ (deferredTask env h t).Progress = 100 ∧
    (deferredTask env h t).CompletedAt = some (env.now h) ∧
    (deferredTask env h t).Status = (if t.Status = "running" then "completed" else t.Status) := by
  unfold deferredTask
  split <;> exact ⟨rfl, rfl, rfl, rfl, rfl, rfl⟩

theorem bodyResult_recOK {σ : Type} {env : Env σ} {names : List String} {m : Mem σ}
    {o : Outcome (Mem σ) Bool} (h : BodyResult env names m o) : RecOK names o.state.task := by
  cases o with
  | done b mb =>
    cases b with
    | true => exact h.1.recOK_nil
    | false => exact h.1
  | panicked msg mb =>
    obtain ⟨⟨k, hk⟩, _⟩ := h
    exact hk.recOK_running

/-- C6 (amended): for a task built by `CreateUpgradeTask` and started by
`ExecuteUpgrade`, every record saved by `executeUpgradeAsync` before the final
one has `Progress = floor(100 * c / n)`, with `c` the number of completed steps
and `n` the number of steps; the final record, saved by the deferred function,
has `Progress = 100` whatever the number of completed steps. -/
theorem executeUpgradeAsync_progress {σ : Type} (env : Env σ) (hostID : Nat)
    (componentName fromVersion toVersion : String) (strategy : UpgradeStrategy)
    (host0 host1 host : σ) (redis : List (String × ComponentUpgradeTask)) :
    ∃ recs last,
      (executeUpgradeAsync env (startedMem env hostID componentName fromVersion toVersion
        strategy host0 host1 host redis)).state.redis = redis ++ recs ++ [last] ∧
      (∀ r ∈ recs,
        r.2.Progress = ((100 * completedSteps r.2 / r.2.Steps.length : Nat) : Int)) ∧
      last.2.Progress = 100 ∧
      last.2 = (executeUpgradeAsync env (startedMem env hostID componentName fromVersion
        toVersion strategy host0 host1 host redis)).state.task := by
  obtain ⟨_, recs, hr, hq⟩ := executeUpgradeBody_spec env _
    (startedMem env hostID componentName fromVersion toVersion strategy host0 host1 host redis)
    (startedTask_shape env hostID componentName fromVersion toVersion strategy host0 host1) rfl
  refine ⟨recs,
    ("upgrade_task:" ++ (executeUpgradeBody env (startedMem env hostID componentName fromVersion
        toVersion strategy host0 host1 host redis)).state.task.ID,
      deferredTask env (executeUpgradeBody env (startedMem env hostID componentName fromVersion
        toVersion strategy host0 host1 host redis)).state.host
        (executeUpgradeBody env (startedMem env hostID componentName fromVersion
        toVersion strategy host0 host1 host redis)).state.task),
    ?_, fun r hr' => recOK_progress (hq r hr'), ?_, ?_⟩
  · rw [executeUpgradeAsync_state]
    simp only [hr]
    rfl
  · exact (deferredTask_steps env _ _).2.2.2.1
  · rw [executeUpgradeAsync_state]

/-- C6 as stated fails for the final record: on a host where every command
fails the first step fails, no step is completed, and the record saved last has
`Progress = 100` with 0 of 5 steps completed. -/
theorem executeUpgradeAsync_progress_counterexample :
    ((executeUpgradeAsync deadHost
        (startedMem deadHost 1 "node-exporter" "1.6.1" "1.7.0" {} () () () [])).state.redis.getLast?.map
      (fun r => (r.2.Progress, completedSteps r.2, r.2.Steps.length)))
      = some (100, 0, 5) := by
  decide

/-- C7: for a task created with `BackupConfig = true`, every record saved by
`executeUpgradeAsync` in which the `upgrade_component` step has left the
`pending` status (the first of them is the one saved when the step is set to
`running`, right before it is executed) has the key "config" in `BackupPaths`. -/
theorem executeUpgradeAsync_config_backup {σ : Type} (env : Env σ) (hostID : Nat)
    (componentName fromVersion toVersion : String) (strategy : UpgradeStrategy)
    (host0 host1 host : σ) (redis : List (String × ComponentUpgradeTask))
    (hb : strategy.BackupConfig = true) :
    ∀ r ∈ savedSince
        (startedMem env hostID componentName fromVersion toVersion strategy host0 host1 host redis)
        (executeUpgradeAsync env (startedMem env hostID componentName fromVersion toVersion
          strategy host0 host1 host redis)).state,
      ∀ s ∈ r.Steps, s.Name = "upgrade_component" → s.Status ≠ "pending" →
        hasBackupPath "config" r = true := by
  obtain ⟨rest, hnames⟩ := generateUpgradeSteps_names_backup componentName fromVersion
    toVersion strategy hb
  have hsplit : ∀ j, ((generateUpgradeSteps componentName fromVersion toVersion strategy).map
      (fun s => s.Name)).get? j = some "upgrade_component" →
      "backup_config" ∈ ((generateUpgradeSteps componentName fromVersion toVersion strategy).map
        (fun s => s.Name)).take j :=
    fun j hj => mem_take_of_split _ _ _ _ _ j hnames (by decide) (by decide) hj
  obtain ⟨hbody, recs, hr, hq⟩ := executeUpgradeBody_spec env _
    (startedMem env hostID componentName fromVersion toVersion strategy host0 host1 host redis)
    (startedTask_shape env hostID componentName fromVersion toVersion strategy host0 host1) rfl
  have hfin := bodyResult_recOK hbody
  intro r hr' s hs hname hst
  have hrec : RecOK ((generateUpgradeSteps componentName fromVersion toVersion strategy).map
      (fun s => s.Name)) r ∨
      (r.Steps = (executeUpgradeBody env (startedMem env hostID componentName fromVersion
          toVersion strategy host0 host1 host redis)).state.task.Steps ∧
       r.BackupPaths = (executeUpgradeBody env (startedMem env hostID componentName fromVersion
          toVersion strategy host0 host1 host redis)).state.task.BackupPaths) := by
    simp only [savedSince, executeUpgradeAsync_state, hr, List.append_assoc,
      List.drop_left', List.map_append, List.mem_append, List.mem_map, List.map_cons,
      List.map_nil, List.mem_singleton] at hr'
    rcases hr' with ⟨e, he, rfl⟩ | rfl
    · exact Or.inl (hq e he)
    · exact Or.inr ⟨(deferredTask_steps env _ _).1, (deferredTask_steps env _ _).2.1⟩
  rcases hrec with h | ⟨h1, h2⟩
  · exact recOK_config h hsplit s hs hname hst
  · have := recOK_config hfin hsplit s (h1 ▸ hs) hname hst
    simpa [hasBackupPath, h2] using this

/-- Witness for C7: a task with `BackupConfig = true` on a host where every
command succeeds and prints nothing. -/
theorem executeUpgradeAsync_config_backup_witness :
    ({ BackupConfig := true } : UpgradeStrategy).BackupConfig = true ∧
    ∀ r ∈ savedSince
        (startedMem quietHost 1 "x" "1" "2" { BackupConfig := true } () () () [])
        (executeUpgradeAsync quietHost (startedMem quietHost 1 "x" "1" "2"
          { BackupConfig := true } () () () [])).state,
      ∀ s ∈ r.Steps, s.Name = "upgrade_component" → s.Status ≠ "pending" →
        hasBackupPath "config" r = true :=
  ⟨rfl, executeUpgradeAsync_config_backup quietHost 1 "x" "1" "2"
    { BackupConfig := true } () () () [] rfl⟩

theorem executeUpgradeBody_true_iff {σ : Type} (env : Env σ) (m : Mem σ) :
    (executeUpgradeBody env m).value? = some true ↔
      (env.getHost m.task.HostID m.host = none ∧
        (env.createSSHClient m.task.HostID m.host).1 = none ∧
        (runAllSteps env
          { m with host := (env.createSSHClient m.task.HostID m.host).2 }).value? = some true) := by
  simp only [executeUpgradeBody, Go.bind_apply, getHostMem]
  cases hg : env.getHost m.task.HostID m.host with
  | some e =>
    simp only [modifyTask, getTask, addUpgradeLog_apply, Go.pure_apply, Go.bind_apply,
      Outcome.value?]
    constructor
    · intro h
      cases h
    · rintro ⟨h, _⟩
      cases h
  | none =>
    simp only [createSSHClientMem, Go.bind_apply]
    cases hc : (env.createSSHClient m.task.HostID m.host).1 with
    | some e =>
      simp only [modifyTask, getTask, addUpgradeLog_apply, Go.pure_apply, Go.bind_apply,
        Outcome.value?]
      constructor
      · intro h
        cases h
      · rintro ⟨_, h, _⟩
        cases h
    | none => simp

/-- C8: when `executeUpgradeAsync` returns, the task status is `completed`,
`failed` or `rolled_back` and `CompletedAt` is set; the status is `completed`
exactly when the host lookup succeeded, the SSH connection succeeded and the
step loop ran to its end (every step returned without error), and then every
step has status `completed`. -/
theorem executeUpgradeAsync_final {σ : Type} (env : Env σ) (hostID : Nat)
    (componentName fromVersion toVersion : String) (strategy : UpgradeStrategy)
    (host0 host1 host : σ) (redis : List (String × ComponentUpgradeTask)) (mf : Mem σ)
    (h : executeUpgradeAsync env (startedMem env hostID componentName fromVersion toVersion
      strategy host0 host1 host redis) = Outcome.done () mf) :
    (mf.task.Status = "completed" ∨ mf.task.Status = "failed" ∨
      mf.task.Status = "rolled_back") ∧
    mf.task.CompletedAt.isSome = true ∧
    (mf.task.Status = "completed" ↔
      (env.getHost hostID host = none ∧ (env.createSSHClient hostID host).1 = none ∧
        (runAllSteps env
          { host := (env.createSSHClient hostID host).2, redis := redis,
            task := startedTask env hostID componentName fromVersion toVersion strategy
              host0 host1 }).value? = some true)) ∧
    (mf.task.Status = "completed" → ∀ s ∈ mf.task.Steps, s.Status = "completed") := by
  obtain ⟨hbody, _⟩ := executeUpgradeBody_spec env _
    (startedMem env hostID componentName fromVersion toVersion strategy host0 host1 host redis)
    (startedTask_shape env hostID componentName fromVersion toVersion strategy host0 host1) rfl
  have hiff := executeUpgradeBody_true_iff env
    (startedMem env hostID componentName fromVersion toVersion strategy host0 host1 host redis)
  have hiff' : (executeUpgradeBody env (startedMem env hostID componentName fromVersion
      toVersion strategy host0 host1 host redis)).value? = some true ↔
      (env.getHost hostID host = none ∧ (env.createSSHClient hostID host).1 = none ∧
        (runAllSteps env
          { host := (env.createSSHClient hostID host).2, redis := redis,
            task := startedTask env hostID componentName fromVersion toVersion strategy
              host0 host1 }).value? = some true) := hiff
  rw [← hiff']
  unfold executeUpgradeAsync at h
  cases hb : executeUpgradeBody env (startedMem env hostID componentName fromVersion toVersion
      strategy host0 host1 host redis) with
  | panicked msg mb =>
    rw [hb] at h
    cases h
  | done b mb =>
    rw [hb] at h hbody
    simp only [upgradeDeferred_apply, Outcome.done.injEq, true_and] at h
    subst h
    obtain ⟨d1, _, _, _, d5, d6⟩ := deferredTask_steps env mb.host mb.task
    simp only [Outcome.value?, Option.some.injEq]
    cases b with
    | true =>
      obtain ⟨hsh, hst⟩ := hbody
      have hstat : (deferredTask env mb.host mb.task).Status = "completed" := by
        rw [d6, if_pos hst]
      refine ⟨Or.inl hstat, by rw [d5]; rfl, ⟨fun _ => rfl, fun _ => hstat⟩, fun _ s hs => ?_⟩
      have hall := hsh.2.2.1
      simp only [List.length_nil, Nat.sub_self, Nat.sub_zero, List.replicate_zero,
        List.append_nil] at hall
      have hmem : s.Status ∈ stepStatuses mb.task := by
        rw [d1] at hs
        exact List.mem_map_of_mem (fun s => s.Status) hs
      rw [hall] at hmem
      exact (List.mem_replicate.1 hmem).2
    | false =>
      obtain ⟨_, hst, _⟩ := hbody
      have hne : mb.task.Status ≠ "running" := by
        rcases hst with h | h <;> rw [h] <;> decide
      have hstat : (deferredTask env mb.host mb.task).Status = mb.task.Status := by
        rw [d6, if_neg hne]
      have hnc : (deferredTask env mb.host mb.task).Status ≠ "completed" := by
        rw [hstat]
        rcases hst with h | h <;> rw [h] <;> decide
      refine ⟨?_, by rw [d5]; rfl, ⟨fun hc => absurd hc hnc, fun hc => by cases hc⟩,
        fun hc => absurd hc hnc⟩
      rw [hstat]
      exact Or.inr hst

/-- Witness for C8: the run on a host where every command fails returns. -/
theorem executeUpgradeAsync_final_witness :
    executeUpgradeAsync deadHost (startedMem deadHost 1 "node-exporter" "1.6.1" "1.7.0" {}
        () () () [])
      = Outcome.done () (executeUpgradeAsync deadHost (startedMem deadHost 1 "node-exporter"
          "1.6.1" "1.7.0" {} () () () [])).state ∧
    ((executeUpgradeAsync deadHost (startedMem deadHost 1 "node-exporter" "1.6.1" "1.7.0" {}
        () () () [])).state.task.Status = "completed" ∨
     (executeUpgradeAsync deadHost (startedMem deadHost 1 "node-exporter" "1.6.1" "1.7.0" {}
        () () () [])).state.task.Status = "failed" ∨
     (executeUpgradeAsync deadHost (startedMem deadHost 1 "node-exporter" "1.6.1" "1.7.0" {}
        () () () [])).state.task.Status = "rolled_back") :=
  ⟨rfl, (executeUpgradeAsync_final deadHost 1 "node-exporter" "1.6.1" "1.7.0" {} () () () []
    (executeUpgradeAsync deadHost (startedMem deadHost 1 "node-exporter" "1.6.1" "1.7.0" {}
      () () () [])).state rfl).1⟩

/-- C9: when host lookup and connection succeed and the body returns early
(a step returned an error), `executeUpgradeAsync` returns with that step marked
`failed`, the task's error message naming the step and carrying the step's
error, and the task status `rolled_back` when `RollbackEnabled` is set and
`failed` otherwise. -/
theorem executeUpgradeAsync_step_error {σ : Type} (env : Env σ) (hostID : Nat)
    (componentName fromVersion toVersion : String) (strategy : UpgradeStrategy)
    (host0 host1 host : σ) (redis : List (String × ComponentUpgradeTask))
    (hg : env.getHost hostID host = none) (hc : (env.createSSHClient hostID host).1 = none)
    (hfail : (executeUpgradeBody env (startedMem env hostID componentName fromVersion toVersion
      strategy host0 host1 host redis)).value? = some false) :
    ∃ mf, executeUpgradeAsync env (startedMem env hostID componentName fromVersion toVersion
        strategy host0 host1 host redis) = Outcome.done () mf ∧
      ∃ k step, mf.task.Steps.get? k = some step ∧ step.Status = "failed" ∧
        (∀ j s, j < k → mf.task.Steps.get? j = some s → s.Status = "completed") ∧
        mf.task.Error = "Step " ++ step.Name ++ " failed: " ++ step.Error ∧
        mf.task.Status = (if strategy.RollbackEnabled then "rolled_back" else "failed") := by
  obtain ⟨hbody, _⟩ := executeUpgradeBody_spec env _
    (startedMem env hostID componentName fromVersion toVersion strategy host0 host1 host redis)
    (startedTask_shape env hostID componentName fromVersion toVersion strategy host0 host1) rfl
  unfold executeUpgradeAsync
  cases hb : executeUpgradeBody env (startedMem env hostID componentName fromVersion toVersion
      strategy host0 host1 host redis) with
  | panicked msg mb =>
    rw [hb] at hfail
    cases hfail
  | done b mb =>
    rw [hb] at hfail hbody
    simp only [Outcome.value?, Option.some.injEq] at hfail
    subst hfail
    obtain ⟨_, _, hdet⟩ := hbody
    obtain ⟨⟨k, step, hsh, hget, hst, herr⟩, hstatus⟩ := hdet hg hc
    obtain ⟨d1, _, d3, _, _, d6⟩ := deferredTask_steps env mb.host mb.task
    have hne : mb.task.Status ≠ "running" := by
      rw [hstatus]
      split <;> decide
    refine ⟨_, upgradeDeferred_apply env mb, k, step, by rw [d1]; exact hget, hst, ?_, ?_, ?_⟩
    · intro j s hj hs
      rw [d1] at hs
      have hsj : (stepStatuses mb.task)[j]? = some s.Status := by
        rw [List.get?_eq_getElem?] at hs
        simp [stepStatuses, hs]
      rw [hsh.2.2.1, List.append_assoc, List.getElem?_append_left (by simpa using hj),
        List.getElem?_replicate, if_pos hj] at hsj
      exact (Option.some.inj hsj).symm
    · show (deferredTask env mb.host mb.task).Error = _
      rw [d3]
      exact herr
    · show (deferredTask env mb.host mb.task).Status = _
      rw [d6, if_neg hne]
      exact hstatus

/-- Witness for C9: every command fails, so `pre_check` returns an error. -/
theorem executeUpgradeAsync_step_error_witness :
    ∃ mf, executeUpgradeAsync deadHost (startedMem deadHost 1 "node-exporter" "1.6.1" "1.7.0"
        { RollbackEnabled := true } () () () []) = Outcome.done () mf ∧
      ∃ k step, mf.task.Steps.get? k = some step ∧ step.Status = "failed" ∧
        (∀ j s, j < k → mf.task.Steps.get? j = some s → s.Status = "completed") ∧
        mf.task.Error = "Step " ++ step.Name ++ " failed: " ++ step.Error ∧
        mf.task.Status =
          (if ({ RollbackEnabled := true } : UpgradeStrategy).RollbackEnabled then "rolled_back"
           else "failed") :=
  executeUpgradeAsync_step_error deadHost 1 "node-exporter" "1.6.1" "1.7.0"
    { RollbackEnabled := true } () () () [] rfl rfl (by decide)

/-- C10 as stated fails: on a host where every command fails, with
`RollbackEnabled`, the `pre_check` step fails and the rollback's start-service
command fails too; the task still ends `rolled_back`, and its error message
names only the step failure. -/
theorem rollback_failure_counterexample :
    (runStep none (executeStartService deadHost
        (startedTask deadHost 1 "node-exporter" "1.6.1" "1.7.0" { RollbackEnabled := true } () ()))
        (startedMem deadHost 1 "node-exporter" "1.6.1" "1.7.0" { RollbackEnabled := true }
          () () () [])).value?
      = some (some "failed to start service: exit status 1") ∧
    (executeUpgradeAsync deadHost (startedMem deadHost 1 "node-exporter" "1.6.1" "1.7.0"
        { RollbackEnabled := true } () () () [])).state.task.Status = "rolled_back" ∧
    (executeUpgradeAsync deadHost (startedMem deadHost 1 "node-exporter" "1.6.1" "1.7.0"
        { RollbackEnabled := true } () () () [])).state.task.Error
      = "Step pre_check failed: failed to check disk space: exit status 1" := by
  decide

/-! ## From ExecuteUpgrade to executeUpgradeAsync -/

theorem redisGet_append_same (redis : List (String × ComponentUpgradeTask)) (key : String)
    (t : ComponentUpgradeTask) : redisGet (redis ++ [(key, t)]) key = some t := by
  simp [redisGet, List.reverse_append, List.find?]

/-- Running `ExecuteUpgrade` on the task that `CreateUpgradeTask` just built,
with a Redis that returns its record, runs `executeUpgradeAsync` on the started
task, after the `SET` of `saveUpgradeTask`. -/
theorem ExecuteUpgrade_created {σ : Type} (env : Env σ) (store : Store) (hostID : Nat)
    (componentName fromVersion toVersion : String) (strategy : UpgradeStrategy)
    (host0 host1 : σ) (redis : List (String × ComponentUpgradeTask))
    (hload : store.load
        (CreateUpgradeTask env store hostID componentName fromVersion toVersion strategy host0
          redis).2
        ("upgrade_task:" ++
          (newUpgradeTask env hostID componentName fromVersion toVersion strategy host0).ID)
      = Loaded.record
          (newUpgradeTask env hostID componentName fromVersion toVersion strategy host0)) :
    ExecuteUpgrade env store
        (newUpgradeTask env hostID componentName fromVersion toVersion strategy host0).ID host1
        (CreateUpgradeTask env store hostID componentName fromVersion toVersion strategy host0
          redis).2
      = Except.ok (executeUpgradeAsync env
          (startedMem env hostID componentName fromVersion toVersion strategy host0 host1 host1
            ((CreateUpgradeTask env store hostID componentName fromVersion toVersion strategy
                host0 redis).2 ++
              [("upgrade_task:" ++
                  (startedTask env hostID componentName fromVersion toVersion strategy
                    host0 host1).ID,
                startedTask env hostID componentName fromVersion toVersion strategy
                  host0 host1)]))) := by
  simp only [ExecuteUpgrade, getUpgradeTask, hload, Go.bind_apply, saveUpgradeTask, startedMem,
    startedTask]

/-! ## Order of the step statuses -/

theorem recOK_statusesInOrder {names : List String} {r : ComponentUpgradeTask}
    (h : RecOK names r) : StatusesInOrder (stepStatuses r) := by
  obtain ⟨i, cur, hs, hc⟩ := h
  exact ⟨i, cur, _, hs.2.2.1, hc⟩

theorem statusesInOrder_before {l : List String} (h : StatusesInOrder l) (j j' : Nat)
    (s : String) (hj : l.get? j = some s) (hs : s ≠ "pending") (hlt : j' < j) :
    l.get? j' = some "completed" := by
  obtain ⟨i, cur, k, rfl, hc⟩ := h
  rw [List.get?_eq_getElem?] at hj ⊢
  have hcl : cur.length ≤ 1 := by
    rcases hc with rfl | rfl | rfl <;> simp
  have hji : j ≤ i := by
    by_contra hcon
    rw [List.getElem?_append_right (by simp; omega), List.getElem?_replicate] at hj
    split at hj
    · exact hs (Option.some.inj hj).symm
    · cases hj
  rw [List.append_assoc, List.getElem?_append_left (by simp; omega), List.getElem?_replicate,
    if_pos (by omega)]

theorem statusesInOrder_after {l : List String} (h : StatusesInOrder l) (j j' : Nat)
    (hj : l.get? j = some "failed") (hlt : j < j') (hlen : j' < l.length) :
    l.get? j' = some "pending" := by
  obtain ⟨i, cur, k, rfl, hc⟩ := h
  rw [List.get?_eq_getElem?] at hj ⊢
  have hij : i ≤ j := by
    by_contra hcon
    rw [List.append_assoc, List.getElem?_append_left (by simp; omega),
      List.getElem?_replicate, if_pos (by omega)] at hj
    exact absurd (Option.some.inj hj) (by decide)
  have hcl : cur.length ≤ 1 := by
    rcases hc with rfl | rfl | rfl <;> simp
  simp only [List.length_append, List.length_replicate] at hlen
  rw [List.getElem?_append_right (by simp; omega), List.getElem?_replicate,
    if_pos (by simp; omega)]

/-- C11 (amended): for a task built by `CreateUpgradeTask` and started by
`ExecuteUpgrade` for the first time, in every record `executeUpgradeAsync` saves
(the last of them is the task it leaves in memory) the step statuses, in list
order, are completed steps, then at most one running or failed step, then
pending steps only; so every step before one that has left `pending` is
completed, and every step after a failed one is still pending. -/
theorem executeUpgradeAsync_step_order {σ : Type} (env : Env σ) (hostID : Nat)
    (componentName fromVersion toVersion : String) (strategy : UpgradeStrategy)
    (host0 host1 host : σ) (redis : List (String × ComponentUpgradeTask)) :
    (∀ r ∈ savedSince
        (startedMem env hostID componentName fromVersion toVersion strategy host0 host1 host redis)
        (executeUpgradeAsync env (startedMem env hostID componentName fromVersion toVersion
          strategy host0 host1 host redis)).state,
      StatusesInOrder (stepStatuses r) ∧
      (∀ j j' s, (stepStatuses r).get? j = some s → s ≠ "pending" → j' < j →
        (stepStatuses r).get? j' = some "completed") ∧
      (∀ j j', (stepStatuses r).get? j = some "failed" → j < j' → j' < r.Steps.length →
        (stepStatuses r).get? j' = some "pending")) ∧
    (savedSince
        (startedMem env hostID componentName fromVersion toVersion strategy host0 host1 host redis)
        (executeUpgradeAsync env (startedMem env hostID componentName fromVersion toVersion
          strategy host0 host1 host redis)).state).getLast?
      = some (executeUpgradeAsync env (startedMem env hostID componentName fromVersion
          toVersion strategy host0 host1 host redis)).state.task := by
  obtain ⟨hbody, recs, hr, hq⟩ := executeUpgradeBody_spec env _
    (startedMem env hostID componentName fromVersion toVersion strategy host0 host1 host redis)
    (startedTask_shape env hostID componentName fromVersion toVersion strategy host0 host1) rfl
  have hfin := recOK_statusesInOrder (bodyResult_recOK hbody)
  have hsaved : savedSince
      (startedMem env hostID componentName fromVersion toVersion strategy host0 host1 host redis)
      (executeUpgradeAsync env (startedMem env hostID componentName fromVersion toVersion
        strategy host0 host1 host redis)).state
      = recs.map (fun e => e.2) ++
        [deferredTask env (executeUpgradeBody env (startedMem env hostID componentName
            fromVersion toVersion strategy host0 host1 host redis)).state.host
          (executeUpgradeBody env (startedMem env hostID componentName fromVersion
            toVersion strategy host0 host1 host redis)).state.task] := by
    simp only [savedSince, executeUpgradeAsync_state, hr, List.append_assoc]
    have hred : (startedMem env hostID componentName fromVersion toVersion strategy host0 host1
        host redis).redis = redis := rfl
    rw [hred, List.drop_left']
    · simp
    · rfl
  refine ⟨fun r hr' => ?_, ?_⟩
  · have hord : StatusesInOrder (stepStatuses r) := by
      rw [hsaved] at hr'
      simp only [List.mem_append, List.mem_map, List.mem_singleton] at hr'
      rcases hr' with ⟨e, he, rfl⟩ | rfl
      · exact recOK_statusesInOrder (hq e he)
      · have hst : stepStatuses (deferredTask env (executeUpgradeBody env (startedMem env hostID
            componentName fromVersion toVersion strategy host0 host1 host redis)).state.host
            (executeUpgradeBody env (startedMem env hostID componentName fromVersion
            toVersion strategy host0 host1 host redis)).state.task)
            = stepStatuses (executeUpgradeBody env (startedMem env hostID componentName
              fromVersion toVersion strategy host0 host1 host redis)).state.task := by
          simp only [stepStatuses, (deferredTask_steps env _ _).1]
        rw [hst]
        exact hfin
    refine ⟨hord, fun j j' s hj hs hlt => statusesInOrder_before hord j j' s hj hs hlt,
      fun j j' hj hlt hlen => statusesInOrder_after hord j j' hj hlt ?_⟩
    simpa [stepStatuses] using hlen
  · rw [hsaved, executeUpgradeAsync_state]
    simp

/-- C11 as stated fails when a task is executed again: `ExecuteUpgrade` accepts
a task whatever its state and `executeUpgradeAsync` starts at the first step
without resetting the statuses. On a host where only the pre-check probes
succeed the first run ends with statuses completed, failed, pending, pending,
pending; the second run then saves a record in which the first step is running
and the second is still failed. -/
theorem executeUpgradeAsync_rerun_counterexample :
    ((executeTimes probeOnlyHost 1 "node-exporter" "1.6.1" "1.7.0" {} () 1).map
      (fun m => stepStatuses m.task))
      = some ["completed", "failed", "pending", "pending", "pending"] ∧
    (((executeTimes probeOnlyHost 1 "node-exporter" "1.6.1" "1.7.0" {} () 2).bind
      (fun m => m.redis.get? 14)).map (fun r => stepStatuses r.2))
      = some ["running", "failed", "pending", "pending", "pending"] ∧
    ¬ StatusesInOrder ["running", "failed", "pending", "pending", "pending"] := by
  refine ⟨by decide!, by decide!, ?_⟩
  rintro ⟨i, cur, k, h, hc⟩
  rcases hc with rfl | rfl | rfl
  · cases i with
    | zero =>
      cases k with
      | zero => simp at h
      | succ k => simp [List.replicate_succ] at h
    | succ i => simp [List.replicate_succ] at h
  · cases i with
    | zero =>
      cases k with
      | zero => simp at h
      | succ k => simp [List.replicate_succ] at h
    | succ i => simp [List.replicate_succ] at h
  · cases i with
    | zero => simp at h
    | succ i => simp [List.replicate_succ] at h

/-! ## executePreCheck -/

/-- C12 (amended): `executePreCheck` always returns. It returns a nil error
exactly when the disk command succeeded, its trimmed output is not an integer
greater than 90 (a reading of 90 or less passes, and so does a reading that
`strconv.Atoi` rejects) and the memory command succeeded; a reading `u > 90`
gives the error `insufficient disk space: u% used`. -/
theorem executePreCheck_disk {σ : Type} (env : Env σ) (task : ComponentUpgradeTask)
    (c : StepCtx σ) :
    (executePreCheck env task c).returned = true ∧
    ((executePreCheck env task c).value? = some none ↔
      ((env.executeSSHCommand
          "df -h / | tail -1 | awk '\x7bprint $5\x7d' | sed 's/%//'" c.host).1.2 = none ∧
       (∀ u, atoi (strTrimSpace (env.executeSSHCommand
          "df -h / | tail -1 | awk '\x7bprint $5\x7d' | sed 's/%//'" c.host).1.1).toList = some u →
          u ≤ 90) ∧
       (env.executeSSHCommand "free | grep Mem | awk '\x7bprint ($3/$2) * 100.0\x7d'"
          (env.executeSSHCommand
            "df -h / | tail -1 | awk '\x7bprint $5\x7d' | sed 's/%//'" c.host).2).1.2 = none)) ∧
    (∀ u, (env.executeSSHCommand
          "df -h / | tail -1 | awk '\x7bprint $5\x7d' | sed 's/%//'" c.host).1.2 = none →
        atoi (strTrimSpace (env.executeSSHCommand
          "df -h / | tail -1 | awk '\x7bprint $5\x7d' | sed 's/%//'" c.host).1.1).toList = some u →
        90 < u →
        (executePreCheck env task c).value?
          = some (some ("insufficient disk space: " ++ toString u ++ "% used"))) := by
  simp only [executePreCheck, Go.bind_apply, onHost, ssh_apply, setOutput]
  cases hdf : (env.executeSSHCommand
      "df -h / | tail -1 | awk '\x7bprint $5\x7d' | sed 's/%//'" c.host).1.2 with
  | some e => simp [Go.pure_apply, Outcome.returned, Outcome.value?]
  | none =>
    cases hat : atoi (strTrimSpace (env.executeSSHCommand
        "df -h / | tail -1 | awk '\x7bprint $5\x7d' | sed 's/%//'" c.host).1.1).toList with
    | none =>
      cases hfree : (env.executeSSHCommand "free | grep Mem | awk '\x7bprint ($3/$2) * 100.0\x7d'"
          (env.executeSSHCommand
            "df -h / | tail -1 | awk '\x7bprint $5\x7d' | sed 's/%//'" c.host).2).1.2 with
      | some e =>
        simp [Go.pure_apply, Go.bind_apply, onHost, ssh_apply, setOutput, Outcome.returned, Outcome.value?, Option.filter, hfree]
      | none =>
        simp [Go.pure_apply, Go.bind_apply, onHost, ssh_apply, setOutput, Outcome.returned, Outcome.value?, Option.filter, hfree]
    | some u =>
      by_cases hu : u > 90
      · have hnot : ¬ u ≤ 90 := by omega
        simp [Go.pure_apply, Outcome.returned, Outcome.value?, Option.filter, hu, hnot]
      · have hle : u ≤ 90 := by omega
        cases hfree : (env.executeSSHCommand
            "free | grep Mem | awk '\x7bprint ($3/$2) * 100.0\x7d'"
            (env.executeSSHCommand
              "df -h / | tail -1 | awk '\x7bprint $5\x7d' | sed 's/%//'" c.host).2).1.2 with
        | some e =>
          simp [Go.pure_apply, Go.bind_apply, onHost, ssh_apply, setOutput, Outcome.returned, Outcome.value?, Option.filter,
            hu, hfree]
        | none =>
          simp [Go.pure_apply, Go.bind_apply, onHost, ssh_apply, setOutput, Outcome.returned, Outcome.value?, Option.filter,
            hu, hfree, hle]

/-- C12 as stated fails at the boundary: on a host whose disk command prints
`90` the pre-check returns a nil error (the guard is `usage > 90`). -/
theorem executePreCheck_ninety_counterexample :
    (executePreCheck (binaryHost "90") {} { host := (), output := "", backupPaths := [] }).value?
      = some none ∧
    atoi (strTrimSpace "90").toList = some 90 := by
  decide!

/-! ## executeHealthCheck -/

theorem Outcome.eq_done_of_value {S α : Type} {o : Outcome S α} {a : α}
    (h : o.value? = some a) : o = Outcome.done a o.state := by
  cases o with
  | done b s =>
    cases h
    rfl
  | panicked msg s => cases h

theorem executeHealthCheck_stopped {σ : Type} (env : Env σ) (task : ComponentUpgradeTask)
    (c : StepCtx σ) (h1 : σ)
    (hrun : checkServiceRunning env task.ComponentName c.host = Outcome.done false h1) :
    executeHealthCheck env task c =
      Outcome.done (some ("service " ++ task.ComponentName ++ " is not running after start"))
        { c with host := h1 } := by
  simp only [executeHealthCheck, Go.bind_apply, onHost, hrun]
  rfl

theorem executeHealthCheck_unhealthy {σ : Type} (env : Env σ) (task : ComponentUpgradeTask)
    (c : StepCtx σ) (h1 h2 : σ) (out e : String)
    (hrun : checkServiceRunning env task.ComponentName c.host = Outcome.done true h1)
    (hp : healthProbe env task.ComponentName h1 = ((out, some e), h2)) :
    executeHealthCheck env task c =
      Outcome.done (some ("health check failed: " ++ e)) { c with host := h2 } := by
  unfold healthProbe at hp
  simp only [executeHealthCheck, Go.bind_apply, onHost, hrun]
  by_cases hcmd : (getComponentHealthCheckCommand task.ComponentName != "") = true
  · rw [if_pos hcmd] at hp
    simp [hcmd, ssh_apply, hp, Go.pure_apply, Go.bind_apply, onHost]
  · rw [if_neg hcmd] at hp
    cases hp

theorem executeHealthCheck_probed {σ : Type} (env : Env σ) (task : ComponentUpgradeTask)
    (c : StepCtx σ) (h1 h2 h3 : σ) (out v : String) (inst : Bool)
    (hrun : checkServiceRunning env task.ComponentName c.host = Outcome.done true h1)
    (hp : healthProbe env task.ComponentName h1 = ((out, none), h2))
    (hd : detectInstalledVersion env task.ComponentName h2 = Outcome.done (v, inst, none) h3) :
    ∃ c', c'.host = h3 ∧
      executeHealthCheck env task c =
        Outcome.done (if v = task.ToVersion then none
          else some ("version mismatch: expected " ++ task.ToVersion ++ ", got " ++ v)) c' := by
  unfold healthProbe at hp
  simp only [executeHealthCheck, Go.bind_apply, onHost, hrun]
  by_cases hcmd : (getComponentHealthCheckCommand task.ComponentName != "") = true
  · rw [if_pos hcmd] at hp
    by_cases hv : v = task.ToVersion
    · simp [hcmd, ssh_apply, hp, Go.pure_apply, Go.bind_apply, appendOutput, hd, onHost, hv]
    · simp [hcmd, ssh_apply, hp, Go.pure_apply, Go.bind_apply, appendOutput, hd, onHost, hv]
  · rw [if_neg hcmd] at hp
    cases hp
    by_cases hv : v = task.ToVersion
    · simp [hcmd, Go.pure_apply, Go.bind_apply, appendOutput, hd, onHost, hv]
    · simp [hcmd, Go.pure_apply, Go.bind_apply, appendOutput, hd, onHost, hv]

/-- C13: `executeHealthCheck` returns a nil error only if the service is
running, the component's health command (when the component has one) returned
no error and the version probed afterwards equals `task.ToVersion`; and when
these two checks pass and the probed version differs from `task.ToVersion`, it
returns the error `version mismatch: expected <ToVersion>, got <version>`. -/
theorem executeHealthCheck_spec {σ : Type} (env : Env σ) (task : ComponentUpgradeTask)
    (c : StepCtx σ) :
    (∀ c', executeHealthCheck env task c = Outcome.done none c' →
      ∃ h1 out h2 inst,
        checkServiceRunning env task.ComponentName c.host = Outcome.done true h1 ∧
        healthProbe env task.ComponentName h1 = ((out, none), h2) ∧
        detectInstalledVersion env task.ComponentName h2
          = Outcome.done (task.ToVersion, inst, none) c'.host) ∧
    (∀ h1 out h2 v inst h3,
      checkServiceRunning env task.ComponentName c.host = Outcome.done true h1 →
      healthProbe env task.ComponentName h1 = ((out, none), h2) →
      detectInstalledVersion env task.ComponentName h2 = Outcome.done (v, inst, none) h3 →
      v ≠ task.ToVersion →
      (executeHealthCheck env task c).value?
        = some (some ("version mismatch: expected " ++ task.ToVersion ++ ", got " ++ v))) := by
  constructor
  · intro c' hres
    obtain ⟨b, h1, hrun⟩ := checkServiceRunning_returns env task.ComponentName c.host
    cases b with
    | false =>
      rw [executeHealthCheck_stopped env task c h1 hrun] at hres
      cases hres
    | true =>
      rcases hp : healthProbe env task.ComponentName h1 with ⟨⟨out, err⟩, h2⟩
      cases err with
      | some e =>
        rw [executeHealthCheck_unhealthy env task c h1 h2 out e hrun hp] at hres
        cases hres
      | none =>
        cases hd : detectInstalledVersion env task.ComponentName h2 with
        | panicked msg h3 =>
          exfalso
          unfold healthProbe at hp
          simp only [executeHealthCheck, Go.bind_apply, onHost, hrun] at hres
          by_cases hcmd : (getComponentHealthCheckCommand task.ComponentName != "") = true
          · rw [if_pos hcmd] at hp
            simp [hcmd, ssh_apply, hp, Go.pure_apply, Go.bind_apply, appendOutput, hd, onHost]
              at hres
          · rw [if_neg hcmd] at hp
            cases hp
            simp [hcmd, Go.pure_apply, Go.bind_apply, appendOutput, hd, onHost] at hres
        | done d h3 =>
          obtain ⟨v, inst, derr⟩ := d
          cases derr with
          | some e =>
            exfalso
            unfold healthProbe at hp
            simp only [executeHealthCheck, Go.bind_apply, onHost, hrun] at hres
            by_cases hcmd : (getComponentHealthCheckCommand task.ComponentName != "") = true
            · rw [if_pos hcmd] at hp
              simp [hcmd, ssh_apply, hp, Go.pure_apply, Go.bind_apply, appendOutput, hd, onHost]
                at hres
            · rw [if_neg hcmd] at hp
              cases hp
              simp [hcmd, Go.pure_apply, Go.bind_apply, appendOutput, hd, onHost] at hres
          | none =>
            obtain ⟨c2, hc2, heq⟩ := executeHealthCheck_probed env task c h1 h2 h3 out v inst
              hrun hp hd
            rw [heq] at hres
            by_cases hv : v = task.ToVersion
            · rw [if_pos hv] at hres
              simp only [Outcome.done.injEq, true_and] at hres
              subst hres
              subst hv
              exact ⟨h1, out, h2, inst, hrun, hp, by rw [hd, hc2]⟩
            · rw [if_neg hv] at hres
              cases hres
  · intro h1 out h2 v inst h3 hrun hp hd hv
    obtain ⟨c2, _, heq⟩ := executeHealthCheck_probed env task c h1 h2 h3 out v inst hrun hp hd
    rw [heq, if_neg hv]
    rfl

/-- Witness for C13: after an upgrade of `node-exporter` to 1.7.0 the health
check of a task with `ToVersion = "1.7.0"` returns a nil error, and the one of a
task with `ToVersion = "1.8.0"` returns the version-mismatch error. -/
theorem executeHealthCheck_spec_witness :
    (executeHealthCheck upgradedHost { ComponentName := "node-exporter", ToVersion := "1.7.0" }
        { host := (), output := "", backupPaths := [] }).value? = some none ∧
    (∃ h1 out h2 inst,
      checkServiceRunning upgradedHost "node-exporter" () = Outcome.done true h1 ∧
      healthProbe upgradedHost "node-exporter" h1 = ((out, none), h2) ∧
      detectInstalledVersion upgradedHost "node-exporter" h2
        = Outcome.done ("1.7.0", inst, none) ()) ∧
    (executeHealthCheck upgradedHost { ComponentName := "node-exporter", ToVersion := "1.8.0" }
        { host := (), output := "", backupPaths := [] }).value?
      = some (some "version mismatch: expected 1.8.0, got 1.7.0") :=
  ⟨by decide!,
   (executeHealthCheck_spec upgradedHost { ComponentName := "node-exporter", ToVersion := "1.7.0" }
      { host := (), output := "", backupPaths := [] }).1
      (executeHealthCheck upgradedHost { ComponentName := "node-exporter", ToVersion := "1.7.0" }
        { host := (), output := "", backupPaths := [] }).state
      (Outcome.eq_done_of_value (by decide!)),
   by decide!⟩

/-! ## detectInstalledVersion -/

/-- C14 (amended): `detectInstalledVersion` runs the container detector first,
then the bare-binary detector (`which`), then the service-unit detector, each
on the host as the detector before left it, and returns the version of the
first one that finds the component; when none does it reports the component as
not installed. So on a host without a container where the binary is found, the
version returned is that of the bare-binary detector, whatever the service-unit
detector would report. -/
theorem detectInstalledVersion_order {σ : Type} (env : Env σ) (componentName : String) (h : σ) :
    (∀ v h1, checkDockerVersion env componentName h = Outcome.done (v, true) h1 →
      detectInstalledVersion env componentName h = Outcome.done (v, true, none) h1) ∧
    (∀ v0 h1 v h2, checkDockerVersion env componentName h = Outcome.done (v0, false) h1 →
      checkBinaryVersion env componentName h1 = Outcome.done (v, true) h2 →
      detectInstalledVersion env componentName h = Outcome.done (v, true, none) h2) ∧
    (∀ v0 h1 v1 h2 v h3, checkDockerVersion env componentName h = Outcome.done (v0, false) h1 →
      checkBinaryVersion env componentName h1 = Outcome.done (v1, false) h2 →
      checkSystemdVersion env componentName h2 = Outcome.done (v, true) h3 →
      detectInstalledVersion env componentName h = Outcome.done (v, true, none) h3) ∧
    (∀ v0 h1 v1 h2 v2 h3, checkDockerVersion env componentName h = Outcome.done (v0, false) h1 →
      checkBinaryVersion env componentName h1 = Outcome.done (v1, false) h2 →
      checkSystemdVersion env componentName h2 = Outcome.done (v2, false) h3 →
      detectInstalledVersion env componentName h = Outcome.done ("", false, none) h3) := by
  refine ⟨?_, ?_, ?_, ?_⟩
  · intro v h1 hd
    simp [detectInstalledVersion, Go.bind_apply, hd, Go.pure_apply]
  · intro v0 h1 v h2 hd hb
    simp [detectInstalledVersion, Go.bind_apply, hd, hb, Go.pure_apply]
  · intro v0 h1 v1 h2 v h3 hd hb hy
    simp [detectInstalledVersion, Go.bind_apply, hd, hb, hy, Go.pure_apply]
  · intro v0 h1 v1 h2 v2 h3 hd hb hy
    simp [detectInstalledVersion, Go.bind_apply, hd, hb, hy, Go.pure_apply]

/-- C14 as stated fails: on a host without a container where both the binary
on `PATH` (version 1.2.3) and the service unit (version 4.5.6) are found,
`detectInstalledVersion` returns 1.2.3, the version of the bare-binary
detector, not the one of the service-unit detector. -/
theorem detectInstalledVersion_counterexample :
    (checkDockerVersion twoInstallsHost "node-exporter" ()).value? = some ("", false) ∧
    (checkSystemdVersion twoInstallsHost "node-exporter" ()).value? = some ("4.5.6", true) ∧
    (checkBinaryVersion twoInstallsHost "node-exporter" ()).value? = some ("1.2.3", true) ∧
    (detectInstalledVersion twoInstallsHost "node-exporter" ()).value?
      = some ("1.2.3", true, none) := by
  decide!

/-- Witness for C14: on the host with both installations the bare-binary
detector is the first one that finds the component. -/
theorem detectInstalledVersion_order_witness :
    detectInstalledVersion twoInstallsHost "node-exporter" ()
      = Outcome.done ("1.2.3", true, none) () :=
  (detectInstalledVersion_order twoInstallsHost "node-exporter" ()).2.1 "" () "1.2.3" ()
    (Outcome.eq_done_of_value (by decide!)) (Outcome.eq_done_of_value (by decide!))

/-! ## getConfigMigrationScript -/

theorem splitOn_head_no_sep (sep : Char) (s : List Char) : sep ∉ (splitOn sep s).headD [] := by
  induction s with
  | nil => simp [splitOn]
  | cons c cs ih =>
    unfold splitOn
    by_cases hc : c = sep
    · simp [hc]
    · rw [if_neg hc]
      cases hsp : splitOn sep cs with
      | nil => simpa using Ne.symm hc
      | cons p ps =>
        rw [hsp] at ih
        simp only [List.headD_cons, List.mem_cons, not_or] at ih ⊢
        exact ⟨Ne.symm hc, ih⟩

/-- The dot-free texts contained in a pattern side `d.*`: the empty text, `d`
and `*`. -/
theorem containsSub_major (d : Char) (l : List Char) (hl : '.' ∉ l) :
    containsSub l [d, '.', '*'] = true ↔ l = [] ∨ l = [d] ∨ l = ['*'] := by
  match l, hl with
  | [], _ => simp [containsSub, List.isPrefixOf]
  | [a], hl =>
    simp only [List.mem_singleton] at hl
    simp only [containsSub, List.isPrefixOf, List.isEmpty, Bool.or_false, Bool.and_true,
      Bool.or_eq_true, beq_iff_eq, List.cons.injEq, and_true, reduceCtorEq, false_or]
    constructor
    · rintro (h | h | h)
      · exact Or.inl h
      · exact absurd h.symm hl
      · exact Or.inr h
    · rintro (h | h)
      · exact Or.inl h
      · exact Or.inr (Or.inr h)
  | a :: b :: rest, hl =>
    simp only [List.mem_cons, not_or] at hl
    have hb : b ≠ '.' := Ne.symm hl.2.1
    have ha : a ≠ '.' := Ne.symm hl.1
    have hf : containsSub (a :: b :: rest) [d, '.', '*'] = false := by
      cases rest with
      | nil => simp [containsSub, List.isPrefixOf, hb, ha]
      | cons c rest' =>
        cases rest' <;> simp [containsSub, List.isPrefixOf, hb, ha]
    simp [hf]

theorem String.mk_eq_iff (l : List Char) (s : String) : (⟨l⟩ : String) = s ↔ l = s.data := by
  cases s
  exact ⟨fun h => by cases h; rfl, fun h => by rw [h]⟩

/-- The two sides of a pattern `a.*->b.*` are matched against the texts before
the first dot of the two versions. -/
theorem versionMatches_major (f t : String) (a b : Char) :
    versionMatches f t ⟨[a, '.', '*', '-', '>', b, '.', '*']⟩ = true ↔
      ((majorOf f = "" ∨ majorOf f = ⟨[a]⟩ ∨ majorOf f = "*") ∧
       (majorOf t = "" ∨ majorOf t = ⟨[b]⟩ ∨ majorOf t = "*")) := by
  have hsplit : splitStr ['-', '>'] [a, '.', '*', '-', '>', b, '.', '*']
      = [[a, '.', '*'], [b, '.', '*']] := by
    have h1 : ('.' : Char) ≠ '-' := by decide
    have h2 : ('*' : Char) ≠ '-' := by decide
    simp [splitStr, splitStrAux, List.isPrefixOf, h1, h2]
  simp only [versionMatches, String.toList, hsplit, Bool.and_eq_true, majorOf, String.mk_eq_iff]
  rw [containsSub_major a _ (splitOn_head_no_sep '.' f.data),
    containsSub_major b _ (splitOn_head_no_sep '.' t.data)]

/-- How the code decides: `getConfigMigrationScript` returns a non-empty script
exactly when the component is `prometheus` and the texts before the first dot
of `from` and of `to` are contained in the pattern sides `2.*` and `3.*`, or
the component is `grafana` and the same holds with `8.*` and `9.*`. When it
returns the empty string `executeMigrateConfig` returns a nil error without
running a command; otherwise it runs the script as its one command. -/
theorem getConfigMigrationScript_iff (c f t : String) :
    (getConfigMigrationScript c f t ≠ "" ↔
      ((c = "prometheus" ∧ (majorOf f = "" ∨ majorOf f = "2" ∨ majorOf f = "*") ∧
          (majorOf t = "" ∨ majorOf t = "3" ∨ majorOf t = "*")) ∨
       (c = "grafana" ∧ (majorOf f = "" ∨ majorOf f = "8" ∨ majorOf f = "*") ∧
          (majorOf t = "" ∨ majorOf t = "9" ∨ majorOf t = "*")))) ∧
    (∀ (σ : Type) (env : Env σ) (task : ComponentUpgradeTask) (ctx : StepCtx σ),
      task.ComponentName = c → task.FromVersion = f → task.ToVersion = t →
      executeMigrateConfig env task ctx =
        if getConfigMigrationScript c f t = "" then
          Outcome.done none { ctx with output := "No config migration needed" }
        else
          Outcome.done
            ((env.executeSSHCommand (getConfigMigrationScript c f t) ctx.host).1.2.map
              (fun e => "config migration failed: " ++ e))
            { ctx with
              host := (env.executeSSHCommand (getConfigMigrationScript c f t) ctx.host).2
              output :=
                if (env.executeSSHCommand (getConfigMigrationScript c f t) ctx.host).1.2.isSome
                then ctx.output
                else "Config migrated: " ++
                  (env.executeSSHCommand (getConfigMigrationScript c f t) ctx.host).1.1 }) := by
  constructor
  · have hp : versionMatches f t "2.*->3.*" = true ↔
        ((majorOf f = "" ∨ majorOf f = "2" ∨ majorOf f = "*") ∧
         (majorOf t = "" ∨ majorOf t = "3" ∨ majorOf t = "*")) :=
      versionMatches_major f t '2' '3'
    have hg : versionMatches f t "8.*->9.*" = true ↔
        ((majorOf f = "" ∨ majorOf f = "8" ∨ majorOf f = "*") ∧
         (majorOf t = "" ∨ majorOf t = "9" ∨ majorOf t = "*")) :=
      versionMatches_major f t '8' '9'
    have hpg : ¬ ("prometheus" = "grafana") := by decide
    unfold getConfigMigrationScript migrationMap
    by_cases h1 : c = "prometheus"
    · subst h1
      simp only [if_true, List.find?]
      by_cases hm : versionMatches f t "2.*->3.*" = true
      · rw [hm]
        simp only [ne_eq, true_and, hpg, false_and, or_false]
        exact ⟨fun _ => hp.1 hm, fun _ => by decide⟩
      · have hm' : versionMatches f t "2.*->3.*" = false := by simpa using hm
        rw [hm']
        simp only [ne_eq, not_true_eq_false, true_and, hpg, false_and, or_false, false_iff]
        exact fun h => hm (hp.2 h)
    · by_cases h2 : c = "grafana"
      · subst h2
        simp only [if_neg h1, if_true, List.find?]
        by_cases hm : versionMatches f t "8.*->9.*" = true
        · rw [hm]
          simp only [ne_eq, true_and, false_and, false_or, h1]
          exact ⟨fun _ => hg.1 hm, fun _ => by decide⟩
        · have hm' : versionMatches f t "8.*->9.*" = false := by simpa using hm
          rw [hm']
          simp only [ne_eq, not_true_eq_false, true_and, false_and, false_or, false_iff, h1]
          exact fun h => hm (hg.2 h)
      · simp [h1, h2]
  · intro σ env task ctx hc hf ht
    subst hc hf ht
    simp only [executeMigrateConfig, Go.bind_apply]
    by_cases hs : getConfigMigrationScript task.ComponentName task.FromVersion task.ToVersion = ""
    · simp [hs, setOutput, Go.bind_apply, Go.pure_apply]
    · simp only [hs, if_false, Go.bind_apply, onHost, ssh_apply]
      cases he : (env.executeSSHCommand (getConfigMigrationScript task.ComponentName
          task.FromVersion task.ToVersion) ctx.host).1.2 with
      | some e => simp [Go.pure_apply]
      | none => simp [Go.pure_apply, Go.bind_apply, setOutput]

/-- C15 fails on the code. `getConfigMigrationScript("prometheus", "", "3.0.0")`
returns the script of the migration from 2.x to 3.x although `from` has no
major version 2: `versionMatches` tests `strings.Contains("2.*", "")`, which is
true. For versions whose text before the first dot is neither empty nor `*`
the claim holds: a non-empty script is returned exactly for prometheus from
major 2 to major 3 and for grafana from major 8 to major 9. -/
theorem getConfigMigrationScript_empty_major :
    majorOf "" = "" ∧ versionMatches "" "3.0.0" "2.*->3.*" = true ∧
    getConfigMigrationScript "prometheus" "" "3.0.0" ≠ "" ∧
    (∀ c f t : String, majorOf f ≠ "" → majorOf f ≠ "*" → majorOf t ≠ "" → majorOf t ≠ "*" →
      (getConfigMigrationScript c f t ≠ "" ↔
        ((c = "prometheus" ∧ majorOf f = "2" ∧ majorOf t = "3") ∨
         (c = "grafana" ∧ majorOf f = "8" ∧ majorOf t = "9")))) := by
  refine ⟨by decide!, by decide!, by decide!, ?_⟩
  intro c f t hf1 hf2 ht1 ht2
  rw [(getConfigMigrationScript_iff c f t).1]
  simp only [hf1, hf2, ht1, ht2, false_or, or_false]

/-! ## Task identifiers -/

theorem digitChar_value (k : Nat) (hk : k < 10) :
    (Nat.digitChar k).toNat - 48 = k ∧ (Nat.digitChar k).isDigit = true := by
  interval_cases k <;> decide

theorem digitsValue_append (pre : List Char) (c : Char) :
    digitsValue (pre ++ [c]) = 10 * digitsValue pre + (c.toNat - 48) := by
  simp [digitsValue, List.foldl_append]

/-- The decimal printer `%d` on a natural number: its digits are prepended to
the accumulator, they are decimal digits and they carry the number's value. -/
theorem toDigitsCore_spec (fuel : Nat) : ∀ (n : Nat) (ds : List Char), n < fuel →
    ∃ pre, Nat.toDigitsCore 10 fuel n ds = pre ++ ds ∧ digitsValue pre = n ∧
      ∀ c ∈ pre, c.isDigit = true := by
  induction fuel with
  | zero => intro n ds h; omega
  | succ fuel ih =>
    intro n ds h
    have hd := digitChar_value (n % 10) (Nat.mod_lt _ (by decide))
    by_cases h0 : n / 10 = 0
    · refine ⟨[Nat.digitChar (n % 10)], ?_, ?_, ?_⟩
      · simp [Nat.toDigitsCore, h0]
      · have : digitsValue [Nat.digitChar (n % 10)] = (Nat.digitChar (n % 10)).toNat - 48 := by
          simp [digitsValue]
        rw [this, hd.1]
        omega
      · intro c hc
        rw [List.mem_singleton] at hc
        rw [hc]
        exact hd.2
    · obtain ⟨pre, hpre, hval, hdig⟩ := ih (n / 10) (Nat.digitChar (n % 10) :: ds) (by omega)
      refine ⟨pre ++ [Nat.digitChar (n % 10)], ?_, ?_, ?_⟩
      · simp [Nat.toDigitsCore, h0, hpre]
      · rw [digitsValue_append, hval, hd.1]
        omega
      · intro c hc
        rw [List.mem_append, List.mem_singleton] at hc
        rcases hc with hc | hc
        · exact hdig c hc
        · rw [hc]
          exact hd.2

theorem toString_nat_spec (n : Nat) :
    digitsValue (toString n).data = n ∧ ∀ c ∈ (toString n).data, c.isDigit = true := by
  obtain ⟨pre, hpre, hval, hdig⟩ := toDigitsCore_spec (n + 1) n [] (Nat.lt_succ_self n)
  have h : (toString n).data = pre := by
    show (Nat.repr n).data = pre
    simp [Nat.repr, Nat.toDigits, hpre, List.asString]
  rw [h]
  exact ⟨hval, hdig⟩

/-- Two texts that end in a separator followed by separator-free tails are
equal only when the parts before and after the last separator are equal. -/
theorem split_last_sep (sep : Char) : ∀ (a a' d d' : List Char), sep ∉ d → sep ∉ d' →
    a ++ sep :: d = a' ++ sep :: d' → a = a' ∧ d = d' := by
  have first : ∀ (x x' y y' : List Char), sep ∉ x → sep ∉ x' →
      x ++ sep :: y = x' ++ sep :: y' → x = x' ∧ y = y' := by
    intro x
    induction x with
    | nil =>
      intro x' y y' _ hx' h
      cases x' with
      | nil => simpa using h
      | cons c x' =>
        simp only [List.nil_append, List.cons_append, List.cons.injEq] at h
        exact absurd (h.1 ▸ List.mem_cons_self _ _) hx'
    | cons b x ih =>
      intro x' y y' hx hx' h
      cases x' with
      | nil =>
        simp only [List.nil_append, List.cons_append, List.cons.injEq] at h
        exact absurd (h.1 ▸ List.mem_cons_self _ _) hx
      | cons c x' =>
        simp only [List.cons_append, List.cons.injEq] at h
        obtain ⟨h1, h2⟩ := ih x' y y' (fun hm => hx (List.mem_cons_of_mem _ hm))
          (fun hm => hx' (List.mem_cons_of_mem _ hm)) h.2
        exact ⟨by rw [h.1, h1], h2⟩
  intro a a' d d' hd hd' h
  have hr : d.reverse ++ sep :: a.reverse = d'.reverse ++ sep :: a'.reverse := by
    have := congrArg List.reverse h
    simpa using this
  obtain ⟨h1, h2⟩ := first _ _ _ _ (by simpa using hd) (by simpa using hd') hr
  exact ⟨List.reverse_injective h2, List.reverse_injective h1⟩

theorem underscore_not_in_toString (n : Nat) : '_' ∉ (toString n).data := by
  intro h
  have := (toString_nat_spec n).2 _ h
  exact absurd this (by decide)

theorem toString_nat_injective (a b : Nat) (h : (toString a).data = (toString b).data) : a = b := by
  rw [← (toString_nat_spec a).1, ← (toString_nat_spec b).1, h]

theorem newUpgradeTask_ID {σ : Type} (env : Env σ) (hostID : Nat) (c f t : String)
    (strategy : UpgradeStrategy) (host : σ) :
    (newUpgradeTask env hostID c f t strategy host).ID
      = "upgrade_" ++ c ++ "_" ++ toString hostID ++ "_" ++ toString (env.now host) := rfl

/-- The ID format is injective in component name, host ID and creation second. -/
theorem newUpgradeTask_ID_eq_iff {σ : Type} (env : Env σ) (hostID hostID' : Nat)
    (c f t c' f' t' : String) (strategy strategy' : UpgradeStrategy) (host host' : σ) :
    (newUpgradeTask env hostID c f t strategy host).ID
        = (newUpgradeTask env hostID' c' f' t' strategy' host').ID ↔
      c = c' ∧ hostID = hostID' ∧ env.now host = env.now host' := by
  rw [newUpgradeTask_ID, newUpgradeTask_ID]
  constructor
  · intro h1
    have h2 := congrArg String.data h1
    simp only [String.data_append] at h2
    have h3 : ("upgrade_".data ++ c.data ++ '_' :: (toString hostID).data) ++
          '_' :: (toString (env.now host)).data
        = ("upgrade_".data ++ c'.data ++ '_' :: (toString hostID').data) ++
          '_' :: (toString (env.now host')).data := by
      simpa using h2
    obtain ⟨h4, h5⟩ := split_last_sep '_' _ _ _ _ (underscore_not_in_toString _)
      (underscore_not_in_toString _) h3
    have h6 : ("upgrade_".data ++ c.data) ++ '_' :: (toString hostID).data
        = ("upgrade_".data ++ c'.data) ++ '_' :: (toString hostID').data := by
      simpa using h4
    obtain ⟨h7, h8⟩ := split_last_sep '_' _ _ _ _ (underscore_not_in_toString _)
      (underscore_not_in_toString _) h6
    refine ⟨?_, toString_nat_injective _ _ h8, toString_nat_injective _ _ h5⟩
    have h9 : c.data = c'.data := List.append_cancel_left h7
    exact String.ext h9
  · rintro ⟨rfl, rfl, h⟩
    rw [h]

/-- What a call of `CreateUpgradeTask` returns and issues: the task it built
when the client accepted the `SET`, the error "failed to save upgrade task"
when it refused it, and in both cases one `SET` of the task under the key
`upgrade_task:<ID>`. -/
theorem CreateUpgradeTask_apply {σ : Type} (env : Env σ) (store : Store) (hostID : Nat)
    (c f t : String) (strategy : UpgradeStrategy) (host : σ)
    (redis : List (String × ComponentUpgradeTask)) :
    (CreateUpgradeTask env store hostID c f t strategy host redis).2
      = redis ++ [("upgrade_task:" ++ (newUpgradeTask env hostID c f t strategy host).ID,
          newUpgradeTask env hostID c f t strategy host)] ∧
    (CreateUpgradeTask env store hostID c f t strategy host redis).1
      = match store.set redis ("upgrade_task:" ++ (newUpgradeTask env hostID c f t strategy host).ID)
          (newUpgradeTask env hostID c f t strategy host) with
        | some err => Except.error ("failed to save upgrade task: " ++ err)
        | none => Except.ok (newUpgradeTask env hostID c f t strategy host) := by
  unfold CreateUpgradeTask
  simp only []
  cases store.set redis ("upgrade_task:" ++ (newUpgradeTask env hostID c f t strategy host).ID)
      (newUpgradeTask env hostID c f t strategy host) with
  | none => exact ⟨rfl, rfl⟩
  | some err => exact ⟨rfl, rfl⟩

theorem CreateUpgradeTask_ok {σ : Type} (env : Env σ) (store : Store) (hostID : Nat)
    (c f t : String) (strategy : UpgradeStrategy) (host : σ)
    (redis : List (String × ComponentUpgradeTask)) (created : ComponentUpgradeTask)
    (h : (CreateUpgradeTask env store hostID c f t strategy host redis).1 = Except.ok created) :
    created = newUpgradeTask env hostID c f t strategy host := by
  rw [(CreateUpgradeTask_apply env store hostID c f t strategy host redis).2] at h
  split at h
  · cases h
  · cases h
    rfl

/-- C24 (amended): `CreateUpgradeTask` builds the ID from the component name,
the host ID and the creation time in whole Unix seconds. Every call issues one
`SET` of the task it built under the key `upgrade_task:<ID>` and returns that
task exactly when the client accepts the `SET`. For any two calls, the keys of
the two `SET` commands are equal exactly when the calls agree in component
name, host ID and second of creation, and when both calls return a task, the
two tasks have equal IDs exactly in that case: each is then the record of its
own `SET` under the one shared key. -/
theorem CreateUpgradeTask_ID_eq_iff {σ : Type} (env : Env σ) (store store' : Store)
    (hostID hostID' : Nat) (c f t c' f' t' : String) (strategy strategy' : UpgradeStrategy)
    (host host' : σ) (redis redis' : List (String × ComponentUpgradeTask)) :
    (∃ task key,
      (CreateUpgradeTask env store hostID c f t strategy host redis).2 = redis ++ [(key, task)] ∧
      key = "upgrade_task:" ++ task.ID ∧
      ((CreateUpgradeTask env store hostID c f t strategy host redis).1 = Except.ok task ↔
        store.set redis key task = none) ∧
      ∀ task' key',
        (CreateUpgradeTask env store' hostID' c' f' t' strategy' host' redis').2
          = redis' ++ [(key', task')] →
        (key = key' ↔ c = c' ∧ hostID = hostID' ∧ env.now host = env.now host')) ∧
    (∀ a b,
      (CreateUpgradeTask env store hostID c f t strategy host redis).1 = Except.ok a →
      (CreateUpgradeTask env store' hostID' c' f' t' strategy' host' redis').1 = Except.ok b →
      (a.ID = b.ID ↔ c = c' ∧ hostID = hostID' ∧ env.now host = env.now host') ∧
      (CreateUpgradeTask env store hostID c f t strategy host redis).2
        = redis ++ [("upgrade_task:" ++ a.ID, a)] ∧
      (CreateUpgradeTask env store' hostID' c' f' t' strategy' host' redis').2
        = redis' ++ [("upgrade_task:" ++ b.ID, b)]) := by
  have hx := CreateUpgradeTask_apply env store hostID c f t strategy host redis
  have hy := CreateUpgradeTask_apply env store' hostID' c' f' t' strategy' host' redis'
  have hid := newUpgradeTask_ID_eq_iff env hostID hostID' c f t c' f' t' strategy strategy'
    host host'
  constructor
  · refine ⟨newUpgradeTask env hostID c f t strategy host, _, hx.1, rfl, ?_, ?_⟩
    · rw [hx.2]
      cases store.set redis ("upgrade_task:" ++ (newUpgradeTask env hostID c f t strategy host).ID)
          (newUpgradeTask env hostID c f t strategy host) with
      | none => simp
      | some err => simp
    · intro task' key' h'
      rw [hy.1] at h'
      have h2 := List.append_cancel_left h'
      simp only [List.cons.injEq, Prod.mk.injEq, and_true] at h2
      rw [← h2.1, ← hid]
      constructor
      · intro hk
        have hk' := congrArg String.data hk
        simp only [String.data_append] at hk'
        exact String.ext (List.append_cancel_left hk')
      · intro hk
        rw [hk]
  · intro a b ha hb
    have ea := CreateUpgradeTask_ok env store hostID c f t strategy host redis a ha
    have eb := CreateUpgradeTask_ok env store' hostID' c' f' t' strategy' host' redis' b hb
    subst ea
    subst eb
    exact ⟨hid, hx.1, hy.1⟩

/-- C24 as stated fails: two calls in the same second for the same host and
component (here two successive upgrades of prometheus on host 1) use the same
ID. With a client that accepts the `SET` both calls return a task, the two
tasks differ and have the same ID `upgrade_prometheus_1_0`, and the record kept
under the key is that of the second call. With a client that refuses the `SET`
both calls return an error, and the two `SET` commands they issued carry
different tasks under the same key. -/
theorem CreateUpgradeTask_same_second_counterexample :
    (okValue (CreateUpgradeTask quietHost latestStore 1 "prometheus" "2.0.0" "2.1.0" {} ()
        []).1).map (fun a => (a.ID, a.ToVersion))
      = some ("upgrade_prometheus_1_0", "2.1.0") ∧
    (okValue (CreateUpgradeTask quietHost latestStore 1 "prometheus" "2.1.0" "2.2.0" {} ()
        (CreateUpgradeTask quietHost latestStore 1 "prometheus" "2.0.0" "2.1.0" {} ()
          []).2).1).map (fun b => (b.ID, b.ToVersion))
      = some ("upgrade_prometheus_1_0", "2.2.0") ∧
    latestStore.load
        (CreateUpgradeTask quietHost latestStore 1 "prometheus" "2.1.0" "2.2.0" {} ()
          (CreateUpgradeTask quietHost latestStore 1 "prometheus" "2.0.0" "2.1.0" {} ()
            []).2).2 "upgrade_task:upgrade_prometheus_1_0"
      = Loaded.record (newUpgradeTask quietHost 1 "prometheus" "2.1.0" "2.2.0" {} ()) ∧
    okValue (CreateUpgradeTask quietHost heldStore 1 "prometheus" "2.0.0" "2.1.0" {} ()
        []).1 = none ∧
    (CreateUpgradeTask quietHost heldStore 1 "prometheus" "2.1.0" "2.2.0" {} ()
        (CreateUpgradeTask quietHost heldStore 1 "prometheus" "2.0.0" "2.1.0" {} ()
          []).2).2.map (fun e => (e.1, e.2.ToVersion))
      = [("upgrade_task:upgrade_prometheus_1_0", "2.1.0"),
         ("upgrade_task:upgrade_prometheus_1_0", "2.2.0")] := by
  decide!

/-! ## ExecuteUpgrade and other tasks -/

theorem grows_pure {σ α : Type} (a : α) : Grows (pure a : Go (Mem σ) α) :=
  fun m => ⟨[], by simp [Go.pure_apply, Outcome.state]⟩

theorem grows_bind {σ α β : Type} (x : Go (Mem σ) α) (f : α → Go (Mem σ) β)
    (hx : Grows x) (hf : ∀ a, Grows (f a)) : Grows (x >>= f) := by
  intro m
  obtain ⟨r1, h1⟩ := hx m
  rw [Go.bind_apply]
  cases hxm : x m with
  | done a m1 =>
    rw [hxm] at h1
    obtain ⟨r2, h2⟩ := hf a m1
    exact ⟨r1 ++ r2, by rw [h2]; simp only [Outcome.state] at h1; rw [h1, List.append_assoc]⟩
  | panicked msg m1 =>
    rw [hxm] at h1
    exact ⟨r1, h1⟩

theorem grows_getTask {σ : Type} : Grows (getTask : Go (Mem σ) ComponentUpgradeTask) :=
  fun m => ⟨[], by simp [getTask, Outcome.state]⟩

theorem grows_nowMem {σ : Type} (env : Env σ) : Grows (nowMem env) :=
  fun m => ⟨[], by simp [nowMem, Outcome.state]⟩

theorem grows_sshMem {σ : Type} (env : Env σ) (cmd : String) : Grows (sshMem env cmd) :=
  fun m => ⟨[], by simp [sshMem, Outcome.state]⟩

theorem grows_getHostMem {σ : Type} (env : Env σ) : Grows (getHostMem env) :=
  fun m => ⟨[], by simp [getHostMem, Outcome.state]⟩

theorem grows_createSSHClientMem {σ : Type} (env : Env σ) : Grows (createSSHClientMem env) :=
  fun m => ⟨[], by simp [createSSHClientMem, Outcome.state]⟩

theorem grows_saveUpgradeTask {σ : Type} : Grows (saveUpgradeTask : Go (Mem σ) Unit) :=
  fun m => ⟨[("upgrade_task:" ++ m.task.ID, m.task)], rfl⟩

theorem grows_modifyTask {σ : Type} (f : ComponentUpgradeTask → ComponentUpgradeTask) :
    Grows (modifyTask f : Go (Mem σ) Unit) :=
  fun m => ⟨[], by simp [modifyTask, Outcome.state]⟩

theorem grows_modifyStep {σ : Type} (i : Nat) (f : UpgradeStep → UpgradeStep) :
    Grows (modifyStep i f : Go (Mem σ) Unit) :=
  grows_modifyTask _

theorem grows_runStep {σ α : Type} (step : Option Nat) (x : Go (StepCtx σ) α) :
    Grows (runStep step x) := by
  intro m
  refine ⟨[], ?_⟩
  simp only [runStep, List.append_nil]
  cases x { host := m.host, output := _, backupPaths := m.task.BackupPaths } <;> rfl

theorem grows_addUpgradeLog {σ : Type} (env : Env σ) (message : String) :
    Grows (addUpgradeLog env message) := by
  unfold addUpgradeLog
  repeat' first
    | with_reducible apply grows_bind
    | with_reducible apply grows_nowMem
    | with_reducible apply grows_modifyTask
    | with_reducible apply grows_saveUpgradeTask
    | (intro a; show Grows _)

theorem grows_rollbackUpgrade {σ : Type} (env : Env σ) : Grows (rollbackUpgrade env) := by
  unfold rollbackUpgrade
  repeat' first
    | with_reducible apply grows_bind
    | with_reducible apply grows_pure
    | with_reducible apply grows_addUpgradeLog
    | with_reducible apply grows_getTask
    | with_reducible apply grows_sshMem
    | with_reducible apply grows_modifyTask
    | with_reducible apply grows_runStep
    | (intro a; show Grows _)
    | split

theorem grows_upgradeLoop {σ : Type} (env : Env σ) (totalSteps : Nat) :
    ∀ n i, Grows (upgradeLoop env totalSteps n i) := by
  intro n
  induction n with
  | zero => intro i; exact grows_pure true
  | succ n ih =>
    intro i
    unfold upgradeLoop beginStep runUpgradeStep failStep completeStep
    repeat' first
      | with_reducible apply grows_bind
      | with_reducible apply grows_pure
      | with_reducible apply grows_addUpgradeLog
      | with_reducible apply grows_getTask
      | with_reducible apply grows_nowMem
      | with_reducible apply grows_modifyStep
      | with_reducible apply grows_modifyTask
      | with_reducible apply grows_saveUpgradeTask
      | with_reducible apply grows_runStep
      | with_reducible apply grows_rollbackUpgrade
      | with_reducible apply ih
      | (intro a; show Grows _)
      | split

theorem grows_executeUpgradeBody {σ : Type} (env : Env σ) : Grows (executeUpgradeBody env) := by
  unfold executeUpgradeBody runAllSteps
  repeat' first
    | with_reducible apply grows_bind
    | with_reducible apply grows_pure
    | with_reducible apply grows_addUpgradeLog
    | with_reducible apply grows_getTask
    | with_reducible apply grows_getHostMem
    | with_reducible apply grows_createSSHClientMem
    | with_reducible apply grows_modifyTask
    | with_reducible apply grows_upgradeLoop
    | (intro a; show Grows _)
    | split

theorem grows_executeUpgradeAsync {σ : Type} (env : Env σ) : Grows (executeUpgradeAsync env) := by
  intro m
  obtain ⟨recs, h⟩ := grows_executeUpgradeBody env m
  rw [executeUpgradeAsync_state]
  refine ⟨recs ++ [("upgrade_task:" ++ (executeUpgradeBody env m).state.task.ID,
    deferredTask env (executeUpgradeBody env m).state.host (executeUpgradeBody env m).state.task)], ?_⟩
  show (executeUpgradeBody env m).state.redis ++ _ = _
  rw [h, List.append_assoc]

/-- C25 (amended): `ExecuteUpgrade` does not look at other tasks and never
fails with a conflict. For every host, every Redis and every list of `SET`
commands issued so far: when `getUpgradeTask` obtains the record of the task,
whatever the records of other tasks (also when another task for the same host
and component is running), the call returns no error, issues the `SET` of the
task with status `running` and its start time, ignores the result of that
`SET`, and starts the execution, which only issues further `SET` commands; when
`redis.Get` fails, the call returns the error "task not found: ..." and when
`json.Unmarshal` fails the error "failed to deserialize task: ...", in both
cases without a `SET` and without a remote command. -/
theorem ExecuteUpgrade_no_conflict {σ : Type} (env : Env σ) (store : Store) (taskID : String)
    (host : σ) (redis : List (String × ComponentUpgradeTask)) :
    (∀ task, store.load redis ("upgrade_task:" ++ taskID) = Loaded.record task →
      ∃ recs, okValue (ExecuteUpgrade env store taskID host redis)
          = some (executeUpgradeAsync env
              { host := host,
                redis := redis ++ [("upgrade_task:" ++ task.ID,
                  { task with Status := "running", StartedAt := some (env.now host) })],
                task := { task with Status := "running", StartedAt := some (env.now host) } }) ∧
        (okValue (ExecuteUpgrade env store taskID host redis)).map (fun o => o.state.redis)
          = some (redis ++ ("upgrade_task:" ++ task.ID,
              { task with Status := "running", StartedAt := some (env.now host) }) :: recs)) ∧
    (∀ err, store.load redis ("upgrade_task:" ++ taskID) = Loaded.getError err →
      ExecuteUpgrade env store taskID host redis = Except.error ("task not found: " ++ err)) ∧
    (∀ err, store.load redis ("upgrade_task:" ++ taskID) = Loaded.unmarshalError err →
      ExecuteUpgrade env store taskID host redis
        = Except.error ("failed to deserialize task: " ++ err)) := by
  refine ⟨?_, ?_, ?_⟩
  · intro task h
    have he : ExecuteUpgrade env store taskID host redis
        = Except.ok (executeUpgradeAsync env
            { host := host,
              redis := redis ++ [("upgrade_task:" ++ task.ID,
                { task with Status := "running", StartedAt := some (env.now host) })],
              task := { task with Status := "running", StartedAt := some (env.now host) } }) := by
      simp only [ExecuteUpgrade, getUpgradeTask, h, Go.bind_apply, saveUpgradeTask]
    obtain ⟨recs, hrecs⟩ := grows_executeUpgradeAsync env
      { host := host,
        redis := redis ++ [("upgrade_task:" ++ task.ID,
          { task with Status := "running", StartedAt := some (env.now host) })],
        task := { task with Status := "running", StartedAt := some (env.now host) } }
    refine ⟨recs, by rw [he]; rfl, ?_⟩
    rw [he]
    simp only [okValue, Option.map_some', hrecs, List.append_assoc, List.singleton_append]
  · intro err h
    simp only [ExecuteUpgrade, getUpgradeTask, h]
  · intro err h
    simp only [ExecuteUpgrade, getUpgradeTask, h]

/-- C25 as stated fails. The Redis server holds the record of an upgrade of
prometheus on host 1 that is running and the record of a second, pending task
for the same host and component. `ExecuteUpgrade` for the second task returns
no error, issues the `SET` of the second task with status `running` (which
this client refuses, unnoticed), and its execution sends remote commands, the
first being the disk check of its `pre_check` step. -/
theorem ExecuteUpgrade_conflict_counterexample :
    (twoTaskRecords.map (fun e => (e.1, e.2.Status, e.2.HostID, e.2.ComponentName)))
      = [("upgrade_task:upgrade_prometheus_1_100", "running", 1, "prometheus"),
         ("upgrade_task:upgrade_prometheus_1_102", "pending", 1, "prometheus")] ∧
    (okValue (ExecuteUpgrade recordingHost heldStore "upgrade_prometheus_1_102" (103, []) [])).map
        (fun o => ((o.state.redis.head?).map (fun e => (e.1, e.2.Status)),
          o.state.host.2.head?))
      = some (some ("upgrade_task:upgrade_prometheus_1_102", "running"),
          some "df -h / | tail -1 | awk '\x7bprint $5\x7d' | sed 's/%//'") := by
  decide!

/-! ## Where a rollback puts the configuration backup -/

/-- C27 fails on the code. The configuration backup of grafana copies
`/etc/grafana/grafana.ini` and `/var/lib/grafana/grafana.db`, both paths of
`getComponentConfigPaths`, into the backup directory; the rollback copies every
file of that directory into `/etc/grafana/`, which is not the directory of
`/var/lib/grafana/grafana.db`. The same holds for prometheus, whose rule files
come from `/etc/prometheus/rules/` and are copied back into `/etc/prometheus/`. -/
theorem rollbackUpgrade_restore_directory :
    "/var/lib/grafana/grafana.db" ∈ getComponentConfigPaths "grafana" ∧
    backupThenRollback "grafana" =
      ["mkdir -p /opt/monitoring/backups/grafana/t",
       "test -f /etc/grafana/grafana.ini && cp /etc/grafana/grafana.ini /opt/monitoring/backups/grafana/t/ || echo 'Config file /etc/grafana/grafana.ini not found'",
       "test -f /var/lib/grafana/grafana.db && cp /var/lib/grafana/grafana.db /opt/monitoring/backups/grafana/t/ || echo 'Config file /var/lib/grafana/grafana.db not found'",
       "docker stop grafana 2>/dev/null || true",
       "systemctl stop grafana 2>/dev/null || true",
       "docker ps --filter name=grafana --format '\x7b\x7b.Status\x7d\x7d'",
       "systemctl is-active grafana",
       "cp -r /opt/monitoring/backups/grafana/t/* /etc/grafana/ 2>/dev/null || true",
       "ls -t /usr/local/bin/grafana.backup_* 2>/dev/null | head -1",
       "docker start grafana 2>/dev/null || true",
       "systemctl start grafana"] ∧
    "/etc/prometheus/rules/*.yml" ∈ getComponentConfigPaths "prometheus" ∧
    "cp -r /opt/monitoring/backups/prometheus/t/* /etc/prometheus/ 2>/dev/null || true"
      ∈ backupThenRollback "prometheus" := by
  decide!

/-! ## The probe of the service unit -/

/-- C30 fails on the code. On a host whose unit has no start command the output
of `systemctl show --property=ExecStart` is the line `ExecStart=`: it contains
"ExecStart=", nothing is left after the prefix is trimmed, the field list is
empty and `strings.Fields(execPath)[0]` panics; the panic goes up through
`detectInstalledVersion`. -/
theorem checkSystemdVersion_empty_fields :
    strContains "ExecStart=\n" "ExecStart=" = true ∧
    fields (trimLeading "ExecStart=".toList "ExecStart=\n".toList) = [] ∧
    (checkSystemdVersion emptyExecStartHost "node-exporter" ()).returned = false ∧
    (detectInstalledVersion emptyExecStartHost "node-exporter" ()).returned = false := by
  decide!

/-! ## The dispatch of executeUpgradeStep -/

/-- A step name outside the nine case labels takes the `default` branch. -/
theorem executeUpgradeStep_default {σ : Type} (env : Env σ) (task : ComponentUpgradeTask)
    (stepName : String) (h : stepName ∉ allStepNames) :
    executeUpgradeStep env task stepName = pure (some ("unknown step: " ++ stepName)) := by
  simp only [allStepNames, List.mem_cons, List.mem_singleton, not_or, List.mem_nil_iff,
    or_false] at h
  obtain ⟨h1, h2, h3, h4, h5, h6, h7, h8, h9⟩ := h
  simp only [executeUpgradeStep, if_neg h1, if_neg h2, if_neg h3, if_neg h4, if_neg h5,
    if_neg h6, if_neg h7, if_neg h8, if_neg h9]

/-- The step names of `generateUpgradeSteps` are distinct and among the nine case labels. -/
theorem generateUpgradeSteps_names_known (c f t : String) (strategy : UpgradeStrategy) :
    ((generateUpgradeSteps c f t strategy).map (fun s => s.Name)).Nodup ∧
    ∀ step ∈ generateUpgradeSteps c f t strategy, step.Name ∈ allStepNames := by
  obtain ⟨bc, bd, ss, mc, re, ut, hd⟩ := strategy
  cases bc <;> cases bd <;> cases ss <;> cases mc <;>
    simp [generateUpgradeSteps, allStepNames]

/-- C28: for every strategy the step names of `generateUpgradeSteps` are
pairwise distinct and each is one of the nine case labels of
`executeUpgradeStep`; the steps of a task that `CreateUpgradeTask` builds (and
returns when the save succeeds) are those of `generateUpgradeSteps`; for every
such step the dispatch runs the step function of its label, and the `default`
branch, which returns "unknown step", is taken exactly for the names outside
the nine labels, none of which is the name of a generated step. -/
theorem executeUpgradeStep_known {σ : Type} (env : Env σ) (store : Store) (hostID : Nat)
    (c f t : String) (strategy : UpgradeStrategy) (host : σ)
    (redis : List (String × ComponentUpgradeTask)) (task : ComponentUpgradeTask) :
    ((generateUpgradeSteps c f t strategy).map (fun s => s.Name)).Nodup ∧
    (newUpgradeTask env hostID c f t strategy host).Steps = generateUpgradeSteps c f t strategy ∧
    (∀ created,
      (CreateUpgradeTask env store hostID c f t strategy host redis).1 = Except.ok created →
      created.Steps = generateUpgradeSteps c f t strategy) ∧
    (∀ step ∈ generateUpgradeSteps c f t strategy,
      step.Name ∈ allStepNames ∧
      (step.Name, executeUpgradeStep env task step.Name) ∈
        [("pre_check", executePreCheck env task), ("backup_config", executeBackupConfig env task),
         ("backup_data", executeBackupData env task), ("stop_service", executeStopService env task),
         ("upgrade_component", executeUpgradeComponent env task),
         ("migrate_config", executeMigrateConfig env task),
         ("start_service", executeStartService env task),
         ("health_check", executeHealthCheck env task),
         ("post_check", executePostCheck env task)]) ∧
    (∀ stepName, stepName ∉ allStepNames →
      executeUpgradeStep env task stepName = pure (some ("unknown step: " ++ stepName)) ∧
      ∀ step ∈ generateUpgradeSteps c f t strategy, step.Name ≠ stepName) := by
  have hsub : ∀ step ∈ generateUpgradeSteps c f t strategy, step.Name ∈ allStepNames :=
    (generateUpgradeSteps_names_known c f t strategy).2
  have hcases : ∀ name ∈ allStepNames,
      (name, executeUpgradeStep env task name) ∈
        [("pre_check", executePreCheck env task), ("backup_config", executeBackupConfig env task),
         ("backup_data", executeBackupData env task), ("stop_service", executeStopService env task),
         ("upgrade_component", executeUpgradeComponent env task),
         ("migrate_config", executeMigrateConfig env task),
         ("start_service", executeStartService env task),
         ("health_check", executeHealthCheck env task),
         ("post_check", executePostCheck env task)] := by
    intro name hname
    simp only [allStepNames, List.mem_cons, List.mem_singleton, List.mem_nil_iff,
      or_false] at hname
    rcases hname with h | h | h | h | h | h | h | h | h <;> subst h <;>
      simp [executeUpgradeStep]
  refine ⟨(generateUpgradeSteps_names_known c f t strategy).1, rfl, ?_,
    fun step hstep => ⟨hsub step hstep, hcases _ (hsub step hstep)⟩,
    fun stepName hout => ⟨executeUpgradeStep_default env task stepName hout, ?_⟩⟩
  · intro created h
    rw [CreateUpgradeTask_ok env store hostID c f t strategy host redis created h]
    rfl
  · intro step hstep heq
    exact hout (heq ▸ hsub step hstep)

end ComponentVersion

namespace ConfigDeployment

open ComponentVersion

/-! ## Config deployment: the primitive calls -/

theorem onWorld_apply {ω κ α : Type} (f : ω → α × ω) (d : Dep ω κ) :
    onWorld f d = Outcome.done (f d.world).1 { d with world := (f d.world).2 } := rfl

theorem newSession_apply {ω κ : Type} (w : World ω κ) (client : κ) (d : Dep ω κ) :
    newSession w client d
      = Outcome.done (w.newSession client d.world).1
          { d with world := (w.newSession client d.world).2 } := rfl

theorem run_apply {ω κ : Type} (w : World ω κ) (client : κ) (cmd stdin : String) (d : Dep ω κ) :
    run w client cmd stdin d
      = Outcome.done (w.run client cmd stdin d.world).1
          { world := (w.run client cmd stdin d.world).2,
            issued := d.issued ++ [{ client := client, cmd := cmd, stdin := stdin }] } := rfl

theorem timeNow_apply {ω κ : Type} (w : World ω κ) (d : Dep ω κ) :
    timeNow w d = Outcome.done (w.now d.world) d := rfl

theorem total_onWorld {ω κ α : Type} (f : ω → α × ω) : Total (onWorld f : Go (Dep ω κ) α) :=
  fun _ => ⟨_, _, rfl⟩

theorem total_newSession {ω κ : Type} (w : World ω κ) (client : κ) :
    Total (newSession w client) := fun _ => ⟨_, _, rfl⟩

theorem total_run {ω κ : Type} (w : World ω κ) (client : κ) (cmd stdin : String) :
    Total (run w client cmd stdin) := fun _ => ⟨_, _, rfl⟩

theorem total_timeNow {ω κ : Type} (w : World ω κ) : Total (timeNow w) := fun _ => ⟨_, _, rfl⟩

theorem total_createSSHClient {ω κ : Type} (w : World ω κ) (target : DeploymentTarget) :
    Total (createSSHClient w target) := by
  unfold createSSHClient
  repeat' first
    | with_reducible apply total_bind
    | with_reducible apply total_pure
    | with_reducible apply total_onWorld
    | (intro a; show ComponentVersion.Total _)
    | split

theorem total_backupExistingConfig {ω κ : Type} (w : World ω κ) (client : κ)
    (target : DeploymentTarget) : Total (backupExistingConfig w client target) := by
  unfold backupExistingConfig
  repeat' first
    | with_reducible apply total_bind
    | with_reducible apply total_pure
    | with_reducible apply total_newSession
    | with_reducible apply total_run
    | with_reducible apply total_timeNow
    | (intro a; show ComponentVersion.Total _)
    | split

theorem total_uploadConfig {ω κ : Type} (w : World ω κ) (client : κ)
    (target : DeploymentTarget) (content : String) :
    Total (uploadConfig w client target content) := by
  unfold uploadConfig
  repeat' first
    | with_reducible apply total_bind
    | with_reducible apply total_pure
    | with_reducible apply total_newSession
    | with_reducible apply total_run
    | (intro a; show ComponentVersion.Total _)
    | split

theorem total_validateConfig {ω κ : Type} (w : World ω κ) (client : κ)
    (target : DeploymentTarget) (configPath : String) :
    Total (validateConfig w client target configPath) := by
  unfold validateConfig
  repeat' first
    | with_reducible apply total_bind
    | with_reducible apply total_pure
    | with_reducible apply total_newSession
    | with_reducible apply total_run
    | (intro a; show ComponentVersion.Total _)
    | split

theorem total_restartService {ω κ : Type} (w : World ω κ) (client : κ)
    (target : DeploymentTarget) (result : DeploymentResult) :
    Total (restartService w client target result) := by
  unfold restartService
  repeat' first
    | with_reducible apply total_bind
    | with_reducible apply total_pure
    | with_reducible apply total_newSession
    | with_reducible apply total_run
    | (intro a; show ComponentVersion.Total _)
    | split

theorem total_checkServiceStatus {ω κ : Type} (w : World ω κ) (client : κ)
    (target : DeploymentTarget) (result : DeploymentResult) :
    Total (checkServiceStatus w client target result) := by
  unfold checkServiceStatus
  repeat' first
    | with_reducible apply total_bind
    | with_reducible apply total_pure
    | with_reducible apply total_newSession
    | with_reducible apply total_run
    | (intro a; show ComponentVersion.Total _)
    | dsimp only
    | split

theorem total_backupStep {ω κ : Type} (w : World ω κ) (config : DeploymentConfig)
    (target : DeploymentTarget) (client : κ) (result : DeploymentResult) :
    Total (backupStep w config target client result) := by
  unfold backupStep
  repeat' first
    | with_reducible apply total_bind
    | with_reducible apply total_pure
    | with_reducible apply total_backupExistingConfig
    | (intro a; show ComponentVersion.Total _)
    | split

theorem total_deployAfterBackup {ω κ : Type} (w : World ω κ) (config : DeploymentConfig)
    (target : DeploymentTarget) (client : κ) (result : DeploymentResult) :
    Total (deployAfterBackup w config target client result) := by
  unfold deployAfterBackup
  repeat' first
    | with_reducible apply total_bind
    | with_reducible apply total_pure
    | with_reducible apply total_uploadConfig
    | with_reducible apply total_validateConfig
    | with_reducible apply total_restartService
    | with_reducible apply total_checkServiceStatus
    | (intro a; show ComponentVersion.Total _)
    | split

theorem total_deployWithClient {ω κ : Type} (w : World ω κ) (config : DeploymentConfig)
    (target : DeploymentTarget) (client : κ) (result : DeploymentResult) :
    Total (deployWithClient w config target client result) := by
  unfold deployWithClient
  repeat' first
    | with_reducible apply total_bind
    | with_reducible apply total_pure
    | with_reducible apply total_backupStep
    | with_reducible apply total_deployAfterBackup
    | (intro a; show ComponentVersion.Total _)
    | split

theorem total_deployToTarget {ω κ : Type} (w : World ω κ) (config : DeploymentConfig)
    (target : DeploymentTarget) (result : DeploymentResult) :
    Total (deployToTarget w config target result) := by
  unfold deployToTarget
  repeat' first
    | with_reducible apply total_bind
    | with_reducible apply total_pure
    | with_reducible apply total_createSSHClient
    | with_reducible apply total_deployWithClient
    | with_reducible apply total_onWorld
    | (intro a; show ComponentVersion.Total _)
    | split

/-! ## Config deployment: the commands a step issues -/

theorem succeedsWith_newSession {ω κ : Type} (w : World ω κ) (client : κ) (p : String)
    (cmds : List (Issued κ)) (f : Option String → Go (Dep ω κ) (String × Option String))
    (hf : ∀ a, SucceedsWith p cmds (f a)) : SucceedsWith p cmds (newSession w client >>= f) := by
  intro d a d' h ha
  rw [Go.bind_apply, newSession_apply] at h
  exact hf (w.newSession client d.world).1 { d with world := (w.newSession client d.world).2 }
    a d' h ha

theorem succeedsWith_run {ω κ : Type} (w : World ω κ) (client : κ) (cmd stdin p : String)
    (cmds : List (Issued κ)) (f : RunResult → Go (Dep ω κ) (String × Option String))
    (hf : ∀ a, SucceedsWith p cmds (f a)) :
    SucceedsWith p ({ client := client, cmd := cmd, stdin := stdin } :: cmds)
      (run w client cmd stdin >>= f) := by
  intro d a d' h ha
  rw [Go.bind_apply, run_apply] at h
  obtain ⟨h1, h2⟩ := hf _ _ _ _ h ha
  refine ⟨h1, ?_⟩
  rw [h2]
  simp

theorem succeedsWith_error {ω κ : Type} (p : String) (cmds : List (Issued κ)) (s e : String) :
    SucceedsWith p cmds (pure (s, some e) : Go (Dep ω κ) (String × Option String)) := by
  intro d a d' h ha
  cases h
  cases ha

theorem succeedsWith_ok {ω κ : Type} (s : String) :
    SucceedsWith s [] (pure (s, none) : Go (Dep ω κ) (String × Option String)) := by
  intro d a d' h _
  cases h
  simp

/-- An upload that returns no error returns the destination path and has
issued `mkdir -p`, the write of the content to the destination path and
`chmod 644`, in this order. -/
theorem uploadConfig_issued {ω κ : Type} (w : World ω κ) (client : κ)
    (target : DeploymentTarget) (content : String) :
    SucceedsWith target.ConfigPath
      [{ client := client, cmd := "mkdir -p " ++ w.pathDir target.ConfigPath, stdin := "" },
       { client := client, cmd := "cat > " ++ target.ConfigPath, stdin := content },
       { client := client, cmd := "chmod 644 " ++ target.ConfigPath, stdin := "" }]
      (uploadConfig w client target content) := by
  unfold uploadConfig
  repeat' first
    | with_reducible apply succeedsWith_newSession
    | with_reducible apply succeedsWith_run
    | with_reducible apply succeedsWith_error
    | with_reducible apply succeedsWith_ok
    | (intro a; show SucceedsWith _ _ _)
    | split

theorem validateConfig_eq {ω κ : Type} (w : World ω κ) (client : κ)
    (target : DeploymentTarget) (configPath : String) (d : Dep ω κ) :
    validateConfig w client target configPath d =
      match (w.newSession client d.world).1 with
      | some e => Outcome.done (some e) { d with world := (w.newSession client d.world).2 }
      | none =>
        Outcome.done
          ((w.run client (validateCommand target configPath) ""
              (w.newSession client d.world).2).1.err.map
            (fun e => "配置验证失败: " ++ e ++ ", stderr: " ++
              (w.run client (validateCommand target configPath) ""
                (w.newSession client d.world).2).1.stderr))
          { world := (w.run client (validateCommand target configPath) ""
              (w.newSession client d.world).2).2,
            issued := d.issued ++
              [{ client := client, cmd := validateCommand target configPath, stdin := "" }] } := by
  have hcmd : validateConfig w client target configPath = (do
      let serr ← newSession w client
      match serr with
      | some e => pure (some e)
      | none => do
        let r ← run w client (validateCommand target configPath) ""
        match r.err with
        | some e => pure (some ("配置验证失败: " ++ e ++ ", stderr: " ++ r.stderr))
        | none => pure none) := rfl
  rw [hcmd]
  simp only [Go.bind_apply, newSession_apply]
  cases (w.newSession client d.world).1 with
  | some e => rfl
  | none =>
    simp only [Go.bind_apply, run_apply]
    cases (w.run client (validateCommand target configPath) ""
      (w.newSession client d.world).2).1.err <;> rfl

theorem restartService_eq {ω κ : Type} (w : World ω κ) (client : κ)
    (target : DeploymentTarget) (result : DeploymentResult) (d : Dep ω κ) :
    restartService w client target result d =
      match (w.newSession client d.world).1 with
      | some e => Outcome.done (some e) { d with world := (w.newSession client d.world).2 }
      | none =>
        Outcome.done
          ((w.run client (restartCommand target) "" (w.newSession client d.world).2).1.err.map
            (fun e => "重启服务失败: " ++ e ++ ", stderr: " ++
              (w.run client (restartCommand target) ""
                (w.newSession client d.world).2).1.stderr))
          { world := (w.run client (restartCommand target) ""
              (w.newSession client d.world).2).2,
            issued := d.issued ++
              [{ client := client, cmd := restartCommand target, stdin := "" }] } := by
  have hcmd : restartService w client target result = (do
      let serr ← newSession w client
      match serr with
      | some e => pure (some e)
      | none => do
        let r ← run w client (restartCommand target) ""
        match r.err with
        | some e => pure (some ("重启服务失败: " ++ e ++ ", stderr: " ++ r.stderr))
        | none => pure none) := rfl
  rw [hcmd]
  simp only [Go.bind_apply, newSession_apply]
  cases (w.newSession client d.world).1 with
  | some e => rfl
  | none =>
    simp only [Go.bind_apply, run_apply]
    cases (w.run client (restartCommand target) ""
      (w.newSession client d.world).2).1.err <;> rfl

/-! ## Config deployment: deployToTarget -/

/-- With the connection made, `deployToTarget` returns what steps 2 to 6
return, after closing the client. -/
theorem deployToTarget_of_client {ω κ : Type} (w : World ω κ) (config : DeploymentConfig)
    (target : DeploymentTarget) (result : DeploymentResult) (d0 d d' : Dep ω κ) (client : κ)
    (r : Option String × DeploymentResult)
    (hc : createSSHClient w target d0 = Outcome.done (Except.ok client) d)
    (hr : deployWithClient w config target client result d = Outcome.done r d') :
    deployToTarget w config target result d0 = Outcome.done r (closed w client d') := by
  simp only [deployToTarget, Go.bind_apply, hc, hr, onWorld_apply, Go.pure_apply]
  rfl

/-- After a backup step without error, steps 2 to 6 return what steps 3 to 6 return. -/
theorem deployWithClient_of_backup {ω κ : Type} (w : World ω κ) (config : DeploymentConfig)
    (target : DeploymentTarget) (client : κ) (result r1 : DeploymentResult) (d d1 : Dep ω κ)
    (hb : backupStep w config target client result d = Outcome.done (Except.ok r1) d1) :
    deployWithClient w config target client result d
      = deployAfterBackup w config target client r1 d1 := by
  simp only [deployWithClient, Go.bind_apply, hb]

theorem backupStep_of_backup {ω κ : Type} (w : World ω κ) (config : DeploymentConfig)
    (target : DeploymentTarget) (client : κ) (result : DeploymentResult) (d d1 : Dep ω κ)
    (bp : String) (hB : config.Backup = true)
    (hb : backupExistingConfig w client target d = Outcome.done (bp, none) d1) :
    backupStep w config target client result d
      = Outcome.done (Except.ok { result with BackupPath := bp }) d1 := by
  simp only [backupStep, hB, if_true, Go.bind_apply, hb, Go.pure_apply]


/-! ## Config deployment: fields of the result record that the steps keep -/

theorem keepsField_bind {ω κ α : Type} (field : DeploymentResult → String) (v : String)
    (x : Go (Dep ω κ) α) (f : α → Go (Dep ω κ) (Option String × DeploymentResult))
    (hf : ∀ a, KeepsField field v (f a)) : KeepsField field v (x >>= f) := by
  intro d a d' h
  rw [Go.bind_apply] at h
  cases hx : x d with
  | done b d1 =>
    rw [hx] at h
    exact hf b d1 a d' h
  | panicked msg d1 =>
    rw [hx] at h
    cases h

theorem keepsField_pure {ω κ : Type} (field : DeploymentResult → String) (v : String)
    (e : Option String) (r : DeploymentResult) (h : field r = v) :
    KeepsField field v (pure (e, r) : Go (Dep ω κ) (Option String × DeploymentResult)) := by
  intro d a d' h'
  cases h'
  exact h

/-- The status check only writes the `ServiceInfo` of the result record. -/
theorem checkServiceStatus_keeps {ω κ : Type} (w : World ω κ) (client : κ)
    (target : DeploymentTarget) (result : DeploymentResult) :
    KeepsField (fun r => r.TargetID) result.TargetID (checkServiceStatus w client target result) ∧
    KeepsField (fun r => r.BackupPath) result.BackupPath
      (checkServiceStatus w client target result) := by
  unfold checkServiceStatus
  constructor
  · repeat' first
      | with_reducible apply keepsField_bind
      | (with_reducible apply keepsField_pure; first | rfl | (split <;> rfl) | (split <;> split <;> rfl))
      | (intro a; show KeepsField _ _ _)
      | dsimp only
      | split
  · repeat' first
      | with_reducible apply keepsField_bind
      | (with_reducible apply keepsField_pure; first | rfl | (split <;> rfl) | (split <;> split <;> rfl))
      | (intro a; show KeepsField _ _ _)
      | dsimp only
      | split

theorem keepsField_bind_keeps {ω κ : Type} (field : DeploymentResult → String) (v : String)
    (x : Go (Dep ω κ) (Option String × DeploymentResult))
    (f : Option String × DeploymentResult → Go (Dep ω κ) (Option String × DeploymentResult))
    (hx : KeepsField field v x) (hf : ∀ a, field a.2 = v → KeepsField field v (f a)) :
    KeepsField field v (x >>= f) := by
  intro d a d' h
  rw [Go.bind_apply] at h
  cases hxd : x d with
  | done b d1 =>
    rw [hxd] at h
    exact hf b (hx d b d1 hxd) d1 a d' h
  | panicked msg d1 =>
    rw [hxd] at h
    cases h

theorem deployAfterBackup_keepsID {ω κ : Type} (w : World ω κ) (config : DeploymentConfig)
    (target : DeploymentTarget) (client : κ) (result : DeploymentResult) :
    KeepsField (fun r => r.TargetID) result.TargetID
      (deployAfterBackup w config target client result) := by
  unfold deployAfterBackup
  repeat' first
    | apply keepsField_bind_keeps _ _ _ _ (checkServiceStatus_keeps _ _ _ _).1
    | with_reducible apply keepsField_bind
    | (with_reducible apply keepsField_pure; first | rfl | assumption)
    | (intro a ha; show KeepsField _ _ _)
    | (intro a; show KeepsField _ _ _)
    | split

theorem deployAfterBackup_keepsBackup {ω κ : Type} (w : World ω κ) (config : DeploymentConfig)
    (target : DeploymentTarget) (client : κ) (result : DeploymentResult) :
    KeepsField (fun r => r.BackupPath) result.BackupPath
      (deployAfterBackup w config target client result) := by
  unfold deployAfterBackup
  repeat' first
    | apply keepsField_bind_keeps _ _ _ _ (checkServiceStatus_keeps _ _ _ _).2
    | with_reducible apply keepsField_bind
    | (with_reducible apply keepsField_pure; first | rfl | assumption)
    | (intro a ha; show KeepsField _ _ _)
    | (intro a; show KeepsField _ _ _)
    | split

/-- A backup step without error leaves the target ID of the result record. -/
theorem backupStep_keepsID {ω κ : Type} (w : World ω κ) (config : DeploymentConfig)
    (target : DeploymentTarget) (client : κ) (result r1 : DeploymentResult) (d d1 : Dep ω κ)
    (h : backupStep w config target client result d = Outcome.done (Except.ok r1) d1) :
    r1.TargetID = result.TargetID := by
  unfold backupStep at h
  split at h
  · rw [Go.bind_apply] at h
    obtain ⟨b, d2, hb⟩ := total_backupExistingConfig w client target d
    rw [hb] at h
    cases hb2 : b.2 with
    | some e =>
      simp only [hb2, Go.pure_apply, Outcome.done.injEq, reduceCtorEq, false_and] at h
    | none =>
      simp only [hb2, Go.pure_apply, Outcome.done.injEq, Except.ok.injEq] at h
      rw [← h.1]
  · cases h
    rfl

theorem deployToTarget_keepsID {ω κ : Type} (w : World ω κ) (config : DeploymentConfig)
    (target : DeploymentTarget) (result : DeploymentResult) :
    KeepsField (fun r => r.TargetID) result.TargetID (deployToTarget w config target result) := by
  intro d0 a d' h
  obtain ⟨c, d, hc⟩ := total_createSSHClient w target d0
  cases c with
  | error e =>
    simp only [deployToTarget, Go.bind_apply, hc, Go.pure_apply] at h
    cases h
    rfl
  | ok client =>
    obtain ⟨r, d2, hr⟩ := total_deployWithClient w config target client result d
    rw [deployToTarget_of_client w config target result d0 d d2 client r hc hr] at h
    cases h
    simp only [deployWithClient, Go.bind_apply] at hr
    obtain ⟨b, d1, hb⟩ := total_backupStep w config target client result d
    rw [hb] at hr
    cases b with
    | error e =>
      cases hr
      rfl
    | ok r1 =>
      have h1 := deployAfterBackup_keepsID w config target client r1 d1 _ d2 hr
      exact h1.trans (backupStep_keepsID w config target client result r1 d d1 hb)

/-! ## Config deployment: DeployConfig -/

theorem deployConfigBody_spec {ω κ : Type} (w : World ω κ) (config : DeploymentConfig)
    (target : DeploymentTarget) (d : Dep ω κ) :
    ∃ err res d' r,
      deployToTarget w config target { TargetID := target.ID, StartTime := w.now d.world } d
        = Outcome.done (err, res) d' ∧
      deployConfigBody w config target d = Outcome.done r d' ∧
      r.TargetID = target.ID ∧ (r.Success = true ↔ err = none) := by
  obtain ⟨⟨err, res⟩, d', hd⟩ := total_deployToTarget w config target
    { TargetID := target.ID, StartTime := w.now d.world } d
  have hid : res.TargetID = target.ID :=
    deployToTarget_keepsID w config target { TargetID := target.ID, StartTime := w.now d.world }
      d (err, res) d' hd
  cases err with
  | none =>
    refine ⟨none, res, d',
      { res with Success := true, Message := "配置部署成功", EndTime := w.now d'.world,
                 Duration := w.durationString res.StartTime (w.now d'.world) },
      hd, ?_, hid, by simp⟩
    simp only [deployConfigBody, Go.bind_apply, timeNow_apply, hd, Go.pure_apply]
  | some e =>
    refine ⟨some e, res, d',
      { res with Success := false, Message := e, EndTime := w.now d'.world,
                 Duration := w.durationString res.StartTime (w.now d'.world) },
      hd, ?_, hid, by simp⟩
    simp only [deployConfigBody, Go.bind_apply, timeNow_apply, hd, Go.pure_apply]

theorem deployConfigLoop_spec {ω κ : Type} (w : World ω κ) (config : DeploymentConfig)
    (targets : List DeploymentTarget) :
    ∀ d : Dep ω κ, ∃ results d', deployConfigLoop w config targets d = Outcome.done results d' ∧
      TargetsProcessed w config targets d results d' := by
  induction targets with
  | nil =>
    intro d
    refine ⟨[], d, rfl, rfl, [d], rfl, rfl, rfl, ?_⟩
    intro i target h
    simp at h
  | cons t rest ih =>
    intro d
    obtain ⟨err, res, d1, r, hd, hbody, hid, hsucc⟩ := deployConfigBody_spec w config t d
    obtain ⟨rs, d2, hloop, hlen, states, hslen, hhead, hlast, hall⟩ := ih d1
    refine ⟨r :: rs, d2, ?_, ?_, d :: states, ?_, rfl, ?_, ?_⟩
    · simp only [deployConfigLoop, Go.bind_apply, hbody, hloop, Go.pure_apply]
    · simp [hlen]
    · simp [hslen]
    · cases states with
      | nil => simp at hslen
      | cons s ss =>
        rw [List.getLast?_cons_cons]
        exact hlast
    · intro i target hi
      cases i with
      | zero =>
        simp only [List.get?_cons_zero, Option.some.injEq] at hi
        subst hi
        refine ⟨r, d, d1, err, res, rfl, rfl, ?_, hd, hid, hsucc⟩
        cases states with
        | nil => simp at hslen
        | cons s ss =>
          simp only [List.head?_cons, Option.some.injEq] at hhead
          subst hhead
          rfl
      | succ j =>
        simp only [List.get?_cons_succ] at hi
        obtain ⟨r', di, di', err', res', h1, h2, h3, h4, h5, h6⟩ := hall j target hi
        exact ⟨r', di, di', err', res', h1, h2, h3, h4, h5, h6⟩

/-- C16: when the local directories can be created, `DeployConfig` returns
one result per target, in target order; target `i` is deployed by one call of
`deployToTarget` from the state the targets before it left, whether they failed
or not, and `results[i]` has the ID of `Targets[i]` and `Success = true`
exactly when that call returned no error. -/
theorem DeployConfig_results {ω κ : Type} (w : World ω κ) (s : RealConfigDeploymentService)
    (config : DeploymentConfig) (d0 : Dep ω κ)
    (hdirs : (ensureDirectories w s d0).value? = some none) :
    ∃ results d', DeployConfig w s config d0 = Outcome.done (Except.ok results) d' ∧
      TargetsProcessed w config config.Targets (ensureDirectories w s d0).state results d' ∧
      ∀ i target, config.Targets.get? i = some target →
        (results.get? i).map (fun r => r.TargetID) = some target.ID := by
  have hens := Outcome.eq_done_of_value hdirs
  obtain ⟨results, d', hloop, hproc⟩ :=
    deployConfigLoop_spec w config config.Targets (ensureDirectories w s d0).state
  refine ⟨results, d', ?_, hproc, ?_⟩
  · simp only [DeployConfig, Go.bind_apply]
    rw [hens]
    simp only [Go.bind_apply, hloop, Go.pure_apply]
  · intro i target hi
    obtain ⟨_, _, _, _, _, hall⟩ := hproc
    obtain ⟨r, _, _, _, _, h1, _, _, _, h5, _⟩ := hall i target hi
    rw [h1]
    simp [h5]

/-- Witness for C16: two targets in the sample world, the first of which
fails its validation; the second is deployed all the same. -/
theorem DeployConfig_results_witness :
    (ensureDirectories sampleWorld NewRealConfigDeploymentService sampleStart).value? = some none ∧
    (DeployConfig sampleWorld NewRealConfigDeploymentService
        { (sampleConfig "global: \x7b\x7d") with Targets := [sampleTarget, otherTarget] }
        sampleStart).value?.map
      (fun r => r.toOption.map (fun rs => rs.map (fun x => (x.TargetID, x.Success))))
      = some (some [("t1", false), ("t2", true)]) ∧
    ∃ results d', DeployConfig sampleWorld NewRealConfigDeploymentService
        { (sampleConfig "global: \x7b\x7d") with Targets := [sampleTarget, otherTarget] } sampleStart
        = Outcome.done (Except.ok results) d' ∧
      TargetsProcessed sampleWorld
        { (sampleConfig "global: \x7b\x7d") with Targets := [sampleTarget, otherTarget] }
        [sampleTarget, otherTarget]
        (ensureDirectories sampleWorld NewRealConfigDeploymentService sampleStart).state results d' ∧
      ∀ i target, [sampleTarget, otherTarget].get? i = some target →
        (results.get? i).map (fun r => r.TargetID) = some target.ID :=
  ⟨by decide!, by decide!,
    DeployConfig_results sampleWorld NewRealConfigDeploymentService
      { (sampleConfig "global: \x7b\x7d") with Targets := [sampleTarget, otherTarget] } sampleStart
      (by decide!)⟩

/-- C17 (amended): for a target deployed by `deployToTarget` with validation
enabled, the validator runs after the upload: when the upload returned no error
the new content has been written to `target.ConfigPath` (`mkdir -p`, then
`cat > ConfigPath` reading the content, then `chmod 644`), and it is the file at
`target.ConfigPath` that is validated. If the validator then rejects,
`deployToTarget` returns the error `配置验证失败` with no further command issued,
so the destination keeps the new content. -/
theorem deployToTarget_validation_rejects {ω κ : Type} (w : World ω κ)
    (config : DeploymentConfig) (target : DeploymentTarget) (result r1 : DeploymentResult)
    (d0 d d1 d2 d3 : Dep ω κ) (client : κ) (cp e : String)
    (hval : config.Validation = true)
    (hc : createSSHClient w target d0 = Outcome.done (Except.ok client) d)
    (hb : backupStep w config target client result d = Outcome.done (Except.ok r1) d1)
    (hu : uploadConfig w client target config.Content d1 = Outcome.done (cp, none) d2)
    (hv : validateConfig w client target cp d2 = Outcome.done (some e) d3) :
    cp = target.ConfigPath ∧
    d2.issued = d1.issued ++
      [{ client := client, cmd := "mkdir -p " ++ w.pathDir target.ConfigPath, stdin := "" },
       { client := client, cmd := "cat > " ++ target.ConfigPath, stdin := config.Content },
       { client := client, cmd := "chmod 644 " ++ target.ConfigPath, stdin := "" }] ∧
    (d3.issued = d2.issued ∨
      d3.issued = d2.issued ++
        [{ client := client, cmd := validateCommand target target.ConfigPath, stdin := "" }]) ∧
    ∃ dEnd, dEnd.issued = d3.issued ∧
      deployToTarget w config target result d0 =
        Outcome.done (some ("配置验证失败: " ++ e), { r1 with ConfigPath := target.ConfigPath })
          dEnd := by
  obtain ⟨hcp, hiss⟩ := uploadConfig_issued w client target config.Content d1 (cp, none) d2 hu rfl
  have hcp' : cp = target.ConfigPath := hcp
  subst hcp'
  refine ⟨rfl, hiss, ?_, closed w client d3, rfl, ?_⟩
  · have h3 : d3 = (validateConfig w client target target.ConfigPath d2).state := by rw [hv]; rfl
    rw [h3, validateConfig_eq]
    cases (w.newSession client d2.world).1 with
    | some e' => exact Or.inl rfl
    | none => exact Or.inr rfl
  · apply deployToTarget_of_client w config target result d0 d d3 client _ hc
    rw [deployWithClient_of_backup w config target client result r1 d d1 hb]
    simp only [deployAfterBackup, Go.bind_apply, hu, hval, if_true, hv, Go.pure_apply]

/-- Witness for C17: a Prometheus configuration without `scrape_configs`,
deployed to the sample target with validation on, replaces the working
configuration and is then rejected. -/
theorem deployToTarget_validation_rejects_witness :
    (sampleConfig "global: \x7b\x7d").Validation = true ∧
    (sampleUploaded "global: \x7b\x7d").issued.map (fun i => (i.cmd, i.stdin))
      = [("test -f /etc/prometheus/prometheus.yml", ""),
         ("cp /etc/prometheus/prometheus.yml /tmp/prometheus_t1_20240101_000000.bak", ""),
         ("mkdir -p /etc/prometheus", ""),
         ("cat > /etc/prometheus/prometheus.yml", "global: \x7b\x7d"),
         ("chmod 644 /etc/prometheus/prometheus.yml", "")] ∧
    (∃ dEnd, dEnd.issued = (sampleValidated "global: \x7b\x7d").issued ∧
      deployToTarget sampleWorld (sampleConfig "global: \x7b\x7d") sampleTarget {} sampleStart =
        Outcome.done (some ("配置验证失败: " ++
            "配置验证失败: Process exited with status 1, stderr: FAILED: no scrape_configs"),
          { BackupPath := "/tmp/prometheus_t1_20240101_000000.bak",
            ConfigPath := sampleTarget.ConfigPath }) dEnd) :=
  ⟨rfl, by decide!,
    (deployToTarget_validation_rejects sampleWorld (sampleConfig "global: \x7b\x7d") sampleTarget {}
      { BackupPath := "/tmp/prometheus_t1_20240101_000000.bak" }
      sampleStart sampleConnected (sampleBackedUp "global: \x7b\x7d")
      (sampleUploaded "global: \x7b\x7d") (sampleValidated "global: \x7b\x7d")
      sampleClient "/etc/prometheus/prometheus.yml"
      "配置验证失败: Process exited with status 1, stderr: FAILED: no scrape_configs"
      rfl (Outcome.eq_done_of_value (by decide!)) (Outcome.eq_done_of_value (by decide!))
      (Outcome.eq_done_of_value (by decide!)) (Outcome.eq_done_of_value (by decide!))).2.2.2⟩

/-- C17 as stated fails: in the sample world the destination holds a working
configuration; deploying a configuration without `scrape_configs` with
validation on issues the write to the destination before the validator runs,
the validator rejects, the deployment is reported as failed, and the destination
now holds the rejected content. -/
theorem deployToTarget_validation_counterexample :
    fileContent sampleStart "/etc/prometheus/prometheus.yml" = some "scrape_configs: []" ∧
    (DeployConfig sampleWorld NewRealConfigDeploymentService
        { (sampleConfig "global: \x7b\x7d") with Backup := false } sampleStart).value?.map
      (fun r => r.toOption.map (fun rs => rs.map (fun x => (x.TargetID, x.Success))))
      = some (some [("t1", false)]) ∧
    commandsSince sampleStart
      (DeployConfig sampleWorld NewRealConfigDeploymentService
        { (sampleConfig "global: \x7b\x7d") with Backup := false } sampleStart).state
      = ["mkdir -p /etc/prometheus", "cat > /etc/prometheus/prometheus.yml",
         "chmod 644 /etc/prometheus/prometheus.yml",
         "promtool check config /etc/prometheus/prometheus.yml"] ∧
    fileContent
      (DeployConfig sampleWorld NewRealConfigDeploymentService
        { (sampleConfig "global: \x7b\x7d") with Backup := false } sampleStart).state
      "/etc/prometheus/prometheus.yml" = some "global: \x7b\x7d" := by
  decide!

/-- C18 (amended): for a target deployed by `deployToTarget` whose backup step
recorded the backup path `bp`, a failure of a later step (upload, validation,
restart or status check) makes `deployToTarget` return that step's error at
once: the state it leaves is the one the failing step left, closed, so no
command follows the failure (the backup is not copied back and the restart is
not attempted again), and the result record keeps `bp` in `BackupPath`. -/
theorem deployToTarget_failure_returns {ω κ : Type} (w : World ω κ)
    (config : DeploymentConfig) (target : DeploymentTarget) (result : DeploymentResult)
    (d0 d d1 : Dep ω κ) (client : κ) (bp : String)
    (hc : createSSHClient w target d0 = Outcome.done (Except.ok client) d)
    (hB : config.Backup = true)
    (hb : backupExistingConfig w client target d = Outcome.done (bp, none) d1) :
    (∀ cp e d2, uploadConfig w client target config.Content d1 = Outcome.done (cp, some e) d2 →
      deployToTarget w config target result d0 =
        Outcome.done (some ("上传配置失败: " ++ e), { result with BackupPath := bp })
          (closed w client d2)) ∧
    (∀ cp d2, uploadConfig w client target config.Content d1 = Outcome.done (cp, none) d2 →
      (∀ e d3, config.Validation = true →
        validateConfig w client target cp d2 = Outcome.done (some e) d3 →
        deployToTarget w config target result d0 =
          Outcome.done (some ("配置验证失败: " ++ e),
            { result with BackupPath := bp, ConfigPath := cp }) (closed w client d3)) ∧
      (∀ d3, (if config.Validation then validateConfig w client target cp else pure none) d2
          = Outcome.done none d3 →
        (∀ e d4, config.AutoRestart = true →
          restartService w client target { result with BackupPath := bp, ConfigPath := cp } d3
            = Outcome.done (some e) d4 →
          deployToTarget w config target result d0 =
            Outcome.done (some ("重启服务失败: " ++ e),
              { result with BackupPath := bp, ConfigPath := cp }) (closed w client d4)) ∧
        (∀ d4, (if config.AutoRestart then
              restartService w client target { result with BackupPath := bp, ConfigPath := cp }
            else pure none) d3 = Outcome.done none d4 →
          ∀ e r d5,
            checkServiceStatus w client target { result with BackupPath := bp, ConfigPath := cp } d4
              = Outcome.done (some e, r) d5 →
            deployToTarget w config target result d0 =
              Outcome.done (some ("检查服务状态失败: " ++ e), r) (closed w client d5) ∧
            r.BackupPath = bp))) ∧
    (∀ x : Dep ω κ, (closed w client x).issued = x.issued) := by
  have hstep := backupStep_of_backup w config target client result d d1 bp hB hb
  have hbody := deployWithClient_of_backup w config target client result _ d d1 hstep
  refine ⟨?_, ?_, fun _ => rfl⟩
  · intro cp e d2 hu
    apply deployToTarget_of_client w config target result d0 d d2 client _ hc
    rw [hbody]
    simp only [deployAfterBackup, Go.bind_apply, hu, Go.pure_apply]
  · intro cp d2 hu
    refine ⟨?_, ?_⟩
    · intro e d3 hval hv
      apply deployToTarget_of_client w config target result d0 d d3 client _ hc
      rw [hbody]
      simp only [deployAfterBackup, Go.bind_apply, hu, hval, if_true, hv, Go.pure_apply]
    · intro d3 hv
      refine ⟨?_, ?_⟩
      · intro e d4 hre hr
        apply deployToTarget_of_client w config target result d0 d d4 client _ hc
        rw [hbody]
        simp only [deployAfterBackup, Go.bind_apply, hu, hv, hre, if_true, hr, Go.pure_apply]
      · intro d4 hr e r d5 hs
        refine ⟨?_, ?_⟩
        · apply deployToTarget_of_client w config target result d0 d d5 client _ hc
          rw [hbody]
          simp only [deployAfterBackup, Go.bind_apply, hu, hv, hr, hs, Go.pure_apply]
        · exact (checkServiceStatus_keeps w client target
            { result with BackupPath := bp, ConfigPath := cp }).2 d4 (some e, r) d5 hs


/-- Witness for C18: in the sample world the backup of the working
configuration is taken, the rejected upload fails the validation, and
`deployToTarget` returns from the state the validator left. -/
theorem deployToTarget_failure_returns_witness :
    (sampleConfig "global: \x7b\x7d").Backup = true ∧
    (backupExistingConfig sampleWorld sampleClient sampleTarget sampleConnected).value?
      = some ("/tmp/prometheus_t1_20240101_000000.bak", none) ∧
    deployToTarget sampleWorld (sampleConfig "global: \x7b\x7d") sampleTarget {} sampleStart =
      Outcome.done (some ("配置验证失败: " ++
          "配置验证失败: Process exited with status 1, stderr: FAILED: no scrape_configs"),
        { BackupPath := "/tmp/prometheus_t1_20240101_000000.bak",
          ConfigPath := "/etc/prometheus/prometheus.yml" })
        (closed sampleWorld sampleClient (sampleValidated "global: \x7b\x7d")) :=
  ⟨rfl, by decide!,
    ((deployToTarget_failure_returns sampleWorld (sampleConfig "global: \x7b\x7d") sampleTarget {}
        sampleStart sampleConnected (sampleBackedUp "global: \x7b\x7d") sampleClient
        "/tmp/prometheus_t1_20240101_000000.bak"
        (Outcome.eq_done_of_value (by decide!)) rfl
        (Outcome.eq_done_of_value (by decide!))).2.1
      "/etc/prometheus/prometheus.yml" (sampleUploaded "global: \x7b\x7d")
      (Outcome.eq_done_of_value (by decide!))).1
      "配置验证失败: Process exited with status 1, stderr: FAILED: no scrape_configs"
      (sampleValidated "global: \x7b\x7d") rfl (Outcome.eq_done_of_value (by decide!))⟩

/-- C18 as stated fails: in the sample world a deployment with backup and
validation of a configuration the validator rejects records a backup path and
is reported as failed, yet the commands issued end with the validator: the
backup is not copied back to the destination, no restart is attempted, and the
destination holds the rejected content while the backup holds the old one.
The restore and the restart are what a later call of `RollbackConfig` issues. -/
theorem deployToTarget_rollback_counterexample :
    (DeployConfig sampleWorld NewRealConfigDeploymentService (sampleConfig "global: \x7b\x7d")
        sampleStart).value?.map
      (fun r => r.toOption.map (fun rs => rs.map (fun x => (x.Success, x.BackupPath))))
      = some (some [(false, "/tmp/prometheus_t1_20240101_000000.bak")]) ∧
    commandsSince sampleStart
      (DeployConfig sampleWorld NewRealConfigDeploymentService (sampleConfig "global: \x7b\x7d")
        sampleStart).state
      = ["test -f /etc/prometheus/prometheus.yml",
         "cp /etc/prometheus/prometheus.yml /tmp/prometheus_t1_20240101_000000.bak",
         "mkdir -p /etc/prometheus", "cat > /etc/prometheus/prometheus.yml",
         "chmod 644 /etc/prometheus/prometheus.yml",
         "promtool check config /etc/prometheus/prometheus.yml"] ∧
    fileContent
      (DeployConfig sampleWorld NewRealConfigDeploymentService (sampleConfig "global: \x7b\x7d")
        sampleStart).state "/etc/prometheus/prometheus.yml" = some "global: \x7b\x7d" ∧
    fileContent
      (DeployConfig sampleWorld NewRealConfigDeploymentService (sampleConfig "global: \x7b\x7d")
        sampleStart).state "/tmp/prometheus_t1_20240101_000000.bak"
      = some "scrape_configs: []" ∧
    commandsSince
      (DeployConfig sampleWorld NewRealConfigDeploymentService (sampleConfig "global: \x7b\x7d")
        sampleStart).state
      (RollbackConfig sampleWorld sampleTarget "/tmp/prometheus_t1_20240101_000000.bak"
        (DeployConfig sampleWorld NewRealConfigDeploymentService (sampleConfig "global: \x7b\x7d")
          sampleStart).state).state
      = ["test -f /tmp/prometheus_t1_20240101_000000.bak",
         "cp /tmp/prometheus_t1_20240101_000000.bak /etc/prometheus/prometheus.yml",
         "systemctl restart prometheus"] := by
  decide!

/-! ## Config deployment: restartService -/

/-- The command of `restartService`: for a target without a custom
`RestartCmd`, once its session is open, it runs exactly one command: `systemctl restart`
followed by the target's type when the type is snmp-exporter, categraf or
prometheus, and `systemctl restart` followed by the target's `ServiceName` for
every other type. -/
theorem restartService_command {ω κ : Type} (w : World ω κ) (client : κ)
    (target : DeploymentTarget) (result : DeploymentResult) (d : Dep ω κ)
    (hcmd : target.RestartCmd = "") (hs : (w.newSession client d.world).1 = none) :
    (restartService w client target result d).state.issued = d.issued ++
      [{ client := client, stdin := "",
         cmd := "systemctl restart " ++
           (if target.Type_ = "snmp-exporter" ∨ target.Type_ = "categraf" ∨
               target.Type_ = "prometheus" then target.Type_
            else target.ServiceName) }] := by
  rw [restartService_eq, hs]
  simp only [Outcome.state, restartCommand, hcmd, bne_self_eq_false, Bool.false_eq_true, if_false]
  by_cases h1 : target.Type_ = "snmp-exporter"
  · simp [h1]
  · by_cases h2 : target.Type_ = "categraf"
    · simp [h2]
    · by_cases h3 : target.Type_ = "prometheus"
      · simp [h3]
      · simp [h1, h2, h3]

/-- C19 fails on the code. For a target of type snmp-exporter whose service is
named `snmp_exporter`, without a custom `RestartCmd`, `restartService` runs
`systemctl restart snmp-exporter`, while `checkServiceStatus`, the next step of
the same pipeline, asks `systemctl` about the unit `snmp_exporter`, the
target's `ServiceName`. For every target without a custom `RestartCmd` whose
type is none of snmp-exporter, categraf and prometheus, the command is
`systemctl restart` followed by the target's `ServiceName`, as the claim says. -/
theorem restartService_fixed_unit :
    (restartService sampleWorld sampleClient
        { sampleTarget with Type_ := "snmp-exporter", ServiceName := "snmp_exporter" } {}
        sampleStart).state.issued.map (fun i => i.cmd)
      = ["systemctl restart snmp-exporter"] ∧
    (checkServiceStatus sampleWorld sampleClient
        { sampleTarget with Type_ := "snmp-exporter", ServiceName := "snmp_exporter" } {}
        sampleStart).state.issued.map (fun i => i.cmd)
      = ["systemctl is-active snmp_exporter", "systemctl show -p MainPID snmp_exporter",
         "snmp_exporter --version 2>&1 | head -1"] ∧
    (∀ (ω κ : Type) (w : World ω κ) (client : κ) (target : DeploymentTarget)
        (result : DeploymentResult) (d : Dep ω κ),
      target.RestartCmd = "" → (w.newSession client d.world).1 = none →
      target.Type_ ≠ "snmp-exporter" → target.Type_ ≠ "categraf" →
      target.Type_ ≠ "prometheus" →
      (restartService w client target result d).state.issued = d.issued ++
        [{ client := client, stdin := "",
           cmd := "systemctl restart " ++ target.ServiceName }]) := by
  refine ⟨by decide!, by decide!, ?_⟩
  intro ω κ w client target result d hcmd hs h1 h2 h3
  rw [restartService_command w client target result d hcmd hs]
  simp only [h1, h2, h3, or_self, if_false]

end ConfigDeployment

namespace AlertDeployment

open ComponentVersion

/-! ## Alert deployment: the per-target result -/

theorem bind_done_inv {S α β : Type} (x : Go S α) (f : α → Go S β) (s s' : S) (b : β)
    (h : (x >>= f) s = Outcome.done b s') :
    ∃ a s1, x s = Outcome.done a s1 ∧ f a s1 = Outcome.done b s' := by
  rw [Go.bind_apply] at h
  cases hx : x s with
  | done a s1 =>
    rw [hx] at h
    exact ⟨a, s1, rfl, h⟩
  | panicked msg s1 =>
    rw [hx] at h
    cases h

theorem validationLoop_keeps (target : AlertTarget) (entries : List (String × String)) :
    ∀ (result : AlertDeploymentResult) (allValid : Bool),
      (validationLoop target entries result allValid).1.Success = result.Success ∧
      (validationLoop target entries result allValid).1.ConfigFiles = result.ConfigFiles := by
  induction entries with
  | nil => intro result allValid; exact ⟨rfl, rfl⟩
  | cons e rest ih =>
    intro result allValid
    obtain ⟨filename, content⟩ := e
    simp only [validationLoop]
    exact ih _ _

theorem uploadLoop_uploaded {ω κ : Type} (w : Remote ω κ) (target : AlertTarget)
    (entries : List (String × String)) :
    ∀ (result : AlertDeploymentResult) (allUploaded : Bool) (s s' : ω)
      (out : AlertDeploymentResult × Bool),
      (allUploaded = true → ∀ f ∈ result.ConfigFiles, f.Status = "uploaded") →
      uploadLoop w target entries result allUploaded s = Outcome.done out s' →
      (out.2 = true → ∀ f ∈ out.1.ConfigFiles, f.Status = "uploaded") := by
  induction entries with
  | nil =>
    intro result allUploaded s s' out hinv h
    simp only [uploadLoop, Go.pure_apply, Outcome.done.injEq] at h
    rw [← h.1]
    exact hinv
  | cons e rest ih =>
    intro result allUploaded s s' out hinv h
    obtain ⟨filename, content⟩ := e
    simp only [uploadLoop] at h
    obtain ⟨err, s1, _, h2⟩ := bind_done_inv _ _ _ _ _ h
    cases err with
    | some e =>
      exact ih _ false s1 s' out (fun hf => by cases hf) h2
    | none =>
      refine ih _ allUploaded s1 s' out (fun hu f hf => ?_) h2
      simp only [List.mem_append, List.mem_singleton] at hf
      rcases hf with hf | hf
      · exact hinv hu f hf
      · rw [hf]

theorem markRules_keeps (target : AlertTarget) (rules : List AlertRule) :
    ∀ result : AlertDeploymentResult,
      (markRules target rules result).ConfigFiles = result.ConfigFiles ∧
      (markRules target rules result).ReloadStatus = result.ReloadStatus := by
  induction rules with
  | nil => intro result; exact ⟨rfl, rfl⟩
  | cons rule rest ih =>
    intro result
    simp only [markRules]
    split
    · exact ih _
    · exact ih _

theorem finishDeployment_files (rules : List AlertRule) (target : AlertTarget)
    (result : AlertDeploymentResult) (allUploaded : Bool) :
    (finishDeployment rules target result allUploaded).ConfigFiles = result.ConfigFiles ∧
    ((finishDeployment rules target result allUploaded).Success = true → allUploaded = true) := by
  have key : ∀ r : AlertDeploymentResult,
      (if (allUploaded && (target.ReloadEndpoint == "" ||
            (markRules target rules r).ReloadStatus.Success)) = true then
          { markRules target rules r with
            Success := allUploaded && (target.ReloadEndpoint == "" ||
              (markRules target rules r).ReloadStatus.Success),
            Message := "告警规则部署成功" }
        else
          { markRules target rules r with
            Success := allUploaded && (target.ReloadEndpoint == "" ||
              (markRules target rules r).ReloadStatus.Success),
            Message := "部分配置部署失败" }).ConfigFiles = r.ConfigFiles ∧
      ((if (allUploaded && (target.ReloadEndpoint == "" ||
            (markRules target rules r).ReloadStatus.Success)) = true then
          { markRules target rules r with
            Success := allUploaded && (target.ReloadEndpoint == "" ||
              (markRules target rules r).ReloadStatus.Success),
            Message := "告警规则部署成功" }
        else
          { markRules target rules r with
            Success := allUploaded && (target.ReloadEndpoint == "" ||
              (markRules target rules r).ReloadStatus.Success),
            Message := "部分配置部署失败" }).Success = true → allUploaded = true) := by
    intro r
    split
    · rename_i h
      simp only [Bool.and_eq_true] at h
      exact ⟨(markRules_keeps target rules r).1, fun _ => h.1⟩
    · rename_i h
      exact ⟨(markRules_keeps target rules r).1, fun hs => absurd hs h⟩
  by_cases hre : (target.ReloadEndpoint != "") = true
  · have := key { result with ReloadStatus := { result.ReloadStatus with
      Attempted := true, Success := true } }
    simp only [finishDeployment, hre, if_true, reloadTargetConfig]
    exact this
  · have := key result
    simp only [finishDeployment, hre, if_false]
    exact this

/-- A result of `deployToSingleTarget` that reports success lists uploaded
config files only. -/
theorem deployToSingleTarget_consistent {ω κ : Type} (w : Remote ω κ) (rules : List AlertRule)
    (target : AlertTarget) (notificationConfig : Option NotificationConfig) :
    Yields Consistent (deployToSingleTarget w rules target notificationConfig) := by
  intro s a s' h
  unfold deployToSingleTarget at h
  obtain ⟨now, s1, _, h⟩ := bind_done_inv _ _ _ _ _ h
  obtain ⟨configs, s2, _, h⟩ := bind_done_inv _ _ _ _ _ h
  obtain ⟨visited, s3, _, h⟩ := bind_done_inv _ _ _ _ _ h
  dsimp only at h
  split at h
  · simp only [Go.pure_apply, Outcome.done.injEq] at h
    rw [← h.1]
    intro hs
    have := (validationLoop_keeps target visited
      { TargetID := target.ID, TargetIP := target.IP, TargetSystem := target.System,
        Success := false, DeployedRules := [], ConfigFiles := [], ValidationResults := [],
        Timestamp := now } true).1
    simp only at hs
    rw [this] at hs
    cases hs
  · obtain ⟨visited2, s4, _, h⟩ := bind_done_inv _ _ _ _ _ h
    obtain ⟨uploaded, s5, hup, h⟩ := bind_done_inv _ _ _ _ _ h
    have hfiles := uploadLoop_uploaded w target visited2 _ true s4 s5 uploaded
      (fun _ f hf => by
        rw [(validationLoop_keeps target visited _ true).2] at hf
        simp at hf) hup
    simp only [Go.pure_apply, Outcome.done.injEq] at h
    rw [← h.1]
    intro hs f hf
    obtain ⟨h1, h2⟩ := finishDeployment_files rules target uploaded.1 uploaded.2
    rw [h1] at hf
    exact hfiles (h2 hs) f hf

/-! ## Alert deployment: the summary -/

theorem deployPrometheusTargets_consistent {ω κ : Type} (w : Remote ω κ) (request : MixedRequest)
    (targets : List AlertTarget) :
    Yields (fun results => ∀ r ∈ results, Consistent r)
      (deployPrometheusTargets w request targets) := by
  induction targets with
  | nil =>
    intro s a s' h
    cases h
    simp
  | cons target rest ih =>
    intro s a s' h
    simp only [deployPrometheusTargets] at h
    obtain ⟨r, s1, h1, h⟩ := bind_done_inv _ _ _ _ _ h
    obtain ⟨rs, s2, h2, h⟩ := bind_done_inv _ _ _ _ _ h
    cases h
    intro x hx
    rcases List.mem_cons.1 hx with rfl | hx
    · exact deployToSingleTarget_consistent w _ target _ s x s1 h1
    · exact ih s1 rs _ h2 x hx

theorem deployVmalertTargets_consistent {ω κ : Type} (w : Remote ω κ) (request : MixedRequest)
    (targets : List AlertTarget) :
    Yields (fun results => ∀ r ∈ results, Consistent r)
      (deployVmalertTargets w request targets) := by
  induction targets with
  | nil =>
    intro s a s' h
    cases h
    simp
  | cons target rest ih =>
    intro s a s' h
    simp only [deployVmalertTargets] at h
    obtain ⟨r, s1, h1, h⟩ := bind_done_inv _ _ _ _ _ h
    obtain ⟨rs, s2, h2, h⟩ := bind_done_inv _ _ _ _ _ h
    cases h
    intro x hx
    rcases List.mem_cons.1 hx with rfl | hx
    · exact deployToSingleTarget_consistent w _ target _ s x s1 h1
    · exact ih s1 rs _ h2 x hx

theorem deployAlertmanagerTargets_consistent {ω κ : Type} (w : Remote ω κ)
    (nc : NotificationConfig) (targets : List AlertTarget) :
    Yields (fun results => ∀ r ∈ results, Consistent r)
      (deployAlertmanagerTargets w nc targets) := by
  induction targets with
  | nil =>
    intro s a s' h
    cases h
    simp
  | cons target rest ih =>
    intro s a s' h
    simp only [deployAlertmanagerTargets] at h
    obtain ⟨r, s1, h1, h⟩ := bind_done_inv _ _ _ _ _ h
    obtain ⟨rs, s2, h2, h⟩ := bind_done_inv _ _ _ _ _ h
    cases h
    intro x hx
    rcases List.mem_cons.1 hx with rfl | hx
    · exact deployToSingleTarget_consistent w _ target _ s x s1 h1
    · exact ih s1 rs _ h2 x hx

theorem fileFlags_eq (files : List ConfigFile) :
    ∀ hasSuccess hasFailed : Bool,
      fileFlags files hasSuccess hasFailed =
        (hasSuccess || files.any (fun f => f.Status == "uploaded"),
         hasFailed || files.any (fun f => f.Status != "uploaded")) := by
  induction files with
  | nil => intro a b; simp [fileFlags]
  | cons f rest ih =>
    intro a b
    by_cases hf : f.Status = "uploaded"
    · simp [fileFlags, hf, ih]
    · have hb : (f.Status == "uploaded") = false := by simpa using hf
      simp [fileFlags, hf, hb, ih]

theorem partlyUploaded_of_success {r : AlertDeploymentResult} (hc : Consistent r)
    (hs : r.Success = true) : partlyUploaded r = false := by
  have hall := hc hs
  unfold partlyUploaded
  rw [Bool.and_eq_false_iff]
  right
  rw [List.any_eq_false]
  intro f hf
  simp [hall f hf]

/-- The counters of the statistics loop, for results as `deployToSingleTarget`
builds them. -/
theorem countDeployments_eq (results : List AlertDeploymentResult)
    (hc : ∀ r ∈ results, Consistent r) :
    ∀ s f p : Nat,
      countDeployments results s f p =
        (s + results.countP (fun r => r.Success),
         f + results.countP (fun r => !r.Success && !partlyUploaded r),
         p + results.countP partlyUploaded) := by
  induction results with
  | nil => intro s f p; simp [countDeployments]
  | cons r rest ih =>
    intro s f p
    have hrest : ∀ x ∈ rest, Consistent x := fun x hx => hc x (List.mem_cons_of_mem r hx)
    have hr : Consistent r := hc r (List.mem_cons_self r rest)
    by_cases hs : r.Success = true
    · have hp := partlyUploaded_of_success hr hs
      simp only [countDeployments, hs, if_true, ih hrest, List.countP_cons, hp, Bool.not_true,
        Bool.false_and, Bool.false_eq_true, if_false, Nat.add_zero]
      simp only [Prod.mk.injEq, and_true, true_and]
      omega
    · have hs' : r.Success = false := by simpa using hs
      have hflags : ((fileFlags r.ConfigFiles false false).1 &&
          (fileFlags r.ConfigFiles false false).2) = partlyUploaded r := by
        rw [fileFlags_eq]
        simp [partlyUploaded]
      by_cases hp : partlyUploaded r = true
      · simp only [countDeployments, hs', Bool.false_eq_true, if_false, hflags, hp, if_true,
          ih hrest, List.countP_cons, Bool.not_false, Bool.not_true, Bool.and_false,
          Nat.add_zero]
        simp only [Prod.mk.injEq, and_true, true_and]
        omega
      · have hp' : partlyUploaded r = false := by simpa using hp
        simp only [countDeployments, hs', Bool.false_eq_true, if_false, hflags, hp',
          ih hrest, List.countP_cons, Bool.not_false, Bool.and_self, if_true, Nat.add_zero]
        simp only [Prod.mk.injEq, and_true, true_and]
        omega

theorem countP_three (results : List AlertDeploymentResult)
    (hc : ∀ r ∈ results, Consistent r) :
    results.length = results.countP (fun r => r.Success) +
      results.countP (fun r => !r.Success && !partlyUploaded r) +
      results.countP partlyUploaded := by
  induction results with
  | nil => simp
  | cons r rest ih =>
    have hrest : ∀ x ∈ rest, Consistent x := fun x hx => hc x (List.mem_cons_of_mem r hx)
    have hr : Consistent r := hc r (List.mem_cons_self r rest)
    have := ih hrest
    by_cases hs : r.Success = true
    · have hp := partlyUploaded_of_success hr hs
      simp only [List.length_cons, List.countP_cons, hs, hp, Bool.not_true, Bool.false_and,
        Bool.false_eq_true, if_false, if_true]
      omega
    · have hs' : r.Success = false := by simpa using hs
      by_cases hp : partlyUploaded r = true
      · simp only [List.length_cons, List.countP_cons, hs', hp, Bool.not_true, Bool.and_false,
          Bool.false_eq_true, if_false, if_true]
        omega
      · have hp' : partlyUploaded r = false := by simpa using hp
        simp only [List.length_cons, List.countP_cons, hs', hp', Bool.not_false, Bool.and_self,
          Bool.false_eq_true, if_false, if_true]
        omega

theorem DeployToMixedSystems_body {ω κ : Type} (w : Remote ω κ) (request : MixedRequest)
    (s s' : ω) (body : MixedResponse)
    (h : DeployToMixedSystems w (Except.ok request) s = Outcome.done (Response.ok body) s') :
    (∀ r ∈ body.allResults, Consistent r) ∧
    body.summary =
      { totalTargets := body.allResults.length,
        successfulDeployments := (countDeployments body.allResults 0 0 0).1,
        failedDeployments := (countDeployments body.allResults 0 0 0).2.1,
        partialDeployments := (countDeployments body.allResults 0 0 0).2.2 } := by
  simp only [DeployToMixedSystems] at h
  obtain ⟨pr, s1, h1, h⟩ := bind_done_inv _ _ _ _ _ h
  obtain ⟨vr, s2, h2, h⟩ := bind_done_inv _ _ _ _ _ h
  obtain ⟨ar, s3, h3, h⟩ := bind_done_inv _ _ _ _ _ h
  simp only [Go.pure_apply, Outcome.done.injEq, Response.ok.injEq] at h
  obtain ⟨hbody, _⟩ := h
  subst hbody
  have hp : ∀ r ∈ pr, Consistent r := by
    split at h1
    · exact deployPrometheusTargets_consistent w request _ s pr s1 h1
    · cases h1
      simp
  have hv : ∀ r ∈ vr, Consistent r := by
    split at h2
    · exact deployVmalertTargets_consistent w request _ s1 vr s2 h2
    · cases h2
      simp
  have ha : ∀ r ∈ ar, Consistent r := by
    generalize request.NotificationConfig = onc at h3
    cases onc with
    | none =>
      cases h3
      simp
    | some nc =>
      simp only at h3
      split at h3
      · exact deployAlertmanagerTargets_consistent w _ _ s2 ar s3 h3
      · cases h3
        simp
  refine ⟨?_, rfl⟩
  intro r hr
  simp only [MixedResponse.allResults, List.mem_append] at hr
  rcases hr with (hr | hr) | hr
  · exact hp r hr
  · exact hv r hr
  · exact ha r hr

theorem DeployToMixedSystems_counts {ω κ : Type} (w : Remote ω κ) (request : MixedRequest)
    (s s' : ω) (body : MixedResponse)
    (h : DeployToMixedSystems w (Except.ok request) s = Outcome.done (Response.ok body) s') :
    body.summary.totalTargets = body.allResults.length ∧
    body.summary.totalTargets = body.summary.successfulDeployments +
      body.summary.failedDeployments + body.summary.partialDeployments ∧
    body.summary.successfulDeployments = body.allResults.countP (fun r => r.Success) ∧
    body.summary.partialDeployments = body.allResults.countP partlyUploaded ∧
    body.summary.failedDeployments
      = body.allResults.countP (fun r => !r.Success && !partlyUploaded r) := by
  obtain ⟨hc, hsum⟩ := DeployToMixedSystems_body w request s s' body h
  have hcount := countDeployments_eq body.allResults hc 0 0 0
  have hthree := countP_three body.allResults hc
  rw [hsum, hcount]
  refine ⟨rfl, ?_, Nat.zero_add _, Nat.zero_add _, Nat.zero_add _⟩
  simp only [Nat.zero_add]
  exact hthree

/-- On a bound request the handler answers with status 200. -/
theorem DeployToMixedSystems_ok {ω κ : Type} (w : Remote ω κ) (request : MixedRequest)
    (s s' : ω) (r : Response)
    (h : DeployToMixedSystems w (Except.ok request) s = Outcome.done r s') :
    ∃ body, r = Response.ok body := by
  simp only [DeployToMixedSystems] at h
  obtain ⟨_, _, _, h⟩ := bind_done_inv _ _ _ _ _ h
  obtain ⟨_, _, _, h⟩ := bind_done_inv _ _ _ _ _ h
  obtain ⟨_, _, _, h⟩ := bind_done_inv _ _ _ _ _ h
  cases h
  exact ⟨_, rfl⟩

/-! ## Alert deployment: when the handler returns -/

theorem total_call {ω α : Type} (f : ω → α × ω) : Total (call f) := fun _ => ⟨_, _, rfl⟩

theorem total_rangeMap {ω κ α : Type} (w : Remote ω κ) (m : List (String × α)) :
    Total (rangeMap w m) := by
  unfold rangeMap
  exact total_bind _ _ (total_call _) (fun _ => total_pure _)

theorem mem_of_lookup {α : Type} (k : String) (v : α) (m : List (String × α))
    (h : m.lookup k = some v) : (k, v) ∈ m := by
  induction m with
  | nil => cases h
  | cons e rest ih =>
    obtain ⟨k', v'⟩ := e
    rw [List.lookup_cons] at h
    by_cases hk : (k == k') = true
    · rw [hk] at h
      cases h
      have : k = k' := by simpa using hk
      subst this
      exact List.mem_cons_self _ _
    · have hk' : (k == k') = false := by simpa using hk
      rw [hk'] at h
      exact List.mem_cons_of_mem _ (ih h)

theorem rangeMap_mem {ω κ α : Type} (w : Remote ω κ) (m : List (String × α)) (s s' : ω)
    (entries : List (String × α)) (h : rangeMap w m s = Outcome.done entries s') :
    ∀ e ∈ entries, e ∈ m := by
  simp only [rangeMap, Go.bind_apply, call, Go.pure_apply, Outcome.done.injEq] at h
  rw [← h.1]
  intro e he
  simp only [List.mem_filterMap, Option.map_eq_some'] at he
  obtain ⟨k, _, v, hv, rfl⟩ := he
  exact mem_of_lookup k v m hv

theorem total_foldlM {ω α β : Type} (f : β → α → Go ω β) (hf : ∀ b a, Total (f b a))
    (l : List α) : ∀ init : β, Total (l.foldlM f init) := by
  induction l with
  | nil => intro init; exact total_pure init
  | cons a rest ih =>
    intro init
    rw [List.foldlM_cons]
    exact total_bind _ _ (hf init a) (fun b => ih b)

theorem total_ruleText {ω κ : Type} (w : Remote ω κ) (config : String) (rule : AlertRule) :
    Total (ruleText w config rule) := by
  unfold ruleText
  repeat' first
    | with_reducible apply total_bind
    | with_reducible apply total_pure
    | with_reducible apply total_rangeMap
    | (intro a; show ComponentVersion.Total _)

theorem total_groupText {ω κ : Type} (w : Remote ω κ) (config : String)
    (group : String × List AlertRule) : Total (groupText w config group) := by
  unfold groupText
  exact total_foldlM _ (total_ruleText w) _ _

theorem total_generatePrometheusRules {ω κ : Type} (w : Remote ω κ) (rules : List AlertRule) :
    Total (generatePrometheusRules w rules) := by
  unfold generatePrometheusRules
  exact total_bind _ _ (total_rangeMap w _) (fun _ => total_foldlM _ (total_groupText w) _ _)

theorem total_globalConfigText {ω : Type} (entries : List (String × Value))
    (h : ∀ e ∈ entries, ∃ s, e.2 = Value.str s) :
    ∀ config : String, Total (globalConfigText config entries : Go ω String) := by
  induction entries with
  | nil => intro config; exact total_pure config
  | cons e rest ih =>
    intro config
    obtain ⟨k, v⟩ := e
    obtain ⟨sv, hsv⟩ := h (k, v) (List.mem_cons_self _ _)
    simp only at hsv
    subst hsv
    simp only [globalConfigText]
    exact ih (fun e he => h e (List.mem_cons_of_mem _ he)) _

theorem total_routeText {ω κ : Type} (w : Remote ω κ) (config : String) (route : Route) :
    Total (routeText w config route) := by
  unfold routeText
  exact total_bind _ _ (total_rangeMap w _) (fun _ => total_pure _)

theorem total_generateAlertmanagerConfig {ω κ : Type} (w : Remote ω κ)
    (nc : NotificationConfig) (h : StringValued (some nc)) :
    Total (generateAlertmanagerConfig w nc) := by
  unfold generateAlertmanagerConfig
  apply total_bind
  · cases hg : nc.GlobalConfig with
    | none => exact total_pure _
    | some g =>
      intro s
      obtain ⟨entries, s1, he⟩ := total_rangeMap w g s
      have hstr : ∀ e ∈ entries, ∃ sv, e.2 = Value.str sv :=
        fun e hm => h nc g rfl hg e (rangeMap_mem w g s s1 entries he e hm)
      obtain ⟨text, s2, ht⟩ := total_globalConfigText entries hstr ("" ++ "global:\n") s1
      exact ⟨text ++ "\n", s2, by
        simp only [Go.bind_apply, he, ht, Go.pure_apply]⟩
  · intro config
    apply total_bind
    · split
      · exact total_foldlM _ (total_routeText w) _ _
      · exact total_pure _
    · intro c
      exact total_pure _

theorem total_generateConfigsForTarget {ω κ : Type} (w : Remote ω κ) (rules : List AlertRule)
    (target : AlertTarget) (notificationConfig : Option NotificationConfig)
    (h : StringValued notificationConfig) :
    Total (generateConfigsForTarget w rules target notificationConfig) := by
  unfold generateConfigsForTarget
  cases notificationConfig with
  | none =>
    repeat' first
      | with_reducible apply total_bind
      | with_reducible apply total_pure
      | with_reducible apply total_generatePrometheusRules
      | exact total_generatePrometheusRules w rules
      | (intro a; show ComponentVersion.Total _)
      | dsimp only
      | split
  | some nc =>
    repeat' first
      | with_reducible apply total_bind
      | with_reducible apply total_pure
      | with_reducible apply total_generatePrometheusRules
      | exact total_generatePrometheusRules w rules
      | exact total_generateAlertmanagerConfig w nc h
      | (intro a; show ComponentVersion.Total _)
      | dsimp only
      | split

theorem lastSlash_append (a b : List Char) : ∃ n, lastSlash (a ++ '/' :: b) = some n := by
  unfold lastSlash
  have hmem : '/' ∈ (a ++ '/' :: b).reverse := by simp
  cases hd : (a ++ '/' :: b).reverse.dropWhile (fun c => c != '/') with
  | nil =>
    exfalso
    have hall := List.dropWhile_eq_nil_iff.1 hd '/' hmem
    simp at hall
  | cons c rest => exact ⟨_, rfl⟩

theorem total_uploadConfigFile {ω κ : Type} (w : Remote ω κ) (target : AlertTarget)
    (dir filename content : String) :
    Total (uploadConfigFile w target (dir ++ "/" ++ filename) content) := by
  intro s
  simp only [uploadConfigFile, Go.bind_apply, call]
  cases (w.createSSHClient target.IP 22 target.Username target.Password target.PrivateKey s).1 with
  | error e => exact ⟨_, _, rfl⟩
  | ok client =>
    simp only
    have hpath : (dir ++ "/" ++ filename).toList = dir.toList ++ '/' :: filename.toList := by
      simp [String.toList, String.data_append]
    obtain ⟨n, hn⟩ := lastSlash_append dir.toList filename.toList
    have hbody : Total (uploadWithClient w client (dir ++ "/" ++ filename) content) := by
      unfold uploadWithClient
      rw [hpath, hn]
      repeat' first
        | with_reducible apply total_bind
        | with_reducible apply total_pure
        | with_reducible apply total_call
        | (intro a; show ComponentVersion.Total _)
        | dsimp only
        | split
    obtain ⟨a, s1, h1⟩ := hbody
      (w.createSSHClient target.IP 22 target.Username target.Password target.PrivateKey s).2
    rw [h1]
    exact ⟨_, _, rfl⟩

theorem total_uploadLoop {ω κ : Type} (w : Remote ω κ) (target : AlertTarget)
    (entries : List (String × String)) :
    ∀ (result : AlertDeploymentResult) (allUploaded : Bool),
      Total (uploadLoop w target entries result allUploaded) := by
  induction entries with
  | nil => intro result allUploaded; exact total_pure _
  | cons e rest ih =>
    intro result allUploaded
    obtain ⟨filename, content⟩ := e
    simp only [uploadLoop]
    apply total_bind _ _ (total_uploadConfigFile w target target.ConfigPath filename content)
    intro err
    cases err with
    | some e => exact ih _ _
    | none => exact ih _ _

theorem total_deployToSingleTarget {ω κ : Type} (w : Remote ω κ) (rules : List AlertRule)
    (target : AlertTarget) (notificationConfig : Option NotificationConfig)
    (h : StringValued notificationConfig) :
    Total (deployToSingleTarget w rules target notificationConfig) := by
  unfold deployToSingleTarget
  repeat' first
    | with_reducible apply total_bind
    | with_reducible apply total_pure
    | with_reducible apply total_call
    | with_reducible apply total_rangeMap
    | with_reducible apply total_uploadLoop
    | exact total_generateConfigsForTarget w rules target notificationConfig h
    | (intro a; show ComponentVersion.Total _)
    | dsimp only
    | split

theorem stringValued_none : StringValued none := by
  intro nc g h
  cases h

/-- For a request whose notification configuration, if any, has string values
only in `GlobalConfig`, the handler returns (no panic). -/
theorem DeployToMixedSystems_returns {ω κ : Type} (w : Remote ω κ)
    (bound : Except String MixedRequest)
    (h : ∀ request, bound = Except.ok request → StringValued request.NotificationConfig) :
    Total (DeployToMixedSystems w bound) := by
  cases bound with
  | error e => exact total_pure _
  | ok request =>
    have hs := h request rfl
    have hp : ∀ targets, Total (deployPrometheusTargets w request targets) := by
      intro targets
      induction targets with
      | nil => exact total_pure _
      | cons t rest ih =>
        simp only [deployPrometheusTargets]
        exact total_bind _ _ (total_deployToSingleTarget w _ t _ hs)
          (fun _ => total_bind _ _ ih (fun _ => total_pure _))
    have hv : ∀ targets, Total (deployVmalertTargets w request targets) := by
      intro targets
      induction targets with
      | nil => exact total_pure _
      | cons t rest ih =>
        simp only [deployVmalertTargets]
        exact total_bind _ _ (total_deployToSingleTarget w _ t none stringValued_none)
          (fun _ => total_bind _ _ ih (fun _ => total_pure _))
    have ha : ∀ nc, request.NotificationConfig = some nc →
        ∀ targets, Total (deployAlertmanagerTargets w nc targets) := by
      intro nc hnc targets
      induction targets with
      | nil => exact total_pure _
      | cons t rest ih =>
        simp only [deployAlertmanagerTargets]
        exact total_bind _ _ (total_deployToSingleTarget w _ t (some nc) (hnc ▸ hs))
          (fun _ => total_bind _ _ ih (fun _ => total_pure _))
    simp only [DeployToMixedSystems]
    apply total_bind
    · split
      · exact hp _
      · exact total_pure _
    · intro pr
      apply total_bind
      · split
        · exact hv _
        · exact total_pure _
      · intro vr
        apply total_bind
        · cases hnc : request.NotificationConfig with
          | none => exact total_pure _
          | some nc =>
            simp only
            split
            · exact ha nc hnc _
            · exact total_pure _
        · intro ar
          exact total_pure _

/-! ## Alert deployment: the claim on the summary -/

/-- C20: in the summary of every response of `DeployToMixedSystems`, over the
results of the response (each built by `deployToSingleTarget`): `totalTargets`
is their number and equals `successfulDeployments + failedDeployments +
partialDeployments`; `successfulDeployments` is the number of results with
`Success = true`; `partialDeployments` is the number of results of which at
least one config file was uploaded and at least one was not; and
`failedDeployments` counts the remaining results. The handler returns such a
response whenever the notification configuration, if any, has only string
values in `GlobalConfig`. -/
theorem DeployToMixedSystems_summary {ω κ : Type} (w : Remote ω κ) (request : MixedRequest)
    (s : ω) :
    (∀ body s',
      DeployToMixedSystems w (Except.ok request) s = Outcome.done (Response.ok body) s' →
      body.summary.totalTargets = body.allResults.length ∧
      body.summary.totalTargets = body.summary.successfulDeployments +
        body.summary.failedDeployments + body.summary.partialDeployments ∧
      body.summary.successfulDeployments = body.allResults.countP (fun r => r.Success) ∧
      body.summary.partialDeployments = body.allResults.countP partlyUploaded ∧
      body.summary.failedDeployments
        = body.allResults.countP (fun r => !r.Success && !partlyUploaded r)) ∧
    (StringValued request.NotificationConfig →
      ∃ body s',
        DeployToMixedSystems w (Except.ok request) s = Outcome.done (Response.ok body) s') := by
  refine ⟨fun body s' h => DeployToMixedSystems_counts w request s s' body h, fun hs => ?_⟩
  obtain ⟨r, s', hr⟩ := DeployToMixedSystems_returns w (Except.ok request)
    (fun req hreq => by cases hreq; exact hs) s
  obtain ⟨body, rfl⟩ := DeployToMixedSystems_ok w request s s' r hr
  exact ⟨body, s', hr⟩

/-- Witness for C20: in the sample world the Prometheus target gets its rule
file but not `alertmanager.yml`, and the VMAlert target gets its rule file: one
partial and one successful deployment. -/
theorem DeployToMixedSystems_summary_witness :
    (DeployToMixedSystems sampleRemote (Except.ok sampleRequest) ()).value?.map
      (fun r => match r with
        | Response.ok body => some (body.summary, body.allResults.map partlyUploaded)
        | Response.badRequest _ => none)
      = some (some ({ totalTargets := 2, successfulDeployments := 1, failedDeployments := 0,
                      partialDeployments := 1 }, [true, false])) ∧
    ∃ body, DeployToMixedSystems sampleRemote (Except.ok sampleRequest) ()
        = Outcome.done (Response.ok body) () ∧
      body.summary.totalTargets = body.summary.successfulDeployments +
        body.summary.failedDeployments + body.summary.partialDeployments ∧
      body.summary.partialDeployments = body.allResults.countP partlyUploaded := by
  refine ⟨by decide!, ?_⟩
  obtain ⟨hall, hret⟩ := DeployToMixedSystems_summary sampleRemote sampleRequest ()
  obtain ⟨body, s', hrun⟩ := hret (by
    intro nc g hnc hg
    cases hnc
    cases hg)
  have h := hall body s' hrun
  exact ⟨body, hrun, h.2.1, h.2.2.2.1⟩

end AlertDeployment

namespace AlertRules

open ComponentVersion

/-! ## renderTemplate -/

theorem infix_iff_containsSub (sub s : List Char) : containsSub sub s = true ↔ sub <:+: s := by
  induction s with
  | nil => simp [containsSub, List.isEmpty_iff]
  | cons c cs ih =>
    rw [containsSub, Bool.or_eq_true, ih, List.isPrefixOf_iff_prefix, List.infix_cons_iff]

theorem placeholder_toList (key : String) :
    (placeholder key).toList = '\x7b' :: '\x7b' :: '.' :: (key.toList ++ ['\x7d', '\x7d']) := by
  simp [placeholder, String.toList]

/-- Two brace-free names followed by a closing brace: one text is a prefix of
the other only when the names are equal. -/
theorem prefix_name_eq : ∀ (k n x y : List Char), '\x7d' ∉ k → '\x7d' ∉ n →
    k ++ '\x7d' :: x <+: n ++ '\x7d' :: y → k = n := by
  intro k
  induction k with
  | nil =>
    intro n x y _ hn h
    cases n with
    | nil => rfl
    | cons d n' =>
      rw [List.nil_append, List.cons_append, List.cons_prefix_cons] at h
      exact absurd (h.1 ▸ List.mem_cons_self _ _) hn
  | cons c k' ih =>
    intro n x y hk hn h
    cases n with
    | nil =>
      rw [List.nil_append, List.cons_append, List.cons_prefix_cons] at h
      exact absurd (h.1 ▸ List.mem_cons_self _ _) hk
    | cons d n' =>
      rw [List.cons_append, List.cons_append, List.cons_prefix_cons] at h
      rw [h.1, ih n' x y (fun hm => hk (List.mem_cons_of_mem _ hm))
        (fun hm => hn (List.mem_cons_of_mem _ hm)) h.2]

/-- No occurrence of the placeholder of `k` starts inside the placeholder of a
different name `n` (both names brace-free). -/
theorem no_match_inside (k n : List Char) (hk : '\x7d' ∉ k) (hn1 : '\x7b' ∉ n)
    (hn2 : '\x7d' ∉ n) (hne : k ≠ n) (b : List Char) :
    ∀ q1 q2, q1 ++ q2 = '\x7b' :: '\x7b' :: '.' :: (n ++ ['\x7d', '\x7d']) → q2 ≠ [] →
      ¬ ('\x7b' :: '\x7b' :: '.' :: (k ++ ['\x7d', '\x7d'])) <+: q2 ++ b := by
  intro q1 q2 e hq2 hp
  cases q1 with
  | nil =>
    rw [List.nil_append] at e
    subst e
    simp only [List.cons_append, List.cons_prefix_cons, true_and, List.append_assoc] at hp
    exact hne (prefix_name_eq k n _ _ hk hn2 hp)
  | cons x q1 =>
    rw [List.cons_append, List.cons.injEq] at e
    cases q1 with
    | nil =>
      rw [List.nil_append] at e
      rw [e.2] at hp
      simp only [List.cons_append, List.cons_prefix_cons, true_and] at hp
      exact absurd hp.1 (by decide)
    | cons y q1 =>
      rw [List.cons_append, List.cons.injEq] at e
      cases q2 with
      | nil => exact hq2 rfl
      | cons z q2 =>
        rw [List.cons_append, List.cons_prefix_cons] at hp
        have hz : z ∈ '.' :: (n ++ ['\x7d', '\x7d']) := by
          rw [← e.2.2]
          exact List.mem_append_right _ (List.mem_cons_self _ _)
        rw [← hp.1] at hz
        simp only [List.mem_cons, List.mem_append, List.mem_singleton, List.mem_nil_iff,
          or_false] at hz
        rcases hz with h | h | h | h
        · exact absurd h (by decide)
        · exact hn1 h
        · exact absurd h (by decide)
        · exact absurd h (by decide)

/-- No occurrence of the placeholder of `k` that starts earlier runs into the
placeholder of `n`. -/
theorem no_overlap_left (k n : List Char) (hk : '\x7b' ∉ k) (b : List Char) :
    ∀ a u, a ≠ [] → u ≠ [] → a ++ u = '\x7b' :: '\x7b' :: '.' :: (k ++ ['\x7d', '\x7d']) →
      ¬ u <+: ('\x7b' :: '\x7b' :: '.' :: (n ++ ['\x7d', '\x7d'])) ++ b := by
  intro a u ha hu e hp
  cases u with
  | nil => exact hu rfl
  | cons z u =>
    rw [List.cons_append, List.cons_prefix_cons] at hp
    cases a with
    | nil => exact ha rfl
    | cons x a =>
      rw [List.cons_append, List.cons.injEq] at e
      cases a with
      | nil =>
        rw [List.nil_append, List.cons.injEq] at e
        cases u with
        | nil => exact absurd e.2.2 (by simp)
        | cons z2 u =>
          rw [List.cons.injEq] at e
          rw [List.cons_append, List.cons_prefix_cons] at hp
          exact absurd (hp.2.1.symm.trans e.2.2.1) (by decide)
      | cons y a =>
        rw [List.cons_append, List.cons.injEq] at e
        have hz : z ∈ '.' :: (k ++ ['\x7d', '\x7d']) := by
          rw [← e.2.2]
          exact List.mem_append_right _ (List.mem_cons_self _ _)
        rw [hp.1] at hz
        simp only [List.mem_cons, List.mem_append, List.mem_singleton, List.mem_nil_iff,
          or_false] at hz
        rcases hz with h | h | h | h
        · exact absurd h (by decide)
        · exact hk h
        · exact absurd h (by decide)
        · exact absurd h (by decide)

/-- The scan copies a text in which no occurrence of `old` starts. -/
theorem replaceAllAux_copy (old new b : List Char) (hold : old ≠ []) :
    ∀ q2 q1 q, q1 ++ q2 = q →
      (∀ r1 r2, r1 ++ r2 = q → r2 ≠ [] → ¬ old <+: r2 ++ b) →
      replaceAllAux old new 0 (q2 ++ b) = q2 ++ replaceAllAux old new 0 b := by
  intro q2
  induction q2 with
  | nil => intro q1 q _ _; rfl
  | cons c q2 ih =>
    intro q1 q e hno
    have hnp : old.isPrefixOf (c :: (q2 ++ b)) = false := by
      rw [Bool.eq_false_iff]
      intro hp
      exact hno q1 (c :: q2) e (by simp) (List.isPrefixOf_iff_prefix.1 hp)
    have hemp : old.isEmpty = false := by
      cases old with
      | nil => exact absurd rfl hold
      | cons _ _ => rfl
    rw [List.cons_append, replaceAllAux, hemp, hnp]
    simp only [Bool.false_eq_true, if_false]
    rw [ih (q1 ++ [c]) q (by rw [← e]; simp) hno, List.cons_append]

/-- Replacing the occurrences of `old` keeps an occurrence of `q` when no
occurrence of `old` starts inside `q` and none that starts earlier runs into it. -/
theorem replaceAllAux_keeps (old new q b : List Char) (hold : old ≠ [])
    (hin : ∀ r1 r2, r1 ++ r2 = q → r2 ≠ [] → ¬ old <+: r2 ++ b)
    (hleft : ∀ a u, a ≠ [] → u ≠ [] → a ++ u = old → ¬ u <+: q ++ b) :
    ∀ A skip, skip ≤ A.length → q <:+: replaceAllAux old new skip (A ++ (q ++ b)) := by
  have hemp : old.isEmpty = false := by
    cases old with
    | nil => exact absurd rfl hold
    | cons _ _ => rfl
  intro A
  induction A with
  | nil =>
    intro skip hskip
    have h0 : skip = 0 := by simpa using hskip
    subst h0
    rw [List.nil_append, replaceAllAux_copy old new b hold q [] q rfl hin]
    exact ⟨[], replaceAllAux old new 0 b, by simp⟩
  | cons c A ih =>
    intro skip hskip
    cases skip with
    | succ s =>
      rw [List.cons_append, replaceAllAux]
      exact ih s (by simpa using hskip)
    | zero =>
      rw [List.cons_append, replaceAllAux, hemp]
      simp only [Bool.false_eq_true, if_false]
      split
      · rename_i hp
        have hp' : old <+: (c :: A) ++ (q ++ b) := List.isPrefixOf_iff_prefix.1 hp
        have hle : old.length ≤ (c :: A).length := by
          rcases List.prefix_or_prefix_of_prefix hp' (List.prefix_append (c :: A) (q ++ b))
            with h | h
          · exact h.length_le
          · obtain ⟨u, hu⟩ := h
            by_cases hu0 : u = []
            · rw [hu0, List.append_nil] at hu
              rw [← hu]
            · exfalso
              rw [← hu, List.prefix_append_right_inj] at hp'
              exact hleft (c :: A) u (by simp) hu0 hu hp'
        obtain ⟨s, t, hst⟩ := ih (old.length - 1) (by simp at hle; omega)
        exact ⟨new ++ s, t, by rw [← hst]; simp⟩
      · obtain ⟨s, t, hst⟩ := ih 0 (Nat.zero_le _)
        exact ⟨c :: s, t, by rw [← hst]; simp⟩

/-- One replacement of `renderTemplate` keeps the placeholder of a name that is
not the key replaced. -/
theorem replaceAll_keeps_placeholder (s key value name : String) (hkey : BraceFree key)
    (hname : BraceFree name) (hne : key ≠ name)
    (h : (placeholder name).toList <:+: s.toList) :
    (placeholder name).toList <:+: (replaceAll s (placeholder key) value).toList := by
  obtain ⟨A, b, hs⟩ := h
  have hne' : key.toList ≠ name.toList := fun e => hne (String.ext e)
  rw [placeholder_toList] at hs ⊢
  show _ <:+: replaceAllAux (placeholder key).toList value.toList 0 s.toList
  rw [placeholder_toList, ← hs, List.append_assoc]
  exact replaceAllAux_keeps _ _ _ b (by simp)
    (no_match_inside key.toList name.toList hkey.2 hname.1 hname.2 hne' b)
    (no_overlap_left key.toList name.toList hkey.1 b) A 0 (Nat.zero_le _)

/-- The replacement loop keeps the placeholder of a name that is not a key. -/
theorem foldl_keeps_placeholder {α : Type} (sprint : α → String) (name : String)
    (hname : BraceFree name) :
    ∀ (entries : List (String × α)) (s : String),
      (∀ kv ∈ entries, kv.1 ≠ name ∧ BraceFree kv.1) →
      (placeholder name).toList <:+: s.toList →
      (placeholder name).toList <:+: (entries.foldl
        (fun result kv => replaceAll result (placeholder kv.1) (sprint kv.2)) s).toList := by
  intro entries
  induction entries with
  | nil => intro s _ h; exact h
  | cons kv rest ih =>
    intro s hk h
    rw [List.foldl_cons]
    exact ih _ (fun e he => hk e (List.mem_cons_of_mem _ he))
      (replaceAll_keeps_placeholder s kv.1 (sprint kv.2) name
        (hk kv (List.mem_cons_self _ _)).2 hname (hk kv (List.mem_cons_self _ _)).1 h)

/-- C21 (amended): for every template text and every non-empty variable map
whose keys contain no brace character, if the template contains a placeholder
`{{.name}}` whose name contains no brace character and is not a key of the map,
`renderTemplate` returns an error and no rendered text, in whatever order the
map is visited. -/
theorem renderTemplate_unresolved {α : Type} (sprint : α → String) (template : String)
    (entries : List (String × α)) (name : String) (hne : entries ≠ [])
    (hkeys : ∀ kv ∈ entries, kv.1 ≠ name ∧ BraceFree kv.1) (hname : BraceFree name)
    (hin : (placeholder name).toList <:+: template.toList) :
    renderTemplate sprint template (some entries) = ("", some "模板中存在未定义的变量") := by
  have hlen : ¬ entries.length = 0 := by
    cases entries with
    | nil => exact absurd rfl hne
    | cons _ _ => simp
  have hkeep := foldl_keeps_placeholder sprint name hname entries template hkeys hin
  have hcont : strContains (entries.foldl
      (fun result kv => replaceAll result (placeholder kv.1) (sprint kv.2)) template)
      "\x7b\x7b." = true := by
    unfold strContains
    rw [infix_iff_containsSub]
    refine List.IsInfix.trans ?_ hkeep
    rw [placeholder_toList]
    exact ⟨[], name.toList ++ ['\x7d', '\x7d'], by simp [String.toList]⟩
  simp only [renderTemplate, hlen, if_false, hcont, if_true]

/-- C21 (amended) for the template `up{{.op}}{{.limit}}` and the map with the
one key `limit`: the placeholder `op` is unresolved. -/
theorem renderTemplate_unresolved_witness :
    (placeholder "op").toList <:+: "up\x7b\x7b.op\x7d\x7d\x7b\x7b.limit\x7d\x7d".toList ∧
    renderTemplate id "up\x7b\x7b.op\x7d\x7d\x7b\x7b.limit\x7d\x7d" (some [("limit", "5")])
      = ("", some "模板中存在未定义的变量") :=
  ⟨⟨"up".toList, "\x7b\x7b.limit\x7d\x7d".toList, by decide⟩,
   renderTemplate_unresolved id _ [("limit", "5")] "op" (by simp)
    (by decide) (by decide) ⟨"up".toList, "\x7b\x7b.limit\x7d\x7d".toList, by decide⟩⟩

/-- C21 as stated fails. With the nil map and with the empty map the template
`up > {{.threshold}}` is returned unchanged and without error, although the
name `threshold` is not a key. With a key that contains braces a placeholder
can disappear inside a longer one: for the template `{{.a{{.b}}` and the map
with the one key `a{{.b` the text `x` is returned without error, although the
template contains the placeholder of `b`. -/
theorem renderTemplate_empty_map_counterexample :
    (placeholder "threshold").toList <:+: "up > \x7b\x7b.threshold\x7d\x7d".toList ∧
    renderTemplate id "up > \x7b\x7b.threshold\x7d\x7d" none
      = ("up > \x7b\x7b.threshold\x7d\x7d", none) ∧
    renderTemplate id "up > \x7b\x7b.threshold\x7d\x7d" (some [])
      = ("up > \x7b\x7b.threshold\x7d\x7d", none) ∧
    (placeholder "b").toList <:+: "\x7b\x7b.a\x7b\x7b.b\x7d\x7d".toList ∧
    renderTemplate id "\x7b\x7b.a\x7b\x7b.b\x7d\x7d" (some [("a\x7b\x7b.b", "x")]) = ("x", none) :=
  ⟨⟨"up > ".toList, [], by decide⟩, by decide, by decide,
   ⟨"\x7b\x7b.a".toList, [], by decide⟩, by decide⟩

end AlertRules

namespace PromQLValidator

open ComponentVersion

/-! ## checkParentheses -/

theorem isBracket_iff (c : Char) :
    isBracket c = true ↔
      (c = '(' ∨ c = '[' ∨ c = '\x7b') ∨ (c = ')' ∨ c = ']' ∨ c = '\x7d') := by
  simp only [isBracket, List.contains_eq_any_beq, List.any_eq_true, beq_iff_eq]
  constructor
  · rintro ⟨x, hx, rfl⟩
    simp only [String.toList, List.mem_cons, List.mem_singleton, List.mem_nil_iff,
      or_false] at hx
    rcases hx with h | h | h | h | h | h <;> subst h <;> simp
  · rintro ((h | h | h) | (h | h | h)) <;> subst h <;> exact ⟨_, by decide, rfl⟩

/-- One step of the loop on an opening bracket. -/
theorem checkParenthesesLoop_open (stack rest : List Char) (o : Char)
    (h : o = '(' ∨ o = '[' ∨ o = '\x7b') :
    checkParenthesesLoop stack (o :: rest) = checkParenthesesLoop (o :: stack) rest := by
  simp only [checkParenthesesLoop, if_pos h]

/-- One step of the loop on a character that is not a bracket. -/
theorem checkParenthesesLoop_other (stack rest : List Char) (c : Char)
    (h : isBracket c = false) :
    checkParenthesesLoop stack (c :: rest) = checkParenthesesLoop stack rest := by
  have hn : ¬ ((c = '(' ∨ c = '[' ∨ c = '\x7b') ∨ (c = ')' ∨ c = ']' ∨ c = '\x7d')) := by
    rw [← isBracket_iff, h]
    decide
  rw [not_or] at hn
  simp only [checkParenthesesLoop, if_neg hn.1, if_neg hn.2]

/-- The loop does not look at characters other than brackets. -/
theorem checkParenthesesLoop_filter (l : List Char) :
    ∀ stack, checkParenthesesLoop stack l = checkParenthesesLoop stack (l.filter isBracket) := by
  induction l with
  | nil => intro stack; rfl
  | cons c l ih =>
    intro stack
    cases hb : isBracket c with
    | false => rw [checkParenthesesLoop_other stack l c hb, List.filter_cons_of_neg (by simp [hb]), ih]
    | true =>
      rw [List.filter_cons_of_pos hb]
      rcases (isBracket_iff c).1 hb with h | h
      · rw [checkParenthesesLoop_open stack l c h, checkParenthesesLoop_open stack _ c h, ih]
      · have hno : ¬ (c = '(' ∨ c = '[' ∨ c = '\x7b') := by
          rcases h with h | h | h <;> subst h <;> decide
        simp only [checkParenthesesLoop, if_neg hno, if_pos h]
        cases stack with
        | nil => rfl
        | cons top below =>
          simp only []
          split
          · rfl
          · exact ih below

theorem pairs_of_mem {o c : Char} (h : (o, c) ∈ bracketPairs) :
    (o = '(' ∨ o = '[' ∨ o = '\x7b') ∧ (c = ')' ∨ c = ']' ∨ c = '\x7d') ∧ pairs c = o ∧
      ¬ (c = '(' ∨ c = '[' ∨ c = '\x7b') := by
  simp only [bracketPairs, List.mem_cons, List.mem_singleton, Prod.mk.injEq, List.mem_nil_iff,
    or_false] at h
  rcases h with ⟨rfl, rfl⟩ | ⟨rfl, rfl⟩ | ⟨rfl, rfl⟩ <;> decide

theorem mem_pairs_of_close {c : Char} (h : c = ')' ∨ c = ']' ∨ c = '\x7d') :
    (pairs c, c) ∈ bracketPairs := by
  rcases h with h | h | h <;> subst h <;> decide

/-- The loop passes over a well-nested sequence and comes back to the stack
it started with. -/
theorem checkParenthesesLoop_wellNested {w : List Char} (h : WellNested w) :
    ∀ stack rest, checkParenthesesLoop stack (w ++ rest) = checkParenthesesLoop stack rest := by
  induction h with
  | empty => intro stack rest; rfl
  | wrap o c w hoc _ ih =>
    intro stack rest
    obtain ⟨ho, hc, hp, hno⟩ := pairs_of_mem hoc
    have e : (o :: w ++ [c]) ++ rest = o :: (w ++ c :: rest) := by simp
    rw [e, checkParenthesesLoop_open stack _ o ho, ih (o :: stack) (c :: rest)]
    simp only [checkParenthesesLoop, if_neg hno, if_pos hc, hp, ne_eq, not_true_eq_false,
      if_false]
  | append u v _ _ ihu ihv =>
    intro stack rest
    rw [List.append_assoc, ihu, ihv]

/-- A matching pair of brackets put anywhere into a well-nested sequence
leaves it well nested. -/
theorem WellNested.insert_pair {o c : Char} (hoc : (o, c) ∈ bracketPairs) :
    ∀ w, WellNested w → ∀ a b, w = a ++ b → WellNested (a ++ o :: c :: b) := by
  have hpair : WellNested [o, c] := WellNested.wrap o c [] hoc WellNested.empty
  intro w h
  induction h with
  | empty =>
    intro a b e
    have ha : a = [] := (List.append_eq_nil.1 e.symm).1
    have hb : b = [] := (List.append_eq_nil.1 e.symm).2
    subst ha
    subst hb
    exact hpair
  | wrap o' c' w' hoc' hw' ih =>
    intro a b e
    cases a with
    | nil =>
      simp only [List.nil_append] at e ⊢
      rw [← e]
      exact WellNested.append [o, c] _ hpair (WellNested.wrap o' c' w' hoc' hw')
    | cons x a' =>
      simp only [List.cons_append, List.cons.injEq] at e
      obtain ⟨hx, e⟩ := e
      subst hx
      rcases List.eq_nil_or_concat b with hb | ⟨L, y, hb⟩
      · subst hb
        simp only [List.append_nil] at e
        have : (o' :: a') ++ [o, c] = (o' :: w' ++ [c']) ++ [o, c] := by rw [← e]; simp
        show WellNested ((o' :: a') ++ [o, c])
        rw [this]
        exact WellNested.append _ [o, c] (WellNested.wrap o' c' w' hoc' hw') hpair
      · subst hb
        rw [List.concat_eq_append, ← List.append_assoc] at e
        obtain ⟨e1, e2⟩ := List.append_inj' e rfl
        have hy : y = c' := by simpa using e2.symm
        subst hy
        have := WellNested.wrap o' y (a' ++ o :: c :: L) hoc' (ih a' L e1)
        simpa using this
  | append u v hu hv ihu ihv =>
    intro a b e
    rcases List.append_eq_append_iff.1 e with ⟨a', ha, hv'⟩ | ⟨c', hu', hb⟩
    · subst ha
      have := WellNested.append u _ hu (ihv a' b hv')
      simpa using this
    · subst hb
      have := WellNested.append _ v (ihu a c' hu') hv
      simpa using this

/-- A run of the loop over brackets that ends without error closes, in order,
the brackets that were open at its start. -/
theorem wellNested_of_checkParenthesesLoop (l : List Char) :
    ∀ stack, (∀ c ∈ l, isBracket c = true) → checkParenthesesLoop stack l = none →
      WellNested (stack.reverse ++ l) := by
  induction l with
  | nil =>
    intro stack _ h
    cases stack with
    | nil => exact WellNested.empty
    | cons top below => simp [checkParenthesesLoop] at h
  | cons c l ih =>
    intro stack hl h
    have hl' : ∀ d ∈ l, isBracket d = true := fun d hd => hl d (List.mem_cons_of_mem _ hd)
    rcases (isBracket_iff c).1 (hl c (List.mem_cons_self _ _)) with ho | hc
    · rw [checkParenthesesLoop_open stack l c ho] at h
      have := ih (c :: stack) hl' h
      simpa using this
    · have hno : ¬ (c = '(' ∨ c = '[' ∨ c = '\x7b') := by
        rcases hc with h' | h' | h' <;> subst h' <;> decide
      simp only [checkParenthesesLoop, if_neg hno, if_pos hc] at h
      cases stack with
      | nil => simp at h
      | cons top below =>
        simp only [] at h
        split at h
        · cases h
        · rename_i htop
          have htop' : top = pairs c := by simpa using htop
          have hw := ih below hl' h
          have := WellNested.insert_pair (mem_pairs_of_close hc) _ hw below.reverse l rfl
          rw [htop']
          simpa using this

/-- The error of `checkParentheses` is nil exactly for the well-nested bracket sequences. -/
theorem checkParentheses_none_iff (query : String) :
    checkParentheses query = none ↔ WellNested (brackets query) := by
  unfold checkParentheses brackets
  rw [checkParenthesesLoop_filter]
  constructor
  · intro h
    have := wellNested_of_checkParenthesesLoop _ [] (fun c hc => (List.mem_filter.1 hc).2) h
    simpa using this
  · intro h
    have := checkParenthesesLoop_wellNested h [] []
    rw [List.append_nil] at this
    rw [this]
    rfl

/-- C22: for every query, `checkParentheses` returns no error exactly when the
sequence of the bracket characters of the query is well nested; the other
characters are ignored: the result is that of the loop run on the bracket
characters alone. -/
theorem checkParentheses_wellNested (query : String) :
    (checkParentheses query = none ↔ WellNested (brackets query)) ∧
    checkParentheses query = checkParentheses (String.mk (brackets query)) := by
  refine ⟨checkParentheses_none_iff query, ?_⟩
  unfold checkParentheses brackets
  rw [checkParenthesesLoop_filter]
  rfl

/-! ## ValidatePromQLSyntax -/

theorem hasConsecutiveOps_cons (x : Char) (t : List Char) (h : hasConsecutiveOps t = true) :
    hasConsecutiveOps (x :: t) = true := by
  cases t with
  | nil => simp [hasConsecutiveOps] at h
  | cons y t' =>
    cases t' with
    | nil => simp [hasConsecutiveOps] at h
    | cons z r => simp [hasConsecutiveOps, h]

theorem isOpClass_of_operator {c : Char} (h : c ∈ operatorChars) : isOpClass c = true := by
  have h' : c ∈ ['+', '-', '*', '/', '%', '=', '<', '>'] := h
  simp only [List.mem_cons, List.mem_singleton, List.mem_nil_iff, or_false] at h'
  rcases h' with h | h | h | h | h | h | h | h <;> subst h <;> decide

/-- Three or more operator characters in a row are found by `consecutiveOps`. -/
theorem hasConsecutiveOps_of_run (run l : List Char) (hlen : 3 ≤ run.length)
    (hops : ∀ c ∈ run, c ∈ operatorChars) (hin : run <:+: l) : hasConsecutiveOps l = true := by
  obtain ⟨pre, post, rfl⟩ := hin
  match run, hlen, hops with
  | a :: b :: c :: r, _, hops =>
    have ha := isOpClass_of_operator (hops a (by simp))
    have hb := isOpClass_of_operator (hops b (by simp))
    have hc := isOpClass_of_operator (hops c (by simp))
    induction pre with
    | nil => simp [hasConsecutiveOps, ha, hb, hc]
    | cons x pre ih =>
      have e : (x :: pre) ++ (a :: b :: c :: r) ++ post = x :: (pre ++ (a :: b :: c :: r) ++ post) := by
        simp
      rw [e]
      exact hasConsecutiveOps_cons x _ ih

theorem isPrefixOf_singleton {c : Char} {l : List Char} (h : [c] <+: l) :
    [c].isPrefixOf l = true := List.isPrefixOf_iff_prefix.2 h

theorem isSuffixOf_singleton {c : Char} {l : List Char} (h : [c] <:+ l) :
    [c].isSuffixOf l = true := List.isSuffixOf_iff_suffix.2 h

/-- A nil result of `checkBasicSyntax` means that neither the test on the
first character nor the test on the end of the trimmed query fired. -/
theorem checkBasicSyntax_none (query : String) (h : checkBasicSyntax query = none) :
    ("+".toList.isPrefixOf (trimSpace query.toList) || "*".toList.isPrefixOf (trimSpace query.toList) ||
      "/".toList.isPrefixOf (trimSpace query.toList) ||
      "%".toList.isPrefixOf (trimSpace query.toList)) = false ∧
    ("+".toList.isSuffixOf (trimSpace query.toList) || "-".toList.isSuffixOf (trimSpace query.toList) ||
      "*".toList.isSuffixOf (trimSpace query.toList) || "/".toList.isSuffixOf (trimSpace query.toList) ||
      "%".toList.isSuffixOf (trimSpace query.toList) || "=".toList.isSuffixOf (trimSpace query.toList) ||
      "!=".toList.isSuffixOf (trimSpace query.toList) || "<".toList.isSuffixOf (trimSpace query.toList) ||
      ">".toList.isSuffixOf (trimSpace query.toList) || "<=".toList.isSuffixOf (trimSpace query.toList) ||
      ">=".toList.isSuffixOf (trimSpace query.toList)) = false := by
  unfold checkBasicSyntax at h
  split at h
  · cases h
  · simp only [] at h
    split at h
    · cases h
    · split at h
      · cases h
      · rename_i h1 h2
        exact ⟨Bool.eq_false_iff.2 h1, Bool.eq_false_iff.2 h2⟩

/-- A trimmed query that starts with `+ * / %` has an error from `checkBasicSyntax`. -/
theorem checkBasicSyntax_prefix (query : String) (c : Char) (hc : c ∈ "+*/%".toList)
    (h : [c] <+: trimSpace query.toList) : checkBasicSyntax query ≠ none := by
  intro hnone
  have hf := (checkBasicSyntax_none query hnone).1
  have hp := isPrefixOf_singleton h
  have hc' : c = '+' ∨ c = '*' ∨ c = '/' ∨ c = '%' := by
    have : c ∈ ['+', '*', '/', '%'] := hc
    simpa using this
  rcases hc' with rfl | rfl | rfl | rfl
  · have hp' : "+".toList.isPrefixOf (trimSpace query.toList) = true := hp
    rw [hp'] at hf
    simp at hf
  · have hp' : "*".toList.isPrefixOf (trimSpace query.toList) = true := hp
    rw [hp'] at hf
    simp at hf
  · have hp' : "/".toList.isPrefixOf (trimSpace query.toList) = true := hp
    rw [hp'] at hf
    simp at hf
  · have hp' : "%".toList.isPrefixOf (trimSpace query.toList) = true := hp
    rw [hp'] at hf
    simp at hf

/-- A trimmed query that ends with an operator character has an error from `checkBasicSyntax`. -/
theorem checkBasicSyntax_suffix (query : String) (c : Char) (hc : c ∈ operatorChars)
    (h : [c] <:+ trimSpace query.toList) : checkBasicSyntax query ≠ none := by
  intro hnone
  have hf := (checkBasicSyntax_none query hnone).2
  have hp := isSuffixOf_singleton h
  have hc' : c = '+' ∨ c = '-' ∨ c = '*' ∨ c = '/' ∨ c = '%' ∨ c = '=' ∨ c = '<' ∨ c = '>' := by
    have : c ∈ ['+', '-', '*', '/', '%', '=', '<', '>'] := hc
    simpa using this
  rcases hc' with rfl | rfl | rfl | rfl | rfl | rfl | rfl | rfl
  · have hp' : "+".toList.isSuffixOf (trimSpace query.toList) = true := hp
    rw [hp'] at hf
    simp at hf
  · have hp' : "-".toList.isSuffixOf (trimSpace query.toList) = true := hp
    rw [hp'] at hf
    simp at hf
  · have hp' : "*".toList.isSuffixOf (trimSpace query.toList) = true := hp
    rw [hp'] at hf
    simp at hf
  · have hp' : "/".toList.isSuffixOf (trimSpace query.toList) = true := hp
    rw [hp'] at hf
    simp at hf
  · have hp' : "%".toList.isSuffixOf (trimSpace query.toList) = true := hp
    rw [hp'] at hf
    simp at hf
  · have hp' : "=".toList.isSuffixOf (trimSpace query.toList) = true := hp
    rw [hp'] at hf
    simp at hf
  · have hp' : "<".toList.isSuffixOf (trimSpace query.toList) = true := hp
    rw [hp'] at hf
    simp at hf
  · have hp' : ">".toList.isSuffixOf (trimSpace query.toList) = true := hp
    rw [hp'] at hf
    simp at hf

/-- What a nil result of `ValidatePromQLSyntax` means for the single checks. -/
theorem ValidatePromQLSyntax_none (query : String) (h : ValidatePromQLSyntax query = none) :
    trimSpace query.toList ≠ [] ∧ checkBasicSyntax query = none ∧
    checkParentheses query = none ∧ checkFunctions query = none ∧
    checkOperators query = none := by
  unfold ValidatePromQLSyntax at h
  split at h
  · cases h
  · rename_i ht
    cases h1 : checkBasicSyntax query with
    | some e => rw [h1] at h; cases h
    | none =>
      cases h2 : checkParentheses query with
      | some e => rw [h1, h2] at h; cases h
      | none =>
        cases h3 : checkFunctions query with
        | some e => rw [h1, h2, h3] at h; cases h
        | none =>
          cases h4 : checkOperators query with
          | some e => rw [h1, h2, h3, h4] at h; cases h
          | none => exact ⟨ht, rfl, rfl, rfl, rfl⟩

/-- C23: `ValidatePromQLSyntax` returns an error if the query is empty or only
white space, if its trimmed form starts with one of `+ * / %`, if its trimmed
form ends with one of `+ - * / % = < >`, if its brackets are not well nested,
or if it contains three or more consecutive operator characters. -/
theorem ValidatePromQLSyntax_rejects (query : String)
    (h : trimSpace query.toList = [] ∨
      (∃ c ∈ "+*/%".toList, [c] <+: trimSpace query.toList) ∨
      (∃ c ∈ operatorChars, [c] <:+ trimSpace query.toList) ∨
      ¬ WellNested (brackets query) ∨
      (∃ run : List Char, 3 ≤ run.length ∧ (∀ c ∈ run, c ∈ operatorChars) ∧
        run <:+: query.toList)) :
    ∃ err, ValidatePromQLSyntax query = some err := by
  cases hv : ValidatePromQLSyntax query with
  | some err => exact ⟨err, rfl⟩
  | none =>
    exfalso
    obtain ⟨h1, h2, h3, _, h5⟩ := ValidatePromQLSyntax_none query hv
    rcases h with h | ⟨c, hc, hp⟩ | ⟨c, hc, hs⟩ | hw | ⟨run, hlen, hops, hin⟩
    · exact h1 h
    · exact checkBasicSyntax_prefix query c hc hp h2
    · exact checkBasicSyntax_suffix query c hc hs h2
    · exact hw ((checkParentheses_none_iff query).1 h3)
    · have hrun := hasConsecutiveOps_of_run run _ hlen hops hin
      unfold checkOperators at h5
      rw [if_pos hrun] at h5
      cases h5

/-- C23 at the query `rate(x[5m]) >`, which ends with an operator. -/
theorem ValidatePromQLSyntax_rejects_witness :
    [('>' : Char)] <:+ trimSpace "rate(x[5m]) >".toList ∧
    ∃ err, ValidatePromQLSyntax "rate(x[5m]) >" = some err :=
  ⟨by decide!, ValidatePromQLSyntax_rejects "rate(x[5m]) >"
    (Or.inr (Or.inr (Or.inl ⟨'>', by decide, by decide!⟩)))⟩

end PromQLValidator

namespace ConfigValidation

open ComponentVersion

/-! ## Valid and the error list -/

theorem yamlLine_validIff (i : Nat) (line : List Char) (r : ValidationResult)
    (h : ValidIffNoErrors r) : ValidIffNoErrors (yamlLine i line r) := by
  unfold ValidIffNoErrors at h ⊢
  simp only [yamlLine]
  split_ifs <;> simp_all

theorem validateYAMLLoop_validIff (lines : List (List Char)) :
    ∀ (i : Nat) (r : ValidationResult), ValidIffNoErrors r →
      ValidIffNoErrors (validateYAMLLoop i lines r) := by
  induction lines with
  | nil => intro i r h; exact h
  | cons line rest ih => intro i r h; exact ih (i + 1) _ (yamlLine_validIff i line r h)

theorem emptyResult_validIff : ValidIffNoErrors emptyResult := by
  simp [ValidIffNoErrors, emptyResult]

theorem validateYAMLSyntax_validIff (yaml : String) :
    ValidIffNoErrors (validateYAMLSyntax yaml) :=
  validateYAMLLoop_validIff _ 0 _ emptyResult_validIff

theorem tomlLine_validIff (i : Nat) (line : List Char) (r : ValidationResult)
    (h : ValidIffNoErrors r) : ValidIffNoErrors (tomlLine i line r) := by
  unfold ValidIffNoErrors at h ⊢
  simp only [tomlLine]
  split_ifs <;> simp_all

theorem validateTOMLLoop_validIff (lines : List (List Char)) :
    ∀ (i : Nat) (r : ValidationResult), ValidIffNoErrors r →
      ValidIffNoErrors (validateTOMLLoop i lines r) := by
  induction lines with
  | nil => intro i r h; exact h
  | cons line rest ih => intro i r h; exact ih (i + 1) _ (tomlLine_validIff i line r h)

theorem validateTOMLSyntax_validIff (toml : String) :
    ValidIffNoErrors (validateTOMLSyntax toml) :=
  validateTOMLLoop_validIff _ 0 _ emptyResult_validIff

theorem validatePromQL_validIff (expr : String) : ValidIffNoErrors (validatePromQL expr) := by
  unfold ValidIffNoErrors
  simp only [validatePromQL, emptyResult]
  split_ifs <;> simp_all

theorem scrapeIntervalLoop_fields (lines : List (List Char)) :
    ∀ r : ValidationResult, (scrapeIntervalLoop lines r).Valid = r.Valid ∧
      (scrapeIntervalLoop lines r).Errors = r.Errors := by
  induction lines with
  | nil => intro r; exact ⟨rfl, rfl⟩
  | cons line rest ih =>
    intro r
    rw [scrapeIntervalLoop]
    split
    · exact ih _
    · exact ih _

theorem validatePrometheusConfig_validIff (config : String) (strictMode : Bool) :
    ValidIffNoErrors (validatePrometheusConfig config strictMode) := by
  have hy := validateYAMLSyntax_validIff config
  unfold ValidIffNoErrors at hy ⊢
  simp only [validatePrometheusConfig, emptyResult]
  split_ifs <;> simp_all [scrapeIntervalLoop_fields]

theorem validateAlertmanagerConfig_validIff (config : String) :
    ValidIffNoErrors (validateAlertmanagerConfig config) := by
  have hy := validateYAMLSyntax_validIff config
  unfold ValidIffNoErrors at hy ⊢
  simp only [validateAlertmanagerConfig, emptyResult]
  split_ifs <;> simp_all

theorem validateSNMPExporterConfig_validIff (config : String) :
    ValidIffNoErrors (validateSNMPExporterConfig config) := by
  have hy := validateYAMLSyntax_validIff config
  unfold ValidIffNoErrors at hy ⊢
  simp only [validateSNMPExporterConfig, emptyResult]
  split_ifs <;> simp_all

theorem validateCategrafConfig_validIff (config : String) :
    ValidIffNoErrors (validateCategrafConfig config) := by
  have hy := validateTOMLSyntax_validIff config
  unfold ValidIffNoErrors at hy ⊢
  simp only [validateCategrafConfig, emptyResult]
  split_ifs <;> simp_all

/-- C26 (amended): for every configuration text in which the text
`scrape_configs:` does not occur, `validatePrometheusConfig`, in either strict
mode, returns a result with `Valid = false` and at least one error message. -/
theorem validatePrometheusConfig_missing_scrape_configs (config : String) (strictMode : Bool)
    (h : strContains config "scrape_configs:" = false) :
    (validatePrometheusConfig config strictMode).Valid = false ∧
    (validatePrometheusConfig config strictMode).Errors ≠ [] := by
  have hy := validateYAMLSyntax_validIff config
  have hs := scrapeIntervalLoop_fields
  unfold ValidIffNoErrors at hy
  simp only [validatePrometheusConfig, emptyResult]
  split_ifs <;> simp_all

/-- C26 (amended) at a configuration that has only a `global` section. -/
theorem validatePrometheusConfig_missing_scrape_configs_witness :
    strContains "global:\n  scrape_interval: 15s\n" "scrape_configs:" = false ∧
    (validatePrometheusConfig "global:\n  scrape_interval: 15s\n" true).Valid = false ∧
    (validatePrometheusConfig "global:\n  scrape_interval: 15s\n" true).Errors ≠ [] :=
  ⟨by decide!, validatePrometheusConfig_missing_scrape_configs _ true (by decide!)⟩

/-- C26 as stated fails: in the configuration below the section
`scrape_configs` is commented out, so the text contains no such section (no
line starts, after its indentation, with `scrape_configs`); the validator finds
the text `scrape_configs:` inside the comment and returns `Valid = true` with
no error, in either strict mode. -/
theorem validatePrometheusConfig_comment_counterexample :
    (∀ line ∈ splitOn '\n'
        "global:\n  scrape_interval: 15s\n# scrape_configs:\n#   - job_name: node\n".toList,
      ¬ "scrape_configs".toList <+: trimSpace line) ∧
    validatePrometheusConfig
        "global:\n  scrape_interval: 15s\n# scrape_configs:\n#   - job_name: node\n" false
      = { Valid := true, Errors := [], Warnings := [],
          Suggestions := ["建议配置 external_labels 用于多集群识别"] } ∧
    validatePrometheusConfig
        "global:\n  scrape_interval: 15s\n# scrape_configs:\n#   - job_name: node\n" true
      = { Valid := true, Errors := [], Warnings := [],
          Suggestions := ["建议配置 external_labels 用于多集群识别"] } := by
  decide!

/-- C29 fails on the code for `validateVMAlertConfig`. For the rule file whose
fifth line is `expr: sum(up`, checked with `validatePromQL = true`, the result
lists the error of the unbalanced expression and still has `Valid = true`: the
rule loop appends to `Errors` without clearing `Valid`. The seven other
validators return `Valid = true` exactly when `Errors` is empty, for every
input. -/
theorem validateVMAlertConfig_valid_with_errors :
    validateVMAlertConfig
        "groups:\n  - name: a\n    rules:\n      - alert: X\n        expr: sum(up" true
      = { Valid := true, Errors := ["第 \x05 行 PromQL 表达式错误: 括号不匹配"],
          Warnings := [], Suggestions := [] } ∧
    (∀ config strictMode, ValidIffNoErrors (validatePrometheusConfig config strictMode)) ∧
    (∀ config, ValidIffNoErrors (validateAlertmanagerConfig config)) ∧
    (∀ config, ValidIffNoErrors (validateSNMPExporterConfig config)) ∧
    (∀ config, ValidIffNoErrors (validateCategrafConfig config)) ∧
    (∀ expr, ValidIffNoErrors (validatePromQL expr)) ∧
    (∀ yaml, ValidIffNoErrors (validateYAMLSyntax yaml)) ∧
    (∀ toml, ValidIffNoErrors (validateTOMLSyntax toml)) :=
  ⟨by decide!, validatePrometheusConfig_validIff, validateAlertmanagerConfig_validIff,
    validateSNMPExporterConfig_validIff, validateCategrafConfig_validIff,
    validatePromQL_validIff, validateYAMLSyntax_validIff, validateTOMLSyntax_validIff⟩

end ConfigValidation
